import Mathlib

/-! Storage-file format probing and backing-chain resolution (virstoragefile.c)

A shallow embedding of the disk-image metadata probe of `src/util/virstoragefile.c`:
the format descriptor table, the per-format backing-store extractors, the format
prober, the metadata extractor and the recursive backing-chain resolver.

Conventions of the embedding

* a header buffer is a list of bytes; `buf_size` is the length of the list;
* C code that reads the buffer runs in `Run`: it either returns, or performs a read
  outside `[0, buf_size)` (undefined behaviour in C), which is kept as a distinguished
  outcome together with the offending index;
* `size_t`, `unsigned long` and `unsigned long long` are 64 bit wide, `unsigned int`
  is 32 bit wide; arithmetic that can wrap is written with an explicit modulus;
* heap allocation always succeeds.
-/

namespace VirStorageFile

/-! ## Bytes, buffers, outcomes -/

/-- One `char` of a header buffer, as an unsigned value. -/
abbrev Byte := Fin 256

/-- A header buffer (`const char *buf` with `buf_size = buf.length`). -/
abbrev Buf := List Byte

/-- A C string, without its terminating NUL byte. -/
abbrev CStr := List Byte

/-- The bytes of an ASCII string literal of the source. -/
def ascii (s : String) : List Byte :=
  s.toList.map (fun c => ⟨c.toNat % 256, Nat.mod_lt _ (by decide)⟩)

/-- Outcome of running a piece of the C code. -/
inductive Run (α : Type) where
  /-- the code returned normally -/
  | ret (a : α)
  /-- the code read `buf[idx]` with `idx` outside the supplied buffer -/
  | oobRead (idx : Nat)
  /-- the code wrote one element past a heap array it allocated itself -/
  | oobWrite (idx : Nat)
  /-- the bounded recursion of the embedding ran out of steps -/
  | fuel
deriving DecidableEq

/-- Sequencing of two pieces of code: the second runs only if the first returned. -/
def Run.bind {α β : Type} (x : Run α) (f : α → Run β) : Run β :=
  match x with
  | .ret a => f a
  | .oobRead i => .oobRead i
  | .oobWrite i => .oobWrite i
  | .fuel => .fuel

instance : Monad Run where
  pure := Run.ret
  bind := Run.bind

/-- The value `buf[i]` when `i` lies inside the buffer. -/
def readByte (buf : Buf) (i : Nat) : Run Nat :=
  match buf.get? i with
  | some b => .ret b.val
  | none => .oobRead i

/-- The bytes `buf[off .. off+n)` read by `memcpy`/`memcmp`: all of them must lie
inside the buffer (a copy of zero bytes reads nothing). -/
def readBytes (buf : Buf) (off n : Nat) : Run (List Byte) :=
  if n = 0 ∨ off + n ≤ buf.length then .ret ((buf.drop off).take n)
  else .oobRead (max off buf.length)

/-- The C string that starts at `buf + off`: the bytes up to the first NUL.  Without a
NUL inside the buffer the read runs off its end. -/
def readCStr (buf : Buf) (off : Nat) : Run CStr :=
  if (0 : Byte) ∈ buf.drop off then .ret ((buf.drop off).takeWhile (fun b => b ≠ 0))
  else .oobRead (max off buf.length)

/-- The bytes copied by `strndup(buf + off, n)`: up to the first NUL, at most `n`. -/
def readCStrN (buf : Buf) (off n : Nat) : Run CStr :=
  let s := ((buf.drop off).take n).takeWhile (fun b => b ≠ 0)
  if s.length = n ∨ off + s.length < buf.length then .ret s
  else .oobRead (max off buf.length)

/-- Modelled from the spec: `virReadBufInt32BE` of virendian.h, which is absent: the
32-bit big-endian integer stored in the four bytes at `buf + off`. -/
def virReadBufInt32BE (buf : Buf) (off : Nat) : Run Nat := do
  let b0 ← readByte buf off
  let b1 ← readByte buf (off + 1)
  let b2 ← readByte buf (off + 2)
  let b3 ← readByte buf (off + 3)
  pure (b0 * 2 ^ 24 + b1 * 2 ^ 16 + b2 * 2 ^ 8 + b3)

/-- Modelled from the spec: `virReadBufInt32LE` of virendian.h, which is absent: the
32-bit little-endian integer stored in the four bytes at `buf + off`. -/
def virReadBufInt32LE (buf : Buf) (off : Nat) : Run Nat := do
  let b0 ← readByte buf off
  let b1 ← readByte buf (off + 1)
  let b2 ← readByte buf (off + 2)
  let b3 ← readByte buf (off + 3)
  pure (b0 + b1 * 2 ^ 8 + b2 * 2 ^ 16 + b3 * 2 ^ 24)

/-- Modelled from the spec: `virReadBufInt64BE` of virendian.h, which is absent: the
64-bit big-endian integer stored in the eight bytes at `buf + off`. -/
def virReadBufInt64BE (buf : Buf) (off : Nat) : Run Nat := do
  let hi ← virReadBufInt32BE buf off
  let lo ← virReadBufInt32BE buf (off + 4)
  pure (hi * 2 ^ 32 + lo)

/-- Modelled from the spec: `virReadBufInt64LE` of virendian.h, which is absent: the
64-bit little-endian integer stored in the eight bytes at `buf + off`. -/
def virReadBufInt64LE (buf : Buf) (off : Nat) : Run Nat := do
  let lo ← virReadBufInt32LE buf off
  let hi ← virReadBufInt32LE buf (off + 4)
  pure (lo + hi * 2 ^ 32)

/-- Conversion of a 32-bit unsigned value to `int` (two's complement). -/
def toInt32 (v : Nat) : Int :=
  if v % 2 ^ 32 < 2 ^ 31 then (v % 2 ^ 32 : Nat) else (v % 2 ^ 32 : Nat) - 2 ^ 32

/-! ## Enumerations and constants -/

/-- Modelled from the spec: `enum virStorageFileFormat` of virstoragefile.h, which is
absent.  The order of the members is the order of the names in `VIR_ENUM_IMPL`; the two
pseudo-values lie below `NONE`. -/
abbrev VIR_STORAGE_FILE_AUTO_SAFE : Int := -2
abbrev VIR_STORAGE_FILE_AUTO : Int := -1
abbrev VIR_STORAGE_FILE_NONE : Int := 0
abbrev VIR_STORAGE_FILE_RAW : Int := 1
abbrev VIR_STORAGE_FILE_DIR : Int := 2
abbrev VIR_STORAGE_FILE_BOCHS : Int := 3
abbrev VIR_STORAGE_FILE_CLOOP : Int := 4
abbrev VIR_STORAGE_FILE_DMG : Int := 5
abbrev VIR_STORAGE_FILE_ISO : Int := 6
abbrev VIR_STORAGE_FILE_VPC : Int := 7
abbrev VIR_STORAGE_FILE_VDI : Int := 8
abbrev VIR_STORAGE_FILE_FAT : Int := 9
abbrev VIR_STORAGE_FILE_VHD : Int := 10
abbrev VIR_STORAGE_FILE_COW : Int := 11
abbrev VIR_STORAGE_FILE_QCOW : Int := 12
abbrev VIR_STORAGE_FILE_QCOW2 : Int := 13
abbrev VIR_STORAGE_FILE_QED : Int := 14
abbrev VIR_STORAGE_FILE_VMDK : Int := 15
abbrev VIR_STORAGE_FILE_LAST : Int := 16

/-- The names of `VIR_ENUM_IMPL(virStorageFileFormat, ...)`, in order. -/
def virStorageFileFormatNames : List CStr :=
  [ascii "none", ascii "raw", ascii "dir", ascii "bochs", ascii "cloop", ascii "dmg",
   ascii "iso", ascii "vpc", ascii "vdi", ascii "fat", ascii "vhd", ascii "cow",
   ascii "qcow", ascii "qcow2", ascii "qed", ascii "vmdk"]

/-- Modelled from the spec: `virStorageFileFormatTypeFromString`, generated by the
absent `VIR_ENUM_IMPL` macro: the index of the name equal to the string, or -1. -/
def virStorageFileFormatTypeFromString (s : CStr) : Int :=
  match virStorageFileFormatNames.indexOf? s with
  | some i => (i : Nat)
  | none => -1

/-- Modelled from the spec: `enum virStorageType` of virstoragefile.h, which is absent;
the order is the order of the names in `VIR_ENUM_IMPL(virStorage, ...)`. -/
abbrev VIR_STORAGE_TYPE_NONE : Int := 0
abbrev VIR_STORAGE_TYPE_FILE : Int := 1
abbrev VIR_STORAGE_TYPE_BLOCK : Int := 2
abbrev VIR_STORAGE_TYPE_DIR : Int := 3
abbrev VIR_STORAGE_TYPE_NETWORK : Int := 4
abbrev VIR_STORAGE_TYPE_VOLUME : Int := 5

/-- Modelled from the spec: the fixed maximum header size `VIR_STORAGE_MAX_HEADER` of
virstoragefile.h, which is absent (large enough for the ISO magic at 32769). -/
abbrev VIR_STORAGE_MAX_HEADER : Nat := 0x8200

abbrev LV_LITTLE_ENDIAN : Int := 1
abbrev LV_BIG_ENDIAN : Int := 2

abbrev BACKING_STORE_OK : Int := 0
abbrev BACKING_STORE_INVALID : Int := 1
abbrev BACKING_STORE_ERROR : Int := 2

abbrev QCOWX_HDR_VERSION : Nat := 4
abbrev QCOWX_HDR_BACKING_FILE_OFFSET : Nat := QCOWX_HDR_VERSION + 4
abbrev QCOWX_HDR_BACKING_FILE_SIZE : Nat := QCOWX_HDR_BACKING_FILE_OFFSET + 8
abbrev QCOWX_HDR_IMAGE_SIZE : Nat := QCOWX_HDR_BACKING_FILE_SIZE + 4 + 4
abbrev QCOW1_HDR_CRYPT : Nat := QCOWX_HDR_IMAGE_SIZE + 8 + 1 + 1
abbrev QCOW2_HDR_CRYPT : Nat := QCOWX_HDR_IMAGE_SIZE + 8
abbrev QCOW1_HDR_TOTAL_SIZE : Nat := QCOW1_HDR_CRYPT + 4 + 8
abbrev QCOW2_HDR_TOTAL_SIZE : Nat := QCOW2_HDR_CRYPT + 4 + 4 + 8 + 8 + 4 + 4 + 8
abbrev QCOW2_HDR_EXTENSION_END : Nat := 0
abbrev QCOW2_HDR_EXTENSION_BACKING_FORMAT : Nat := 0xE2792ACA
abbrev QCOW2v3_HDR_FEATURES_INCOMPATIBLE : Nat := QCOW2_HDR_TOTAL_SIZE
abbrev QCOW2v3_HDR_FEATURES_COMPATIBLE : Nat := QCOW2v3_HDR_FEATURES_INCOMPATIBLE + 8
abbrev QCOW2v3_HDR_FEATURES_AUTOCLEAR : Nat := QCOW2v3_HDR_FEATURES_COMPATIBLE + 8
abbrev QCOW2v3_HDR_SIZE : Nat := QCOW2_HDR_TOTAL_SIZE + 8 + 8 + 8 + 4
abbrev QED_HDR_FEATURES_OFFSET : Nat := 4 + 4 + 4 + 4
abbrev QED_HDR_IMAGE_SIZE : Nat := QED_HDR_FEATURES_OFFSET + 8 + 8 + 8 + 8
abbrev QED_HDR_BACKING_FILE_OFFSET : Nat := QED_HDR_IMAGE_SIZE + 8
abbrev QED_HDR_BACKING_FILE_SIZE : Nat := QED_HDR_BACKING_FILE_OFFSET + 4
abbrev QED_F_BACKING_FILE : Nat := 0x01
abbrev QED_F_BACKING_FORMAT_NO_PROBE : Nat := 0x04
abbrev COW_FILENAME_MAXLEN : Nat := 1024

/-- The bound of `size_t` and `unsigned long long` arithmetic. -/
abbrev SIZE_MOD : Nat := 2 ^ 64

/-- The bound of `unsigned int` arithmetic. -/
abbrev UINT_MOD : Nat := 2 ^ 32

/-- What a backing-store extractor leaves behind: its return code, `*res` (the heap
array it allocated, terminator included, or NULL) and `*format`. -/
structure BackingStore where
  ret : Int
  res : Option Buf
  format : Int
deriving DecidableEq

/-! ## Backing-store extractors -/

/-- The C string held in a heap array: its bytes up to the first NUL. -/
def cstrOf (a : Buf) : CStr := a.takeWhile (fun b => b ≠ 0)

/-- Source `cowGetBackingStore`.  The caller's `*format` is overwritten at once. -/
def cowGetBackingStore (_format : Int) (buf : Buf) : Run BackingStore :=
  let buf_size := buf.length
  let format := VIR_STORAGE_FILE_AUTO
  if buf_size < 4 + 4 + COW_FILENAME_MAXLEN then
    pure ⟨BACKING_STORE_INVALID, none, format⟩
  else do
    let b ← readByte buf (4 + 4)
    if b = 0 then
      pure ⟨BACKING_STORE_OK, none, VIR_STORAGE_FILE_NONE⟩
    else do
      let s ← readCStrN buf (4 + 4) COW_FILENAME_MAXLEN
      pure ⟨BACKING_STORE_OK, some (s ++ [0]), format⟩

/-- The loop of `qcow2GetBackingStoreFormat`, one iteration per unit of `fuel`; the
result is the return value and `*format`.  `offset` is a `size_t`. -/
def qcow2GetBackingStoreFormatLoop (buf : Buf) (extension_end : Nat) :
    Nat → Nat → Int → Run (Int × Int)
  | 0, _, _ => Run.fuel
  | fuel + 1, offset, format =>
    let buf_size := buf.length
    if offset < (buf_size + SIZE_MOD - 8) % SIZE_MOD ∧
        offset < (extension_end + SIZE_MOD - 8) % SIZE_MOD then do
      let magic ← virReadBufInt32BE buf offset
      let len ← virReadBufInt32BE buf (offset + 4)
      let offset := (offset + 8) % SIZE_MOD
      if (offset + len) % SIZE_MOD < offset then
        pure (0, format)
      else if (offset + len) % SIZE_MOD > buf_size then
        pure (0, format)
      else if magic = QCOW2_HDR_EXTENSION_END then
        pure (0, format)
      else if magic = QCOW2_HDR_EXTENSION_BACKING_FORMAT then do
        let b ← readByte buf ((offset + len) % SIZE_MOD)
        if b ≠ 0 then
          qcow2GetBackingStoreFormatLoop buf extension_end fuel
            ((offset + len) % SIZE_MOD) format
        else do
          let name ← readCStr buf offset
          let format := virStorageFileFormatTypeFromString name
          if format ≤ VIR_STORAGE_FILE_NONE then
            pure (-1, format)
          else
            qcow2GetBackingStoreFormatLoop buf extension_end fuel
              ((offset + len) % SIZE_MOD) format
      else
        qcow2GetBackingStoreFormatLoop buf extension_end fuel
          ((offset + len) % SIZE_MOD) format
    else
      pure (0, format)

/-- Source `qcow2GetBackingStoreFormat`.  Every iteration that does not leave the loop
has read eight bytes at `offset` and moves `offset` forward by at least eight, so
`buf_size` iterations are never used up. -/
def qcow2GetBackingStoreFormat (format : Int) (buf : Buf)
    (extension_start extension_end : Nat) : Run (Int × Int) :=
  qcow2GetBackingStoreFormatLoop buf extension_end (buf.length + 1) extension_start format

/-- Source `qcowXGetBackingStore`.  `format` is `none` for a NULL `format` pointer;
the result holds the return code, `*res` and `*format`. -/
def qcowXGetBackingStore (format : Option Int) (buf : Buf) (isQCow2 : Bool) :
    Run (Int × Option Buf × Option Int) :=
  let buf_size := buf.length
  let format := format.map (fun _ => VIR_STORAGE_FILE_AUTO)
  if buf_size < QCOWX_HDR_BACKING_FILE_OFFSET + 8 + 4 then
    pure (BACKING_STORE_INVALID, none, format)
  else do
    let offset ← virReadBufInt64BE buf QCOWX_HDR_BACKING_FILE_OFFSET
    if offset > buf_size then
      pure (BACKING_STORE_INVALID, none, format)
    else do
      let size ← virReadBufInt32BE buf QCOWX_HDR_BACKING_FILE_SIZE
      if size = 0 then
        pure (BACKING_STORE_OK, none, format.map (fun _ => VIR_STORAGE_FILE_NONE))
      else if (offset + size) % SIZE_MOD > buf_size ∨ (offset + size) % SIZE_MOD < offset then
        pure (BACKING_STORE_INVALID, none, format)
      else if (size + 1) % UINT_MOD = 0 then
        pure (BACKING_STORE_INVALID, none, format)
      else do
        let bytes ← readBytes buf offset size
        let res := bytes ++ [0]
        match isQCow2, format with
        | true, some fmt => do
          let version ← virReadBufInt32BE buf QCOWX_HDR_VERSION
          let start ←
            if toInt32 version = 2 then pure QCOW2_HDR_TOTAL_SIZE
            else virReadBufInt32BE buf QCOW2v3_HDR_SIZE
          let r ← qcow2GetBackingStoreFormat fmt buf start offset
          if r.1 < 0 then
            pure (BACKING_STORE_INVALID, some res, some r.2)
          else
            pure (BACKING_STORE_OK, some res, some r.2)
        | _, _ => pure (BACKING_STORE_OK, some res, format)

/-- Source `qcow1GetBackingStore`. -/
def qcow1GetBackingStore (_format : Int) (buf : Buf) : Run BackingStore := do
  let format := VIR_STORAGE_FILE_AUTO
  let r ← qcowXGetBackingStore none buf false
  if r.1 = 0 then do
    let b ← readByte buf 0
    if b = 0 then
      pure ⟨r.1, r.2.1, VIR_STORAGE_FILE_NONE⟩
    else
      pure ⟨r.1, r.2.1, format⟩
  else
    pure ⟨r.1, r.2.1, format⟩

/-- Source `qcow2GetBackingStore`. -/
def qcow2GetBackingStore (format : Int) (buf : Buf) : Run BackingStore := do
  let r ← qcowXGetBackingStore (some format) buf true
  pure ⟨r.1, r.2.1, r.2.2.getD format⟩

/-- C `strstr`: the tail of the string that starts at the first occurrence of
`needle`, if there is one. -/
def strstr : CStr → CStr → Option CStr
  | [], needle => if needle = [] then some [] else none
  | h :: t, needle =>
    if needle.isPrefixOf (h :: t) then some (h :: t) else strstr t needle

/-- C `strchr`: the number of bytes before the first occurrence of `c`, if any. -/
def strchr (s : CStr) (c : Byte) : Option Nat :=
  if c ∈ s then some (s.takeWhile (fun b => b ≠ c)).length else none

/-- The key literal of `vmdk4GetBackingStore`: `parentFileNameHint="`. -/
def vmdk4Key : CStr := ascii "parentFileNameHint=\""

/-- Source `vmdk4GetBackingStore`.  `desc` is a heap array of `VIR_STORAGE_MAX_HEADER`
bytes; the store `desc[len] = 0` falls outside it when `len` reaches that size. -/
def vmdk4GetBackingStore (_format : Int) (buf : Buf) : Run BackingStore :=
  let buf_size := buf.length
  let format := VIR_STORAGE_FILE_AUTO
  if buf_size ≤ 0x200 then
    pure ⟨BACKING_STORE_INVALID, none, format⟩
  else
    let len := if buf_size - 0x200 > VIR_STORAGE_MAX_HEADER then VIR_STORAGE_MAX_HEADER
               else buf_size - 0x200
    do
      let copied ← readBytes buf 0x200 len
      if len ≥ VIR_STORAGE_MAX_HEADER then
        Run.oobWrite len
      else
        let desc := cstrOf copied
        match strstr desc vmdk4Key with
        | none => pure ⟨BACKING_STORE_OK, none, VIR_STORAGE_FILE_NONE⟩
        | some found =>
          let start := found.drop vmdk4Key.length
          match strchr start 0x22 with
          | none => pure ⟨BACKING_STORE_INVALID, none, format⟩
          | some e =>
            if e = 0 then
              pure ⟨BACKING_STORE_OK, none, VIR_STORAGE_FILE_NONE⟩
            else
              pure ⟨BACKING_STORE_OK, some (start.take e ++ [0]), format⟩

/-- Source `qedGetBackingStore`.  `format` is the caller's `*format`, which two of the
return paths leave untouched. -/
def qedGetBackingStore (format : Int) (buf : Buf) : Run BackingStore :=
  let buf_size := buf.length
  if buf_size < QED_HDR_FEATURES_OFFSET + 8 then
    pure ⟨BACKING_STORE_INVALID, none, format⟩
  else do
    let flags ← virReadBufInt64LE buf QED_HDR_FEATURES_OFFSET
    if flags &&& QED_F_BACKING_FILE = 0 then
      pure ⟨BACKING_STORE_OK, none, VIR_STORAGE_FILE_NONE⟩
    else if buf_size < QED_HDR_BACKING_FILE_OFFSET + 8 then
      pure ⟨BACKING_STORE_INVALID, none, format⟩
    else do
      let offset ← virReadBufInt32LE buf QED_HDR_BACKING_FILE_OFFSET
      if offset > buf_size then
        pure ⟨BACKING_STORE_INVALID, none, format⟩
      else do
        let size ← virReadBufInt32LE buf QED_HDR_BACKING_FILE_SIZE
        if size = 0 then
          pure ⟨BACKING_STORE_OK, none, format⟩
        else if (offset + size) % SIZE_MOD > buf_size ∨ (offset + size) % SIZE_MOD < offset then
          pure ⟨BACKING_STORE_INVALID, none, format⟩
        else do
          let bytes ← readBytes buf offset size
          let res := bytes ++ [0]
          if flags &&& QED_F_BACKING_FORMAT_NO_PROBE ≠ 0 then
            pure ⟨BACKING_STORE_OK, some res, VIR_STORAGE_FILE_RAW⟩
          else
            pure ⟨BACKING_STORE_OK, some res, VIR_STORAGE_FILE_AUTO_SAFE⟩

/-! ## Feature extraction -/

abbrev VIR_STORAGE_FILE_FEATURE_LAZY_REFCOUNTS : Nat := 0
abbrev VIR_STORAGE_FILE_FEATURE_LAST : Nat := 1
abbrev QCOW2_COMPATIBLE_FEATURE_LAST : Nat := 1

/-- Source `qcow2CompatibleFeatureArray`: conversion to `virStorageFileFeature`. -/
def qcow2CompatibleFeatureArray : List Nat := [VIR_STORAGE_FILE_FEATURE_LAZY_REFCOUNTS]

/-- A `virBitmap`: the list of its bits. -/
abbrev Bitmap := List Bool

/-- The loop of `qcow2GetFeatures` over the compatible-feature bits `i, i+1, ...`. -/
def qcow2SetFeatureBits (bits : Nat) : List Nat → Nat → Bitmap → Bitmap
  | [], _, feat => feat
  | f :: rest, i, feat =>
    qcow2SetFeatureBits bits rest (i + 1)
      (if bits &&& (1 <<< i) ≠ 0 then feat.set f true else feat)

/-! ## The format descriptor table -/

/-- The functions a row of the table can point to with `getBackingStore`. -/
inductive GetBackingStoreFn where
  | cowGetBackingStore
  | qcow1GetBackingStore
  | qcow2GetBackingStore
  | qedGetBackingStore
  | vmdk4GetBackingStore
deriving DecidableEq

/-- The functions a row of the table can point to with `getFeatures`. -/
inductive GetFeaturesFn where
  | qcow2GetFeatures
deriving DecidableEq

/-- Source `struct FileTypeInfo`; a NULL pointer is `none`. -/
structure FileTypeInfo where
  magicOffset : Int
  magic : Option CStr
  extension : Option CStr
  endian : Int
  versionOffset : Int
  versionNumbers : List Int
  sizeOffset : Int
  sizeBytes : Int
  sizeMultiplier : Int
  qcowCryptOffset : Int
  getBackingStore : Option GetBackingStoreFn
  getFeatures : Option GetFeaturesFn
deriving DecidableEq

/-- The row shared by NONE, RAW, DIR, FAT and VHD. -/
def fileTypeInfoPlain : FileTypeInfo :=
  ⟨0, none, none, LV_LITTLE_ENDIAN, -1, [0, 0], 0, 0, 0, 0, none, none⟩

/-- Source `fileTypeInfo[]`, indexed by format. -/
def fileTypeInfoTable : List FileTypeInfo :=
  [ /- NONE  -/ fileTypeInfoPlain,
    /- RAW   -/ fileTypeInfoPlain,
    /- DIR   -/ fileTypeInfoPlain,
    /- BOCHS -/ ⟨0, none, none, LV_LITTLE_ENDIAN, 64, [0x20000, 0],
                 32+16+16+4+4+4+4+4, 8, 1, -1, none, none⟩,
    /- CLOOP -/ ⟨0, none, none, LV_LITTLE_ENDIAN, -1, [0, 0], -1, 0, 0, -1, none, none⟩,
    /- DMG   -/ ⟨0, none, some (ascii ".dmg"), 0, -1, [0, 0], -1, 0, 0, -1, none, none⟩,
    /- ISO   -/ ⟨32769, some (ascii "CD001"), some (ascii ".iso"), LV_LITTLE_ENDIAN,
                 -2, [0, 0], -1, 0, 0, -1, none, none⟩,
    /- VPC   -/ ⟨0, some (ascii "conectix"), none, LV_BIG_ENDIAN, 12, [0x10000, 0],
                 8 + 4 + 4 + 8 + 4 + 4 + 2 + 2 + 4, 8, 1, -1, none, none⟩,
    /- VDI   -/ ⟨64, some [0x7f, 0x10, 0xda, 0xbe], some (ascii ".vdi"), LV_LITTLE_ENDIAN,
                 68, [0x00010001, 0], 64 + 5 * 4 + 256 + 7 * 4, 8, 1, -1, none, none⟩,
    /- FAT   -/ fileTypeInfoPlain,
    /- VHD   -/ fileTypeInfoPlain,
    /- COW   -/ ⟨0, some (ascii "OOOM"), none, LV_BIG_ENDIAN, 4, [2, 0],
                 4+4+1024+4, 8, 1, -1, some .cowGetBackingStore, none⟩,
    /- QCOW  -/ ⟨0, some (ascii "QFI"), none, LV_BIG_ENDIAN, 4, [1, 0],
                 QCOWX_HDR_IMAGE_SIZE, 8, 1, QCOW1_HDR_CRYPT,
                 some .qcow1GetBackingStore, none⟩,
    /- QCOW2 -/ ⟨0, some (ascii "QFI"), none, LV_BIG_ENDIAN, 4, [2, 3],
                 QCOWX_HDR_IMAGE_SIZE, 8, 1, QCOW2_HDR_CRYPT,
                 some .qcow2GetBackingStore, some .qcow2GetFeatures⟩,
    /- QED   -/ ⟨0, some (ascii "QED"), none, LV_LITTLE_ENDIAN, -2, [0, 0],
                 QED_HDR_IMAGE_SIZE, 8, 1, -1, some .qedGetBackingStore, none⟩,
    /- VMDK  -/ ⟨0, some (ascii "KDMV"), none, LV_LITTLE_ENDIAN, 4, [1, 2],
                 4+4+4, 8, 512, -1, some .vmdk4GetBackingStore, none⟩ ]

/-- The row `fileTypeInfo[format]`. -/
def fileTypeInfo (format : Int) : FileTypeInfo :=
  fileTypeInfoTable.getD format.toNat fileTypeInfoPlain

/-- A call through the `getBackingStore` pointer of a row. -/
def callGetBackingStore : GetBackingStoreFn → Int → Buf → Run BackingStore
  | .cowGetBackingStore => cowGetBackingStore
  | .qcow1GetBackingStore => qcow1GetBackingStore
  | .qcow2GetBackingStore => qcow2GetBackingStore
  | .qedGetBackingStore => qedGetBackingStore
  | .vmdk4GetBackingStore => vmdk4GetBackingStore

/-- Source `qcow2GetFeatures`; the result is the return value and `*features`. -/
def qcow2GetFeatures (features : Option Bitmap) (format : Int) (buf : Buf) :
    Run (Int × Option Bitmap) := do
  let len := buf.length
  let version ← virReadBufInt32BE buf (fileTypeInfo format).versionOffset.toNat
  if toInt32 version = 2 then
    pure (0, features)
  else if len < QCOW2v3_HDR_SIZE then
    pure (-1, features)
  else do
    let feat : Bitmap := List.replicate VIR_STORAGE_FILE_FEATURE_LAST false
    let bits ← virReadBufInt64BE buf QCOW2v3_HDR_FEATURES_COMPATIBLE
    pure (0, some (qcow2SetFeatureBits bits qcow2CompatibleFeatureArray 0 feat))

/-- A call through the `getFeatures` pointer of a row. -/
def callGetFeatures : GetFeaturesFn → Option Bitmap → Int → Buf → Run (Int × Option Bitmap)
  | .qcow2GetFeatures => qcow2GetFeatures

/-! ## The format prober -/

/-- Modelled from the spec: `virFileHasSuffix` of virfile.c, which is absent: the
file-extension suffix match of `path` against `suffix`. -/
def virFileHasSuffix (str suffix : CStr) : Bool :=
  suffix.isSuffixOf str

/-- Source `virStorageFileMatchesMagic`. -/
def virStorageFileMatchesMagic (format : Int) (buf : Buf) : Run Bool :=
  let buflen := buf.length
  let magicOffset := (fileTypeInfo format).magicOffset
  match (fileTypeInfo format).magic with
  | none => pure false
  | some magic =>
    let mlen := magic.length
    if magicOffset + mlen > buflen then
      pure false
    else do
      let bytes ← readBytes buf magicOffset.toNat mlen
      if bytes ≠ magic then pure false else pure true

/-- Source `virStorageFileMatchesExtension`. -/
def virStorageFileMatchesExtension (format : Int) (path : CStr) : Bool :=
  match (fileTypeInfo format).extension with
  | none => false
  | some extension => if virFileHasSuffix path extension then true else false

/-- The loop of `virStorageFileMatchesVersion` over `versionNumbers[i]`: it stops at
the first zero entry. -/
def versionNumbersLoop (version : Int) : List Int → Bool
  | [] => false
  | v :: rest =>
    if v = 0 then false
    else if version = v then true
    else versionNumbersLoop version rest

/-- Source `virStorageFileMatchesVersion`. -/
def virStorageFileMatchesVersion (format : Int) (buf : Buf) : Run Bool :=
  let buflen := buf.length
  let info := fileTypeInfo format
  if info.versionOffset = -1 then
    pure false
  else if info.versionOffset = -2 then
    pure true
  else if info.versionOffset + 4 > buflen then
    pure false
  else do
    let raw ←
      if info.endian = LV_LITTLE_ENDIAN then virReadBufInt32LE buf info.versionOffset.toNat
      else virReadBufInt32BE buf info.versionOffset.toNat
    pure (versionNumbersLoop (toInt32 raw) info.versionNumbers)

/-- Source `virStorageIsFile`; `none` is the NULL pointer. -/
def virStorageIsFile (backing : Option CStr) : Bool :=
  match backing with
  | none => false
  | some backing =>
    match strchr backing 0x3a, strchr backing 0x2f with
    | some _, none => false
    | some colon, some slash => if colon < slash then false else true
    | none, _ => true

/-- The first loop of `virStorageFileProbeFormatFromBuf`, over the formats
`i, i+1, ..., i+n-1`: the first format whose magic and version both match.  A format
whose magic matches with a wrong version is only remembered for the warning. -/
def probeMagicLoop (buf : Buf) : Nat → Int → Run (Option Int)
  | 0, _ => pure none
  | n + 1, i => do
    let m ← virStorageFileMatchesMagic i buf
    if m then do
      let v ← virStorageFileMatchesVersion i buf
      if !v then probeMagicLoop buf n (i + 1)
      else pure (some i)
    else probeMagicLoop buf n (i + 1)

/-- The second loop of `virStorageFileProbeFormatFromBuf`, over the formats
`i, i+1, ..., i+n-1`: the first format whose extension matches. -/
def probeExtensionLoop (path : CStr) : Nat → Int → Option Int
  | 0, _ => none
  | n + 1, i =>
    if virStorageFileMatchesExtension i path then some i
    else probeExtensionLoop path n (i + 1)

/-- Source `virStorageFileProbeFormatFromBuf`. -/
def virStorageFileProbeFormatFromBuf (path : CStr) (buf : Buf) : Run Int := do
  let format := VIR_STORAGE_FILE_RAW
  let byMagic ← probeMagicLoop buf VIR_STORAGE_FILE_LAST.toNat 0
  match byMagic with
  | some i => pure i
  | none =>
    match probeExtensionLoop path VIR_STORAGE_FILE_LAST.toNat 0 with
    | some i => pure i
    | none => pure format

/-! ## Metadata records and the outside world -/

/-- The fields of `virStorageFileMetadata` other than the owning `backingMeta` link;
a NULL pointer is `none`, `encryption` tells whether the pointer is set. -/
structure MetaFields where
  path : Option CStr
  canonPath : Option CStr
  relDir : Option CStr
  type : Int
  format : Int
  capacity : Nat
  encryption : Bool
  features : Option Bitmap
  compat : Option CStr
  backingStoreRaw : Option CStr
  backingStore : Option CStr
deriving DecidableEq

/-- A `virStorageFileMetadataPtr`: NULL, or a record with its `backingMeta` link. -/
inductive virStorageFileMetadataPtr where
  | NULL
  | node (fields : MetaFields) (backingMeta : virStorageFileMetadataPtr)
deriving DecidableEq

/-- A record fresh from `VIR_ALLOC`: all fields zero. -/
def MetaFields.zero : MetaFields :=
  ⟨none, none, none, 0, 0, 0, false, none, none, none, none⟩

/-- What `fstat` says about the kind of an open file. -/
inductive FileKind where
  | dir
  | reg
  | blk
  | other
deriving DecidableEq

/-- An open file descriptor: the outcome of `fstat` (`none` on failure), of `lseek`
and of `virFileReadHeaderFD` (`none` on failure, else at most `VIR_STORAGE_MAX_HEADER`
bytes). -/
structure OpenFile where
  fstat : Option FileKind
  lseek : Bool
  header : Option Buf
deriving DecidableEq

/-- The collaborators outside this file: path canonicalisation, directory of a path,
the access check under the effective uid/gid and opening a file as uid/gid. -/
structure Env where
  canonicalize_file_name : CStr → Option CStr
  mdir_name : CStr → CStr
  virFileAccessibleAs : CStr → Bool
  virFileOpenAs : CStr → Int → Int → Option OpenFile

/-- The variable `combined` of `virFindBackingFile`: an absolute `path` as it is,
otherwise `start/path`.  A NULL `start` is printed by `virAsprintf` as "(null)". -/
def combinedPath (start : Option CStr) (path : CStr) : CStr :=
  match path with
  | 0x2f :: _ => path
  | _ => start.getD (ascii "(null)") ++ [0x2f] ++ path

/-- Source `virFindBackingFile`, called with a non-NULL `directory` pointer: the result
is the return value, `*directory` and `*canonical`. -/
def virFindBackingFile (env : Env) (start : Option CStr) (path : CStr)
    (canonical : Option CStr) : Int × Option CStr × Option CStr :=
  let combined := combinedPath start path
  let directory := some (env.mdir_name combined)
  if !env.virFileAccessibleAs combined then
    (-1, directory, canonical)
  else
    match env.canonicalize_file_name combined with
    | none => (-1, directory, none)
    | some c => (0, directory, some c)

/-- What `virStorageFileGetMetadataInternal` leaves behind: its return value, `*meta`,
the string stored through the `backingStore` pointer (`none` if nothing was stored),
`*backingFormat` and `*backingDirectory`. -/
structure InternalResult where
  ret : Int
  fields : MetaFields
  backingStore : Option CStr
  backingFormat : Int
  backingDirectory : Option CStr
deriving DecidableEq

/-- The tail of `virStorageFileGetMetadataInternal` from the `getFeatures` call on. -/
def internalFeatures (buf : Buf) (format : Int) (fields : MetaFields)
    (backingStore : Option CStr) (backingFormat : Int) (backingDirectory : Option CStr) :
    Run InternalResult :=
  let compat (fields : MetaFields) : Run InternalResult :=
    if format = VIR_STORAGE_FILE_QCOW2 ∧ fields.features.isSome then
      pure ⟨0, { fields with compat := some (ascii "1.1") }, backingStore, backingFormat,
            backingDirectory⟩
    else
      pure ⟨0, fields, backingStore, backingFormat, backingDirectory⟩
  match (fileTypeInfo format).getFeatures with
  | none => compat fields
  | some fn => do
    let r ← callGetFeatures fn fields.features format buf
    let fields := { fields with features := r.2 }
    if r.1 < 0 then
      pure ⟨-1, fields, backingStore, backingFormat, backingDirectory⟩
    else
      compat fields

/-- The tail of `virStorageFileGetMetadataInternal` from the `getBackingStore` call
on. -/
def internalBacking (env : Env) (directory : Option CStr) (buf : Buf) (format : Int)
    (fields : MetaFields) (backingFormat : Int) (backingDirectory : Option CStr) :
    Run InternalResult :=
  match (fileTypeInfo format).getBackingStore with
  | none => internalFeatures buf format fields none backingFormat backingDirectory
  | some fn => do
    let store ← callGetBackingStore fn backingFormat buf
    let backingFormat := store.format
    if store.ret = BACKING_STORE_INVALID then
      pure ⟨0, fields, none, backingFormat, backingDirectory⟩
    else if store.ret = BACKING_STORE_ERROR then
      pure ⟨-1, fields, none, backingFormat, backingDirectory⟩
    else
      match store.res with
      | some arr =>
        let backing := cstrOf arr
        if virStorageIsFile (some backing) then
          let fields := { fields with backingStoreRaw := some backing, backingStore := none }
          let found := virFindBackingFile env directory backing fields.backingStore
          let fields := { fields with backingStore := found.2.2 }
          if found.1 < 0 then
            internalFeatures buf format fields none VIR_STORAGE_FILE_NONE found.2.1
          else
            internalFeatures buf format fields none backingFormat found.2.1
        else
          let fields := { fields with backingStore := some backing }
          internalFeatures buf format fields (some backing) VIR_STORAGE_FILE_RAW
            backingDirectory
      | none =>
        let fields := { fields with backingStore := none }
        internalFeatures buf format fields none VIR_STORAGE_FILE_NONE backingDirectory

/-- The tail of `virStorageFileGetMetadataInternal` from the encryption-mode read on. -/
def internalCrypt (env : Env) (directory : Option CStr) (buf : Buf) (format : Int)
    (fields : MetaFields) (backingFormat : Int) (backingDirectory : Option CStr) :
    Run InternalResult :=
  if (fileTypeInfo format).qcowCryptOffset ≠ -1 then do
    let crypt_format ← virReadBufInt32BE buf (fileTypeInfo format).qcowCryptOffset.toNat
    let fields := if toInt32 crypt_format ≠ 0 then { fields with encryption := true } else fields
    internalBacking env directory buf format fields backingFormat backingDirectory
  else
    internalBacking env directory buf format fields backingFormat backingDirectory

/-- The largest `unsigned long long`. -/
abbrev ULLONG_MAX : Nat := 2 ^ 64 - 1

/-- Source `virStorageFileGetMetadataInternal`.  `fields` is `*meta` as the caller
passes it, `backingFormat` and `backingDirectory` are the contents of the two output
locations on entry. -/
def virStorageFileGetMetadataInternal (env : Env) (path canonPath : CStr)
    (directory : Option CStr) (buf : Buf) (format : Int) (fields : MetaFields)
    (backingFormat : Int) (backingDirectory : Option CStr) : Run InternalResult := do
  let len := buf.length
  let fields := { fields with path := some path, canonPath := some canonPath,
                              relDir := directory }
  let format ←
    if format = VIR_STORAGE_FILE_AUTO then virStorageFileProbeFormatFromBuf path buf
    else pure format
  if format ≤ VIR_STORAGE_FILE_NONE ∨ format ≥ VIR_STORAGE_FILE_LAST then
    pure ⟨-1, fields, none, backingFormat, backingDirectory⟩
  else
    let fields := { fields with format := format }
    let info := fileTypeInfo format
    if info.magic.isNone then
      pure ⟨0, fields, none, backingFormat, backingDirectory⟩
    else if info.sizeOffset ≠ -1 then
      if info.sizeOffset + 8 > len then
        pure ⟨0, fields, none, backingFormat, backingDirectory⟩
      else do
        let capacity ←
          if info.endian = LV_LITTLE_ENDIAN then virReadBufInt64LE buf info.sizeOffset.toNat
          else virReadBufInt64BE buf info.sizeOffset.toNat
        let fields := { fields with capacity := capacity }
        if capacity > ULLONG_MAX / info.sizeMultiplier.toNat then
          pure ⟨0, fields, none, backingFormat, backingDirectory⟩
        else
          let fields := { fields with capacity := capacity * info.sizeMultiplier.toNat }
          internalCrypt env directory buf format fields backingFormat backingDirectory
    else
      internalCrypt env directory buf format fields backingFormat backingDirectory

/-- What `virStorageFileGetMetadataFromFDInternal` leaves behind: its return value,
`*meta`, `*backingFormat` and `*backingDirectory`. -/
structure FromFDResult where
  ret : Int
  fields : MetaFields
  backingFormat : Int
  backingDirectory : Option CStr
deriving DecidableEq

/-- Source `virStorageFileGetMetadataFromFDInternal`, called with non-NULL output
pointers.  The `backingStore` pointer handed to the extractor is `&meta->backingStoreRaw`,
so a string stored through it lands in that field. -/
def virStorageFileGetMetadataFromFDInternal (env : Env) (path : CStr)
    (canonPath : CStr) (directory : Option CStr) (fd : OpenFile) (format : Int)
    (fields : MetaFields) (backingDirectory : Option CStr) : Run FromFDResult :=
  let backingFormat := VIR_STORAGE_FILE_NONE
  match fd.fstat with
  | none => pure ⟨-1, fields, backingFormat, backingDirectory⟩
  | some st_mode =>
    if st_mode = FileKind.dir then
      pure ⟨0, { fields with path := some path, type := VIR_STORAGE_TYPE_DIR,
                             format := VIR_STORAGE_FILE_DIR },
            backingFormat, backingDirectory⟩
    else if !fd.lseek then
      pure ⟨-1, fields, backingFormat, backingDirectory⟩
    else
      match fd.header with
      | none => pure ⟨-1, fields, backingFormat, backingDirectory⟩
      | some buf => do
        let r ← virStorageFileGetMetadataInternal env path canonPath directory buf
                  format fields backingFormat backingDirectory
        let fields :=
          match r.backingStore with
          | some b => { r.fields with backingStoreRaw := some b }
          | none => r.fields
        let fields :=
          if r.ret = 0 then
            if st_mode = FileKind.reg then { fields with type := VIR_STORAGE_TYPE_FILE }
            else if st_mode = FileKind.blk then { fields with type := VIR_STORAGE_TYPE_BLOCK }
            else fields
          else fields
        pure ⟨r.ret, fields, r.backingFormat, r.backingDirectory⟩

/-! ## The backing-chain resolver -/

/-- What `virStorageFileGetMetadataRecurse` leaves behind: its return value, the fields
of `*meta` and `meta->backingMeta`. -/
structure RecurseResult where
  ret : Int
  fields : MetaFields
  backingMeta : virStorageFileMetadataPtr
deriving DecidableEq

/-- Source `virStorageFileGetMetadataRecurse`, one level of recursion per unit of
`fuel`.  `cycle` is the hash table of canonical paths seen so far, `fields` is the
freshly allocated `*meta`.  On the network branch `backingFormat` stays
uninitialised; it is not used there because `meta->backingStore` is NULL. -/
def virStorageFileGetMetadataRecurse (env : Env) :
    Nat → Option CStr → CStr → Option CStr → Int → Int → Int → Bool → List CStr →
      MetaFields → Run RecurseResult
  | 0, _, _, _, _, _, _, _, _, _ => Run.fuel
  | fuel + 1, path, canonPath, directory, format, uid, gid, allow_probe, cycle, fields =>
    if canonPath ∈ cycle then
      pure ⟨-1, fields, .NULL⟩
    else
      let cycle := canonPath :: cycle
      let step : Run (Option FromFDResult) :=
        match path, virStorageIsFile path with
        | some p, true =>
          match env.virFileOpenAs canonPath uid gid with
          | none => pure none
          | some fd => do
            let r ← virStorageFileGetMetadataFromFDInternal env p canonPath directory fd
                      format fields none
            pure (some r)
        | _, _ =>
          pure (some ⟨0, { fields with path := path, canonPath := path,
                                       type := VIR_STORAGE_TYPE_NETWORK,
                                       format := VIR_STORAGE_FILE_RAW },
                      VIR_STORAGE_FILE_NONE, none⟩)
      do
        let r ← step
        match r with
        | none => pure ⟨-1, fields, .NULL⟩
        | some r =>
          match r.ret == 0, r.fields.backingStore with
          | true, some backingStore =>
            let backingFormat :=
              if r.backingFormat = VIR_STORAGE_FILE_AUTO ∧ !allow_probe then
                VIR_STORAGE_FILE_RAW
              else if r.backingFormat = VIR_STORAGE_FILE_AUTO_SAFE then
                VIR_STORAGE_FILE_AUTO
              else r.backingFormat
            do
              let b ← virStorageFileGetMetadataRecurse env fuel r.fields.backingStoreRaw
                        backingStore r.backingDirectory backingFormat uid gid allow_probe
                        cycle MetaFields.zero
              if b.ret < 0 then
                pure ⟨r.ret, { r.fields with backingStore := none }, .NULL⟩
              else
                pure ⟨r.ret, r.fields, .node b.fields b.backingMeta⟩
          | _, _ => pure ⟨r.ret, r.fields, .NULL⟩

/-- Source `virStorageFileGetMetadata`; the result is the returned pointer.  `fuel`
bounds the depth of the recursion of the embedding. -/
def virStorageFileGetMetadata (env : Env) (fuel : Nat) (path : CStr) (format : Int)
    (uid gid : Int) (allow_probe : Bool) : Run virStorageFileMetadataPtr :=
  let cycle : List CStr := []
  let resolved : Option (CStr × Option CStr) :=
    if virStorageIsFile (some path) then
      match env.canonicalize_file_name path with
      | none => none
      | some canonPath => some (canonPath, some (env.mdir_name path))
    else some (path, none)
  match resolved with
  | none => pure .NULL
  | some (canonPath, directory) =>
    let format :=
      if format ≤ VIR_STORAGE_FILE_NONE then
        (if allow_probe then VIR_STORAGE_FILE_AUTO else VIR_STORAGE_FILE_RAW)
      else format
    do
      let r ← virStorageFileGetMetadataRecurse env fuel (some path) canonPath directory
                format uid gid allow_probe cycle MetaFields.zero
      if r.ret < 0 then pure .NULL
      else pure (.node r.fields r.backingMeta)

/-! ## Chain utilities -/

/-- Source `virStorageFileChainGetBroken`: the return value and `*brokenFile`. -/
def virStorageFileChainGetBroken : virStorageFileMetadataPtr → Int × Option CStr
  | .NULL => (0, none)
  | .node fields backingMeta =>
    match fields.backingStoreRaw, fields.backingStore with
    | none, _ => (0, none)
    | some raw, none => (0, some raw)
    | some _, some _ => virStorageFileChainGetBroken backingMeta

/-- Modelled from the spec: `virFileRelLinkPointsTo` of virfile.c, which is absent: the
same-file detection of `name`, taken relative to `directory`, against `dest`.  The
result is positive when both are the same file, 0 when they are not and negative on
error. -/
abbrev LinkPointsTo := Option CStr → CStr → Option CStr → Int

/-- What `virStorageFileChainLookup` leaves behind: the returned canonical name, `*meta`
and `*parent`; NULL is `none`, respectively `.NULL`. -/
structure LookupResult where
  ret : Option CStr
  meta : virStorageFileMetadataPtr
  parent : Option CStr
deriving DecidableEq

/-- The loop of `virStorageFileChainLookup` together with the code behind it; `chain`,
`parentDir` and `*parent` are the loop variables.  `STREQ` on a NULL `chain->path`
reads through a null pointer. -/
def virStorageFileChainLookupLoop (virFileRelLinkPointsTo : LinkPointsTo)
    (name : Option CStr) (nameIsFile : Bool) :
    virStorageFileMetadataPtr → Option CStr → Option CStr → Run LookupResult
  | .NULL, _, _ => pure ⟨none, .NULL, none⟩
  | .node fields backingMeta, parentDir, parent =>
    match name with
    | none =>
      if backingMeta = .NULL then
        pure ⟨fields.canonPath, .node fields backingMeta, parent⟩
      else
        virStorageFileChainLookupLoop virFileRelLinkPointsTo name nameIsFile backingMeta
          fields.relDir fields.canonPath
    | some nm =>
      match fields.path with
      | none => Run.oobRead 0
      | some path =>
        if nm = path then
          pure ⟨fields.canonPath, .node fields backingMeta, parent⟩
        else if nameIsFile ∧ (fields.type = VIR_STORAGE_TYPE_FILE ∨
            fields.type = VIR_STORAGE_TYPE_BLOCK) then
          let result := virFileRelLinkPointsTo parentDir nm fields.canonPath
          if result < 0 then
            pure ⟨none, .NULL, none⟩
          else if result > 0 then
            pure ⟨fields.canonPath, .node fields backingMeta, parent⟩
          else
            virStorageFileChainLookupLoop virFileRelLinkPointsTo name nameIsFile backingMeta
              fields.relDir fields.canonPath
        else
          virStorageFileChainLookupLoop virFileRelLinkPointsTo name nameIsFile backingMeta
            fields.relDir fields.canonPath

/-- Source `virStorageFileChainLookup`, called with non-NULL `meta` and `parent`
pointers.  The first statement reads `chain->canonPath`, so a NULL `chain` is a read
through a null pointer. -/
def virStorageFileChainLookup (virFileRelLinkPointsTo : LinkPointsTo)
    (chain : virStorageFileMetadataPtr) (name : Option CStr) : Run LookupResult :=
  match chain with
  | .NULL => Run.oobRead 0
  | .node fields backingMeta =>
    virStorageFileChainLookupLoop virFileRelLinkPointsTo name (virStorageIsFile name)
      (.node fields backingMeta) (some (ascii ".")) none

/-! ## Vocabulary of the statements -/

/-- The `n` bytes of the buffer that start at offset `off`. -/
def field (buf : Buf) (off n : Nat) : List Byte := (buf.drop off).take n

/-- The unsigned integer a byte string encodes in big-endian order. -/
def beVal (bs : List Byte) : Nat := bs.foldl (fun acc b => acc * 256 + b.val) 0

/-- The unsigned integer a byte string encodes in little-endian order. -/
def leVal (bs : List Byte) : Nat := bs.foldr (fun b acc => b.val + 256 * acc) 0

/-- The buffer with the byte at index `k` replaced by `b`. -/
def setByte (buf : Buf) (k : Nat) (b : Byte) : Buf := buf.set k b

/-- The format a backing file is resolved with, as `virStorageFileGetMetadataRecurse`
derives it from the `backingFormat` its header extraction reported. -/
def assumedBackingFormat (allow_probe : Bool) (backingFormat : Int) : Int :=
  if backingFormat = VIR_STORAGE_FILE_AUTO ∧ !allow_probe then VIR_STORAGE_FILE_RAW
  else if backingFormat = VIR_STORAGE_FILE_AUTO_SAFE then VIR_STORAGE_FILE_AUTO
  else backingFormat

/-- The format `virStorageFileGetMetadata` passes on for the top-level file. -/
def topLevelFormat (allow_probe : Bool) (format : Int) : Int :=
  if format ≤ VIR_STORAGE_FILE_NONE then
    (if allow_probe then VIR_STORAGE_FILE_AUTO else VIR_STORAGE_FILE_RAW)
  else format

/-! ### The reference definition of the prober -/

/-- Reference: the format has magic bytes, the header is long enough to hold them at
the magic offset, and the header bytes there equal them. -/
def specMagicMatches (f : Int) (buf : Buf) : Bool :=
  match (fileTypeInfo f).magic with
  | none => false
  | some magic =>
    decide ((fileTypeInfo f).magicOffset.toNat + magic.length ≤ buf.length) &&
      (field buf (fileTypeInfo f).magicOffset.toNat magic.length == magic)

/-- Reference: the 32-bit integer of the declared endianness at the version offset. -/
def specVersionField (f : Int) (buf : Buf) : Nat :=
  if (fileTypeInfo f).endian = LV_LITTLE_ENDIAN then
    leVal (field buf (fileTypeInfo f).versionOffset.toNat 4)
  else
    beVal (field buf (fileTypeInfo f).versionOffset.toNat 4)

/-- Reference: version offset -2 always passes, -1 never passes, otherwise the header
is long enough and the version field equals one of the non-zero accepted versions. -/
def specVersionMatches (f : Int) (buf : Buf) : Bool :=
  if (fileTypeInfo f).versionOffset = -2 then true
  else if (fileTypeInfo f).versionOffset = -1 then false
  else
    decide ((fileTypeInfo f).versionOffset.toNat + 4 ≤ buf.length) &&
      (fileTypeInfo f).versionNumbers.any
        (fun v => decide (v ≠ 0) && decide ((specVersionField f buf : Int) = v))

/-- Reference: the format has an extension and it is a suffix of the path. -/
def specExtensionMatches (f : Int) (path : CStr) : Bool :=
  match (fileTypeInfo f).extension with
  | none => false
  | some extension => extension.isSuffixOf path

/-- The formats in table order. -/
def allFormats : List Int := (List.range 16).map (fun (n : Nat) => (n : Int))

/-- Reference: the result of the extension fallback: the lowest-indexed format whose
extension is a suffix of the path, otherwise RAW. -/
def specExtensionResult (path : CStr) : Int :=
  match allFormats.find? (fun f => specExtensionMatches f path) with
  | some f => f
  | none => VIR_STORAGE_FILE_RAW

/-- Reference definition of the prober: the lowest-indexed format that matches both
magic and version if there is one, otherwise the extension fallback. -/
def probeFormatSpec (path : CStr) (buf : Buf) : Int :=
  match allFormats.find? (fun f => specMagicMatches f buf && specVersionMatches f buf) with
  | some f => f
  | none => specExtensionResult path

/-! ## Concrete headers and file systems used in the examples -/

/-- A 40-byte QCOW2 header of version 3 whose one-byte backing path sits at offset 39. -/
def qcow2ShortV3Header : Buf :=
  ascii "QFI" ++ [0xfb] ++ [0, 0, 0, 3] ++ [0, 0, 0, 0, 0, 0, 0, 39] ++ [0, 0, 0, 1] ++
    List.replicate 20 0

/-- The first 32 bytes of a QCOW2 version-2 header without backing file: magic, version
and zero fields up to the end of the capacity field. -/
def qcow2Header32 : Buf :=
  ascii "QFI" ++ [0xfb] ++ [0, 0, 0, 2] ++ List.replicate 24 0

/-- A QCOW2 version-2 header without extensions whose backing path `name` follows
the 72-byte fixed header. -/
def qcow2HeaderNaming (name : CStr) : Buf :=
  ascii "QFI" ++ [0xfb] ++ [0, 0, 0, 2] ++ [0, 0, 0, 0, 0, 0, 0, 72] ++
    [0, 0, 0, Fin.ofNat name.length] ++ List.replicate 52 0 ++ name

/-- A file system with two regular files `/a` and `/b`: the header of `/a` names `/b`
as backing file and the header of `/b` names `/a`. -/
def cycleEnv : Env where
  canonicalize_file_name p := if p = ascii "/a" ∨ p = ascii "/b" then some p else none
  mdir_name _ := ascii "/"
  virFileAccessibleAs p := decide (p = ascii "/a" ∨ p = ascii "/b")
  virFileOpenAs p _ _ :=
    if p = ascii "/a" then some ⟨some .reg, true, some (qcow2HeaderNaming (ascii "/b"))⟩
    else if p = ascii "/b" then some ⟨some .reg, true, some (qcow2HeaderNaming (ascii "/a"))⟩
    else none

/-- A file system with one regular file `/a` whose header names `/b`, which does not
exist. -/
def brokenEnv : Env where
  canonicalize_file_name p := if p = ascii "/a" then some p else none
  mdir_name _ := ascii "/"
  virFileAccessibleAs p := decide (p = ascii "/a")
  virFileOpenAs p _ _ :=
    if p = ascii "/a" then some ⟨some .reg, true, some (qcow2HeaderNaming (ascii "/b"))⟩
    else none

/-- A 72-byte header with the QCOW2 magic and version 2 at offset 0 and, at offsets 64
and 68, the magic and the version of VDI. -/
def vdiInQcow2Header : Buf :=
  ascii "QFI" ++ [0xfb] ++ [0, 0, 0, 2] ++ List.replicate 56 0 ++
    [0x7f, 0x10, 0xda, 0xbe] ++ [0x01, 0x00, 0x01, 0x00]

/-- The first eight bytes of a COW header: magic and version 2. -/
def cowHeaderStart : Buf := ascii "OOOM" ++ [0, 0, 0, 2]

/-- The first eight bytes of a QCOW header: magic and version 1. -/
def qcow1HeaderStart : Buf := ascii "QFI" ++ [0xfb] ++ [0, 0, 0, 1]

/-- A 20-byte QCOW header whose backing path of length 1 would start at offset 20. -/
def qcowPathPastEndHeader : Buf :=
  ascii "QFI" ++ [0xfb] ++ [0, 0, 0, 1] ++ [0, 0, 0, 0, 0, 0, 0, 20] ++ [0, 0, 0, 1]

/-- A 20-byte QCOW header with backing offset 21 and backing length 0. -/
def qcowOffsetPastEndHeader : Buf :=
  ascii "QFI" ++ [0xfb] ++ [0, 0, 0, 1] ++ [0, 0, 0, 0, 0, 0, 0, 21] ++ [0, 0, 0, 0]

/-- The backing-format extension record announcing "raw": tag, length 3, payload, NUL. -/
def rawFormatExtension : List Byte :=
  [0xE2, 0x79, 0x2A, 0xCA] ++ [0, 0, 0, 3] ++ ascii "raw" ++ [0]

/-- A QCOW2 version-2 header with the "raw" backing-format extension at offset 72,
zero padding up to offset 88 and the backing path `/b` at offset 88. -/
def rawExtensionHeader : Buf :=
  ascii "QFI" ++ [0xfb] ++ [0, 0, 0, 2] ++ [0, 0, 0, 0, 0, 0, 0, 88] ++ [0, 0, 0, 2] ++
    List.replicate 52 0 ++ rawFormatExtension ++ [0, 0, 0, 0] ++ ascii "/b"

/-- A QCOW2 version-2 header with the "raw" backing-format extension (NUL included) at
offsets 72..83, an empty record with the unknown tag 1 read at offset 83, a second
backing-format record announcing "qcow2" at offset 91, and the backing path `/b` at
offset 105. -/
def twoExtensionsHeader : Buf :=
  ascii "QFI" ++ [0xfb] ++ [0, 0, 0, 2] ++ [0, 0, 0, 0, 0, 0, 0, 105] ++ [0, 0, 0, 2] ++
    List.replicate 52 0 ++ rawFormatExtension ++ [0, 0, 1] ++ [0, 0, 0, 0] ++
    [0xE2, 0x79, 0x2A, 0xCA] ++ [0, 0, 0, 5] ++ ascii "qcow2" ++ [0] ++ ascii "/b"

/-- The three shapes the backing fields of a header extraction can take: no backing
file; a local backing file `b`, kept as raw name and resolved through
`virFindBackingFile` (to NULL if that fails); a non-local backing string, passed to
the caller through the `backingStore` pointer and kept verbatim as `backingStore`. -/
def InternalShape (env : Env) (directory : Option CStr) (r : InternalResult) : Prop :=
  (r.fields.backingStoreRaw = none ∧ r.backingStore = none ∧ r.fields.backingStore = none) ∨
  (∃ b, virStorageIsFile (some b) = true ∧ r.fields.backingStoreRaw = some b ∧
    r.backingStore = none ∧
    r.fields.backingStore = (virFindBackingFile env directory b none).2.2) ∨
  (∃ b, virStorageIsFile (some b) = false ∧ r.fields.backingStoreRaw = none ∧
    r.backingStore = some b ∧ r.fields.backingStore = some b)

/-- The shapes of the backing fields of a link after
`virStorageFileGetMetadataFromFDInternal`: no backing file; a local backing file with
its raw name and its resolution (NULL if `virFindBackingFile` fails); a non-local
backing string kept verbatim in both fields. -/
def LinkShape (env : Env) (directory : Option CStr) (fields : MetaFields) : Prop :=
  (fields.backingStoreRaw = none ∧ fields.backingStore = none) ∨
  (∃ b, virStorageIsFile (some b) = true ∧ fields.backingStoreRaw = some b ∧
    fields.backingStore = (virFindBackingFile env directory b none).2.2) ∨
  (∃ b, virStorageIsFile (some b) = false ∧ fields.backingStoreRaw = some b ∧
    fields.backingStore = some b)

/-- What the header extraction of `/a` leaves behind in `cycleEnv`. -/
def cycleResultA : FromFDResult :=
  ⟨0, ⟨some (ascii "/a"), some (ascii "/a"), some (ascii "/"), VIR_STORAGE_TYPE_FILE,
        VIR_STORAGE_FILE_QCOW2, 0, false, none, none, some (ascii "/b"), some (ascii "/b")⟩,
    VIR_STORAGE_FILE_AUTO, some (ascii "/")⟩

/-- What the header extraction of `/b` leaves behind in `cycleEnv`. -/
def cycleResultB : FromFDResult :=
  ⟨0, ⟨some (ascii "/b"), some (ascii "/b"), some (ascii "/"), VIR_STORAGE_TYPE_FILE,
        VIR_STORAGE_FILE_QCOW2, 0, false, none, none, some (ascii "/a"), some (ascii "/a")⟩,
    VIR_STORAGE_FILE_AUTO, some (ascii "/")⟩

/-- The unsigned 64-bit integer of the declared endianness that the header holds at the
capacity offset of format `f`. -/
def specCapacityField (f : Int) (buf : Buf) : Nat :=
  if (fileTypeInfo f).endian = LV_LITTLE_ENDIAN then
    leVal (field buf (fileTypeInfo f).sizeOffset.toNat 8)
  else
    beVal (field buf (fileTypeInfo f).sizeOffset.toNat 8)

/-- A QCOW2 version-2 header whose backing-format extension at offset 72 announces the
unknown format name "foo" and whose backing path `/b` sits at offset 84. -/
def qcow2UnknownFormatHeader : Buf :=
  ascii "QFI" ++ [0xfb] ++ [0, 0, 0, 2] ++ [0, 0, 0, 0, 0, 0, 0, 84] ++ [0, 0, 0, 2] ++
    List.replicate 52 0 ++ [0xE2, 0x79, 0x2A, 0xCA] ++ [0, 0, 0, 3] ++ ascii "foo" ++ [0] ++
    ascii "/b"

/-- The first 20 bytes of a VMDK version-1 header whose capacity field (a count of
512-byte sectors, little-endian) holds the eight bytes `sectors`. -/
def vmdkHeaderSectors (sectors : List Byte) : Buf :=
  ascii "KDMV" ++ [1, 0, 0, 0] ++ [0, 0, 0, 0] ++ sectors

/-- What the header extraction leaves behind for the 20-byte VMDK header of two sectors
read as `/a`. -/
def vmdkTwoSectorsResult : InternalResult :=
  ⟨0, { MetaFields.zero with path := some (ascii "/a"), canonPath := some (ascii "/a"),
                             format := VIR_STORAGE_FILE_VMDK, capacity := 1024 },
    none, VIR_STORAGE_FILE_AUTO, none⟩

/-! ### Inputs for the resolver and extractor statements -/

/-- The record the resolver builds for a network string `s`: `path` and `canonPath`
are `s`, the type is NETWORK, the format RAW, everything else is zero. -/
def networkLink (s : CStr) : MetaFields :=
  { MetaFields.zero with path := some s, canonPath := some s,
                         type := VIR_STORAGE_TYPE_NETWORK, format := VIR_STORAGE_FILE_RAW }

/-- A file system whose only entry is the directory `/d`. -/
def dirEnv : Env where
  canonicalize_file_name p := if p = ascii "/d" then some p else none
  mdir_name _ := ascii "/"
  virFileAccessibleAs p := decide (p = ascii "/d")
  virFileOpenAs p _ _ := if p = ascii "/d" then some ⟨some .dir, false, none⟩ else none

/-- A QED header with the backing-file bit and the feature bits `extra` set, whose
backing file name `name` follows the 64-byte fixed part. -/
def qedHeaderNaming (extra : Byte) (name : CStr) : Buf :=
  ascii "QED" ++ [0] ++ List.replicate 12 0 ++ [1 + extra, 0, 0, 0, 0, 0, 0, 0] ++
    List.replicate 32 0 ++ [64, 0, 0, 0] ++ [Fin.ofNat name.length, 0, 0, 0] ++ name

/-- A file system with two regular files: `/a`, a QED image without the no-probe bit
that names `/b` as backing file, and `/b`, a QCOW2 image without backing file. -/
def qedProbeEnv : Env where
  canonicalize_file_name p := if p = ascii "/a" ∨ p = ascii "/b" then some p else none
  mdir_name _ := ascii "/"
  virFileAccessibleAs p := decide (p = ascii "/a" ∨ p = ascii "/b")
  virFileOpenAs p _ _ :=
    if p = ascii "/a" then some ⟨some .reg, true, some (qedHeaderNaming 0 (ascii "/b"))⟩
    else if p = ascii "/b" then some ⟨some .reg, true, some (qcow2HeaderNaming [])⟩
    else none

/-- A COW header of 1032 bytes (magic, version 2, file name field) whose file name
field holds `name`; the capacity field at offset 1036 is missing. -/
def cowHeaderNaming (name : CStr) : Buf :=
  ascii "OOOM" ++ [0, 0, 0, 2] ++ name ++ List.replicate (1024 - name.length) 0

/-- A buffer of 512 + `VIR_STORAGE_MAX_HEADER` zero bytes. -/
def vmdkLongBuffer : Buf := List.replicate (0x200 + VIR_STORAGE_MAX_HEADER) 0

/-- A VMDK header of 512 zero bytes followed by a descriptor that names `name`. -/
def vmdkHeaderNaming (name : CStr) : Buf :=
  List.replicate 0x200 0 ++ ascii "parentFileNameHint=\"" ++ name ++ ascii "\"\n"

/-! ### Vocabulary for the format check and the chain lookup -/

/-- The format the metadata extractor works with: the declared format, or the result
of the prober when the declared format is AUTO. -/
def resolvedFormat (path : CStr) (buf : Buf) (format : Int) : Int :=
  if format = VIR_STORAGE_FILE_AUTO then probeFormatSpec path buf else format

/-- Every result the computation returns satisfies `P`. -/
def Run.Sat {α : Type} (P : α → Prop) (x : Run α) : Prop := ∀ a, x = Run.ret a → P a

/-- The chain made of the given links, head first. -/
def mkChain : List MetaFields → virStorageFileMetadataPtr
  | [] => .NULL
  | f :: rest => .node f (mkChain rest)

/-- The links of a chain, head first. -/
def chainLinks : virStorageFileMetadataPtr → List MetaFields
  | .NULL => []
  | .node f bm => f :: chainLinks bm

/-- The outcome of the same-file detection of `virStorageFileChainLookup` on one link:
the result of `virFileRelLinkPointsTo` when the name is a local file and the link has
type FILE or BLOCK, and 0 (not the same file) when the detection is not applied. -/
def lookupTest (lp : LinkPointsTo) (name : CStr) (parentDir : Option CStr)
    (f : MetaFields) : Int :=
  if virStorageIsFile (some name) = true ∧
      (f.type = VIR_STORAGE_TYPE_FILE ∨ f.type = VIR_STORAGE_TYPE_BLOCK) then
    lp parentDir name f.canonPath
  else 0

/-- The walk passes over every link of `links`, starting with the directory
`parentDir`: each link has a path other than `name`, and the same-file detection says
"not the same file" (0). -/
def passedOver (lp : LinkPointsTo) (name : CStr) : Option CStr → List MetaFields → Bool
  | _, [] => true
  | d, f :: rest =>
    (match f.path with
      | some p => decide (p ≠ name)
      | none => false) &&
    decide (lookupTest lp name d f = 0) && passedOver lp name f.relDir rest

/-- No link of `links` matches `name`: each link has a path other than `name`, and the
same-file detection does not say "same file" (its result is 0 or negative). -/
def unmatched (lp : LinkPointsTo) (name : CStr) : Option CStr → List MetaFields → Bool
  | _, [] => true
  | d, f :: rest =>
    (match f.path with
      | some p => decide (p ≠ name)
      | none => false) &&
    decide (lookupTest lp name d f ≤ 0) && unmatched lp name f.relDir rest

/-- The directory relative names are resolved against after the walk has passed over
`links`: `relDir` of the last of them. -/
def dirAfter : Option CStr → List MetaFields → Option CStr
  | d, [] => d
  | _, f :: rest => dirAfter f.relDir rest

/-- The value of `*parent` after the walk has passed over `links`. -/
def parentAfter : Option CStr → List MetaFields → Option CStr
  | par, [] => par
  | _, f :: rest => parentAfter f.canonPath rest

/-- A link of type FILE for the local file `path`, with the given raw and resolved
backing name. -/
def fileLink (path : CStr) (backing : Option CStr) : MetaFields :=
  { MetaFields.zero with path := some path, canonPath := some path,
                         relDir := some (ascii "/"), type := VIR_STORAGE_TYPE_FILE,
                         format := VIR_STORAGE_FILE_QCOW2, backingStoreRaw := backing,
                         backingStore := backing }

/-- A same-file detection that finds no two names to be the same file and fails when
it has no starting directory. -/
def needsDirectory : LinkPointsTo := fun directory _ _ => if directory = none then -1 else 0

/-- The chain `/a` -> `/b` -> `c` in which the link of `/a` has no `relDir`. -/
def chainWithoutRelDir : virStorageFileMetadataPtr :=
  mkChain [{ fileLink (ascii "/a") (some (ascii "/b")) with relDir := none },
    fileLink (ascii "/b") (some (ascii "c")), fileLink (ascii "c") none]

/-! ### Vocabulary for the chains returned by the resolver -/

/-- The invariant of the data model on every link of a chain: `backingMeta` is
non-null exactly when `backingStore` is, and a non-null `backingStore` comes with a
non-null `backingStoreRaw`. -/
def chainInvariant : virStorageFileMetadataPtr → Prop
  | .NULL => True
  | .node f bm =>
    ((bm ≠ .NULL ↔ f.backingStore ≠ none) ∧
      (f.backingStore ≠ none → f.backingStoreRaw ≠ none)) ∧ chainInvariant bm

/-- The keys under which the links behind the head were resolved: the `backingStore`
of every link that has a `backingMeta`. -/
def chainKeys : virStorageFileMetadataPtr → List CStr
  | .NULL => []
  | .node f bm =>
    match bm with
    | .NULL => []
    | .node g bm' => f.backingStore.toList ++ chainKeys (.node g bm')

/-- The number of links of a chain. -/
def chainLength : virStorageFileMetadataPtr → Nat
  | .NULL => 0
  | .node _ bm => chainLength bm + 1

/-- The first broken link of a list of links: the raw backing name of the first link
whose `backingStoreRaw` is non-null while its `backingStore` is null. -/
def firstBroken (links : List MetaFields) : Option CStr :=
  (links.find? (fun f => f.backingStoreRaw.isSome && f.backingStore.isNone)).bind
    (fun f => f.backingStoreRaw)

/-- The files of `files`, each once, that are not in the visited set. -/
def unvisited (files cycle : List CStr) : List CStr :=
  files.dedup.filter (fun p => decide (p ∉ cycle))

/-- The key under which the resolver enters the head of a chain: the canonical name of
a local path, the string itself otherwise. -/
def startKey (env : Env) (path : CStr) : Option CStr :=
  if virStorageIsFile (some path) then env.canonicalize_file_name path else some path

instance chainInvariantDecidable :
    (c : virStorageFileMetadataPtr) → Decidable (chainInvariant c)
  | .NULL => isTrue trivial
  | .node f bm =>
    have := chainInvariantDecidable bm
    decidable_of_iff (((bm ≠ .NULL ↔ f.backingStore ≠ none) ∧
      (f.backingStore ≠ none → f.backingStoreRaw ≠ none)) ∧ chainInvariant bm) Iff.rfl

/-! ### Vocabulary for the tails of the metadata extractor -/

/-- The fields of a record the extractor has not filled in yet. -/
def Untouched (fields : MetaFields) : Prop :=
  fields.encryption = false ∧ fields.features = none ∧ fields.compat = none ∧
    fields.backingStoreRaw = none ∧ fields.backingStore = none

/-! ### Inputs for the encryption and feature statements -/

/-- A 72-byte QCOW2 version-2 header without backing file whose encryption-mode field
at offset 32 holds 1. -/
def qcow2EncryptedHeader : Buf :=
  ascii "QFI" ++ [0xfb] ++ [0, 0, 0, 2] ++ List.replicate 24 0 ++ [0, 0, 0, 1] ++
    List.replicate 36 0

/-- What the metadata extractor leaves behind for `qcow2EncryptedHeader` read as `/a`. -/
def qcow2EncryptedResult : InternalResult :=
  ⟨0, { MetaFields.zero with path := some (ascii "/a"), canonPath := some (ascii "/a"),
                             format := VIR_STORAGE_FILE_QCOW2, encryption := true },
    none, VIR_STORAGE_FILE_NONE, none⟩

/-- A 104-byte QCOW2 version-3 header with the lazy-refcounts bit set in the
compatible-features word at offset 80, whose backing-path offset 256 lies outside the
header (path length 1). -/
def qcow2V3InvalidOffsetHeader : Buf :=
  ascii "QFI" ++ [0xfb] ++ [0, 0, 0, 3] ++ [0, 0, 0, 0, 0, 0, 1, 0] ++ [0, 0, 0, 1] ++
    List.replicate 52 0 ++ List.replicate 8 0 ++ [0, 0, 0, 0, 0, 0, 0, 1] ++
    List.replicate 12 0 ++ [0, 0, 0, 104]

/-- A 104-byte QCOW2 version-3 header without backing file, with the lazy-refcounts bit
set in the compatible-features word at offset 80. -/
def qcow2V3LazyHeader : Buf :=
  ascii "QFI" ++ [0xfb] ++ [0, 0, 0, 3] ++ List.replicate 64 0 ++
    List.replicate 8 0 ++ [0, 0, 0, 0, 0, 0, 0, 1] ++ List.replicate 12 0 ++ [0, 0, 0, 104]

/-- What the metadata extractor leaves behind for `qcow2V3LazyHeader` read as `/a`. -/
def qcow2V3LazyResult : InternalResult :=
  ⟨0, { MetaFields.zero with path := some (ascii "/a"), canonPath := some (ascii "/a"),
                             format := VIR_STORAGE_FILE_QCOW2,
                             features := some [true], compat := some (ascii "1.1") },
    none, VIR_STORAGE_FILE_NONE, none⟩

/-! ### Inputs for the top-level statements -/

/-- A file system whose only entry is the regular file `/a`, which holds a QCOW2
header naming the backing file `/b`. -/
def qcow2OnlyEnv : Env where
  canonicalize_file_name p := if p = ascii "/a" then some p else none
  mdir_name _ := ascii "/"
  virFileAccessibleAs p := decide (p = ascii "/a")
  virFileOpenAs p _ _ :=
    if p = ascii "/a" then some ⟨some .reg, true, some (qcow2HeaderNaming (ascii "/b"))⟩
    else none

/-- A file system with the regular file `/a`, whose QCOW2 header names `/b`, and a file
`/b` that passes the access check but cannot be opened. -/
def unopenableEnv : Env where
  canonicalize_file_name p := if p = ascii "/a" ∨ p = ascii "/b" then some p else none
  mdir_name _ := ascii "/"
  virFileAccessibleAs p := decide (p = ascii "/a" ∨ p = ascii "/b")
  virFileOpenAs p _ _ :=
    if p = ascii "/a" then some ⟨some .reg, true, some (qcow2HeaderNaming (ascii "/b"))⟩
    else none

/-! ### Inputs for the extension-scan statements -/

/-- An 84-byte QCOW2 version-2 header whose one-byte backing path sits at offset 4,
inside the fixed header, and whose bytes 72..83 hold the "raw" backing-format
extension. -/
def qcow2PathInsideHeader : Buf :=
  ascii "QFI" ++ [0xfb] ++ [0, 0, 0, 2] ++ [0, 0, 0, 0, 0, 0, 0, 4] ++ [0, 0, 0, 1] ++
    List.replicate 52 0 ++ rawFormatExtension

/-- The record boundaries of an extension area that starts at `offset`: `offset`
itself, and the boundaries of the area behind the record at `offset`, whose 8-byte
header is followed by as many payload bytes as its length field says.  `n` bounds the
number of records passed. -/
def recordBoundary (buf : Buf) : Nat → Nat → Nat → Bool
  | 0, offset, k => offset == k
  | n + 1, offset, k =>
    offset == k ||
      (decide (offset < k) &&
        recordBoundary buf n (offset + 8 + beVal (field buf (offset + 4) 4)) k)

/-- A 121-byte QCOW2 header of the given version: backing path "b" at offset 120, a
zero-tag extension record at offsets 72..79, and the 40 bytes `rest` at offsets
80..119. -/
def zeroRecordHeader (version : Byte) (rest : List Byte) : Buf :=
  ascii "QFI" ++ [0xfb] ++ [0, 0, 0, version] ++ [0, 0, 0, 0, 0, 0, 0, 120] ++ [0, 0, 0, 1] ++
    List.replicate 52 0 ++ List.replicate 8 0 ++ rest ++ ascii "b"

/-- Bytes 80..119 of a version-3 header: the header-length field at offset 100 holds
72 and everything else is zero. -/
def restHeaderLength72 : List Byte :=
  List.replicate 20 0 ++ [0, 0, 0, 72] ++ List.replicate 16 0

/-- Bytes 80..119 of a version-3 header: the header-length field at offset 100 holds
104 and the "raw" backing-format record follows it at offset 104. -/
def restHeaderLength104 : List Byte :=
  List.replicate 20 0 ++ [0, 0, 0, 104] ++ rawFormatExtension ++ List.replicate 4 0

/-- Bytes 80..119 with the "raw" backing-format record at offset 80. -/
def restRawRecord : List Byte :=
  rawFormatExtension ++ List.replicate 28 0

/-- The return code and the hint of a backing-store extraction, without the path. -/
def codeAndHint (x : Run BackingStore) : Run (Int × Int) :=
  x >>= fun s => pure (s.ret, s.format)

/-! ### Vocabulary and inputs for the extension records -/

/-- The 32-bit big-endian tag of the extension record at offset `k`. -/
def recordTag (buf : Buf) (k : Nat) : Nat := beVal (field buf k 4)

/-- The offset behind the extension record at offset `k`: its 8-byte header is followed
by as many payload bytes as its 32-bit big-endian length field says. -/
def recordEnd (buf : Buf) (k : Nat) : Nat := k + 8 + beVal (field buf (k + 4) 4)

/-- The format name a backing-format record at offset `k` announces: the C string at
the start of its payload. -/
def recordName (buf : Buf) (k : Nat) : CStr := (buf.drop (k + 8)).takeWhile (fun b => b ≠ 0)

/-- A 98-byte QCOW2 version-2 header: a record with the unknown tag 1 and a 4-byte
payload at offset 72, the "raw" backing-format record at offset 84 and the backing path
`/b` at offset 96. -/
def unknownThenRawHeader : Buf :=
  ascii "QFI" ++ [0xfb] ++ [0, 0, 0, 2] ++ [0, 0, 0, 0, 0, 0, 0, 96] ++ [0, 0, 0, 2] ++
    List.replicate 52 0 ++ [0, 0, 0, 1] ++ [0, 0, 0, 4] ++ [1, 2, 3, 4] ++
    rawFormatExtension ++ ascii "/b"

/-- A 119-byte QCOW2 version-2 header: a record with the unknown tag 1 and a 4-byte
payload at offset 72, the "raw" backing-format record at offset 84, an empty record
with the unknown tag 1 read at offset 95, a second backing-format record announcing
"qcow2" at offset 103, and the backing path `/b` at offset 117. -/
def unknownRawThenQcow2Header : Buf :=
  ascii "QFI" ++ [0xfb] ++ [0, 0, 0, 2] ++ [0, 0, 0, 0, 0, 0, 0, 117] ++ [0, 0, 0, 2] ++
    List.replicate 52 0 ++ [0, 0, 0, 1] ++ [0, 0, 0, 4] ++ [1, 2, 3, 4] ++
    rawFormatExtension ++ [0, 0, 1] ++ [0, 0, 0, 0] ++
    [0xE2, 0x79, 0x2A, 0xCA] ++ [0, 0, 0, 5] ++ ascii "qcow2" ++ [0] ++ ascii "/b"

/-! ### Input for the backing-format hint -/

/-- A 101-byte QCOW2 version-2 header with the "raw" backing-format extension (NUL
included) at offsets 72..83, an empty record with the unknown tag 1 read at offset 83,
eight further bytes and the backing path `/b` at offset 99. -/
def rawThenUnknownHeader : Buf :=
  ascii "QFI" ++ [0xfb] ++ [0, 0, 0, 2] ++ [0, 0, 0, 0, 0, 0, 0, 99] ++ [0, 0, 0, 2] ++
    List.replicate 52 0 ++ rawFormatExtension ++ [0, 0, 1] ++ [0, 0, 0, 0] ++
    [0xE2, 0x79, 0x2A, 0xCA, 0, 0, 0, 5] ++ ascii "/b"

/-! ### Input for the broken backing file -/

@[simp] theorem Run.pure_eq {α : Type} (a : α) : (pure a : Run α) = Run.ret a := rfl

@[simp] theorem Run.ret_bind {α β : Type} (a : α) (f : α → Run β) :
    (Run.ret a >>= f) = f a := rfl

@[simp] theorem Run.oobRead_bind {α β : Type} (i : Nat) (f : α → Run β) :
    ((Run.oobRead i : Run α) >>= f) = Run.oobRead i := rfl

@[simp] theorem Run.oobWrite_bind {α β : Type} (i : Nat) (f : α → Run β) :
    ((Run.oobWrite i : Run α) >>= f) = Run.oobWrite i := rfl

@[simp] theorem Run.fuel_bind {α β : Type} (f : α → Run β) :
    ((Run.fuel : Run α) >>= f) = Run.fuel := rfl

theorem readByte_eq (buf : Buf) (i : Nat) (h : i < buf.length) :
    readByte buf i = Run.ret (buf.get ⟨i, h⟩).val := by
  simp [readByte, List.getElem?_eq_getElem h]

theorem field_succ (buf : Buf) (off n : Nat) (h : off < buf.length) :
    field buf off (n + 1) = buf.get ⟨off, h⟩ :: field buf (off + 1) n := by
  unfold field
  rw [List.drop_eq_getElem_cons h, List.take_succ_cons]
  rfl

@[simp] theorem field_zero (buf : Buf) (off : Nat) : field buf off 0 = [] := by
  simp [field]

theorem field_four (buf : Buf) (off : Nat) (h : off + 4 ≤ buf.length) :
    field buf off 4 = [buf.get ⟨off, by omega⟩, buf.get ⟨off + 1, by omega⟩,
      buf.get ⟨off + 2, by omega⟩, buf.get ⟨off + 3, by omega⟩] := by
  rw [field_succ buf off 3 (by omega), field_succ buf (off + 1) 2 (by omega),
    field_succ buf (off + 2) 1 (by omega), field_succ buf (off + 3) 0 (by omega)]
  simp

theorem beVal_four (a b c d : Byte) :
    beVal [a, b, c, d] = a.val * 2 ^ 24 + b.val * 2 ^ 16 + c.val * 2 ^ 8 + d.val := by
  show (((0 * 256 + a.val) * 256 + b.val) * 256 + c.val) * 256 + d.val = _
  omega

theorem leVal_four (a b c d : Byte) :
    leVal [a, b, c, d] = a.val + b.val * 2 ^ 8 + c.val * 2 ^ 16 + d.val * 2 ^ 24 := by
  show a.val + 256 * (b.val + 256 * (c.val + 256 * (d.val + 256 * 0))) = _
  omega

theorem virReadBufInt32BE_eq (buf : Buf) (off : Nat) (h : off + 4 ≤ buf.length) :
    virReadBufInt32BE buf off = Run.ret (beVal (field buf off 4)) := by
  rw [field_four buf off h, beVal_four]
  unfold virReadBufInt32BE
  rw [readByte_eq buf off (by omega), readByte_eq buf (off + 1) (by omega),
    readByte_eq buf (off + 2) (by omega), readByte_eq buf (off + 3) (by omega)]
  rfl

theorem virReadBufInt32LE_eq (buf : Buf) (off : Nat) (h : off + 4 ≤ buf.length) :
    virReadBufInt32LE buf off = Run.ret (leVal (field buf off 4)) := by
  rw [field_four buf off h, leVal_four]
  unfold virReadBufInt32LE
  rw [readByte_eq buf off (by omega), readByte_eq buf (off + 1) (by omega),
    readByte_eq buf (off + 2) (by omega), readByte_eq buf (off + 3) (by omega)]
  rfl

theorem field_append (buf : Buf) (off m n : Nat) :
    field buf off (m + n) = field buf off m ++ field buf (off + m) n := by
  unfold field
  rw [List.take_add, List.drop_drop]

theorem field_length (buf : Buf) (off n : Nat) (h : off + n ≤ buf.length) :
    (field buf off n).length = n := by
  simp [field]; omega

theorem beVal_append (xs ys : List Byte) :
    beVal (xs ++ ys) = beVal xs * 256 ^ ys.length + beVal ys := by
  induction ys using List.reverseRecOn with
  | nil => simp [beVal]
  | append_singleton ys y ih =>
    rw [← List.append_assoc]
    have h1 : ∀ zs : List Byte, beVal (zs ++ [y]) = beVal zs * 256 + y.val := by
      intro zs; simp [beVal, List.foldl_append]
    rw [h1, h1, ih, List.length_append, List.length_singleton, pow_succ]
    ring

theorem leVal_append (xs ys : List Byte) :
    leVal (xs ++ ys) = leVal xs + 256 ^ xs.length * leVal ys := by
  induction xs with
  | nil => simp [leVal]
  | cons x xs ih =>
    have h1 : ∀ zs : List Byte, leVal (x :: zs) = x.val + 256 * leVal zs := by
      intro zs; simp [leVal]
    rw [List.cons_append, h1, h1, ih, List.length_cons, pow_succ]
    ring

theorem virReadBufInt64BE_eq (buf : Buf) (off : Nat) (h : off + 8 ≤ buf.length) :
    virReadBufInt64BE buf off = Run.ret (beVal (field buf off 8)) := by
  unfold virReadBufInt64BE
  rw [virReadBufInt32BE_eq buf off (by omega), virReadBufInt32BE_eq buf (off + 4) (by omega)]
  rw [show (8 : Nat) = 4 + 4 from rfl, field_append, beVal_append,
    field_length buf (off + 4) 4 (by omega)]
  rfl

theorem virReadBufInt64LE_eq (buf : Buf) (off : Nat) (h : off + 8 ≤ buf.length) :
    virReadBufInt64LE buf off = Run.ret (leVal (field buf off 8)) := by
  unfold virReadBufInt64LE
  rw [virReadBufInt32LE_eq buf off (by omega), virReadBufInt32LE_eq buf (off + 4) (by omega)]
  rw [show (8 : Nat) = 4 + 4 from rfl, field_append, leVal_append,
    field_length buf off 4 (by omega)]
  show Run.ret _ = Run.ret _
  congr 1
  ring

theorem beVal_lt (bs : List Byte) : beVal bs < 256 ^ bs.length := by
  induction bs using List.reverseRecOn with
  | nil => simp [beVal]
  | append_singleton ys y ih =>
    have h1 : beVal (ys ++ [y]) = beVal ys * 256 + y.val := by
      simp [beVal, List.foldl_append]
    have := y.isLt
    rw [h1, List.length_append, List.length_singleton, pow_succ]
    generalize 256 ^ ys.length = P at *
    omega

theorem leVal_lt (bs : List Byte) : leVal bs < 256 ^ bs.length := by
  induction bs with
  | nil => simp [leVal]
  | cons x xs ih =>
    have h1 : leVal (x :: xs) = x.val + 256 * leVal xs := by simp [leVal]
    have := x.isLt
    rw [h1, List.length_cons, pow_succ]
    generalize 256 ^ xs.length = P at *
    omega


theorem readBytes_eq (buf : Buf) (off n : Nat) (h : off + n ≤ buf.length) :
    readBytes buf off n = Run.ret (field buf off n) := by
  simp [readBytes, field, h]

/-- Facts about the rows of the table that the prober relies on. -/
theorem fileTypeInfo_rows (f : Nat) (hf : f < 16) :
    0 ≤ (fileTypeInfo f).magicOffset ∧
    ((fileTypeInfo f).versionOffset = -1 ∨ (fileTypeInfo f).versionOffset = -2 ∨
      0 ≤ (fileTypeInfo f).versionOffset) ∧
    (∀ x : Int, 0 ≤ x → x < 2 ^ 31 →
      versionNumbersLoop x (fileTypeInfo f).versionNumbers =
        (fileTypeInfo f).versionNumbers.any (fun v => decide (v ≠ 0) && decide (x = v))) ∧
    (∀ v ∈ (fileTypeInfo f).versionNumbers, 0 ≤ v ∧ v < 2 ^ 31) := by
  interval_cases f <;>
    simp [fileTypeInfo, fileTypeInfoTable, fileTypeInfoPlain, versionNumbersLoop]

theorem toInt32_of_lt (v : Nat) (h : v < 2 ^ 32) :
    (toInt32 v = (v : Int) ∧ v < 2 ^ 31) ∨ (toInt32 v < 0 ∧ 2 ^ 31 ≤ v) := by
  unfold toInt32
  rw [Nat.mod_eq_of_lt h]
  by_cases h1 : v < 2 ^ 31
  · exact Or.inl ⟨by rw [if_pos h1], h1⟩
  · right
    rw [if_neg h1]
    constructor
    · have : (v : Int) < 2 ^ 32 := by exact_mod_cast h
      omega
    · omega

theorem matchesMagic_eq (f : Nat) (hf : f < 16) (buf : Buf) :
    virStorageFileMatchesMagic f buf = Run.ret (specMagicMatches f buf) := by
  obtain ⟨hmo, -⟩ := fileTypeInfo_rows f hf
  unfold virStorageFileMatchesMagic specMagicMatches
  cases hm : (fileTypeInfo f).magic with
  | none => rfl
  | some magic =>
    simp only []
    obtain ⟨mo, hmo'⟩ := Int.eq_ofNat_of_zero_le hmo
    rw [hmo']
    simp only [Int.toNat_ofNat]
    by_cases hlen : mo + magic.length ≤ buf.length
    · have h1 : ¬ ((mo : Int) + (magic.length : Int) > (buf.length : Int)) := by omega
      rw [if_neg h1, readBytes_eq buf mo magic.length hlen]
      by_cases hb : field buf mo magic.length = magic
      · simp [hb, hlen]
      · simp [hb, hlen]
    · have h1 : ((mo : Int) + (magic.length : Int) > (buf.length : Int)) := by omega
      rw [if_pos h1]
      simp [hlen]

theorem matchesVersion_eq (f : Nat) (hf : f < 16) (buf : Buf) :
    virStorageFileMatchesVersion f buf = Run.ret (specVersionMatches f buf) := by
  obtain ⟨-, hvo, hloop, hv⟩ := fileTypeInfo_rows f hf
  unfold virStorageFileMatchesVersion specVersionMatches
  simp only []
  by_cases h1 : (fileTypeInfo f).versionOffset = -1
  · simp [h1]
  by_cases h2 : (fileTypeInfo f).versionOffset = -2
  · simp [h2]
  rw [if_neg h1, if_neg h2, if_neg h2, if_neg h1]
  have h0 : 0 ≤ (fileTypeInfo f).versionOffset := by
    rcases hvo with h | h | h
    · exact absurd h h1
    · exact absurd h h2
    · exact h
  obtain ⟨vo, hvo'⟩ := Int.eq_ofNat_of_zero_le h0
  have hfield : specVersionField f buf < 2 ^ 32 := by
    unfold specVersionField
    split
    · have := leVal_lt (field buf (fileTypeInfo f).versionOffset.toNat 4)
      have hl : (field buf (fileTypeInfo f).versionOffset.toNat 4).length ≤ 4 := by
        simp [field]
      calc _ < 256 ^ _ := this
        _ ≤ 256 ^ 4 := Nat.pow_le_pow_right (by norm_num) hl
        _ = 2 ^ 32 := by norm_num
    · have := beVal_lt (field buf (fileTypeInfo f).versionOffset.toNat 4)
      have hl : (field buf (fileTypeInfo f).versionOffset.toNat 4).length ≤ 4 := by
        simp [field]
      calc _ < 256 ^ _ := this
        _ ≤ 256 ^ 4 := Nat.pow_le_pow_right (by norm_num) hl
        _ = 2 ^ 32 := by norm_num
  by_cases hlen : vo + 4 ≤ buf.length
  · have h3 : ¬ ((fileTypeInfo f).versionOffset + 4 > (buf.length : Int)) := by
      rw [hvo']; omega
    rw [if_neg h3]
    have hd : decide ((fileTypeInfo f).versionOffset.toNat + 4 ≤ buf.length) = true := by
      rw [hvo']; simpa using hlen
    have key : ∀ r : Run Nat, r = Run.ret (specVersionField f buf) →
        (r >>= fun y =>
          pure (versionNumbersLoop (toInt32 y) (fileTypeInfo f).versionNumbers)) =
        Run.ret (decide ((fileTypeInfo f).versionOffset.toNat + 4 ≤ buf.length) &&
          (fileTypeInfo f).versionNumbers.any
            (fun v => decide (v ≠ 0) && decide ((specVersionField f buf : Int) = v))) := by
      intro r hr
      subst hr
      simp only [Run.ret_bind, Run.pure_eq]
      congr 1
      rw [hd, Bool.true_and]
      rcases toInt32_of_lt _ hfield with ⟨he, hlt⟩ | ⟨hneg, hge⟩
      · rw [he]
        exact hloop _ (by omega) (by exact_mod_cast hlt)
      · -- a negative `int` equals no accepted version, and neither does the large value
        have e1 : versionNumbersLoop (toInt32 (specVersionField f buf))
            (fileTypeInfo f).versionNumbers = false := by
          generalize toInt32 (specVersionField f buf) = x at hneg
          generalize (fileTypeInfo f).versionNumbers = vs at hv
          induction vs with
          | nil => rfl
          | cons v vs ih =>
            have hv0 := hv v (List.mem_cons_self _ _)
            unfold versionNumbersLoop
            by_cases hz : v = 0
            · simp [hz]
            · rw [if_neg hz, if_neg (by omega)]
              exact ih (fun w hw => hv w (List.mem_cons_of_mem _ hw))
        have e2 : (fileTypeInfo f).versionNumbers.any
            (fun v => decide (v ≠ 0) && decide ((specVersionField f buf : Int) = v)) =
            false := by
          rw [List.any_eq_false]
          intro v hvmem
          have := hv v hvmem
          have hge' : (2 : Int) ^ 31 ≤ (specVersionField f buf : Int) := by exact_mod_cast hge
          simp only [Bool.and_eq_true, decide_eq_true_eq, not_and]
          intro _
          omega
        rw [e1, e2]
    split
    · rename_i he
      apply key
      unfold specVersionField
      rw [if_pos he, hvo']
      exact virReadBufInt32LE_eq buf vo hlen
    · rename_i he
      apply key
      unfold specVersionField
      rw [if_neg he, hvo']
      exact virReadBufInt32BE_eq buf vo hlen
  · have h3 : ((fileTypeInfo f).versionOffset + 4 > (buf.length : Int)) := by
      rw [hvo']; omega
    rw [if_pos h3]
    have hd : decide ((fileTypeInfo f).versionOffset.toNat + 4 ≤ buf.length) = false := by
      rw [hvo']; simpa using hlen
    rw [hd]
    rfl

theorem probeMagicLoop_eq (buf : Buf) (n i : Nat) (h : i + n ≤ 16) :
    probeMagicLoop buf n (i : Int) =
      Run.ret (((List.range' i n).map (fun (k : Nat) => (k : Int))).find?
        (fun f => specMagicMatches f buf && specVersionMatches f buf)) := by
  induction n generalizing i with
  | zero => rfl
  | succ n ih =>
    rw [List.range'_succ, List.map_cons, List.find?_cons]
    unfold probeMagicLoop
    rw [matchesMagic_eq i (by omega) buf]
    simp only [Run.ret_bind]
    have hnext := ih (i + 1) (by omega)
    rw [Nat.cast_succ] at hnext
    cases hm : specMagicMatches (i : Int) buf
    · simpa using hnext
    · rw [matchesVersion_eq i (by omega) buf]
      simp only [Run.ret_bind]
      cases hv : specVersionMatches (i : Int) buf
      · simpa using hnext
      · simp

theorem probeExtensionLoop_eq (path : CStr) (n i : Nat) :
    probeExtensionLoop path n (i : Int) =
      ((List.range' i n).map (fun (k : Nat) => (k : Int))).find?
        (fun f => specExtensionMatches f path) := by
  induction n generalizing i with
  | zero => rfl
  | succ n ih =>
    rw [List.range'_succ, List.map_cons, List.find?_cons]
    unfold probeExtensionLoop
    have hnext := ih (i + 1)
    rw [Nat.cast_succ] at hnext
    have he : virStorageFileMatchesExtension (i : Int) path = specExtensionMatches (i : Int) path := by
      unfold virStorageFileMatchesExtension specExtensionMatches virFileHasSuffix
      cases (fileTypeInfo (i : Int)).extension with
      | none => rfl
      | some e =>
        show (if e.isSuffixOf path = true then true else false) = e.isSuffixOf path
        cases e.isSuffixOf path <;> rfl
    rw [he]
    cases hm : specExtensionMatches (i : Int) path
    · simpa using hnext
    · simp

theorem probe_eq_spec (path : CStr) (buf : Buf) :
    virStorageFileProbeFormatFromBuf path buf = Run.ret (probeFormatSpec path buf) := by
  unfold virStorageFileProbeFormatFromBuf probeFormatSpec specExtensionResult allFormats
  have h1 := probeMagicLoop_eq buf 16 0 (by omega)
  have h2 := probeExtensionLoop_eq path 16 0
  rw [List.range_eq_range']
  simp only [Nat.cast_zero] at h1 h2
  have e16 : VIR_STORAGE_FILE_LAST.toNat = 16 := rfl
  rw [e16, h1, h2]
  simp only [Run.ret_bind]
  cases ((List.range' 0 16).map (fun (k : Nat) => (k : Int))).find?
      (fun f => specMagicMatches f buf && specVersionMatches f buf) with
  | some f => rfl
  | none =>
    simp only []
    cases ((List.range' 0 16).map (fun (k : Nat) => (k : Int))).find?
      (fun f => specExtensionMatches f path) <;> rfl

/-! ## Out-of-range reads (C3, C4) -/

/-- C3 (failing input): on a 40-byte QCOW2 header of version 3 with an in-range backing
path, `qcow2GetBackingStore` reads the header-size field at offset 100, outside the
buffer, instead of returning INVALID; the metadata extractor reaches that read with
the format declared as QCOW2 and with the format probed. -/
theorem qcow2GetBackingStore_reads_past_buffer (env : Env) (path canonPath : CStr)
    (directory : Option CStr) :
    qcow2ShortV3Header.length = 40 ∧
      qcow2GetBackingStore VIR_STORAGE_FILE_NONE qcow2ShortV3Header = Run.oobRead 100 ∧
      virStorageFileGetMetadataInternal env path canonPath directory qcow2ShortV3Header
        VIR_STORAGE_FILE_QCOW2 MetaFields.zero VIR_STORAGE_FILE_NONE none = Run.oobRead 100 ∧
      virStorageFileGetMetadataInternal env path canonPath directory qcow2ShortV3Header
        VIR_STORAGE_FILE_AUTO MetaFields.zero VIR_STORAGE_FILE_NONE none = Run.oobRead 100 :=
  ⟨by decide, by decide, rfl, rfl⟩

/-- C4 (failing input): on a 32-byte QCOW2 header the metadata extractor reads the
capacity field and then the encryption-mode field at offset 32, outside the buffer,
instead of skipping it, with the format declared as QCOW2 and with the format
probed. -/
theorem getMetadataInternal_crypt_read_past_buffer (env : Env) (path canonPath : CStr)
    (directory : Option CStr) :
    qcow2Header32.length = 32 ∧
      virStorageFileGetMetadataInternal env path canonPath directory qcow2Header32
        VIR_STORAGE_FILE_QCOW2 MetaFields.zero VIR_STORAGE_FILE_NONE none = Run.oobRead 32 ∧
      virStorageFileGetMetadataInternal env path canonPath directory qcow2Header32
        VIR_STORAGE_FILE_AUTO MetaFields.zero VIR_STORAGE_FILE_NONE none = Run.oobRead 32 :=
  ⟨by decide, rfl, rfl⟩

/-! ## The format prober (C5, C6, C7) -/

/-- C5: the prober equals its reference definition for every path and header: the
lowest-indexed format matching both magic and version if there is one (whatever the
path), otherwise the lowest-indexed format whose extension is a suffix of the path,
otherwise RAW. -/
theorem probeFormat_eq_reference (path : CStr) (buf : Buf) :
    virStorageFileProbeFormatFromBuf path buf = Run.ret (probeFormatSpec path buf) :=
  probe_eq_spec path buf

/-- A helper on ascending lists: the first element satisfying `p` is found. -/
theorem find?_first_of_sorted (p : Int → Bool) (l : List Int)
    (hs : l.Pairwise (fun a b => a < b)) (f : Int) (hf : f ∈ l) (hp : p f = true)
    (hlt : ∀ g ∈ l, g < f → p g = false) : l.find? p = some f := by
  induction l with
  | nil => cases hf
  | cons a l ih =>
    rw [List.pairwise_cons] at hs
    rcases List.mem_cons.mp hf with rfl | hmem
    · rw [List.find?_cons, hp]
    · have ha : a < f := hs.1 f hmem
      rw [List.find?_cons, hlt a (List.mem_cons_self _ _) ha]
      exact ih hs.2 hmem (fun g hg hgf => hlt g (List.mem_cons_of_mem _ hg) hgf)

theorem allFormats_sorted : allFormats.Pairwise (fun a b => a < b) := by
  decide

/-- C6 (counterexample): a header carrying the magic and version 2 of QCOW2 at offset 0
and the magic and version of VDI at offsets 64 and 68 is probed as VDI, not QCOW2. -/
theorem probe_qcow2_header_with_vdi_magic :
    specMagicMatches VIR_STORAGE_FILE_QCOW2 vdiInQcow2Header = true ∧
      specVersionMatches VIR_STORAGE_FILE_QCOW2 vdiInQcow2Header = true ∧
      virStorageFileProbeFormatFromBuf [] vdiInQcow2Header = Run.ret VIR_STORAGE_FILE_VDI ∧
      virStorageFileProbeFormatFromBuf [] vdiInQcow2Header ≠
        Run.ret VIR_STORAGE_FILE_QCOW2 := by
  decide

/-- C6 (amended): for every format F with magic bytes, every path and every header
that matches the magic and an accepted version of F, the prober returns exactly F
provided no format earlier in table order also matches magic and version. -/
theorem probe_returns_first_matching_format (F : Int)
    (hF : F ∈ [VIR_STORAGE_FILE_ISO, VIR_STORAGE_FILE_VPC, VIR_STORAGE_FILE_VDI,
      VIR_STORAGE_FILE_COW, VIR_STORAGE_FILE_QCOW, VIR_STORAGE_FILE_QCOW2,
      VIR_STORAGE_FILE_QED, VIR_STORAGE_FILE_VMDK])
    (path : CStr) (buf : Buf)
    (hm : specMagicMatches F buf = true) (hv : specVersionMatches F buf = true)
    (hfirst : ∀ G ∈ allFormats, G < F →
      (specMagicMatches G buf && specVersionMatches G buf) = false) :
    virStorageFileProbeFormatFromBuf path buf = Run.ret F := by
  have hmem : F ∈ allFormats := by
    simp only [List.mem_cons, List.mem_singleton, List.not_mem_nil, or_false] at hF
    rcases hF with h | h | h | h | h | h | h | h <;> subst h <;> decide
  rw [probe_eq_spec]
  unfold probeFormatSpec
  rw [find?_first_of_sorted _ allFormats allFormats_sorted F hmem (by rw [hm, hv]; rfl) hfirst]

/-- C6 (witness): the first eight bytes of a COW header are probed as COW. -/
theorem probe_returns_first_matching_format_witness :
    virStorageFileProbeFormatFromBuf (ascii "disk.iso") cowHeaderStart =
      Run.ret VIR_STORAGE_FILE_COW :=
  probe_returns_first_matching_format VIR_STORAGE_FILE_COW (by decide) _ _
    (by decide) (by decide) (by decide)

theorem leVal_inj (xs ys : List Byte) (hl : xs.length = ys.length)
    (h : leVal xs = leVal ys) : xs = ys := by
  induction xs generalizing ys with
  | nil =>
    cases ys with
    | nil => rfl
    | cons y ys => simp at hl
  | cons x xs ih =>
    cases ys with
    | nil => simp at hl
    | cons y ys =>
      have h1 : leVal (x :: xs) = x.val + 256 * leVal xs := by simp [leVal]
      have h2 : leVal (y :: ys) = y.val + 256 * leVal ys := by simp [leVal]
      rw [h1, h2] at h
      have hx := x.isLt
      have hy := y.isLt
      have e1 : x.val = y.val := by omega
      have e2 : leVal xs = leVal ys := by omega
      rw [Fin.ext e1, ih ys (by simpa using hl) e2]

theorem beVal_eq_leVal_reverse (xs : List Byte) : beVal xs = leVal xs.reverse := by
  induction xs using List.reverseRecOn with
  | nil => rfl
  | append_singleton ys y ih =>
    rw [List.reverse_append, List.reverse_singleton, List.singleton_append]
    have h1 : beVal (ys ++ [y]) = beVal ys * 256 + y.val := by
      simp [beVal, List.foldl_append]
    have h2 : leVal (y :: ys.reverse) = y.val + 256 * leVal ys.reverse := by simp [leVal]
    rw [h1, h2, ih]
    ring

theorem beVal_inj (xs ys : List Byte) (hl : xs.length = ys.length)
    (h : beVal xs = beVal ys) : xs = ys := by
  rw [beVal_eq_leVal_reverse, beVal_eq_leVal_reverse] at h
  have := leVal_inj xs.reverse ys.reverse (by simpa using hl) h
  exact List.reverse_injective this

theorem field_setByte_ne (buf : Buf) (vo k : Nat) (b : Byte) (h1 : vo ≤ k) (h2 : k < vo + 4)
    (hlen : vo + 4 ≤ buf.length) (hb : buf.get? k ≠ some b) :
    field (setByte buf k b) vo 4 ≠ field buf vo 4 := by
  intro heq
  have hk : k < buf.length := by omega
  have e1 : (field (setByte buf k b) vo 4).get? (k - vo) = some b := by
    unfold field setByte
    rw [List.get?_eq_getElem?, List.getElem?_take_of_lt (by omega), List.getElem?_drop]
    rw [show vo + (k - vo) = k by omega]
    simp [List.getElem?_set, hk]
  have e2 : (field buf vo 4).get? (k - vo) = buf.get? k := by
    unfold field
    rw [List.get?_eq_getElem?, List.getElem?_take_of_lt (by omega), List.getElem?_drop]
    rw [show vo + (k - vo) = k by omega]
    simp
  rw [heq, e2] at e1
  exact hb e1


theorem versioned_rows (F : Int)
    (hF : F ∈ [VIR_STORAGE_FILE_VPC, VIR_STORAGE_FILE_VDI, VIR_STORAGE_FILE_COW,
      VIR_STORAGE_FILE_QCOW, VIR_STORAGE_FILE_QCOW2, VIR_STORAGE_FILE_VMDK]) :
    (fileTypeInfo F).versionOffset ≠ -2 ∧ (fileTypeInfo F).versionOffset ≠ -1 ∧
      F ∈ allFormats := by
  simp only [List.mem_cons, List.mem_singleton, List.not_mem_nil, or_false] at hF
  rcases hF with h | h | h | h | h | h <;> subst h <;> decide

theorem specVersionField_setByte_ne (F : Int) (buf : Buf) (k : Nat) (b : Byte)
    (hk1 : (fileTypeInfo F).versionOffset.toNat ≤ k)
    (hk2 : k < (fileTypeInfo F).versionOffset.toNat + 4)
    (hlen : (fileTypeInfo F).versionOffset.toNat + 4 ≤ buf.length)
    (hb : buf.get? k ≠ some b) :
    specVersionField F (setByte buf k b) ≠ specVersionField F buf := by
  have hne := field_setByte_ne buf _ k b hk1 hk2 hlen hb
  have hl : (field (setByte buf k b) (fileTypeInfo F).versionOffset.toNat 4).length =
      (field buf (fileTypeInfo F).versionOffset.toNat 4).length := by
    simp [field, setByte]
  unfold specVersionField
  split
  · exact fun h => hne (leVal_inj _ _ hl h)
  · exact fun h => hne (beVal_inj _ _ hl h)

/-- C7 (amended): for every format F with a version field and every header matching an
accepted version of F, replacing one byte of the 4-byte version field by a different
value makes the prober fall through to the extension/raw result, provided the mutated
value is not another accepted version of F (QCOW2 accepts 2 and 3, VMDK 1 and 2) and no
other format matches magic and version in the mutated header (QCOW and QCOW2 share
their magic).  For VPC, VDI, COW and QCOW the first proviso is vacuous. -/
theorem probe_after_version_byte_mutation (F : Int)
    (hF : F ∈ [VIR_STORAGE_FILE_VPC, VIR_STORAGE_FILE_VDI, VIR_STORAGE_FILE_COW,
      VIR_STORAGE_FILE_QCOW, VIR_STORAGE_FILE_QCOW2, VIR_STORAGE_FILE_VMDK])
    (path : CStr) (buf : Buf) (k : Nat) (b : Byte)
    (hv : specVersionMatches F buf = true)
    (hk1 : (fileTypeInfo F).versionOffset.toNat ≤ k)
    (hk2 : k < (fileTypeInfo F).versionOffset.toNat + 4)
    (hb : buf.get? k ≠ some b)
    (hother : ∀ v ∈ (fileTypeInfo F).versionNumbers, v ≠ 0 →
      v ≠ (specVersionField F buf : Int) → (specVersionField F (setByte buf k b) : Int) ≠ v)
    (hrest : ∀ G ∈ allFormats, G ≠ F →
      (specMagicMatches G (setByte buf k b) && specVersionMatches G (setByte buf k b)) = false) :
    virStorageFileProbeFormatFromBuf path (setByte buf k b) =
      Run.ret (specExtensionResult path) := by
  obtain ⟨h2, h1, -⟩ := versioned_rows F hF
  have hlen : (fileTypeInfo F).versionOffset.toNat + 4 ≤ buf.length := by
    unfold specVersionMatches at hv
    rw [if_neg h2, if_neg h1] at hv
    simp only [Bool.and_eq_true, decide_eq_true_eq] at hv
    exact hv.1
  have hFv : specVersionMatches F (setByte buf k b) = false := by
    unfold specVersionMatches
    rw [if_neg h2, if_neg h1, Bool.and_eq_false_iff]
    right
    rw [List.any_eq_false]
    intro v hvmem
    simp only [Bool.and_eq_true, decide_eq_true_eq, not_and]
    intro hv0 heq
    by_cases hold : v = (specVersionField F buf : Int)
    · have := specVersionField_setByte_ne F buf k b hk1 hk2 hlen hb
      rw [hold] at heq
      exact this (by exact_mod_cast heq)
    · exact hother v hvmem hv0 hold heq
  rw [probe_eq_spec]
  unfold probeFormatSpec
  have hnone : allFormats.find? (fun f => specMagicMatches f (setByte buf k b) &&
      specVersionMatches f (setByte buf k b)) = none := by
    rw [List.find?_eq_none]
    intro G hG
    by_cases hGF : G = F
    · subst hGF
      simp [hFv]
    · simp [hrest G hG hGF]
  rw [hnone]

/-- C7 (witness): a COW header whose version byte 2 is replaced by 3 falls through to
the extension match of the path. -/
theorem probe_after_version_byte_mutation_witness :
    virStorageFileProbeFormatFromBuf (ascii "disk.iso") (setByte cowHeaderStart 7 3) =
      Run.ret VIR_STORAGE_FILE_ISO :=
  probe_after_version_byte_mutation VIR_STORAGE_FILE_COW (by decide) (ascii "disk.iso")
    cowHeaderStart 7 3 (by decide) (by decide) (by decide) (by decide) (by decide) (by decide)

/-- C7 (counterexample): a QCOW header (version 1) whose last version byte is replaced
by 2 keeps its magic and is probed as QCOW2 instead of falling through to the
extension/raw result. -/
theorem probe_qcow_version_byte_mutated :
    specMagicMatches VIR_STORAGE_FILE_QCOW qcow1HeaderStart = true ∧
      specVersionMatches VIR_STORAGE_FILE_QCOW qcow1HeaderStart = true ∧
      specMagicMatches VIR_STORAGE_FILE_QCOW (setByte qcow1HeaderStart 7 2) = true ∧
      qcow1HeaderStart.get? 7 ≠ some 2 ∧
      virStorageFileProbeFormatFromBuf [] (setByte qcow1HeaderStart 7 2) =
        Run.ret VIR_STORAGE_FILE_QCOW2 ∧
      virStorageFileProbeFormatFromBuf [] (setByte qcow1HeaderStart 7 2) ≠
        Run.ret (specExtensionResult []) := by
  decide

/-! ## The QCOW extractors (C8, C9, C10) -/

theorem beVal_field_lt (buf : Buf) (off n : Nat) : beVal (field buf off n) < 256 ^ n := by
  have h := beVal_lt (field buf off n)
  have hl : (field buf off n).length ≤ n := by simp [field]
  exact lt_of_lt_of_le h (Nat.pow_le_pow_right (by norm_num) hl)

/-- The early exits of `qcowXGetBackingStore`: a buffer shorter than 20 bytes, or a
backing offset and length that do not fit the buffer, give INVALID and no path. -/
theorem qcowX_invalid (format : Option Int) (buf : Buf) (isQCow2 : Bool)
    (h : buf.length < 20 ∨
      beVal (field buf 8 8) + beVal (field buf 16 4) > buf.length) :
    qcowXGetBackingStore format buf isQCow2 =
      Run.ret (BACKING_STORE_INVALID, none, format.map (fun _ => VIR_STORAGE_FILE_AUTO)) := by
  unfold qcowXGetBackingStore
  by_cases hlen : buf.length < 20
  · simp [hlen]
  · have h2 : beVal (field buf 8 8) + beVal (field buf 16 4) > buf.length := by
      rcases h with h | h
      · exact absurd h hlen
      · exact h
    have ho := beVal_field_lt buf 8 8
    have hn := beVal_field_lt buf 16 4
    simp only [QCOWX_HDR_BACKING_FILE_OFFSET, QCOWX_HDR_VERSION, QCOWX_HDR_BACKING_FILE_SIZE]
    rw [if_neg (by omega), virReadBufInt64BE_eq buf (4 + 4) (by omega)]
    simp only [Run.ret_bind]
    by_cases ho2 : beVal (field buf (4 + 4) 8) > buf.length
    · rw [if_pos ho2]; rfl
    · rw [if_neg ho2, virReadBufInt32BE_eq buf (4 + 4 + 8) (by omega)]
      simp only [Run.ret_bind]
      have hn0 : beVal (field buf (4 + 4 + 8) 4) ≠ 0 := by
        intro h0
        have : beVal (field buf 16 4) = 0 := h0
        have e : beVal (field buf (4 + 4) 8) = beVal (field buf 8 8) := rfl
        omega
      rw [if_neg hn0]
      have hc : (beVal (field buf (4 + 4) 8) + beVal (field buf (4 + 4 + 8) 4)) % SIZE_MOD >
            buf.length ∨
          (beVal (field buf (4 + 4) 8) + beVal (field buf (4 + 4 + 8) 4)) % SIZE_MOD <
            beVal (field buf (4 + 4) 8) := by
        have e1 : beVal (field buf (4 + 4) 8) = beVal (field buf 8 8) := rfl
        have e2 : beVal (field buf (4 + 4 + 8) 4) = beVal (field buf 16 4) := rfl
        rw [e1, e2]
        simp only [SIZE_MOD]
        norm_num at ho hn ⊢
        omega
      rw [if_pos hc]
      rfl

theorem qcowX_no_backing (format : Option Int) (buf : Buf) (isQCow2 : Bool)
    (hlen : 20 ≤ buf.length) (ho : beVal (field buf 8 8) ≤ buf.length)
    (hn : beVal (field buf 16 4) = 0) :
    qcowXGetBackingStore format buf isQCow2 =
      Run.ret (BACKING_STORE_OK, none, format.map (fun _ => VIR_STORAGE_FILE_NONE)) := by
  unfold qcowXGetBackingStore
  simp only [QCOWX_HDR_BACKING_FILE_OFFSET, QCOWX_HDR_VERSION, QCOWX_HDR_BACKING_FILE_SIZE]
  rw [if_neg (by omega), virReadBufInt64BE_eq buf (4 + 4) (by omega)]
  simp only [Run.ret_bind]
  rw [if_neg (by simpa using ho), virReadBufInt32BE_eq buf (4 + 4 + 8) (by omega)]
  simp only [Run.ret_bind]
  rw [if_pos hn]
  cases format <;> rfl

/-- The common part of `qcowXGetBackingStore` for a non-empty path that fits the
buffer: every test passes and the path bytes are copied. -/
theorem qcowX_path (format : Option Int) (buf : Buf) (isQCow2 : Bool)
    (hlen : 20 ≤ buf.length) (hsz : buf.length < 2 ^ 64)
    (hn0 : 0 < beVal (field buf 16 4)) (hn1 : beVal (field buf 16 4) + 1 < 2 ^ 32)
    (hfit : beVal (field buf 8 8) + beVal (field buf 16 4) ≤ buf.length) :
    qcowXGetBackingStore format buf isQCow2 =
      (match isQCow2, format.map (fun _ => VIR_STORAGE_FILE_AUTO) with
        | true, some fmt => do
          let version ← virReadBufInt32BE buf QCOWX_HDR_VERSION
          let start ←
            if toInt32 version = 2 then pure QCOW2_HDR_TOTAL_SIZE
            else virReadBufInt32BE buf QCOW2v3_HDR_SIZE
          let r ← qcow2GetBackingStoreFormat fmt buf start (beVal (field buf 8 8))
          if r.1 < 0 then
            pure (BACKING_STORE_INVALID,
              some (field buf (beVal (field buf 8 8)) (beVal (field buf 16 4)) ++ [0]),
              some r.2)
          else
            pure (BACKING_STORE_OK,
              some (field buf (beVal (field buf 8 8)) (beVal (field buf 16 4)) ++ [0]),
              some r.2)
        | _, _ => pure (BACKING_STORE_OK,
            some (field buf (beVal (field buf 8 8)) (beVal (field buf 16 4)) ++ [0]),
            format.map (fun _ => VIR_STORAGE_FILE_AUTO))) := by
  unfold qcowXGetBackingStore
  simp only [QCOWX_HDR_BACKING_FILE_OFFSET, QCOWX_HDR_VERSION, QCOWX_HDR_BACKING_FILE_SIZE]
  have e1 : beVal (field buf (4 + 4) 8) = beVal (field buf 8 8) := rfl
  have e2 : beVal (field buf (4 + 4 + 8) 4) = beVal (field buf 16 4) := rfl
  rw [if_neg (by omega), virReadBufInt64BE_eq buf (4 + 4) (by omega)]
  simp only [Run.ret_bind]
  rw [e1, if_neg (by omega), virReadBufInt32BE_eq buf (4 + 4 + 8) (by omega)]
  simp only [Run.ret_bind]
  rw [e2, if_neg (by omega)]
  have hmod : (beVal (field buf 8 8) + beVal (field buf 16 4)) % SIZE_MOD =
      beVal (field buf 8 8) + beVal (field buf 16 4) := by
    apply Nat.mod_eq_of_lt
    simp only [SIZE_MOD]
    omega
  rw [hmod, if_neg (by omega)]
  have hu : ¬ (beVal (field buf 16 4) + 1) % UINT_MOD = 0 := by
    simp only [UINT_MOD]
    rw [Nat.mod_eq_of_lt hn1]
    omega
  rw [if_neg hu, readBytes_eq buf _ _ hfit]
  rfl

/-- C8: for the QCOW and QCOW2 extractors and every buffer: if the buffer is shorter
than 20 bytes, or the big-endian 64-bit backing offset at byte 8 plus the big-endian
32-bit backing length at byte 16, taken as unbounded naturals, exceeds the buffer
length, the extractor returns INVALID and no path. -/
theorem qcow_extractors_reject_out_of_range (format : Int) (buf : Buf)
    (h : buf.length < 20 ∨
      beVal (field buf 8 8) + beVal (field buf 16 4) > buf.length) :
    qcow1GetBackingStore format buf =
        Run.ret ⟨BACKING_STORE_INVALID, none, VIR_STORAGE_FILE_AUTO⟩ ∧
      qcow2GetBackingStore format buf =
        Run.ret ⟨BACKING_STORE_INVALID, none, VIR_STORAGE_FILE_AUTO⟩ := by
  constructor
  · unfold qcow1GetBackingStore
    rw [qcowX_invalid none buf false h]
    rfl
  · unfold qcow2GetBackingStore
    rw [qcowX_invalid (some format) buf true h]
    rfl

/-- C8 (witness): a 20-byte header whose one-byte path would start at offset 20. -/
theorem qcow_extractors_reject_out_of_range_witness :
    qcow1GetBackingStore VIR_STORAGE_FILE_NONE qcowPathPastEndHeader =
        Run.ret ⟨BACKING_STORE_INVALID, none, VIR_STORAGE_FILE_AUTO⟩ ∧
      qcow2GetBackingStore VIR_STORAGE_FILE_NONE qcowPathPastEndHeader =
        Run.ret ⟨BACKING_STORE_INVALID, none, VIR_STORAGE_FILE_AUTO⟩ :=
  qcow_extractors_reject_out_of_range VIR_STORAGE_FILE_NONE qcowPathPastEndHeader
    (Or.inr (by decide))

theorem Run.pure_bind {α β : Type} (a : α) (f : α → Run β) : (pure a >>= f) = f a := rfl

theorem qcow1_of_qcowX_ok (format : Int) (buf : Buf) (hlen : 20 ≤ buf.length)
    (res : Option Buf)
    (h : qcowXGetBackingStore none buf false = Run.ret (BACKING_STORE_OK, res, none)) :
    ∃ f, qcow1GetBackingStore format buf = Run.ret ⟨BACKING_STORE_OK, res, f⟩ := by
  unfold qcow1GetBackingStore
  rw [h]
  simp only [Run.ret_bind, Run.pure_eq]
  rw [if_pos True.intro, readByte_eq buf 0 (by omega)]
  simp only [Run.ret_bind]
  split
  · exact ⟨_, rfl⟩
  · exact ⟨_, rfl⟩

/-- C9 (amended): for every buffer of at least 20 bytes (and of a length a `size_t`
holds) with backing offset o and backing length n: if n = 0 and o does not exceed the
buffer length, the QCOW and QCOW2 extractors return OK with a null path; if
0 < n < 2^32 - 1 and o + n does not exceed the buffer length, the QCOW extractor, and
the QCOW2 extractor on a version-2 header whose extension scan returns 0, return OK
with the path made of the n bytes buf[o .. o+n) followed by a terminator. -/
theorem qcow_backing_path (format : Int) (buf : Buf)
    (hlen : 20 ≤ buf.length) (hsz : buf.length < 2 ^ 64) :
    (beVal (field buf 16 4) = 0 → beVal (field buf 8 8) ≤ buf.length →
      (∃ f, qcow1GetBackingStore format buf = Run.ret ⟨BACKING_STORE_OK, none, f⟩) ∧
      qcow2GetBackingStore format buf =
        Run.ret ⟨BACKING_STORE_OK, none, VIR_STORAGE_FILE_NONE⟩) ∧
    (0 < beVal (field buf 16 4) → beVal (field buf 16 4) + 1 < 2 ^ 32 →
      beVal (field buf 8 8) + beVal (field buf 16 4) ≤ buf.length →
      (∃ f, qcow1GetBackingStore format buf = Run.ret ⟨BACKING_STORE_OK,
        some (field buf (beVal (field buf 8 8)) (beVal (field buf 16 4)) ++ [0]), f⟩) ∧
      (beVal (field buf 4 4) = 2 → ∀ f : Int,
        qcow2GetBackingStoreFormat VIR_STORAGE_FILE_AUTO buf QCOW2_HDR_TOTAL_SIZE
          (beVal (field buf 8 8)) = Run.ret (0, f) →
        qcow2GetBackingStore format buf = Run.ret ⟨BACKING_STORE_OK,
          some (field buf (beVal (field buf 8 8)) (beVal (field buf 16 4)) ++ [0]), f⟩)) := by
  refine ⟨fun hn ho => ⟨?_, ?_⟩, fun hn0 hn1 hfit => ⟨?_, ?_⟩⟩
  · exact qcow1_of_qcowX_ok format buf hlen none (qcowX_no_backing none buf false hlen ho hn)
  · unfold qcow2GetBackingStore
    rw [qcowX_no_backing (some format) buf true hlen ho hn]
    rfl
  · exact qcow1_of_qcowX_ok format buf hlen _ (qcowX_path none buf false hlen hsz hn0 hn1 hfit)
  · intro hver f hscan
    unfold qcow2GetBackingStore
    rw [qcowX_path (some format) buf true hlen hsz hn0 hn1 hfit]
    simp only [Option.map_some']
    rw [virReadBufInt32BE_eq buf QCOWX_HDR_VERSION (by simp only [QCOWX_HDR_VERSION]; omega)]
    simp only [Run.ret_bind]
    have hv : beVal (field buf QCOWX_HDR_VERSION 4) = 2 := hver
    rw [hv]
    have h2 : toInt32 2 = 2 := by decide
    rw [if_pos h2, Run.pure_bind, hscan]
    rfl
/-- C9 (witness): a 74-byte QCOW2 version-2 header naming `/b` at offset 72. -/
theorem qcow_backing_path_witness :
    qcow2GetBackingStore VIR_STORAGE_FILE_NONE (qcow2HeaderNaming (ascii "/b")) =
      Run.ret ⟨BACKING_STORE_OK, some (ascii "/b" ++ [0]), VIR_STORAGE_FILE_AUTO⟩ :=
  ((qcow_backing_path VIR_STORAGE_FILE_NONE (qcow2HeaderNaming (ascii "/b")) (by decide)
    (by show (74 : Nat) < 2 ^ 64; norm_num)).2 (by decide) (by decide) (by decide)).2 (by decide) VIR_STORAGE_FILE_AUTO
    (by decide)

/-- C9 (counterexample): a 20-byte header with backing length 0 and backing offset 21
gets INVALID from both extractors, not OK with a null path. -/
theorem qcow_zero_length_offset_past_end :
    20 ≤ qcowOffsetPastEndHeader.length ∧
      beVal (field qcowOffsetPastEndHeader 16 4) = 0 ∧
      qcow1GetBackingStore VIR_STORAGE_FILE_NONE qcowOffsetPastEndHeader =
        Run.ret ⟨BACKING_STORE_INVALID, none, VIR_STORAGE_FILE_AUTO⟩ ∧
      qcow2GetBackingStore VIR_STORAGE_FILE_NONE qcowOffsetPastEndHeader =
        Run.ret ⟨BACKING_STORE_INVALID, none, VIR_STORAGE_FILE_AUTO⟩ := by
  decide

theorem field_take (buf : Buf) (off n m : Nat) (l : List Byte) (h : field buf off n = l)
    (hm : m ≤ n) : field buf off m = l.take m := by
  rw [← h]
  unfold field
  rw [List.take_take, Nat.min_eq_left hm]

theorem field_drop (buf : Buf) (off n k : Nat) (l : List Byte) (h : field buf off n = l) :
    field buf (off + k) (n - k) = l.drop k := by
  rw [← h]
  unfold field
  rw [List.drop_take, List.drop_drop]

theorem field_sub (buf : Buf) (off n k m : Nat) (l : List Byte) (h : field buf off n = l)
    (hkm : k + m ≤ n) : field buf (off + k) m = (l.drop k).take m := by
  have h1 := field_drop buf off n k l h
  exact field_take buf (off + k) (n - k) m _ h1 (by omega)

theorem readByte_of_field (buf : Buf) (i : Nat) (b : Byte) (h : field buf i 1 = [b]) :
    readByte buf i = Run.ret b.val := by
  have hi : i < buf.length := by
    by_contra hc
    have : field buf i 1 = [] := by
      unfold field
      rw [List.drop_eq_nil_of_le (by omega)]
      rfl
    rw [this] at h
    cases h
  rw [readByte_eq buf i hi]
  rw [field_succ buf i 0 hi] at h
  simp only [field_zero, List.cons.injEq, and_true] at h
  rw [h]

theorem drop_eq_field_append (buf : Buf) (off n : Nat) :
    buf.drop off = field buf off n ++ buf.drop (off + n) := by
  unfold field
  rw [← List.drop_drop, List.take_append_drop]

theorem sizeSub8 (x : Nat) (h8 : 8 ≤ x) (hM : x < 2 ^ 64) :
    (x + SIZE_MOD - 8) % SIZE_MOD = x - 8 := by
  simp only [SIZE_MOD]
  norm_num at hM ⊢
  omega


/-- Leaving the loop of `qcow2GetBackingStoreFormat` at its condition. -/
theorem scanLoop_exit (buf : Buf) (e fuel offset : Nat) (format : Int)
    (hc : ¬ (offset < (buf.length + SIZE_MOD - 8) % SIZE_MOD ∧
      offset < (e + SIZE_MOD - 8) % SIZE_MOD)) :
    qcow2GetBackingStoreFormatLoop buf e (fuel + 1) offset format = Run.ret (0, format) := by
  rw [qcow2GetBackingStoreFormatLoop]
  exact if_neg hc

/-- One iteration of the loop of `qcow2GetBackingStoreFormat` whose record header lies
inside the buffer. -/
theorem scanLoop_step (buf : Buf) (e fuel offset : Nat) (format : Int)
    (hc : offset < (buf.length + SIZE_MOD - 8) % SIZE_MOD ∧
      offset < (e + SIZE_MOD - 8) % SIZE_MOD)
    (hr : offset + 8 ≤ buf.length) (hM : buf.length < 2 ^ 64) :
    qcow2GetBackingStoreFormatLoop buf e (fuel + 1) offset format =
      (if (offset + 8 + beVal (field buf (offset + 4) 4)) % SIZE_MOD < offset + 8 then
        Run.ret (0, format)
      else if (offset + 8 + beVal (field buf (offset + 4) 4)) % SIZE_MOD > buf.length then
        Run.ret (0, format)
      else if beVal (field buf offset 4) = QCOW2_HDR_EXTENSION_END then
        Run.ret (0, format)
      else if beVal (field buf offset 4) = QCOW2_HDR_EXTENSION_BACKING_FORMAT then
        (readByte buf ((offset + 8 + beVal (field buf (offset + 4) 4)) % SIZE_MOD) >>=
          fun b =>
            if b ≠ 0 then
              qcow2GetBackingStoreFormatLoop buf e fuel
                ((offset + 8 + beVal (field buf (offset + 4) 4)) % SIZE_MOD) format
            else
              (readCStr buf (offset + 8) >>= fun name =>
                if virStorageFileFormatTypeFromString name ≤ VIR_STORAGE_FILE_NONE then
                  Run.ret (-1, virStorageFileFormatTypeFromString name)
                else
                  qcow2GetBackingStoreFormatLoop buf e fuel
                    ((offset + 8 + beVal (field buf (offset + 4) 4)) % SIZE_MOD)
                    (virStorageFileFormatTypeFromString name)))
      else
        qcow2GetBackingStoreFormatLoop buf e fuel
          ((offset + 8 + beVal (field buf (offset + 4) 4)) % SIZE_MOD) format) := by
  rw [qcow2GetBackingStoreFormatLoop]
  have h8 : (offset + 8) % SIZE_MOD = offset + 8 := by
    apply Nat.mod_eq_of_lt
    simp only [SIZE_MOD]
    omega
  rw [if_pos hc, virReadBufInt32BE_eq buf offset (by omega),
    virReadBufInt32BE_eq buf (offset + 4) (by omega)]
  rw [Run.ret_bind, Run.ret_bind, h8]
  rfl

theorem scan_raw_extension (buf : Buf) (o : Nat) (hM : buf.length < 2 ^ 64)
    (hext : field buf 72 12 = rawFormatExtension) (ho : 84 ≤ o) (hfit : o < buf.length)
    (hoM : o < 2 ^ 64)
    (hstop : o ≤ 91 ∨ field buf 83 4 = [0, 0, 0, 0]) :
    qcow2GetBackingStoreFormat VIR_STORAGE_FILE_AUTO buf QCOW2_HDR_TOTAL_SIZE o =
      Run.ret (0, VIR_STORAGE_FILE_RAW) := by
  have f72 : field buf 72 4 = [0xE2, 0x79, 0x2A, 0xCA] :=
    field_take buf 72 12 4 _ hext (by omega)
  have f76 : field buf (72 + 4) 4 = [0, 0, 0, 3] :=
    field_sub buf 72 12 4 4 _ hext (by omega)
  have f80 : field buf (72 + 8) 4 = [0x72, 0x61, 0x77, 0] :=
    field_sub buf 72 12 8 4 _ hext (by omega)
  have f83 : field buf (72 + 11) 1 = [0] :=
    field_sub buf 72 12 11 1 _ hext (by omega)
  have hlenb : beVal (field buf (72 + 4) 4) = 3 := by rw [f76]; rfl
  have hmagic : beVal (field buf 72 4) = QCOW2_HDR_EXTENSION_BACKING_FORMAT := by
    rw [f72]; rfl
  have hsub1 := sizeSub8 buf.length (by omega) hM
  have hsub2 := sizeSub8 o (by omega) hoM
  obtain ⟨m, hm⟩ : ∃ m, buf.length + 1 = m + 1 + 1 := ⟨buf.length - 1, by omega⟩
  have e72 : QCOW2_HDR_TOTAL_SIZE = 72 := rfl
  unfold qcow2GetBackingStoreFormat
  rw [e72, hm, scanLoop_step buf o (m + 1) 72 _ (by rw [hsub1, hsub2]; omega) (by omega) hM]
  rw [hlenb, hmagic]
  have h83 : (72 + 8 + 3) % SIZE_MOD = 83 := by decide
  rw [h83, if_neg (by omega), if_neg (by omega), if_neg (by decide), if_pos rfl,
    readByte_of_field buf 83 0 f83, Run.ret_bind, if_neg (by decide)]
  have hcstr : readCStr buf (72 + 8) = Run.ret (ascii "raw") := by
    unfold readCStr
    rw [drop_eq_field_append buf (72 + 8) 4, f80]
    rw [if_pos (by simp)]
    rfl
  rw [hcstr, Run.ret_bind]
  have htype : virStorageFileFormatTypeFromString (ascii "raw") = VIR_STORAGE_FILE_RAW := by
    decide
  rw [htype, if_neg (by decide)]
  by_cases hc : 83 < (buf.length + SIZE_MOD - 8) % SIZE_MOD ∧ 83 < (o + SIZE_MOD - 8) % SIZE_MOD
  · rw [hsub1, hsub2] at hc
    have hz : field buf 83 4 = [0, 0, 0, 0] := by
      rcases hstop with h | h
      · omega
      · exact h
    have hc' : 83 < (buf.length + SIZE_MOD - 8) % SIZE_MOD ∧
        83 < (o + SIZE_MOD - 8) % SIZE_MOD := by rw [hsub1, hsub2]; exact hc
    rw [scanLoop_step buf o m 83 _ hc' (by omega) hM]
    have hz0 : beVal (field buf 83 4) = QCOW2_HDR_EXTENSION_END := by rw [hz]; rfl
    rw [hz0]
    split_ifs with h1 h2 h3
    · rfl
    · rfl
    · rfl
    · exact absurd rfl h3
    · exact absurd rfl h3
  · exact scanLoop_exit buf o m 83 _ hc

/-- A scan that meets the backing-format tag at no offset of the extension region
leaves the format untouched and returns 0. -/
theorem scan_no_tag (buf : Buf) (e : Nat) (hM : buf.length < 2 ^ 64) (he : e ≤ buf.length)
    (he8 : 8 ≤ e) (fuel : Nat) :
    ∀ (offset : Nat) (format : Int), offset ≤ buf.length → buf.length < offset + 8 * fuel →
      (∀ k, offset ≤ k → k + 8 < e →
        beVal (field buf k 4) ≠ QCOW2_HDR_EXTENSION_BACKING_FORMAT) →
      qcow2GetBackingStoreFormatLoop buf e fuel offset format = Run.ret (0, format) := by
  induction fuel with
  | zero => intro offset format h1 h2; omega
  | succ fuel ih =>
    intro offset format h1 h2 hno
    by_cases hc : offset < (buf.length + SIZE_MOD - 8) % SIZE_MOD ∧
        offset < (e + SIZE_MOD - 8) % SIZE_MOD
    · have hsub2 := sizeSub8 e he8 (by omega)
      have hoff : offset + 8 < e := by
        have := hc.2
        rw [hsub2] at this
        omega
      rw [scanLoop_step buf e fuel offset format hc (by omega) hM]
      split_ifs with c1 c2 c3 c4
      · rfl
      · rfl
      · rfl
      · exact absurd c4 (hno offset (le_refl _) hoff)
      · exact ih _ format (by omega) (by omega) (fun k hk hk8 => hno k (by omega) hk8)
    · exact scanLoop_exit buf e fuel offset format hc

theorem qcow2_v2_of_scan (format : Int) (buf : Buf)
    (hlen : 20 ≤ buf.length) (hsz : buf.length < 2 ^ 64)
    (hn0 : 0 < beVal (field buf 16 4)) (hn1 : beVal (field buf 16 4) + 1 < 2 ^ 32)
    (hfit : beVal (field buf 8 8) + beVal (field buf 16 4) ≤ buf.length)
    (hver : beVal (field buf 4 4) = 2) (f : Int)
    (hscan : qcow2GetBackingStoreFormat VIR_STORAGE_FILE_AUTO buf QCOW2_HDR_TOTAL_SIZE
      (beVal (field buf 8 8)) = Run.ret (0, f)) :
    qcow2GetBackingStore format buf = Run.ret ⟨BACKING_STORE_OK,
      some (field buf (beVal (field buf 8 8)) (beVal (field buf 16 4)) ++ [0]), f⟩ := by
  unfold qcow2GetBackingStore
  rw [qcowX_path (some format) buf true hlen hsz hn0 hn1 hfit]
  simp only [Option.map_some']
  rw [virReadBufInt32BE_eq buf QCOWX_HDR_VERSION (by simp only [QCOWX_HDR_VERSION]; omega)]
  simp only [Run.ret_bind]
  have hv : beVal (field buf QCOWX_HDR_VERSION 4) = 2 := hver
  rw [hv]
  have h2 : toInt32 2 = 2 := by decide
  rw [if_pos h2, Run.pure_bind, hscan]
  rfl

/-- C10 (counterexample): a version-2 header with the well-formed "raw" extension at
offset 72 and its path after the extensions, in which further records follow the
"raw" record: the scan goes on behind it and the last backing-format record wins, so
the hint is QCOW2, not RAW. -/
theorem qcow2_two_backing_format_extensions :
    beVal (field twoExtensionsHeader 4 4) = 2 ∧
      field twoExtensionsHeader 72 12 = rawFormatExtension ∧
      84 ≤ beVal (field twoExtensionsHeader 8 8) ∧
      0 < beVal (field twoExtensionsHeader 16 4) ∧
      beVal (field twoExtensionsHeader 8 8) + beVal (field twoExtensionsHeader 16 4) ≤
        twoExtensionsHeader.length ∧
      qcow2GetBackingStore VIR_STORAGE_FILE_NONE twoExtensionsHeader =
        Run.ret ⟨BACKING_STORE_OK, some (ascii "/b" ++ [0]), VIR_STORAGE_FILE_QCOW2⟩ := by
  decide

/-! ## The backing-chain resolver (C1, C2) -/

/-- A canonical path that is already in the visited set fails the call at once. -/
theorem recurse_cycle (env : Env) (fuel : Nat) (path : Option CStr) (canonPath : CStr)
    (directory : Option CStr) (format uid gid : Int) (allow_probe : Bool) (cycle : List CStr)
    (fields : MetaFields) (h : canonPath ∈ cycle) :
    virStorageFileGetMetadataRecurse env (fuel + 1) path canonPath directory format uid gid
      allow_probe cycle fields = Run.ret ⟨-1, fields, .NULL⟩ := by
  rw [virStorageFileGetMetadataRecurse.eq_def]
  exact if_pos h

/-- One level of the resolver on a local file whose header extraction returned. -/
theorem recurse_local (env : Env) (fuel : Nat) (p canonPath : CStr)
    (directory : Option CStr) (format uid gid : Int) (allow_probe : Bool) (cycle : List CStr)
    (fields : MetaFields) (fd : OpenFile) (r : FromFDResult)
    (hc : canonPath ∉ cycle) (hfile : virStorageIsFile (some p) = true)
    (hopen : env.virFileOpenAs canonPath uid gid = some fd)
    (hr : virStorageFileGetMetadataFromFDInternal env p canonPath directory fd format fields
      none = Run.ret r) :
    virStorageFileGetMetadataRecurse env (fuel + 1) (some p) canonPath directory format uid gid
      allow_probe cycle fields =
      (match r.ret == 0, r.fields.backingStore with
        | true, some backingStore =>
          (virStorageFileGetMetadataRecurse env fuel r.fields.backingStoreRaw backingStore
            r.backingDirectory (assumedBackingFormat allow_probe r.backingFormat) uid gid
            allow_probe (canonPath :: cycle) MetaFields.zero) >>= fun b =>
              if b.ret < 0 then
                Run.ret ⟨r.ret, { r.fields with backingStore := none }, .NULL⟩
              else
                Run.ret ⟨r.ret, r.fields, .node b.fields b.backingMeta⟩
        | _, _ => Run.ret ⟨r.ret, r.fields, .NULL⟩) := by
  rw [virStorageFileGetMetadataRecurse.eq_def]
  simp only [if_neg hc, hfile, hopen, hr]
  rfl

theorem getMetadata_local (env : Env) (fuel : Nat) (path cA : CStr) (format uid gid : Int)
    (allow_probe : Bool)
    (hIsFile : virStorageIsFile (some path) = true)
    (hcanon : env.canonicalize_file_name path = some cA) :
    virStorageFileGetMetadata env fuel path format uid gid allow_probe =
      (virStorageFileGetMetadataRecurse env fuel (some path) cA (some (env.mdir_name path))
        (topLevelFormat allow_probe format) uid gid allow_probe [] MetaFields.zero) >>= fun r =>
          if r.ret < 0 then Run.ret .NULL else Run.ret (.node r.fields r.backingMeta) := by
  unfold virStorageFileGetMetadata
  simp only [hIsFile, hcanon, if_true]
  rfl

/-- C1 (amended): in every file system in which the header extraction of a local image
A names a local backing file B, resolved to a canonical path other than A's, and the
header extraction of B names a backing file that canonicalizes to A, the resolver
terminates and succeeds: the recursive step that reaches A again is refused by the
visited set, that failure is absorbed at B, and the result is the two-link chain
A -> B in which B has a null `backingStore` and a null `backingMeta` (a chain broken at
B); no failure reaches the caller. -/
theorem backing_cycle_is_absorbed (env : Env) (fuel : Nat) (path : CStr) (format uid gid : Int)
    (allow_probe : Bool) (cA cB rawB : CStr) (fdA fdB : OpenFile) (rA rB : FromFDResult)
    (hIsFile : virStorageIsFile (some path) = true)
    (hcanon : env.canonicalize_file_name path = some cA)
    (hopenA : env.virFileOpenAs cA uid gid = some fdA)
    (hA : virStorageFileGetMetadataFromFDInternal env path cA (some (env.mdir_name path)) fdA
      (topLevelFormat allow_probe format) MetaFields.zero none = Run.ret rA)
    (hAok : rA.ret = 0) (hAback : rA.fields.backingStore = some cB)
    (hAraw : rA.fields.backingStoreRaw = some rawB)
    (hrawFile : virStorageIsFile (some rawB) = true) (hne : cB ≠ cA)
    (hopenB : env.virFileOpenAs cB uid gid = some fdB)
    (hB : virStorageFileGetMetadataFromFDInternal env rawB cB rA.backingDirectory fdB
      (assumedBackingFormat allow_probe rA.backingFormat) MetaFields.zero none = Run.ret rB)
    (hBok : rB.ret = 0) (hBback : rB.fields.backingStore = some cA) :
    virStorageFileGetMetadata env (fuel + 3) path format uid gid allow_probe =
      Run.ret (.node rA.fields (.node { rB.fields with backingStore := none } .NULL)) := by
  rw [getMetadata_local env _ path cA format uid gid allow_probe hIsFile hcanon]
  rw [recurse_local env (fuel + 2) path cA _ _ uid gid allow_probe [] _ fdA rA
    (List.not_mem_nil _) hIsFile hopenA hA]
  rw [hAok, hAback, hAraw]
  simp only [beq_self_eq_true]
  rw [recurse_local env (fuel + 1) rawB cB _ _ uid gid allow_probe [cA] _ fdB rB
    (by simpa using hne) hrawFile hopenB hB]
  rw [hBok, hBback]
  simp only [beq_self_eq_true]
  rw [recurse_cycle env fuel _ cA _ _ uid gid allow_probe [cB, cA] _ (by simp)]
  rfl

theorem Run.bind_eq_ret {α β : Type} (x : Run α) (f : α → Run β) (b : β)
    (h : (x >>= f) = Run.ret b) : ∃ a, x = Run.ret a ∧ f a = Run.ret b := by
  cases x with
  | ret a => exact ⟨a, rfl, h⟩
  | oobRead i => cases h
  | oobWrite i => cases h
  | fuel => cases h

/-- The `getFeatures` tail of the metadata extractor leaves the backing fields alone. -/
theorem internalFeatures_backing (buf : Buf) (format : Int) (fields : MetaFields)
    (out : Option CStr) (bf : Int) (bd : Option CStr) (r : InternalResult)
    (h : internalFeatures buf format fields out bf bd = Run.ret r) :
    r.fields.backingStoreRaw = fields.backingStoreRaw ∧
      r.fields.backingStore = fields.backingStore ∧ r.backingStore = out ∧
      r.backingFormat = bf ∧ r.backingDirectory = bd := by
  unfold internalFeatures at h
  have hcompat : ∀ fl : MetaFields,
      (if format = VIR_STORAGE_FILE_QCOW2 ∧ fl.features.isSome = true then
        (pure ⟨0, { fl with compat := some (ascii "1.1") }, out, bf, bd⟩ : Run InternalResult)
      else pure ⟨0, fl, out, bf, bd⟩) = Run.ret r →
      r.fields.backingStoreRaw = fl.backingStoreRaw ∧
        r.fields.backingStore = fl.backingStore ∧ r.backingStore = out ∧
        r.backingFormat = bf ∧ r.backingDirectory = bd := by
    intro fl hfl
    split at hfl
    · cases hfl; exact ⟨rfl, rfl, rfl, rfl, rfl⟩
    · cases hfl; exact ⟨rfl, rfl, rfl, rfl, rfl⟩
  cases hg : (fileTypeInfo format).getFeatures with
  | none =>
    rw [hg] at h
    dsimp only at h
    exact hcompat fields h
  | some fn =>
    rw [hg] at h
    obtain ⟨a, -, ha⟩ := Run.bind_eq_ret _ _ _ h
    dsimp only at ha
    split at ha
    · cases ha; exact ⟨rfl, rfl, rfl, rfl, rfl⟩
    · exact hcompat { fields with features := a.2 } ha

theorem internalBacking_shape (env : Env) (directory : Option CStr) (buf : Buf) (format : Int)
    (fields : MetaFields) (bf : Int) (bd : Option CStr) (r : InternalResult)
    (hraw : fields.backingStoreRaw = none) (hstore : fields.backingStore = none)
    (h : internalBacking env directory buf format fields bf bd = Run.ret r) :
    InternalShape env directory r := by
  unfold internalBacking at h
  cases hg : (fileTypeInfo format).getBackingStore with
  | none =>
    rw [hg] at h
    obtain ⟨h1, h2, h3, -, -⟩ := internalFeatures_backing _ _ _ _ _ _ _ h
    exact Or.inl ⟨h1.trans hraw, h3, h2.trans hstore⟩
  | some fn =>
    rw [hg] at h
    obtain ⟨store, -, hs⟩ := Run.bind_eq_ret _ _ _ h
    dsimp only at hs
    split at hs
    · cases hs; exact Or.inl ⟨hraw, rfl, hstore⟩
    split at hs
    · cases hs; exact Or.inl ⟨hraw, rfl, hstore⟩
    split at hs
    · rename_i arr harr
      split at hs
      · rename_i hfile
        split at hs
        · obtain ⟨h1, h2, h3, -, -⟩ := internalFeatures_backing _ _ _ _ _ _ _ hs
          exact Or.inr (Or.inl ⟨cstrOf arr, hfile, h1, h3, h2⟩)
        · obtain ⟨h1, h2, h3, -, -⟩ := internalFeatures_backing _ _ _ _ _ _ _ hs
          exact Or.inr (Or.inl ⟨cstrOf arr, hfile, h1, h3, h2⟩)
      · rename_i hfile
        obtain ⟨h1, h2, h3, -, -⟩ := internalFeatures_backing _ _ _ _ _ _ _ hs
        exact Or.inr (Or.inr ⟨cstrOf arr, by simpa using hfile, h1.trans hraw, h3, h2⟩)
    · obtain ⟨h1, h2, h3, -, -⟩ := internalFeatures_backing _ _ _ _ _ _ _ hs
      exact Or.inl ⟨h1.trans hraw, h3, h2⟩

theorem internalCrypt_shape (env : Env) (directory : Option CStr) (buf : Buf) (format : Int)
    (fields : MetaFields) (bf : Int) (bd : Option CStr) (r : InternalResult)
    (hraw : fields.backingStoreRaw = none) (hstore : fields.backingStore = none)
    (h : internalCrypt env directory buf format fields bf bd = Run.ret r) :
    InternalShape env directory r := by
  unfold internalCrypt at h
  split at h
  · obtain ⟨c, -, hc⟩ := Run.bind_eq_ret _ _ _ h
    dsimp only at hc
    split at hc
    · exact internalBacking_shape env directory buf format _ bf bd r (by exact hraw)
        (by exact hstore) hc
    · exact internalBacking_shape env directory buf format _ bf bd r hraw hstore hc
  · exact internalBacking_shape env directory buf format _ bf bd r hraw hstore h

/-- The backing fields after `virStorageFileGetMetadataInternal` on a fresh record. -/
theorem getMetadataInternal_shape (env : Env) (path canonPath : CStr)
    (directory : Option CStr) (buf : Buf) (format : Int) (bf : Int) (bd : Option CStr)
    (r : InternalResult)
    (h : virStorageFileGetMetadataInternal env path canonPath directory buf format
      MetaFields.zero bf bd = Run.ret r) :
    InternalShape env directory r := by
  unfold virStorageFileGetMetadataInternal at h
  dsimp only at h
  split at h <;>
  · obtain ⟨fmt, -, hf⟩ := Run.bind_eq_ret _ _ _ h
    split at hf
    · cases hf; exact Or.inl ⟨rfl, rfl, rfl⟩
    split at hf
    · cases hf; exact Or.inl ⟨rfl, rfl, rfl⟩
    split at hf
    · split at hf
      · cases hf; exact Or.inl ⟨rfl, rfl, rfl⟩
      · split at hf <;>
        · obtain ⟨cap, -, hc⟩ := Run.bind_eq_ret _ _ _ hf
          split at hc
          · cases hc; exact Or.inl ⟨rfl, rfl, rfl⟩
          · exact internalCrypt_shape env directory buf fmt _ bf bd r rfl rfl hc
    · exact internalCrypt_shape env directory buf fmt _ bf bd r rfl rfl hf

/-- The backing fields of a link after `virStorageFileGetMetadataFromFDInternal` on a
fresh record. -/
theorem fromFD_shape (env : Env) (path canonPath : CStr) (directory : Option CStr)
    (fd : OpenFile) (format : Int) (bd : Option CStr) (r : FromFDResult)
    (h : virStorageFileGetMetadataFromFDInternal env path canonPath directory fd format
      MetaFields.zero bd = Run.ret r) :
    LinkShape env directory r.fields := by
  unfold virStorageFileGetMetadataFromFDInternal at h
  dsimp only at h
  split at h
  · cases h; exact Or.inl ⟨rfl, rfl⟩
  split at h
  · cases h; exact Or.inl ⟨rfl, rfl⟩
  split at h
  · cases h; exact Or.inl ⟨rfl, rfl⟩
  split at h
  · cases h; exact Or.inl ⟨rfl, rfl⟩
  · rename_i buf hbuf
    obtain ⟨r0, hr0, hr⟩ := Run.bind_eq_ret _ _ _ h
    have hshape := getMetadataInternal_shape env path canonPath directory buf format _ bd r0 hr0
    cases hr
    rcases hshape with ⟨h1, h2, h3⟩ | ⟨b, hb, h1, h2, h3⟩ | ⟨b, hb, h1, h2, h3⟩
    · left
      rw [h2]
      dsimp only
      split_ifs <;> exact ⟨h1, h3⟩
    · right; left
      refine ⟨b, hb, ?_, ?_⟩
      · rw [h2]; dsimp only; split_ifs <;> exact h1
      · rw [h2]; dsimp only; split_ifs <;> exact h3
    · right; right
      refine ⟨b, hb, ?_, ?_⟩
      · rw [h2]; dsimp only; split_ifs <;> rfl
      · rw [h2]; dsimp only; split_ifs <;> exact h3

/-- C1 (witness): `/a` names `/b` and `/b` names `/a`. -/
theorem backing_cycle_is_absorbed_witness :
    virStorageFileGetMetadata cycleEnv 3 (ascii "/a") VIR_STORAGE_FILE_QCOW2 0 0 true =
      Run.ret (.node cycleResultA.fields
        (.node { cycleResultB.fields with backingStore := none } .NULL)) :=
  backing_cycle_is_absorbed cycleEnv 0 (ascii "/a") VIR_STORAGE_FILE_QCOW2 0 0 true
    (ascii "/a") (ascii "/b") (ascii "/b")
    ⟨some .reg, true, some (qcow2HeaderNaming (ascii "/b"))⟩
    ⟨some .reg, true, some (qcow2HeaderNaming (ascii "/a"))⟩ cycleResultA cycleResultB
    (by decide) (by decide) (by decide) (by decide) (by decide) (by decide) (by decide)
    (by decide) (by decide) (by decide) (by decide) (by decide) (by decide)

/-- C1 (counterexample): with `/a` naming `/b` and `/b` naming `/a` the resolver returns
a chain instead of failing, whether the top-level format is declared or probed and
whether probing of backing files is allowed or not. -/
theorem cycle_resolution_returns_chain :
    virStorageFileGetMetadata cycleEnv 3 (ascii "/a") VIR_STORAGE_FILE_QCOW2 0 0 true ≠
        Run.ret .NULL ∧
      virStorageFileGetMetadata cycleEnv 3 (ascii "/a") VIR_STORAGE_FILE_AUTO 0 0 true ≠
        Run.ret .NULL ∧
      virStorageFileGetMetadata cycleEnv 3 (ascii "/a") VIR_STORAGE_FILE_QCOW2 0 0 false ≠
        Run.ret .NULL := by
  decide

/-! ## The iteration bound of the extension scan -/

theorem readByte_cases (buf : Buf) (i : Nat) :
    (∃ v, readByte buf i = Run.ret v) ∨ readByte buf i = Run.oobRead i := by
  unfold readByte
  cases buf.get? i with
  | some b => exact Or.inl ⟨_, rfl⟩
  | none => exact Or.inr rfl

theorem readCStr_ne_fuel (buf : Buf) (off : Nat) (f : CStr → Run (Int × Int))
    (hf : ∀ s, f s ≠ Run.fuel) : (readCStr buf off >>= f) ≠ Run.fuel := by
  unfold readCStr
  split
  · exact hf _
  · intro h; cases h

theorem virReadBufInt32BE_short (buf : Buf) (off : Nat) (h : ¬ off + 4 ≤ buf.length) :
    ∃ i, virReadBufInt32BE buf off = Run.oobRead i := by
  unfold virReadBufInt32BE
  rcases readByte_cases buf off with ⟨v0, h0⟩ | h0
  · rw [h0, Run.ret_bind]
    rcases readByte_cases buf (off + 1) with ⟨v1, h1⟩ | h1
    · rw [h1, Run.ret_bind]
      rcases readByte_cases buf (off + 2) with ⟨v2, h2⟩ | h2
      · rw [h2, Run.ret_bind]
        rcases readByte_cases buf (off + 3) with ⟨v3, h3⟩ | h3
        · exfalso
          have hlt : off + 3 < buf.length := by
            by_contra hc
            unfold readByte at h3
            rw [List.get?_eq_none.mpr (by omega)] at h3
            cases h3
          omega
        · rw [h3]; exact ⟨_, rfl⟩
      · rw [h2]; exact ⟨_, rfl⟩
    · rw [h1]; exact ⟨_, rfl⟩
  · rw [h0]; exact ⟨_, rfl⟩

/-- The loop of `qcow2GetBackingStoreFormat` never uses up its iterations: each
iteration that goes on has moved `offset` forward by at least eight bytes inside the
buffer. -/
theorem scanLoop_ne_fuel (buf : Buf) (e : Nat) (hM : buf.length < 2 ^ 64) (fuel : Nat) :
    ∀ (offset : Nat) (format : Int), (offset ≤ buf.length → buf.length < offset + 8 * fuel) →
      0 < fuel → qcow2GetBackingStoreFormatLoop buf e fuel offset format ≠ Run.fuel := by
  induction fuel with
  | zero => intro offset format _ h; omega
  | succ fuel ih =>
    intro offset format hfuel _
    by_cases hc : offset < (buf.length + SIZE_MOD - 8) % SIZE_MOD ∧
        offset < (e + SIZE_MOD - 8) % SIZE_MOD
    · by_cases hr : offset + 8 ≤ buf.length
      · have hnext : ∀ (o' : Nat) (fmt : Int), ¬ o' < offset + 8 → ¬ o' > buf.length →
            qcow2GetBackingStoreFormatLoop buf e fuel o' fmt ≠ Run.fuel := by
          intro o' fmt h1 h2
          exact ih o' fmt (fun _ => by omega) (by omega)
        rw [scanLoop_step buf e fuel offset format hc hr hM]
        split_ifs with c1 c2 c3 c4
        · intro h; cases h
        · intro h; cases h
        · intro h; cases h
        · rcases readByte_cases buf
            ((offset + 8 + beVal (field buf (offset + 4) 4)) % SIZE_MOD) with ⟨v, hv⟩ | hv
          · rw [hv, Run.ret_bind]
            split_ifs with c5
            · exact hnext _ _ c1 c2
            · apply readCStr_ne_fuel
              intro s
              split_ifs
              · intro h; cases h
              · exact hnext _ _ c1 c2
          · rw [hv]; intro h; cases h
        · exact hnext _ _ c1 c2
      · rw [qcow2GetBackingStoreFormatLoop, if_pos hc]
        by_cases h4 : offset + 4 ≤ buf.length
        · rw [virReadBufInt32BE_eq buf offset h4, Run.ret_bind]
          obtain ⟨i, hi⟩ := virReadBufInt32BE_short buf (offset + 4) (by omega)
          rw [hi]; intro h; cases h
        · obtain ⟨i, hi⟩ := virReadBufInt32BE_short buf offset h4
          rw [hi]; intro h; cases h
    · rw [scanLoop_exit buf e fuel offset format hc]
      intro h; cases h

/-- The bound on the iterations of `qcow2GetBackingStoreFormat` is never reached. -/
theorem qcow2GetBackingStoreFormat_ne_fuel (format : Int) (buf : Buf) (s e : Nat)
    (hM : buf.length < 2 ^ 64) : qcow2GetBackingStoreFormat format buf s e ≠ Run.fuel := by
  unfold qcow2GetBackingStoreFormat
  exact scanLoop_ne_fuel buf e hM _ s format (fun _ => by omega) (by omega)

/-! ## Extractors that stay inside the buffer -/

/-- The COW extractor reads inside the buffer only. -/
theorem cowGetBackingStore_in_bounds (format : Int) (buf : Buf) :
    ∃ r, cowGetBackingStore format buf = Run.ret r := by
  unfold cowGetBackingStore
  simp only [COW_FILENAME_MAXLEN]
  split
  · exact ⟨_, rfl⟩
  · rename_i hlen
    rw [readByte_eq buf (4 + 4) (by omega), Run.ret_bind]
    split
    · exact ⟨_, rfl⟩
    · unfold readCStrN
      dsimp only
      have hl : ((List.take 1024 (List.drop (4 + 4) buf)).takeWhile
          (fun b => b ≠ 0)).length ≤ 1024 := by
        refine le_trans (List.takeWhile_sublist _).length_le ?_
        simp
      rw [if_pos (by omega)]
      exact ⟨_, rfl⟩

theorem qcowX_plain_in_bounds (buf : Buf) :
    ∃ r, qcowXGetBackingStore none buf false = Run.ret r := by
  unfold qcowXGetBackingStore
  simp only [QCOWX_HDR_BACKING_FILE_OFFSET, QCOWX_HDR_VERSION, QCOWX_HDR_BACKING_FILE_SIZE]
  split
  · exact ⟨_, rfl⟩
  · rename_i hlen
    rw [virReadBufInt64BE_eq buf (4 + 4) (by omega), Run.ret_bind]
    split
    · exact ⟨_, rfl⟩
    · rw [virReadBufInt32BE_eq buf (4 + 4 + 8) (by omega), Run.ret_bind]
      split
      · exact ⟨_, rfl⟩
      split
      · exact ⟨_, rfl⟩
      split
      · exact ⟨_, rfl⟩
      · rename_i ho hn0 hfit hn1
        have hn : beVal (field buf (4 + 4 + 8) 4) < 4294967296 :=
          lt_of_lt_of_le (beVal_field_lt buf (4 + 4 + 8) 4) (by norm_num)
        have hfit' : beVal (field buf (4 + 4) 8) + beVal (field buf (4 + 4 + 8) 4) ≤
            buf.length := by
          simp only [SIZE_MOD] at hfit
          omega
        rw [readBytes_eq buf _ _ hfit', Run.ret_bind]
        exact ⟨_, rfl⟩

/-- The QCOW extractor reads inside the buffer only. -/
theorem qcow1GetBackingStore_in_bounds (format : Int) (buf : Buf) :
    ∃ r, qcow1GetBackingStore format buf = Run.ret r := by
  by_cases hlen : buf.length < 20
  · unfold qcow1GetBackingStore
    rw [qcowX_invalid none buf false (Or.inl hlen)]
    exact ⟨_, rfl⟩
  · obtain ⟨r, hr⟩ := qcowX_plain_in_bounds buf
    unfold qcow1GetBackingStore
    rw [hr, Run.ret_bind]
    split
    · rw [readByte_eq buf 0 (by omega), Run.ret_bind]
      split <;> exact ⟨_, rfl⟩
    · exact ⟨_, rfl⟩

/-- The QED extractor reads inside the buffer only. -/
theorem qedGetBackingStore_in_bounds (format : Int) (buf : Buf) :
    ∃ r, qedGetBackingStore format buf = Run.ret r := by
  unfold qedGetBackingStore
  simp only [QED_HDR_BACKING_FILE_SIZE, QED_HDR_BACKING_FILE_OFFSET, QED_HDR_IMAGE_SIZE,
    QED_HDR_FEATURES_OFFSET]
  split
  · exact ⟨_, rfl⟩
  · rename_i hlen
    rw [virReadBufInt64LE_eq buf (4 + 4 + 4 + 4) (by omega), Run.ret_bind]
    split
    · exact ⟨_, rfl⟩
    split
    · exact ⟨_, rfl⟩
    · rename_i hflag hlen2
      rw [virReadBufInt32LE_eq buf (4 + 4 + 4 + 4 + 8 + 8 + 8 + 8 + 8) (by omega),
        Run.ret_bind]
      split
      · exact ⟨_, rfl⟩
      · rw [virReadBufInt32LE_eq buf (4 + 4 + 4 + 4 + 8 + 8 + 8 + 8 + 8 + 4) (by omega),
          Run.ret_bind]
        split
        · exact ⟨_, rfl⟩
        split
        · exact ⟨_, rfl⟩
        · rename_i ho hn0 hfit
          have hfit' : leVal (field buf (4 + 4 + 4 + 4 + 8 + 8 + 8 + 8 + 8) 4) +
              leVal (field buf (4 + 4 + 4 + 4 + 8 + 8 + 8 + 8 + 8 + 4) 4) ≤ buf.length := by
            have h1 := leVal_lt (field buf (4 + 4 + 4 + 4 + 8 + 8 + 8 + 8 + 8) 4)
            have h2 := leVal_lt (field buf (4 + 4 + 4 + 4 + 8 + 8 + 8 + 8 + 8 + 4) 4)
            have l1 : (field buf (4 + 4 + 4 + 4 + 8 + 8 + 8 + 8 + 8) 4).length ≤ 4 := by
              simp [field]
            have l2 : (field buf (4 + 4 + 4 + 4 + 8 + 8 + 8 + 8 + 8 + 4) 4).length ≤ 4 := by
              simp [field]
            have p1 : leVal (field buf (4 + 4 + 4 + 4 + 8 + 8 + 8 + 8 + 8) 4) < 4294967296 :=
              lt_of_lt_of_le h1
                (le_trans (Nat.pow_le_pow_right (by norm_num) l1) (by norm_num))
            have p2 : leVal (field buf (4 + 4 + 4 + 4 + 8 + 8 + 8 + 8 + 8 + 4) 4) <
                4294967296 :=
              lt_of_lt_of_le h2
                (le_trans (Nat.pow_le_pow_right (by norm_num) l2) (by norm_num))
            simp only [SIZE_MOD] at hfit
            omega
          rw [readBytes_eq buf _ _ hfit', Run.ret_bind]
          split <;> exact ⟨_, rfl⟩

/-- The VMDK extractor reads inside the buffer only; on a buffer of 512 bytes plus
`VIR_STORAGE_MAX_HEADER` or more it writes its terminator past its own copy. -/
theorem vmdk4GetBackingStore_in_bounds (format : Int) (buf : Buf) :
    (∃ r, vmdk4GetBackingStore format buf = Run.ret r) ∨
      (∃ i, vmdk4GetBackingStore format buf = Run.oobWrite i) := by
  unfold vmdk4GetBackingStore
  dsimp only
  split
  · exact Or.inl ⟨_, rfl⟩
  · rename_i hlen
    have hfit : 0x200 + (if buf.length - 0x200 > VIR_STORAGE_MAX_HEADER then
        VIR_STORAGE_MAX_HEADER else buf.length - 0x200) ≤ buf.length := by
      split <;> omega
    rw [readBytes_eq buf _ _ hfit, Run.ret_bind]
    generalize (if buf.length - 0x200 > VIR_STORAGE_MAX_HEADER then
        VIR_STORAGE_MAX_HEADER else buf.length - 0x200) = len
    by_cases hw : len ≥ VIR_STORAGE_MAX_HEADER
    · rw [if_pos hw]; exact Or.inr ⟨_, rfl⟩
    · rw [if_neg hw]
      split
      · exact Or.inl ⟨_, rfl⟩
      · split
        · exact Or.inl ⟨_, rfl⟩
        · split <;> exact Or.inl ⟨_, rfl⟩

/-! ## Capacity and the unknown backing format (C11, C12, C13) -/

/-- The `getFeatures` tail of the metadata extractor keeps the fields set before it. -/
theorem internalFeatures_frame (buf : Buf) (format : Int) (fields : MetaFields)
    (out : Option CStr) (bf : Int) (bd : Option CStr) (r : InternalResult)
    (h : internalFeatures buf format fields out bf bd = Run.ret r) :
    r.fields.path = fields.path ∧ r.fields.canonPath = fields.canonPath ∧
      r.fields.type = fields.type ∧ r.fields.format = fields.format ∧
      r.fields.capacity = fields.capacity ∧ r.fields.encryption = fields.encryption := by
  unfold internalFeatures at h
  have hcompat : ∀ fl : MetaFields,
      (if format = VIR_STORAGE_FILE_QCOW2 ∧ fl.features.isSome = true then
        (pure ⟨0, { fl with compat := some (ascii "1.1") }, out, bf, bd⟩ : Run InternalResult)
      else pure ⟨0, fl, out, bf, bd⟩) = Run.ret r →
      r.fields.path = fl.path ∧ r.fields.canonPath = fl.canonPath ∧
      r.fields.type = fl.type ∧ r.fields.format = fl.format ∧
      r.fields.capacity = fl.capacity ∧ r.fields.encryption = fl.encryption := by
    intro fl hfl
    split at hfl
    · cases hfl; exact ⟨rfl, rfl, rfl, rfl, rfl, rfl⟩
    · cases hfl; exact ⟨rfl, rfl, rfl, rfl, rfl, rfl⟩
  cases hg : (fileTypeInfo format).getFeatures with
  | none =>
    rw [hg] at h
    dsimp only at h
    exact hcompat fields h
  | some fn =>
    rw [hg] at h
    obtain ⟨a, -, ha⟩ := Run.bind_eq_ret _ _ _ h
    dsimp only at ha
    split at ha
    · cases ha; exact ⟨rfl, rfl, rfl, rfl, rfl, rfl⟩
    · exact hcompat { fields with features := a.2 } ha

/-- The `getBackingStore` tail of the metadata extractor keeps the fields set before
it. -/
theorem internalBacking_frame (env : Env) (directory : Option CStr) (buf : Buf) (format : Int)
    (fields : MetaFields) (bf : Int) (bd : Option CStr) (r : InternalResult)
    (h : internalBacking env directory buf format fields bf bd = Run.ret r) :
    r.fields.path = fields.path ∧ r.fields.canonPath = fields.canonPath ∧
      r.fields.type = fields.type ∧ r.fields.format = fields.format ∧
      r.fields.capacity = fields.capacity ∧ r.fields.encryption = fields.encryption := by
  unfold internalBacking at h
  cases hg : (fileTypeInfo format).getBackingStore with
  | none =>
    rw [hg] at h
    exact internalFeatures_frame _ _ _ _ _ _ _ h
  | some fn =>
    rw [hg] at h
    obtain ⟨store, -, hs⟩ := Run.bind_eq_ret _ _ _ h
    dsimp only at hs
    split at hs
    · cases hs; exact ⟨rfl, rfl, rfl, rfl, rfl, rfl⟩
    split at hs
    · cases hs; exact ⟨rfl, rfl, rfl, rfl, rfl, rfl⟩
    split at hs
    · split at hs
      · split at hs
        · have := internalFeatures_frame _ _ _ _ _ _ _ hs; exact this
        · have := internalFeatures_frame _ _ _ _ _ _ _ hs; exact this
      · have := internalFeatures_frame _ _ _ _ _ _ _ hs; exact this
    · have := internalFeatures_frame _ _ _ _ _ _ _ hs; exact this

/-- The tail of the metadata extractor from the encryption read on keeps path, type,
format and capacity. -/
theorem internalCrypt_frame (env : Env) (directory : Option CStr) (buf : Buf) (format : Int)
    (fields : MetaFields) (bf : Int) (bd : Option CStr) (r : InternalResult)
    (h : internalCrypt env directory buf format fields bf bd = Run.ret r) :
    r.fields.path = fields.path ∧ r.fields.canonPath = fields.canonPath ∧
      r.fields.type = fields.type ∧ r.fields.format = fields.format ∧
      r.fields.capacity = fields.capacity := by
  unfold internalCrypt at h
  split at h
  · obtain ⟨c, -, hc⟩ := Run.bind_eq_ret _ _ _ h
    dsimp only at hc
    split at hc
    · obtain ⟨h1, h2, h3, h4, h5, -⟩ := internalBacking_frame _ _ _ _ _ _ _ _ hc
      exact ⟨h1, h2, h3, h4, h5⟩
    · obtain ⟨h1, h2, h3, h4, h5, -⟩ := internalBacking_frame _ _ _ _ _ _ _ _ hc
      exact ⟨h1, h2, h3, h4, h5⟩
  · obtain ⟨h1, h2, h3, h4, h5, -⟩ := internalBacking_frame _ _ _ _ _ _ _ _ h
    exact ⟨h1, h2, h3, h4, h5⟩

/-- The rows of the table that have magic bytes and a capacity field. -/
theorem capacity_rows (F : Int)
    (hF : F ∈ [VIR_STORAGE_FILE_VPC, VIR_STORAGE_FILE_VDI, VIR_STORAGE_FILE_COW,
      VIR_STORAGE_FILE_QCOW, VIR_STORAGE_FILE_QCOW2, VIR_STORAGE_FILE_QED,
      VIR_STORAGE_FILE_VMDK]) :
    F ≠ VIR_STORAGE_FILE_AUTO ∧ ¬ (F ≤ VIR_STORAGE_FILE_NONE ∨ F ≥ VIR_STORAGE_FILE_LAST) ∧
      (fileTypeInfo F).magic.isNone = false ∧ (fileTypeInfo F).sizeOffset ≠ -1 ∧
      0 ≤ (fileTypeInfo F).sizeOffset ∧ 0 < (fileTypeInfo F).sizeMultiplier := by
  simp only [List.mem_cons, List.mem_singleton, List.not_mem_nil, or_false] at hF
  rcases hF with h | h | h | h | h | h | h <;> subst h <;> decide

/-- The capacity read of the metadata extractor on a header that holds the field. -/
theorem capacity_read (F : Int) (buf : Buf)
    (hlen : (fileTypeInfo F).sizeOffset.toNat + 8 ≤ buf.length) :
    (if (fileTypeInfo F).endian = LV_LITTLE_ENDIAN then
        virReadBufInt64LE buf (fileTypeInfo F).sizeOffset.toNat
      else virReadBufInt64BE buf (fileTypeInfo F).sizeOffset.toNat) =
      Run.ret (specCapacityField F buf) := by
  unfold specCapacityField
  split
  · exact virReadBufInt64LE_eq buf _ hlen
  · exact virReadBufInt64BE_eq buf _ hlen

/-- The metadata extractor with a declared format that has magic bytes and a capacity
field, on a header that holds the field: up to the overflow test. -/
theorem internal_declared_capacity (env : Env) (path canonPath : CStr)
    (directory : Option CStr) (buf : Buf) (F : Int) (bf : Int) (bd : Option CStr)
    (hF : F ≠ VIR_STORAGE_FILE_AUTO)
    (hrange : ¬ (F ≤ VIR_STORAGE_FILE_NONE ∨ F ≥ VIR_STORAGE_FILE_LAST))
    (hmagic : (fileTypeInfo F).magic.isNone = false)
    (hso : (fileTypeInfo F).sizeOffset ≠ -1) (h0 : 0 ≤ (fileTypeInfo F).sizeOffset)
    (hlen : (fileTypeInfo F).sizeOffset.toNat + 8 ≤ buf.length) :
    virStorageFileGetMetadataInternal env path canonPath directory buf F MetaFields.zero bf bd =
      if specCapacityField F buf > ULLONG_MAX / (fileTypeInfo F).sizeMultiplier.toNat then
        Run.ret ⟨0, { MetaFields.zero with path := some path, canonPath := some canonPath,
                                           relDir := directory, format := F,
                                           capacity := specCapacityField F buf },
          none, bf, bd⟩
      else
        internalCrypt env directory buf F
          { MetaFields.zero with path := some path, canonPath := some canonPath,
                                 relDir := directory, format := F,
                                 capacity := specCapacityField F buf *
                                   (fileTypeInfo F).sizeMultiplier.toNat }
          bf bd := by
  unfold virStorageFileGetMetadataInternal
  dsimp only
  rw [if_neg hF, Run.pure_bind, if_neg hrange]
  simp only [hmagic, Bool.false_eq_true, if_false]
  have hnot : ¬ ((fileTypeInfo F).sizeOffset + 8 > (buf.length : Int)) := by omega
  rw [if_pos hso, if_neg hnot]
  by_cases he : (fileTypeInfo F).endian = LV_LITTLE_ENDIAN
  · have hc : specCapacityField F buf = leVal (field buf (fileTypeInfo F).sizeOffset.toNat 8) :=
      if_pos he
    rw [if_pos he, virReadBufInt64LE_eq buf _ hlen, Run.ret_bind, hc]
    rfl
  · have hc : specCapacityField F buf = beVal (field buf (fileTypeInfo F).sizeOffset.toNat 8) :=
      if_neg he
    rw [if_neg he, virReadBufInt64BE_eq buf _ hlen, Run.ret_bind, hc]
    rfl

/-- The QCOW2 extractor on a version-2 header with a non-empty in-range backing path
whose extension scan fails: INVALID, with the path already copied. -/
theorem qcow2_v2_of_scan_fail (format : Int) (buf : Buf)
    (hlen : 20 ≤ buf.length) (hsz : buf.length < 2 ^ 64)
    (hn0 : 0 < beVal (field buf 16 4)) (hn1 : beVal (field buf 16 4) + 1 < 2 ^ 32)
    (hfit : beVal (field buf 8 8) + beVal (field buf 16 4) ≤ buf.length)
    (hver : beVal (field buf 4 4) = 2) (f : Int)
    (hscan : qcow2GetBackingStoreFormat VIR_STORAGE_FILE_AUTO buf QCOW2_HDR_TOTAL_SIZE
      (beVal (field buf 8 8)) = Run.ret (-1, f)) :
    qcow2GetBackingStore format buf = Run.ret ⟨BACKING_STORE_INVALID,
      some (field buf (beVal (field buf 8 8)) (beVal (field buf 16 4)) ++ [0]), f⟩ := by
  unfold qcow2GetBackingStore
  rw [qcowX_path (some format) buf true hlen hsz hn0 hn1 hfit]
  simp only [Option.map_some']
  rw [virReadBufInt32BE_eq buf QCOWX_HDR_VERSION (by simp only [QCOWX_HDR_VERSION]; omega)]
  simp only [Run.ret_bind]
  have hv : beVal (field buf QCOWX_HDR_VERSION 4) = 2 := hver
  rw [hv]
  have h2 : toInt32 2 = 2 := by decide
  rw [if_pos h2, Run.pure_bind, hscan]
  rfl

/-- The extension scan on a header whose first record, at offset 72, is a
backing-format extension with a NUL behind its payload and a name that
`virStorageFileFormatTypeFromString` does not map to a format above NONE: it fails and
leaves the unresolved value in `*format`. -/
theorem scan_unknown_first_record (buf : Buf) (o : Nat) (hM : buf.length < 2 ^ 64)
    (hoM : o < 2 ^ 64) (ho : 80 < o)
    (htag : beVal (field buf 72 4) = QCOW2_HDR_EXTENSION_BACKING_FORMAT)
    (hfit : 80 + beVal (field buf 76 4) < buf.length)
    (hnul : field buf (80 + beVal (field buf 76 4)) 1 = [0])
    (hname : virStorageFileFormatTypeFromString
      ((buf.drop 80).takeWhile (fun b => b ≠ 0)) ≤ VIR_STORAGE_FILE_NONE) :
    qcow2GetBackingStoreFormat VIR_STORAGE_FILE_AUTO buf QCOW2_HDR_TOTAL_SIZE o =
      Run.ret (-1, virStorageFileFormatTypeFromString
        ((buf.drop 80).takeWhile (fun b => b ≠ 0))) := by
  have hL : beVal (field buf 76 4) < 4294967296 :=
    lt_of_lt_of_le (beVal_field_lt buf 76 4) (by norm_num)
  have hsub1 := sizeSub8 buf.length (by omega) hM
  have hsub2 := sizeSub8 o (by omega) hoM
  have e72 : QCOW2_HDR_TOTAL_SIZE = 72 := rfl
  have hmod : (72 + 8 + beVal (field buf (72 + 4) 4)) % SIZE_MOD =
      80 + beVal (field buf 76 4) := by
    show (72 + 8 + beVal (field buf 76 4)) % SIZE_MOD = _
    rw [Nat.mod_eq_of_lt (by simp only [SIZE_MOD]; omega)]
  unfold qcow2GetBackingStoreFormat
  rw [e72, scanLoop_step buf o buf.length 72 _ (by rw [hsub1, hsub2]; omega) (by omega) hM]
  rw [hmod, htag, if_neg (by omega), if_neg (by omega), if_neg (by decide), if_pos rfl,
    readByte_of_field buf _ 0 hnul, Run.ret_bind, if_neg (by decide)]
  have hmem : (0 : Byte) ∈ buf.drop (72 + 8) := by
    rw [drop_eq_field_append buf (72 + 8) (beVal (field buf 76 4)),
      drop_eq_field_append buf (72 + 8 + beVal (field buf 76 4)) 1]
    have e : 72 + 8 + beVal (field buf 76 4) = 80 + beVal (field buf 76 4) := by omega
    rw [e, hnul]
    simp
  unfold readCStr
  rw [if_pos hmem, Run.ret_bind, if_pos hname]

/-- C11 (amended): for every QCOW2 version-2 header of at least 36 bytes with a
non-empty in-range backing path on which the scan of the header extensions fails (it
returns -1, which it does when it meets a backing-format extension whose name
`virStorageFileFormatTypeFromString` does not map to a format above NONE), the metadata
extraction with declared format QCOW2 does not fail: it returns 0 with the format set
to QCOW2, the capacity read from offset 24, and null `backingStoreRaw` and
`backingStore`; nothing is handed back through the `backingStore` pointer, and
`*backingFormat` holds the value the scan left. -/
theorem unknown_backing_format_is_absorbed (env : Env) (path canonPath : CStr)
    (directory : Option CStr) (buf : Buf) (bf : Int) (bd : Option CStr) (f : Int)
    (hlen : 36 ≤ buf.length) (hsz : buf.length < 2 ^ 64)
    (hver : beVal (field buf 4 4) = 2)
    (hn0 : 0 < beVal (field buf 16 4)) (hn1 : beVal (field buf 16 4) + 1 < 2 ^ 32)
    (hfit : beVal (field buf 8 8) + beVal (field buf 16 4) ≤ buf.length)
    (hscan : qcow2GetBackingStoreFormat VIR_STORAGE_FILE_AUTO buf QCOW2_HDR_TOTAL_SIZE
      (beVal (field buf 8 8)) = Run.ret (-1, f)) :
    ∃ r, virStorageFileGetMetadataInternal env path canonPath directory buf
        VIR_STORAGE_FILE_QCOW2 MetaFields.zero bf bd = Run.ret r ∧
      r.ret = 0 ∧ r.fields.format = VIR_STORAGE_FILE_QCOW2 ∧
      r.fields.capacity = beVal (field buf 24 8) ∧
      r.fields.backingStoreRaw = none ∧ r.fields.backingStore = none ∧
      r.backingStore = none ∧ r.backingFormat = f := by
  have hcapv : specCapacityField VIR_STORAGE_FILE_QCOW2 buf = beVal (field buf 24 8) := rfl
  have hmult : ((fileTypeInfo VIR_STORAGE_FILE_QCOW2).sizeMultiplier.toNat) = 1 := rfl
  have hcap := beVal_field_lt buf 24 8
  rw [internal_declared_capacity env path canonPath directory buf VIR_STORAGE_FILE_QCOW2 bf bd
    (by decide) (by decide) (by decide) (by decide) (by decide)
    (by show 24 + 8 ≤ buf.length; omega)]
  rw [hcapv, hmult, if_neg (by simp only [ULLONG_MAX]; norm_num at hcap ⊢; omega)]
  unfold internalCrypt
  have hco : (fileTypeInfo VIR_STORAGE_FILE_QCOW2).qcowCryptOffset = 32 := rfl
  rw [hco, if_pos (by decide)]
  have h32 : (32 : Int).toNat = 32 := rfl
  rw [h32, virReadBufInt32BE_eq buf 32 (by omega), Run.ret_bind]
  have hback : ∀ fields : MetaFields,
      internalBacking env directory buf VIR_STORAGE_FILE_QCOW2 fields bf bd =
        Run.ret ⟨0, fields, none, f, bd⟩ := by
    intro fields
    unfold internalBacking
    have hg : (fileTypeInfo VIR_STORAGE_FILE_QCOW2).getBackingStore =
        some .qcow2GetBackingStore := rfl
    rw [hg]
    show (qcow2GetBackingStore bf buf >>= _) = _
    rw [qcow2_v2_of_scan_fail bf buf (by omega) hsz hn0 hn1 hfit hver f hscan, Run.ret_bind]
    rfl
  dsimp only
  rw [hback]
  refine ⟨_, rfl, rfl, ?_, ?_, ?_, ?_, rfl, rfl⟩
  all_goals (dsimp only; split_ifs <;> first | rfl | simp)

/-- C11 (witness): the header whose backing-format extension announces "foo". -/
theorem unknown_backing_format_is_absorbed_witness :
    ∃ r, virStorageFileGetMetadataInternal brokenEnv (ascii "/a") (ascii "/a") none
        qcow2UnknownFormatHeader VIR_STORAGE_FILE_QCOW2 MetaFields.zero VIR_STORAGE_FILE_NONE
        none = Run.ret r ∧
      r.ret = 0 ∧ r.fields.format = VIR_STORAGE_FILE_QCOW2 ∧
      r.fields.capacity = beVal (field qcow2UnknownFormatHeader 24 8) ∧
      r.fields.backingStoreRaw = none ∧ r.fields.backingStore = none ∧
      r.backingStore = none ∧ r.backingFormat = VIR_STORAGE_FILE_AUTO :=
  unknown_backing_format_is_absorbed brokenEnv (ascii "/a") (ascii "/a") none
    qcow2UnknownFormatHeader VIR_STORAGE_FILE_NONE none VIR_STORAGE_FILE_AUTO
    (by decide) (by show (86 : Nat) < 2 ^ 64; norm_num) (by decide) (by decide) (by decide)
    (by decide) (by decide)

/-- C11 (counterexample): a QCOW2 version-2 header with the in-range backing path `/b`
whose backing-format extension at offset 72 names "foo", which is no format name: the
metadata extraction with declared format QCOW2 returns 0, not an error, and hands back
a record without backing file. -/
theorem unknown_backing_format_extraction_succeeds :
    beVal (field qcow2UnknownFormatHeader 4 4) = 2 ∧
      field qcow2UnknownFormatHeader 72 12 =
        [0xE2, 0x79, 0x2A, 0xCA] ++ [0, 0, 0, 3] ++ ascii "foo" ++ [0] ∧
      virStorageFileFormatTypeFromString (ascii "foo") = -1 ∧
      virStorageFileGetMetadataInternal brokenEnv (ascii "/a") (ascii "/a") none
        qcow2UnknownFormatHeader VIR_STORAGE_FILE_QCOW2 MetaFields.zero VIR_STORAGE_FILE_NONE
        none = Run.ret ⟨0, { MetaFields.zero with path := some (ascii "/a"),
                                                  canonPath := some (ascii "/a"),
                                                  format := VIR_STORAGE_FILE_QCOW2 },
          none, -1, none⟩ := by
  decide

/-- C12 (amended): for every format with magic bytes and a capacity field (VPC, VDI,
COW, QCOW, QCOW2, QED, VMDK), every header that holds the whole field, and the value v
the field encodes in the format's endianness: if v times the format's multiplier fits
in 64 bits, every metadata extraction with that declared format that returns records
the capacity v times the multiplier. -/
theorem capacity_round_trip (env : Env) (path canonPath : CStr) (directory : Option CStr)
    (buf : Buf) (F : Int) (bf : Int) (bd : Option CStr) (r : InternalResult)
    (hF : F ∈ [VIR_STORAGE_FILE_VPC, VIR_STORAGE_FILE_VDI, VIR_STORAGE_FILE_COW,
      VIR_STORAGE_FILE_QCOW, VIR_STORAGE_FILE_QCOW2, VIR_STORAGE_FILE_QED,
      VIR_STORAGE_FILE_VMDK])
    (hlen : (fileTypeInfo F).sizeOffset.toNat + 8 ≤ buf.length)
    (hfit : specCapacityField F buf * (fileTypeInfo F).sizeMultiplier.toNat < 2 ^ 64)
    (h : virStorageFileGetMetadataInternal env path canonPath directory buf F MetaFields.zero
      bf bd = Run.ret r) :
    r.fields.capacity = specCapacityField F buf * (fileTypeInfo F).sizeMultiplier.toNat := by
  obtain ⟨h1, h2, h3, h4, h5, h6⟩ := capacity_rows F hF
  rw [internal_declared_capacity env path canonPath directory buf F bf bd h1 h2 h3 h4 h5 hlen]
    at h
  have hm : 0 < (fileTypeInfo F).sizeMultiplier.toNat := by omega
  have hle : specCapacityField F buf ≤ ULLONG_MAX / (fileTypeInfo F).sizeMultiplier.toNat := by
    rw [Nat.le_div_iff_mul_le hm]
    simp only [ULLONG_MAX]
    omega
  rw [if_neg (by omega)] at h
  exact (internalCrypt_frame _ _ _ _ _ _ _ _ h).2.2.2.2

/-- C12 (witness): a VMDK header of two sectors is recorded as 1024 bytes. -/
theorem capacity_round_trip_witness :
    virStorageFileGetMetadataInternal brokenEnv (ascii "/a") (ascii "/a") none
        (vmdkHeaderSectors [2, 0, 0, 0, 0, 0, 0, 0]) VIR_STORAGE_FILE_VMDK MetaFields.zero
        VIR_STORAGE_FILE_NONE none = Run.ret vmdkTwoSectorsResult ∧
      vmdkTwoSectorsResult.fields.capacity = 2 * 512 :=
  ⟨by decide,
    capacity_round_trip brokenEnv (ascii "/a") (ascii "/a") none
      (vmdkHeaderSectors [2, 0, 0, 0, 0, 0, 0, 0]) VIR_STORAGE_FILE_VMDK VIR_STORAGE_FILE_NONE
      none vmdkTwoSectorsResult (by decide) (by decide) (by decide) (by decide)⟩

/-- C12 (counterexample): a 20-byte VMDK header whose capacity field encodes 2^55
sectors: the extraction with declared format VMDK succeeds (returns 0) and records the
capacity 2^55, which is not 2^55 times the multiplier 512. -/
theorem vmdk_capacity_field_too_large :
    specCapacityField VIR_STORAGE_FILE_VMDK (vmdkHeaderSectors [0, 0, 0, 0, 0, 0, 0x80, 0]) =
        2 ^ 55 ∧
      (fileTypeInfo VIR_STORAGE_FILE_VMDK).sizeMultiplier = 512 ∧
      virStorageFileGetMetadataInternal brokenEnv (ascii "/a") (ascii "/a") none
        (vmdkHeaderSectors [0, 0, 0, 0, 0, 0, 0x80, 0]) VIR_STORAGE_FILE_VMDK MetaFields.zero
        VIR_STORAGE_FILE_NONE none =
        Run.ret ⟨0, { MetaFields.zero with path := some (ascii "/a"),
                                           canonPath := some (ascii "/a"),
                                           format := VIR_STORAGE_FILE_VMDK,
                                           capacity := 2 ^ 55 },
          none, VIR_STORAGE_FILE_NONE, none⟩ := by
  decide

/-- When the capacity field exceeds `ULLONG_MAX` divided by the multiplier, the
metadata extractor returns 0 at once and `capacity` keeps the value of the field. -/
theorem capacity_overflow_keeps_field (env : Env) (path canonPath : CStr)
    (directory : Option CStr) (buf : Buf) (F : Int) (bf : Int) (bd : Option CStr)
    (hF : F ∈ [VIR_STORAGE_FILE_VPC, VIR_STORAGE_FILE_VDI, VIR_STORAGE_FILE_COW,
      VIR_STORAGE_FILE_QCOW, VIR_STORAGE_FILE_QCOW2, VIR_STORAGE_FILE_QED,
      VIR_STORAGE_FILE_VMDK])
    (hlen : (fileTypeInfo F).sizeOffset.toNat + 8 ≤ buf.length)
    (hover : specCapacityField F buf > ULLONG_MAX / (fileTypeInfo F).sizeMultiplier.toNat) :
    virStorageFileGetMetadataInternal env path canonPath directory buf F MetaFields.zero bf bd =
      Run.ret ⟨0, { MetaFields.zero with path := some path, canonPath := some canonPath,
                                         relDir := directory, format := F,
                                         capacity := specCapacityField F buf },
        none, bf, bd⟩ := by
  obtain ⟨h1, h2, h3, h4, h5, -⟩ := capacity_rows F hF
  rw [internal_declared_capacity env path canonPath directory buf F bf bd h1 h2 h3 h4 h5 hlen,
    if_pos hover]

/-- C13 (the code at the failing input): on the 20-byte VMDK header whose capacity
field is all ones, the extraction with declared format VMDK returns 0 and leaves
`capacity` at 2^64 - 1, the unscaled value of the field: the field is stored in
`meta->capacity` before the overflow test, and the test leaves the function without
resetting it.  The recorded capacity is neither 0 nor the field times 512. -/
theorem vmdk_capacity_overflow_keeps_field_value :
    specCapacityField VIR_STORAGE_FILE_VMDK
        (vmdkHeaderSectors [0xff, 0xff, 0xff, 0xff, 0xff, 0xff, 0xff, 0xff]) = 2 ^ 64 - 1 ∧
      (fileTypeInfo VIR_STORAGE_FILE_VMDK).sizeMultiplier = 512 ∧
      virStorageFileGetMetadataInternal brokenEnv (ascii "/a") (ascii "/a") none
        (vmdkHeaderSectors [0xff, 0xff, 0xff, 0xff, 0xff, 0xff, 0xff, 0xff])
        VIR_STORAGE_FILE_VMDK MetaFields.zero VIR_STORAGE_FILE_NONE none =
        Run.ret ⟨0, { MetaFields.zero with path := some (ascii "/a"),
                                           canonPath := some (ascii "/a"),
                                           format := VIR_STORAGE_FILE_VMDK,
                                           capacity := 2 ^ 64 - 1 },
          none, VIR_STORAGE_FILE_NONE, none⟩ := by
  have hv : specCapacityField VIR_STORAGE_FILE_VMDK
      (vmdkHeaderSectors [0xff, 0xff, 0xff, 0xff, 0xff, 0xff, 0xff, 0xff]) = 2 ^ 64 - 1 := by
    decide
  refine ⟨hv, rfl, ?_⟩
  rw [capacity_overflow_keeps_field brokenEnv (ascii "/a") (ascii "/a") none _
    VIR_STORAGE_FILE_VMDK VIR_STORAGE_FILE_NONE none (by decide) (by decide)
    (by rw [hv]; decide), hv]
  rfl

/-! ## Backing formats without probing (C14) -/

/-- The metadata extractor with the declared format RAW reads nothing of the header. -/
theorem internal_raw (env : Env) (p c : CStr) (d : Option CStr) (buf : Buf) (bf : Int)
    (bd : Option CStr) :
    virStorageFileGetMetadataInternal env p c d buf VIR_STORAGE_FILE_RAW MetaFields.zero bf bd =
      Run.ret ⟨0, { MetaFields.zero with path := some p, canonPath := some c, relDir := d,
                                         format := VIR_STORAGE_FILE_RAW }, none, bf, bd⟩ :=
  rfl

/-- The header extraction of an open file with the declared format RAW: it returns, it
names no backing file, and on success the format is RAW, or DIR for a directory. -/
theorem fromFD_raw (env : Env) (p c : CStr) (d : Option CStr) (fd : OpenFile)
    (bd : Option CStr) :
    ∃ r, virStorageFileGetMetadataFromFDInternal env p c d fd VIR_STORAGE_FILE_RAW
        MetaFields.zero bd = Run.ret r ∧
      r.fields.backingStoreRaw = none ∧ r.fields.backingStore = none ∧
      (r.ret = -1 ∨ (r.ret = 0 ∧ (r.fields.format = VIR_STORAGE_FILE_RAW ∨
        r.fields.format = VIR_STORAGE_FILE_DIR))) := by
  unfold virStorageFileGetMetadataFromFDInternal
  dsimp only
  cases fd.fstat with
  | none => exact ⟨_, rfl, rfl, rfl, Or.inl rfl⟩
  | some st =>
    dsimp only
    split
    · exact ⟨_, rfl, rfl, rfl, Or.inr ⟨rfl, Or.inr rfl⟩⟩
    split
    · exact ⟨_, rfl, rfl, rfl, Or.inl rfl⟩
    cases fd.header with
    | none => exact ⟨_, rfl, rfl, rfl, Or.inl rfl⟩
    | some buf =>
      dsimp only
      rw [internal_raw, Run.ret_bind]
      refine ⟨_, rfl, ?_, ?_, Or.inr ⟨rfl, Or.inl ?_⟩⟩
      all_goals (dsimp only; split_ifs <;> rfl)

/-- One level of the resolver with the format RAW: it returns with one unit of fuel,
the link has no backing file, and on success its format is RAW, or DIR for a
directory. -/
theorem recurse_raw (env : Env) (fuel : Nat) (path : Option CStr) (canonPath : CStr)
    (directory : Option CStr) (uid gid : Int) (allow_probe : Bool) (cycle : List CStr) :
    ∃ b, virStorageFileGetMetadataRecurse env (fuel + 1) path canonPath directory
        VIR_STORAGE_FILE_RAW uid gid allow_probe cycle MetaFields.zero = Run.ret b ∧
      b.backingMeta = .NULL ∧ b.fields.backingStoreRaw = none ∧ b.fields.backingStore = none ∧
      (b.ret = -1 ∨ (b.ret = 0 ∧ (b.fields.format = VIR_STORAGE_FILE_RAW ∨
        b.fields.format = VIR_STORAGE_FILE_DIR))) := by
  by_cases hc : canonPath ∈ cycle
  · rw [recurse_cycle env fuel path canonPath directory _ uid gid allow_probe cycle _ hc]
    exact ⟨_, rfl, rfl, rfl, rfl, Or.inl rfl⟩
  · rw [virStorageFileGetMetadataRecurse.eq_def]
    simp only [if_neg hc]
    cases path with
    | none => exact ⟨_, rfl, rfl, rfl, rfl, Or.inr ⟨rfl, Or.inl rfl⟩⟩
    | some p =>
      cases hfile : virStorageIsFile (some p) with
      | false => exact ⟨_, rfl, rfl, rfl, rfl, Or.inr ⟨rfl, Or.inl rfl⟩⟩
      | true =>
        dsimp only
        cases hopen : env.virFileOpenAs canonPath uid gid with
        | none => exact ⟨_, rfl, rfl, rfl, rfl, Or.inl rfl⟩
        | some fd =>
          obtain ⟨r, hr, h1, h2, h3⟩ := fromFD_raw env p canonPath directory fd none
          dsimp only
          rw [hr]
          simp only [Run.ret_bind, Run.pure_eq]
          rw [h2]
          refine ⟨⟨r.ret, r.fields, .NULL⟩, ?_, rfl, h1, h2, h3⟩
          cases r.ret == 0 <;> rfl

/-- C14 (amended): when the resolver runs with `allow_probe` false on a local file
whose header extraction succeeds and names a backing file, then (1) if the extraction
reports the hint AUTO, the backing file is resolved with format RAW: that resolution
returns, its link has no backing file of its own and, when it succeeds, has format RAW
(DIR if the backing file is a directory), and the parent either links it or, when it
fails, becomes the tail of the chain; (2) if the extraction reports the hint AUTO_SAFE
(QED without the no-probe bit), the backing file is resolved with format AUTO, that
is, it is probed although `allow_probe` is false. -/
theorem backing_hint_without_probe (env : Env) (fuel : Nat) (p canonPath : CStr)
    (directory : Option CStr) (format uid gid : Int) (cycle : List CStr)
    (fields : MetaFields) (fd : OpenFile) (r : FromFDResult) (cB : CStr)
    (hc : canonPath ∉ cycle) (hfile : virStorageIsFile (some p) = true)
    (hopen : env.virFileOpenAs canonPath uid gid = some fd)
    (hr : virStorageFileGetMetadataFromFDInternal env p canonPath directory fd format fields
      none = Run.ret r)
    (hok : r.ret = 0) (hback : r.fields.backingStore = some cB) :
    (r.backingFormat = VIR_STORAGE_FILE_AUTO →
      ∃ b, virStorageFileGetMetadataRecurse env (fuel + 1) r.fields.backingStoreRaw cB
          r.backingDirectory VIR_STORAGE_FILE_RAW uid gid false (canonPath :: cycle)
          MetaFields.zero = Run.ret b ∧
        b.backingMeta = .NULL ∧ b.fields.backingStoreRaw = none ∧
        b.fields.backingStore = none ∧
        (b.ret = -1 ∨ (b.ret = 0 ∧ (b.fields.format = VIR_STORAGE_FILE_RAW ∨
          b.fields.format = VIR_STORAGE_FILE_DIR))) ∧
        virStorageFileGetMetadataRecurse env (fuel + 2) (some p) canonPath directory format
          uid gid false cycle fields =
          Run.ret (if b.ret < 0 then ⟨0, { r.fields with backingStore := none }, .NULL⟩
            else ⟨0, r.fields, .node b.fields .NULL⟩)) ∧
    (r.backingFormat = VIR_STORAGE_FILE_AUTO_SAFE →
      virStorageFileGetMetadataRecurse env (fuel + 2) (some p) canonPath directory format
          uid gid false cycle fields =
        (virStorageFileGetMetadataRecurse env (fuel + 1) r.fields.backingStoreRaw cB
          r.backingDirectory VIR_STORAGE_FILE_AUTO uid gid false (canonPath :: cycle)
          MetaFields.zero) >>= fun b =>
            if b.ret < 0 then Run.ret ⟨0, { r.fields with backingStore := none }, .NULL⟩
            else Run.ret ⟨0, r.fields, .node b.fields b.backingMeta⟩) := by
  have hstep := recurse_local env (fuel + 1) p canonPath directory format uid gid false cycle
    fields fd r hc hfile hopen hr
  rw [hok, hback] at hstep
  simp only [beq_self_eq_true] at hstep
  constructor
  · intro hauto
    have hfmt : assumedBackingFormat false r.backingFormat = VIR_STORAGE_FILE_RAW := by
      rw [hauto]; rfl
    rw [hfmt] at hstep
    obtain ⟨b, hb, h1, h2, h3, h4⟩ := recurse_raw env fuel r.fields.backingStoreRaw cB
      r.backingDirectory uid gid false (canonPath :: cycle)
    refine ⟨b, hb, h1, h2, h3, h4, ?_⟩
    rw [hstep, hb, Run.ret_bind, h1]
    split_ifs <;> rfl
  · intro hsafe
    have hfmt : assumedBackingFormat false r.backingFormat = VIR_STORAGE_FILE_AUTO := by
      rw [hsafe]; rfl
    rw [hfmt] at hstep
    exact hstep

/-- C14 (witness): `/a` is a QCOW2 image without backing-format extension that names
`/b`; without probing, `/b` is resolved with format RAW. -/
theorem backing_hint_without_probe_witness :
    ∃ b, virStorageFileGetMetadataRecurse cycleEnv 1 (some (ascii "/b")) (ascii "/b")
        (some (ascii "/")) VIR_STORAGE_FILE_RAW 0 0 false [ascii "/a"] MetaFields.zero =
          Run.ret b ∧
      b.backingMeta = .NULL ∧ b.fields.backingStoreRaw = none ∧
      b.fields.backingStore = none ∧
      (b.ret = -1 ∨ (b.ret = 0 ∧ (b.fields.format = VIR_STORAGE_FILE_RAW ∨
        b.fields.format = VIR_STORAGE_FILE_DIR))) ∧
      virStorageFileGetMetadataRecurse cycleEnv 2 (some (ascii "/a")) (ascii "/a")
        (some (ascii "/")) VIR_STORAGE_FILE_QCOW2 0 0 false [] MetaFields.zero =
        Run.ret (if b.ret < 0 then ⟨0, { cycleResultA.fields with backingStore := none }, .NULL⟩
          else ⟨0, cycleResultA.fields, .node b.fields .NULL⟩) :=
  (backing_hint_without_probe cycleEnv 0 (ascii "/a") (ascii "/a") (some (ascii "/"))
    VIR_STORAGE_FILE_QCOW2 0 0 [] MetaFields.zero
    ⟨some .reg, true, some (qcow2HeaderNaming (ascii "/b"))⟩ cycleResultA (ascii "/b")
    (by decide) (by decide) (by decide) (by decide) (by decide) (by decide)).1 (by decide)

/-- C14 (counterexample): `/a` is a QED image without the no-probe bit that names `/b`,
and `/b` carries a QCOW2 header.  The extractor reports the hint AUTO_SAFE, and the
resolver, called with `allow_probe` false, probes `/b`: its link has format QCOW2, not
RAW. -/
theorem qed_backing_file_is_probed :
    qedGetBackingStore VIR_STORAGE_FILE_NONE (qedHeaderNaming 0 (ascii "/b")) =
        Run.ret ⟨BACKING_STORE_OK, some (ascii "/b" ++ [0]), VIR_STORAGE_FILE_AUTO_SAFE⟩ ∧
      virStorageFileGetMetadata qedProbeEnv 2 (ascii "/a") VIR_STORAGE_FILE_QED 0 0 false =
        Run.ret (.node
          ⟨some (ascii "/a"), some (ascii "/a"), some (ascii "/"), VIR_STORAGE_TYPE_FILE,
            VIR_STORAGE_FILE_QED, 0, false, none, none, some (ascii "/b"), some (ascii "/b")⟩
          (.node
            ⟨some (ascii "/b"), some (ascii "/b"), some (ascii "/"), VIR_STORAGE_TYPE_FILE,
              VIR_STORAGE_FILE_QCOW2, 0, false, none, none, none, none⟩ .NULL)) := by
  decide

/-! ## Directories and network strings (C15, C16, C17) -/

/-- C15: for every local path that canonicalizes, opens and stats as a directory, every
declared format and either setting of `allow_probe`, the resolver succeeds with the
single link whose type and format are DIR and whose `backingStoreRaw`, `backingStore`
and `backingMeta` are null; the result does not depend on what `lseek` or the header
read of the descriptor would give. -/
theorem directory_short_circuit (env : Env) (fuel : Nat) (path canonPath : CStr)
    (format uid gid : Int) (allow_probe : Bool) (fd : OpenFile)
    (hIsFile : virStorageIsFile (some path) = true)
    (hcanon : env.canonicalize_file_name path = some canonPath)
    (hopen : env.virFileOpenAs canonPath uid gid = some fd)
    (hstat : fd.fstat = some FileKind.dir) :
    virStorageFileGetMetadata env (fuel + 1) path format uid gid allow_probe =
      Run.ret (.node { MetaFields.zero with path := some path, type := VIR_STORAGE_TYPE_DIR,
                                            format := VIR_STORAGE_FILE_DIR } .NULL) := by
  rw [getMetadata_local env _ path canonPath format uid gid allow_probe hIsFile hcanon]
  have hfd : virStorageFileGetMetadataFromFDInternal env path canonPath
      (some (env.mdir_name path)) fd (topLevelFormat allow_probe format) MetaFields.zero none =
      Run.ret ⟨0, { MetaFields.zero with path := some path, type := VIR_STORAGE_TYPE_DIR,
                                         format := VIR_STORAGE_FILE_DIR },
        VIR_STORAGE_FILE_NONE, none⟩ := by
    unfold virStorageFileGetMetadataFromFDInternal
    rw [hstat]
    rfl
  rw [recurse_local env fuel path canonPath _ _ uid gid allow_probe [] _ fd _
    (List.not_mem_nil _) hIsFile hopen hfd]
  rfl

/-- C15 (witness): the directory `/d`, with the declared format QCOW2. -/
theorem directory_short_circuit_witness :
    virStorageFileGetMetadata dirEnv 1 (ascii "/d") VIR_STORAGE_FILE_QCOW2 0 0 true =
      Run.ret (.node { MetaFields.zero with path := some (ascii "/d"),
                                            type := VIR_STORAGE_TYPE_DIR,
                                            format := VIR_STORAGE_FILE_DIR } .NULL) :=
  directory_short_circuit dirEnv 0 (ascii "/d") (ascii "/d") VIR_STORAGE_FILE_QCOW2 0 0 true
    ⟨some .dir, false, none⟩ (by decide) (by decide) (by decide) (by decide)

/-- One level of the resolver on a network string that is not in the visited set. -/
theorem recurse_network (env : Env) (fuel : Nat) (s canonPath : CStr)
    (directory : Option CStr) (format uid gid : Int) (allow_probe : Bool) (cycle : List CStr)
    (h : virStorageIsFile (some s) = false) (hc : canonPath ∉ cycle) :
    virStorageFileGetMetadataRecurse env (fuel + 1) (some s) canonPath directory format uid gid
      allow_probe cycle MetaFields.zero = Run.ret ⟨0, networkLink s, .NULL⟩ := by
  rw [virStorageFileGetMetadataRecurse.eq_def]
  simp only [if_neg hc, h]
  rfl

/-- C17: for every string that `virStorageIsFile` classifies as non-local, in every
file system: (1) given at top level, with any requested format and either setting of
`allow_probe`, the resolver returns the single link with `path` and `canonPath` equal
to the string, type NETWORK, format RAW, capacity 0 and no backing fields; (2) reached
as the backing reference of a local file whose header extraction succeeded, and not
already in the visited set, it becomes that same link, hung below the parent, whatever
format the parent's header announced.  Nothing is opened and no header is parsed: the
results hold for every file system. -/
theorem network_link (env : Env) (s : CStr) (h : virStorageIsFile (some s) = false) :
    (∀ (fuel : Nat) (format uid gid : Int) (allow_probe : Bool),
      virStorageFileGetMetadata env (fuel + 1) s format uid gid allow_probe =
        Run.ret (.node (networkLink s) .NULL)) ∧
    (∀ (fuel : Nat) (p canonPath : CStr) (directory : Option CStr) (format uid gid : Int)
        (allow_probe : Bool) (cycle : List CStr) (fields : MetaFields) (fd : OpenFile)
        (r : FromFDResult),
      canonPath ∉ cycle → virStorageIsFile (some p) = true →
      env.virFileOpenAs canonPath uid gid = some fd →
      virStorageFileGetMetadataFromFDInternal env p canonPath directory fd format fields
        none = Run.ret r →
      r.ret = 0 → r.fields.backingStoreRaw = some s → r.fields.backingStore = some s →
      s ∉ canonPath :: cycle →
      virStorageFileGetMetadataRecurse env (fuel + 2) (some p) canonPath directory format uid
        gid allow_probe cycle fields = Run.ret ⟨0, r.fields, .node (networkLink s) .NULL⟩) := by
  constructor
  · intro fuel format uid gid allow_probe
    unfold virStorageFileGetMetadata
    simp only [h, Bool.false_eq_true, if_false]
    rw [recurse_network env fuel s s none _ uid gid allow_probe [] h (List.not_mem_nil _)]
    rfl
  · intro fuel p canonPath directory format uid gid allow_probe cycle fields fd r hc hfile
      hopen hr hok hraw hback hfresh
    rw [recurse_local env (fuel + 1) p canonPath directory format uid gid allow_probe cycle
      fields fd r hc hfile hopen hr]
    rw [hok, hback, hraw]
    simp only [beq_self_eq_true]
    rw [recurse_network env fuel s s _ _ uid gid allow_probe _ h hfresh]
    rfl

/-- C17 (witness): the string `nbd:x` at top level, with the requested format QCOW2. -/
theorem network_link_witness :
    virStorageFileGetMetadata brokenEnv 1 (ascii "nbd:x") VIR_STORAGE_FILE_QCOW2 0 0 true =
      Run.ret (.node (networkLink (ascii "nbd:x")) .NULL) :=
  (network_link brokenEnv (ascii "nbd:x") (by decide)).1 0 VIR_STORAGE_FILE_QCOW2 0 0 true

/-- The rows of the table that have a backing-store extractor have magic bytes and a
capacity field. -/
theorem backing_rows (F : Int)
    (hrange : ¬ (F ≤ VIR_STORAGE_FILE_NONE ∨ F ≥ VIR_STORAGE_FILE_LAST))
    (fn : GetBackingStoreFn) (hfn : (fileTypeInfo F).getBackingStore = some fn) :
    (fileTypeInfo F).magic.isNone = false ∧ (fileTypeInfo F).sizeOffset ≠ -1 ∧
      0 ≤ (fileTypeInfo F).sizeOffset := by
  have h0 : 0 < F := by simp only [VIR_STORAGE_FILE_NONE] at hrange; omega
  have h16 : F < 16 := by simp only [VIR_STORAGE_FILE_LAST] at hrange; omega
  have hne : (fileTypeInfo F).getBackingStore ≠ none := by rw [hfn]; exact Option.some_ne_none _
  clear hfn hrange
  interval_cases F <;> first | (exact absurd rfl hne) | decide

/-- C18: the COW extractor, for every buffer: shorter than 1032 bytes it returns
INVALID; otherwise, if byte 8 is NUL, OK with a null path and the hint NONE; otherwise
OK with the hint AUTO and the path made of the bytes of the 1024-byte field at offset 8
up to its first NUL (all 1024 bytes if it has none). -/
theorem cow_extractor (format : Int) (buf : Buf) :
    (buf.length < 1032 →
      cowGetBackingStore format buf =
        Run.ret ⟨BACKING_STORE_INVALID, none, VIR_STORAGE_FILE_AUTO⟩) ∧
    (1032 ≤ buf.length → field buf 8 1 = [0] →
      cowGetBackingStore format buf =
        Run.ret ⟨BACKING_STORE_OK, none, VIR_STORAGE_FILE_NONE⟩) ∧
    (1032 ≤ buf.length → field buf 8 1 ≠ [0] →
      cowGetBackingStore format buf =
        Run.ret ⟨BACKING_STORE_OK, some ((field buf 8 1024).takeWhile (fun b => b ≠ 0) ++ [0]),
          VIR_STORAGE_FILE_AUTO⟩) := by
  have hc : (4 : Nat) + 4 + COW_FILENAME_MAXLEN = 1032 := rfl
  refine ⟨?_, ?_, ?_⟩
  · intro h
    unfold cowGetBackingStore
    dsimp only
    rw [hc, if_pos h]
    rfl
  · intro h h8
    unfold cowGetBackingStore
    dsimp only
    rw [hc, if_neg (by omega), readByte_of_field buf 8 0 h8, Run.ret_bind]
    rfl
  · intro h h8
    unfold cowGetBackingStore
    dsimp only
    rw [hc, if_neg (by omega), readByte_eq buf (4 + 4) (by omega), Run.ret_bind]
    have hne : ¬ ((buf.get ⟨4 + 4, by omega⟩).val = 0) := by
      intro h0
      apply h8
      rw [field_succ buf 8 0 (by omega), field_zero]
      congr 1
      exact Fin.ext h0
    rw [if_neg hne]
    unfold readCStrN
    dsimp only
    have hl : ((List.take 1024 (List.drop (4 + 4) buf)).takeWhile
        (fun b => b ≠ 0)).length ≤ 1024 := by
      refine le_trans (List.takeWhile_sublist _).length_le ?_
      simp
    rw [if_pos (by simp only [COW_FILENAME_MAXLEN]; omega)]
    rfl

set_option maxRecDepth 20000 in
/-- C18 (witness): the 1032-byte COW header whose file name field holds `/b`. -/
theorem cow_extractor_witness :
    cowGetBackingStore VIR_STORAGE_FILE_NONE (cowHeaderNaming (ascii "/b")) =
      Run.ret ⟨BACKING_STORE_OK,
        some ((field (cowHeaderNaming (ascii "/b")) 8 1024).takeWhile (fun b => b ≠ 0) ++ [0]),
        VIR_STORAGE_FILE_AUTO⟩ :=
  (cow_extractor VIR_STORAGE_FILE_NONE (cowHeaderNaming (ascii "/b"))).2.2 (by decide)
    (by decide)

theorem and_one_eq_zero_iff (x : Nat) : x &&& 1 = 0 ↔ x.testBit 0 = false := by
  rw [Nat.and_one_is_mod, Nat.testBit_zero]
  simp

theorem and_four_eq_zero_iff (x : Nat) : x &&& 4 = 0 ↔ x.testBit 2 = false := by
  constructor
  · intro h
    have := congrArg (fun y => y.testBit 2) h
    simp only [Nat.testBit_and, Nat.zero_testBit] at this
    have h4 : (4 : Nat).testBit 2 = true := by decide
    rw [h4, Bool.and_true] at this
    exact this
  · intro h
    apply Nat.eq_of_testBit_eq
    intro i
    rw [Nat.testBit_and, Nat.zero_testBit]
    by_cases hi : i = 2
    · subst hi; rw [h]; rfl
    · have : (4 : Nat).testBit i = false := by
        have : (4 : Nat) = 2 ^ 2 := rfl
        rw [this, Nat.testBit_two_pow]
        simp; omega
      rw [this, Bool.and_false]

theorem leVal_field_lt (buf : Buf) (off n : Nat) : leVal (field buf off n) < 256 ^ n := by
  have h := leVal_lt (field buf off n)
  have hl : (field buf off n).length ≤ n := by simp [field]
  exact lt_of_lt_of_le h (Nat.pow_le_pow_right (by norm_num) hl)

/-- C19: the QED extractor, for every buffer of at least 24 bytes: if bit 0 of the
64-bit little-endian feature word at offset 16 is clear, it returns OK with a null path
and the hint NONE; if bit 0 is set, the buffer holds the 32-bit little-endian offset at
byte 56 and length at byte 60, the length is not zero and offset plus length does not
exceed the buffer, it returns OK with the bytes so located as path, and the hint RAW
when bit 2 of the feature word is set, AUTO_SAFE when it is clear. -/
theorem qed_extractor (format : Int) (buf : Buf) (hlen : 24 ≤ buf.length) :
    ((leVal (field buf 16 8)).testBit 0 = false →
      qedGetBackingStore format buf =
        Run.ret ⟨BACKING_STORE_OK, none, VIR_STORAGE_FILE_NONE⟩) ∧
    ((leVal (field buf 16 8)).testBit 0 = true → 64 ≤ buf.length →
      0 < leVal (field buf 60 4) →
      leVal (field buf 56 4) + leVal (field buf 60 4) ≤ buf.length →
      qedGetBackingStore format buf =
        Run.ret ⟨BACKING_STORE_OK,
          some (field buf (leVal (field buf 56 4)) (leVal (field buf 60 4)) ++ [0]),
          if (leVal (field buf 16 8)).testBit 2 = true then VIR_STORAGE_FILE_RAW
          else VIR_STORAGE_FILE_AUTO_SAFE⟩) := by
  have e16 : QED_HDR_FEATURES_OFFSET = 16 := rfl
  have e56 : QED_HDR_BACKING_FILE_OFFSET = 56 := rfl
  have e60 : QED_HDR_BACKING_FILE_SIZE = 60 := rfl
  have e1 : QED_F_BACKING_FILE = 1 := rfl
  have e4 : QED_F_BACKING_FORMAT_NO_PROBE = 4 := rfl
  constructor
  · intro hbit
    unfold qedGetBackingStore
    dsimp only
    rw [e16, e1, if_neg (by omega), virReadBufInt64LE_eq buf 16 (by omega), Run.ret_bind,
      if_pos ((and_one_eq_zero_iff _).2 hbit)]
    rfl
  · intro hbit h64 hn0 hfit
    have hne : ¬ (leVal (field buf 16 8) &&& 1 = 0) := by
      rw [and_one_eq_zero_iff, hbit]; decide
    have p1 : leVal (field buf 56 4) < 4294967296 :=
      lt_of_lt_of_le (leVal_field_lt buf 56 4) (by norm_num)
    have p2 : leVal (field buf 60 4) < 4294967296 :=
      lt_of_lt_of_le (leVal_field_lt buf 60 4) (by norm_num)
    have hmod : (leVal (field buf 56 4) + leVal (field buf 60 4)) % SIZE_MOD =
        leVal (field buf 56 4) + leVal (field buf 60 4) := by
      apply Nat.mod_eq_of_lt
      simp only [SIZE_MOD]
      omega
    unfold qedGetBackingStore
    dsimp only
    rw [e16, e56, e60, e1, e4, if_neg (by omega), virReadBufInt64LE_eq buf 16 (by omega),
      Run.ret_bind, if_neg hne, if_neg (by omega), virReadBufInt32LE_eq buf 56 (by omega),
      Run.ret_bind, if_neg (by omega), virReadBufInt32LE_eq buf 60 (by omega), Run.ret_bind,
      if_neg (by omega), hmod, if_neg (by omega), readBytes_eq buf _ _ hfit, Run.ret_bind]
    by_cases h2 : (leVal (field buf 16 8)).testBit 2 = true
    · have hne4 : leVal (field buf 16 8) &&& 4 ≠ 0 := by
        rw [Ne, and_four_eq_zero_iff, h2]; decide
      rw [if_pos hne4, if_pos h2]
      rfl
    · have he4 : ¬ (leVal (field buf 16 8) &&& 4 ≠ 0) := by
        rw [Ne, not_not, and_four_eq_zero_iff]
        simpa using h2
      rw [if_neg he4, if_neg h2]
      rfl

/-- C19 (witness): a QED header with the backing-file bit and the no-probe bit set,
naming `/b`. -/
theorem qed_extractor_witness :
    qedGetBackingStore VIR_STORAGE_FILE_NONE (qedHeaderNaming 4 (ascii "/b")) =
      Run.ret ⟨BACKING_STORE_OK, some (ascii "/b" ++ [0]), VIR_STORAGE_FILE_RAW⟩ :=
  (qed_extractor VIR_STORAGE_FILE_NONE (qedHeaderNaming 4 (ascii "/b")) (by decide)).2
    (by decide) (by decide) (by decide) (by decide)

/-- On a buffer of 512 + `VIR_STORAGE_MAX_HEADER` bytes or more the VMDK extractor
copies `VIR_STORAGE_MAX_HEADER` bytes into its array of that size and stores the
terminator one byte behind it. -/
theorem vmdk4_write_past_desc (format : Int) (buf : Buf)
    (h : 0x200 + VIR_STORAGE_MAX_HEADER ≤ buf.length) :
    vmdk4GetBackingStore format buf = Run.oobWrite VIR_STORAGE_MAX_HEADER := by
  unfold vmdk4GetBackingStore
  dsimp only
  have hM : VIR_STORAGE_MAX_HEADER = 0x8200 := rfl
  rw [if_neg (by omega)]
  have hfit : 0x200 + (if buf.length - 0x200 > VIR_STORAGE_MAX_HEADER then
      VIR_STORAGE_MAX_HEADER else buf.length - 0x200) ≤ buf.length := by
    split <;> omega
  rw [readBytes_eq buf _ _ hfit, Run.ret_bind]
  have hlen : (if buf.length - 0x200 > VIR_STORAGE_MAX_HEADER then
      VIR_STORAGE_MAX_HEADER else buf.length - 0x200) = VIR_STORAGE_MAX_HEADER := by
    split <;> omega
  rw [hlen, if_pos (le_refl _)]

/-- The VMDK extractor on every buffer shorter than 512 + `VIR_STORAGE_MAX_HEADER`
bytes: at most 512 bytes give INVALID; otherwise, with the descriptor being the C
string that starts at byte 512: without the key literal OK, null path, hint NONE;
with the literal but no double quote after it INVALID; with the quote right after it
OK, null path, hint NONE; otherwise OK with the hint AUTO and the text between the
literal and the first double quote as path. -/
theorem vmdk4_extractor (format : Int) (buf : Buf)
    (h : buf.length < 0x200 + VIR_STORAGE_MAX_HEADER) :
    vmdk4GetBackingStore format buf =
      if buf.length ≤ 0x200 then
        Run.ret ⟨BACKING_STORE_INVALID, none, VIR_STORAGE_FILE_AUTO⟩
      else
        match strstr (cstrOf (buf.drop 0x200)) vmdk4Key with
        | none => Run.ret ⟨BACKING_STORE_OK, none, VIR_STORAGE_FILE_NONE⟩
        | some found =>
          match strchr (found.drop vmdk4Key.length) 0x22 with
          | none => Run.ret ⟨BACKING_STORE_INVALID, none, VIR_STORAGE_FILE_AUTO⟩
          | some e =>
            if e = 0 then Run.ret ⟨BACKING_STORE_OK, none, VIR_STORAGE_FILE_NONE⟩
            else Run.ret ⟨BACKING_STORE_OK,
              some ((found.drop vmdk4Key.length).take e ++ [0]), VIR_STORAGE_FILE_AUTO⟩ := by
  unfold vmdk4GetBackingStore
  dsimp only
  have hM : VIR_STORAGE_MAX_HEADER = 0x8200 := rfl
  by_cases hs : buf.length ≤ 0x200
  · rw [if_pos hs, if_pos hs]; rfl
  · rw [if_neg hs, if_neg hs]
    have hlen : (if buf.length - 0x200 > VIR_STORAGE_MAX_HEADER then
        VIR_STORAGE_MAX_HEADER else buf.length - 0x200) = buf.length - 0x200 := by
      split <;> omega
    rw [hlen, readBytes_eq buf _ _ (by omega), Run.ret_bind, if_neg (by omega)]
    have hcopy : field buf 0x200 (buf.length - 0x200) = buf.drop 0x200 := by
      unfold field
      apply List.take_of_length_le
      simp
    rw [hcopy]
    rfl

/-- C20 (the code at the failing input): on the buffer of 512 +
`VIR_STORAGE_MAX_HEADER` zero bytes the VMDK extractor does not return: it copies
`VIR_STORAGE_MAX_HEADER` bytes into `desc`, an array of `VIR_STORAGE_MAX_HEADER`
bytes, and then stores the terminating NUL at `desc[VIR_STORAGE_MAX_HEADER]`, one byte
behind the array. -/
theorem vmdk4_terminator_past_allocation :
    vmdkLongBuffer.length = 0x200 + VIR_STORAGE_MAX_HEADER ∧
      vmdk4GetBackingStore VIR_STORAGE_FILE_NONE vmdkLongBuffer =
        Run.oobWrite VIR_STORAGE_MAX_HEADER := by
  have hl : vmdkLongBuffer.length = 0x200 + VIR_STORAGE_MAX_HEADER := List.length_replicate _ _
  exact ⟨hl, vmdk4_write_past_desc _ _ (le_of_eq hl.symm)⟩

set_option maxRecDepth 20000 in
/-- A descriptor that names `/b` behind 512 header bytes: the VMDK extractor returns
the path with the hint AUTO. -/
theorem vmdk4_extractor_names_parent :
    vmdk4GetBackingStore VIR_STORAGE_FILE_NONE (vmdkHeaderNaming (ascii "/b")) =
      Run.ret ⟨BACKING_STORE_OK, some (ascii "/b" ++ [0]), VIR_STORAGE_FILE_AUTO⟩ := by
  decide

/-! ## The format check of the metadata extractor (C21, C22) -/

theorem mem_allFormats (f : Int) (h : f ∈ allFormats) : 0 ≤ f ∧ f < 16 := by
  simp only [allFormats, List.mem_map, List.mem_range] at h
  obtain ⟨n, hn, rfl⟩ := h
  omega

/-- The prober returns a format inside the valid range. -/
theorem probeFormatSpec_in_range (path : CStr) (buf : Buf) :
    VIR_STORAGE_FILE_NONE < probeFormatSpec path buf ∧
      probeFormatSpec path buf < VIR_STORAGE_FILE_LAST := by
  unfold probeFormatSpec
  cases h : allFormats.find? (fun f => specMagicMatches f buf && specVersionMatches f buf) with
  | some f =>
    have hm := List.mem_of_find?_eq_some h
    have hp := List.find?_some h
    obtain ⟨h0, h16⟩ := mem_allFormats f hm
    have hne : f ≠ 0 := by
      rintro rfl
      have hm0 : specMagicMatches 0 buf = false := rfl
      rw [hm0] at hp
      cases hp
    show VIR_STORAGE_FILE_NONE < f ∧ f < VIR_STORAGE_FILE_LAST
    simp only [VIR_STORAGE_FILE_NONE, VIR_STORAGE_FILE_LAST]
    omega
  | none =>
    show VIR_STORAGE_FILE_NONE < specExtensionResult path ∧
      specExtensionResult path < VIR_STORAGE_FILE_LAST
    unfold specExtensionResult
    cases h2 : allFormats.find? (fun f => specExtensionMatches f path) with
    | some f =>
      have hm := List.mem_of_find?_eq_some h2
      have hp := List.find?_some h2
      obtain ⟨h0, h16⟩ := mem_allFormats f hm
      have hne : f ≠ 0 := by
        rintro rfl
        have he0 : specExtensionMatches 0 path = false := rfl
        rw [he0] at hp
        cases hp
      show VIR_STORAGE_FILE_NONE < f ∧ f < VIR_STORAGE_FILE_LAST
      simp only [VIR_STORAGE_FILE_NONE, VIR_STORAGE_FILE_LAST]
      omega
    | none => decide

/-- With the declared format AUTO the metadata extractor goes on as with the result of
the prober declared. -/
theorem internal_auto (env : Env) (path canonPath : CStr) (directory : Option CStr)
    (buf : Buf) (fields : MetaFields) (bf : Int) (bd : Option CStr) :
    virStorageFileGetMetadataInternal env path canonPath directory buf VIR_STORAGE_FILE_AUTO
      fields bf bd =
    virStorageFileGetMetadataInternal env path canonPath directory buf
      (probeFormatSpec path buf) fields bf bd := by
  have hr := probeFormatSpec_in_range path buf
  have hne : probeFormatSpec path buf ≠ VIR_STORAGE_FILE_AUTO := by
    simp only [VIR_STORAGE_FILE_NONE, VIR_STORAGE_FILE_AUTO] at hr ⊢
    omega
  unfold virStorageFileGetMetadataInternal
  dsimp only
  rw [if_pos rfl, if_neg hne, probe_eq_spec]
  rfl

/-- The metadata extractor goes on with the resolved format. -/
theorem internal_resolved (env : Env) (path canonPath : CStr) (directory : Option CStr)
    (buf : Buf) (F : Int) (fields : MetaFields) (bf : Int) (bd : Option CStr) :
    virStorageFileGetMetadataInternal env path canonPath directory buf F fields bf bd =
    virStorageFileGetMetadataInternal env path canonPath directory buf
      (resolvedFormat path buf F) fields bf bd := by
  unfold resolvedFormat
  split
  · rename_i h; rw [h]; exact internal_auto env path canonPath directory buf fields bf bd
  · rfl

theorem resolvedFormat_ne_auto (path : CStr) (buf : Buf) (F : Int) :
    resolvedFormat path buf F ≠ VIR_STORAGE_FILE_AUTO := by
  unfold resolvedFormat
  split
  · have hr := probeFormatSpec_in_range path buf
    simp only [VIR_STORAGE_FILE_NONE, VIR_STORAGE_FILE_AUTO] at hr ⊢
    omega
  · assumption

theorem Run.sat_ret {α : Type} {P : α → Prop} {a : α} (h : P a) : Run.Sat P (Run.ret a) := by
  intro b hb
  cases hb
  exact h

theorem Run.sat_pure {α : Type} {P : α → Prop} {a : α} (h : P a) :
    Run.Sat P (pure a : Run α) :=
  Run.sat_ret h

theorem Run.sat_oobRead {α : Type} {P : α → Prop} {i : Nat} :
    Run.Sat P (Run.oobRead i : Run α) := by
  intro b hb
  cases hb

theorem Run.sat_oobWrite {α : Type} {P : α → Prop} {i : Nat} :
    Run.Sat P (Run.oobWrite i : Run α) := by
  intro b hb
  cases hb

theorem Run.sat_fuel {α : Type} {P : α → Prop} : Run.Sat P (Run.fuel : Run α) := by
  intro b hb
  cases hb

theorem Run.sat_bind {α β : Type} {P : β → Prop} {x : Run α} {f : α → Run β}
    (h : ∀ a, Run.Sat P (f a)) : Run.Sat P (x >>= f) := by
  intro b hb
  obtain ⟨a, -, ha⟩ := Run.bind_eq_ret x f b hb
  exact h a b ha

theorem Run.sat_bind_of {α β : Type} {P : β → Prop} {Q : α → Prop} {x : Run α}
    {f : α → Run β} (hx : Run.Sat Q x) (h : ∀ a, Q a → Run.Sat P (f a)) :
    Run.Sat P (x >>= f) := by
  intro b hb
  obtain ⟨a, hxa, ha⟩ := Run.bind_eq_ret x f b hb
  exact h a (hx a hxa) b ha

/-- The return code of `qcowXGetBackingStore` is OK or INVALID. -/
theorem qcowX_code (format : Option Int) (buf : Buf) (isQCow2 : Bool) :
    Run.Sat (fun r => r.1 = BACKING_STORE_OK ∨ r.1 = BACKING_STORE_INVALID)
      (qcowXGetBackingStore format buf isQCow2) := by
  unfold qcowXGetBackingStore
  dsimp only
  repeat' first
    | ((with_reducible apply Run.sat_pure); first | exact Or.inl rfl | exact Or.inr rfl)
    | ((with_reducible apply Run.sat_bind); intro _)
    | split

/-- The return code of every backing-store extractor is OK or INVALID. -/
theorem callGetBackingStore_code (fn : GetBackingStoreFn) (format : Int) (buf : Buf) :
    Run.Sat (fun s => s.ret = BACKING_STORE_OK ∨ s.ret = BACKING_STORE_INVALID)
      (callGetBackingStore fn format buf) := by
  cases fn with
  | cowGetBackingStore =>
    show Run.Sat _ (cowGetBackingStore format buf)
    unfold cowGetBackingStore
    dsimp only
    repeat' first
      | ((with_reducible apply Run.sat_pure); first | exact Or.inl rfl | exact Or.inr rfl)
      | ((with_reducible apply Run.sat_bind); intro _)
      | split
  | qcow1GetBackingStore =>
    show Run.Sat _ (qcow1GetBackingStore format buf)
    unfold qcow1GetBackingStore
    dsimp only
    refine Run.sat_bind_of (qcowX_code none buf false) ?_
    intro r hr
    repeat' first
      | ((with_reducible apply Run.sat_pure); exact hr)
      | ((with_reducible apply Run.sat_bind); intro _)
      | split
  | qcow2GetBackingStore =>
    show Run.Sat _ (qcow2GetBackingStore format buf)
    unfold qcow2GetBackingStore
    refine Run.sat_bind_of (qcowX_code (some format) buf true) ?_
    intro r hr
    exact Run.sat_pure hr
  | qedGetBackingStore =>
    show Run.Sat _ (qedGetBackingStore format buf)
    unfold qedGetBackingStore
    dsimp only
    repeat' first
      | ((with_reducible apply Run.sat_pure); first | exact Or.inl rfl | exact Or.inr rfl)
      | ((with_reducible apply Run.sat_bind); intro _)
      | split
  | vmdk4GetBackingStore =>
    show Run.Sat _ (vmdk4GetBackingStore format buf)
    by_cases hb : buf.length < 0x200 + VIR_STORAGE_MAX_HEADER
    · rw [vmdk4_extractor format buf hb]
      repeat' first
        | ((with_reducible apply Run.sat_ret); first | exact Or.inl rfl | exact Or.inr rfl)
        | split
    · rw [vmdk4_write_past_desc format buf (by omega)]
      exact Run.sat_oobWrite

/-- Only QCOW2 has a feature extractor. -/
theorem features_rows (F : Int)
    (hrange : ¬ (F ≤ VIR_STORAGE_FILE_NONE ∨ F ≥ VIR_STORAGE_FILE_LAST))
    (fn : GetFeaturesFn) (hfn : (fileTypeInfo F).getFeatures = some fn) :
    F = VIR_STORAGE_FILE_QCOW2 := by
  have h0 : 0 < F := by simp only [VIR_STORAGE_FILE_NONE] at hrange; omega
  have h16 : F < 16 := by simp only [VIR_STORAGE_FILE_LAST] at hrange; omega
  have hne : (fileTypeInfo F).getFeatures ≠ none := by rw [hfn]; exact Option.some_ne_none _
  clear hfn hrange
  interval_cases F <;> first | (exact absurd rfl hne) | rfl

/-- The return value of the `getFeatures` tail is 0, or -1 for QCOW2. -/
theorem internalFeatures_code (buf : Buf) (F : Int) (fields : MetaFields)
    (out : Option CStr) (bf : Int) (bd : Option CStr)
    (hrange : ¬ (F ≤ VIR_STORAGE_FILE_NONE ∨ F ≥ VIR_STORAGE_FILE_LAST)) :
    Run.Sat (fun r => r.ret = 0 ∨ (r.ret = -1 ∧ F = VIR_STORAGE_FILE_QCOW2))
      (internalFeatures buf F fields out bf bd) := by
  unfold internalFeatures
  cases hg : (fileTypeInfo F).getFeatures with
  | none =>
    dsimp only
    split <;> exact Run.sat_pure (Or.inl rfl)
  | some fn =>
    have hq := features_rows F hrange fn hg
    dsimp only
    apply Run.sat_bind
    intro a
    split
    · exact Run.sat_pure (Or.inr ⟨rfl, hq⟩)
    · split <;> exact Run.sat_pure (Or.inl rfl)

theorem internalBacking_code (env : Env) (directory : Option CStr) (buf : Buf) (F : Int)
    (fields : MetaFields) (bf : Int) (bd : Option CStr)
    (hrange : ¬ (F ≤ VIR_STORAGE_FILE_NONE ∨ F ≥ VIR_STORAGE_FILE_LAST)) :
    Run.Sat (fun r => r.ret = 0 ∨ (r.ret = -1 ∧ F = VIR_STORAGE_FILE_QCOW2))
      (internalBacking env directory buf F fields bf bd) := by
  unfold internalBacking
  cases hg : (fileTypeInfo F).getBackingStore with
  | none => exact internalFeatures_code buf F _ _ _ _ hrange
  | some fn =>
    dsimp only
    refine Run.sat_bind_of (callGetBackingStore_code fn bf buf) ?_
    intro store hs
    split
    · exact Run.sat_pure (Or.inl rfl)
    split
    · rename_i h1 h2
      rcases hs with h | h
      · rw [h] at h2; exact absurd h2 (by decide)
      · exact absurd h h1
    split
    · split
      · split <;> exact internalFeatures_code buf F _ _ _ _ hrange
      · exact internalFeatures_code buf F _ _ _ _ hrange
    · exact internalFeatures_code buf F _ _ _ _ hrange

theorem internalCrypt_code (env : Env) (directory : Option CStr) (buf : Buf) (F : Int)
    (fields : MetaFields) (bf : Int) (bd : Option CStr)
    (hrange : ¬ (F ≤ VIR_STORAGE_FILE_NONE ∨ F ≥ VIR_STORAGE_FILE_LAST)) :
    Run.Sat (fun r => r.ret = 0 ∨ (r.ret = -1 ∧ F = VIR_STORAGE_FILE_QCOW2))
      (internalCrypt env directory buf F fields bf bd) := by
  unfold internalCrypt
  split
  · apply Run.sat_bind
    intro c
    exact internalBacking_code env directory buf F _ bf bd hrange
  · exact internalBacking_code env directory buf F _ bf bd hrange

/-- The metadata extractor with a declared format inside the range: the format check
passes, `format` is stored, and the return value is 0, or -1 for QCOW2. -/
theorem internal_in_range (env : Env) (path canonPath : CStr) (directory : Option CStr)
    (buf : Buf) (F : Int) (bf : Int) (bd : Option CStr)
    (hF : F ≠ VIR_STORAGE_FILE_AUTO)
    (hrange : ¬ (F ≤ VIR_STORAGE_FILE_NONE ∨ F ≥ VIR_STORAGE_FILE_LAST)) :
    Run.Sat (fun r => r.fields.format = F ∧
        (r.ret = 0 ∨ (r.ret = -1 ∧ F = VIR_STORAGE_FILE_QCOW2)))
      (virStorageFileGetMetadataInternal env path canonPath directory buf F MetaFields.zero
        bf bd) := by
  have hcrypt : ∀ fields : MetaFields, fields.format = F →
      Run.Sat (fun r => r.fields.format = F ∧
        (r.ret = 0 ∨ (r.ret = -1 ∧ F = VIR_STORAGE_FILE_QCOW2)))
      (internalCrypt env directory buf F fields bf bd) := by
    intro fields hfm r hr
    exact ⟨(internalCrypt_frame _ _ _ _ _ _ _ _ hr).2.2.2.1.trans hfm,
      internalCrypt_code env directory buf F fields bf bd hrange r hr⟩
  unfold virStorageFileGetMetadataInternal
  dsimp only
  rw [if_neg hF, Run.pure_bind, if_neg hrange]
  split
  · exact Run.sat_pure ⟨rfl, Or.inl rfl⟩
  split
  · split
    · exact Run.sat_pure ⟨rfl, Or.inl rfl⟩
    · split <;>
      · apply Run.sat_bind
        intro cap
        split
        · exact Run.sat_pure ⟨rfl, Or.inl rfl⟩
        · exact hcrypt _ rfl
  · exact hcrypt _ rfl

/-- The metadata extractor with a declared format outside the range fails at once. -/
theorem internal_out_of_range (env : Env) (path canonPath : CStr) (directory : Option CStr)
    (buf : Buf) (F : Int) (bf : Int) (bd : Option CStr)
    (hF : F ≠ VIR_STORAGE_FILE_AUTO)
    (hrange : F ≤ VIR_STORAGE_FILE_NONE ∨ F ≥ VIR_STORAGE_FILE_LAST) :
    virStorageFileGetMetadataInternal env path canonPath directory buf F MetaFields.zero bf bd =
      Run.ret ⟨-1, { MetaFields.zero with path := some path, canonPath := some canonPath,
                                          relDir := directory }, none, bf, bd⟩ := by
  unfold virStorageFileGetMetadataInternal
  dsimp only
  rw [if_neg hF, Run.pure_bind, if_pos hrange]
  rfl

/-- C21: the metadata extractor rejects a format exactly when the format left after
resolving AUTO through the prober lies outside the valid range.  (1) Every declared
format other than AUTO that is <= NONE or >= LAST is rejected for every header: the
call returns -1 before `format` is stored.  (2) For the declared format AUTO and for
every declared format inside the range, the resolved format lies inside the range,
every call that returns has stored it in `format`, and the return value is 0, or -1
only for QCOW2 (whose feature extraction can fail). -/
theorem unknown_format_rejected (env : Env) (path canonPath : CStr) (directory : Option CStr)
    (buf : Buf) (F : Int) (bf : Int) (bd : Option CStr) :
    (F ≠ VIR_STORAGE_FILE_AUTO → (F ≤ VIR_STORAGE_FILE_NONE ∨ F ≥ VIR_STORAGE_FILE_LAST) →
      virStorageFileGetMetadataInternal env path canonPath directory buf F MetaFields.zero
        bf bd =
        Run.ret ⟨-1, { MetaFields.zero with path := some path, canonPath := some canonPath,
                                            relDir := directory }, none, bf, bd⟩) ∧
    (F = VIR_STORAGE_FILE_AUTO ∨
        ¬ (F ≤ VIR_STORAGE_FILE_NONE ∨ F ≥ VIR_STORAGE_FILE_LAST) →
      ¬ (resolvedFormat path buf F ≤ VIR_STORAGE_FILE_NONE ∨
          resolvedFormat path buf F ≥ VIR_STORAGE_FILE_LAST) ∧
      ∀ r, virStorageFileGetMetadataInternal env path canonPath directory buf F
          MetaFields.zero bf bd = Run.ret r →
        r.fields.format = resolvedFormat path buf F ∧
          (r.ret = 0 ∨ (r.ret = -1 ∧ resolvedFormat path buf F = VIR_STORAGE_FILE_QCOW2))) := by
  constructor
  · exact internal_out_of_range env path canonPath directory buf F bf bd
  · intro h
    have hin : ¬ (resolvedFormat path buf F ≤ VIR_STORAGE_FILE_NONE ∨
        resolvedFormat path buf F ≥ VIR_STORAGE_FILE_LAST) := by
      unfold resolvedFormat
      split
      · have hr := probeFormatSpec_in_range path buf
        simp only [VIR_STORAGE_FILE_NONE, VIR_STORAGE_FILE_LAST] at hr ⊢
        omega
      · rename_i hne
        rcases h with h | h
        · exact absurd h hne
        · exact h
    refine ⟨hin, ?_⟩
    intro r hr
    rw [internal_resolved] at hr
    exact internal_in_range env path canonPath directory buf _ bf bd
      (resolvedFormat_ne_auto path buf F) hin r hr

/-- C21 (witness): the declared format AUTO_SAFE is rejected. -/
theorem unknown_format_rejected_witness :
    virStorageFileGetMetadataInternal brokenEnv (ascii "/a") (ascii "/a") none qcow2Header32
        VIR_STORAGE_FILE_AUTO_SAFE MetaFields.zero VIR_STORAGE_FILE_NONE none =
      Run.ret ⟨-1, { MetaFields.zero with path := some (ascii "/a"),
                                          canonPath := some (ascii "/a"), relDir := none },
        none, VIR_STORAGE_FILE_NONE, none⟩ :=
  (unknown_format_rejected brokenEnv (ascii "/a") (ascii "/a") none qcow2Header32
    VIR_STORAGE_FILE_AUTO_SAFE VIR_STORAGE_FILE_NONE none).1 (by decide) (by decide)

/-- C22: for every header and every declared format whose resolved format (the
declared one, or the prober's result for AUTO) has no magic (RAW, DIR, BOCHS, CLOOP,
DMG, FAT, VHD), the metadata extraction returns 0 with `path`, `canonPath`, `relDir`
and `format` set and everything else as in a fresh record: capacity 0, no encryption,
null `backingStoreRaw` and `backingStore`, no features, no compat; nothing is handed
back and the output locations keep their contents.  The header enters the result
through the resolved format only. -/
theorem no_magic_extracts_nothing (env : Env) (path canonPath : CStr)
    (directory : Option CStr) (buf : Buf) (F : Int) (bf : Int) (bd : Option CStr)
    (hF : resolvedFormat path buf F ∈ [VIR_STORAGE_FILE_RAW, VIR_STORAGE_FILE_DIR,
      VIR_STORAGE_FILE_BOCHS, VIR_STORAGE_FILE_CLOOP, VIR_STORAGE_FILE_DMG,
      VIR_STORAGE_FILE_FAT, VIR_STORAGE_FILE_VHD]) :
    virStorageFileGetMetadataInternal env path canonPath directory buf F MetaFields.zero bf bd =
      Run.ret ⟨0, { MetaFields.zero with path := some path, canonPath := some canonPath,
                                         relDir := directory,
                                         format := resolvedFormat path buf F },
        none, bf, bd⟩ := by
  rw [internal_resolved]
  generalize resolvedFormat path buf F = G at hF
  simp only [List.mem_cons, List.mem_singleton, List.not_mem_nil, or_false] at hF
  rcases hF with h | h | h | h | h | h | h <;> subst h <;> rfl

/-- C22 (witness): a QCOW2 header read with the declared format RAW. -/
theorem no_magic_extracts_nothing_witness :
    virStorageFileGetMetadataInternal brokenEnv (ascii "/a") (ascii "/a") none qcow2Header32
        VIR_STORAGE_FILE_RAW MetaFields.zero VIR_STORAGE_FILE_NONE none =
      Run.ret ⟨0, { MetaFields.zero with path := some (ascii "/a"),
                                         canonPath := some (ascii "/a"), relDir := none,
                                         format := resolvedFormat (ascii "/a") qcow2Header32
                                           VIR_STORAGE_FILE_RAW },
        none, VIR_STORAGE_FILE_NONE, none⟩ :=
  no_magic_extracts_nothing brokenEnv (ascii "/a") (ascii "/a") none qcow2Header32
    VIR_STORAGE_FILE_RAW VIR_STORAGE_FILE_NONE none (by decide)

/-! ## The chain lookup (C23, C24, C25, C26) -/

theorem parentAfter_eq (pre : List MetaFields) :
    parentAfter none pre = pre.getLast?.bind (fun f => f.canonPath) := by
  have key : ∀ (pre : List MetaFields) (f : MetaFields) (par : Option CStr),
      parentAfter par (f :: pre) = (f :: pre).getLast?.bind (fun f => f.canonPath) := by
    intro pre
    induction pre with
    | nil => intro f par; rfl
    | cons g pre ih =>
      intro f par
      show parentAfter f.canonPath (g :: pre) = _
      rw [ih g f.canonPath, List.getLast?_cons_cons]
  cases pre with
  | nil => rfl
  | cons f pre => exact key pre f none

theorem mkChain_append_ne_null (pre : List MetaFields) (l : MetaFields)
    (rest : List MetaFields) : mkChain (pre ++ l :: rest) ≠ .NULL := by
  cases pre <;> intro h <;> cases h

/-- The walk with `name` = NULL stops at the last link. -/
theorem lookupLoop_null_name (lp : LinkPointsTo) (nif : Bool) (pre : List MetaFields)
    (l : MetaFields) :
    ∀ (d par : Option CStr),
      virStorageFileChainLookupLoop lp none nif (mkChain (pre ++ [l])) d par =
        Run.ret ⟨l.canonPath, mkChain [l], parentAfter par pre⟩ := by
  induction pre with
  | nil =>
    intro d par
    show virStorageFileChainLookupLoop lp none nif (.node l .NULL) d par = _
    rw [virStorageFileChainLookupLoop]
    rfl
  | cons f pre ih =>
    intro d par
    show virStorageFileChainLookupLoop lp none nif (.node f (mkChain (pre ++ [l]))) d par = _
    rw [virStorageFileChainLookupLoop]
    rw [if_neg (mkChain_append_ne_null pre l []), ih]
    rfl

/-- The walk with a name stops at the first link that matches. -/
theorem lookupLoop_first_match (lp : LinkPointsTo) (name : CStr) (l : MetaFields)
    (rest : List MetaFields) (pre : List MetaFields) :
    ∀ (d par : Option CStr), passedOver lp name d pre = true →
      (l.path = some name ∨
        (l.path.isSome = true ∧ 0 < lookupTest lp name (dirAfter d pre) l)) →
      virStorageFileChainLookupLoop lp (some name) (virStorageIsFile (some name))
        (mkChain (pre ++ l :: rest)) d par =
        Run.ret ⟨l.canonPath, mkChain (l :: rest), parentAfter par pre⟩ := by
  induction pre with
  | nil =>
    intro d par _ hl
    show virStorageFileChainLookupLoop lp (some name) _ (.node l (mkChain rest)) d par = _
    rw [virStorageFileChainLookupLoop]
    rcases hl with hp | ⟨hsome, htest⟩
    · rw [hp]
      dsimp only
      rw [if_pos rfl]
      rfl
    · cases hpath : l.path with
      | none => rw [hpath] at hsome; cases hsome
      | some p =>
        dsimp only
        by_cases hnp : name = p
        · rw [if_pos hnp]; rfl
        · rw [if_neg hnp]
          have htest' : 0 < lookupTest lp name d l := htest
          unfold lookupTest at htest'
          split at htest'
          · rename_i happ
            rw [if_pos happ, if_neg (by omega), if_pos (by omega)]
            rfl
          · omega
  | cons f pre ih =>
    intro d par hpass hl
    show virStorageFileChainLookupLoop lp (some name) _
      (.node f (mkChain (pre ++ l :: rest))) d par = _
    rw [virStorageFileChainLookupLoop]
    unfold passedOver at hpass
    simp only [Bool.and_eq_true, decide_eq_true_eq] at hpass
    obtain ⟨⟨hp, ht⟩, hrest⟩ := hpass
    cases hpath : f.path with
    | none => rw [hpath] at hp; cases hp
    | some p =>
      rw [hpath] at hp
      simp only [decide_eq_true_eq] at hp
      dsimp only
      rw [if_neg (fun h => hp h.symm)]
      have hnext := ih f.relDir f.canonPath hrest hl
      unfold lookupTest at ht
      split
      · rename_i happ
        rw [if_pos happ] at ht
        rw [if_neg (by omega), if_neg (by omega)]
        exact hnext
      · exact hnext

/-- The walk with a name that no link matches ends on the error path. -/
theorem lookupLoop_unmatched (lp : LinkPointsTo) (name : CStr) (links : List MetaFields) :
    ∀ (d par : Option CStr), unmatched lp name d links = true →
      virStorageFileChainLookupLoop lp (some name) (virStorageIsFile (some name))
        (mkChain links) d par = Run.ret ⟨none, .NULL, none⟩ := by
  induction links with
  | nil =>
    intro d par _
    show virStorageFileChainLookupLoop lp (some name) _ .NULL d par = _
    rw [virStorageFileChainLookupLoop]
    rfl
  | cons f links ih =>
    intro d par hun
    show virStorageFileChainLookupLoop lp (some name) _ (.node f (mkChain links)) d par = _
    rw [virStorageFileChainLookupLoop]
    unfold unmatched at hun
    simp only [Bool.and_eq_true, decide_eq_true_eq] at hun
    obtain ⟨⟨hp, ht⟩, hrest⟩ := hun
    cases hpath : f.path with
    | none => rw [hpath] at hp; cases hp
    | some p =>
      rw [hpath] at hp
      simp only [decide_eq_true_eq] at hp
      dsimp only
      rw [if_neg (fun h => hp h.symm)]
      have hnext := ih f.relDir f.canonPath hrest
      unfold lookupTest at ht
      split
      · rename_i happ
        rw [if_pos happ] at ht
        split
        · rfl
        · rw [if_neg (by omega)]
          exact hnext
      · exact hnext

theorem chainLookup_cons (lp : LinkPointsTo) (f : MetaFields) (rest : List MetaFields)
    (name : Option CStr) :
    virStorageFileChainLookup lp (mkChain (f :: rest)) name =
      virStorageFileChainLookupLoop lp name (virStorageIsFile name) (mkChain (f :: rest))
        (some (ascii ".")) none :=
  rfl

theorem chainLookup_append (lp : LinkPointsTo) (pre : List MetaFields) (l : MetaFields)
    (rest : List MetaFields) (name : Option CStr) :
    virStorageFileChainLookup lp (mkChain (pre ++ l :: rest)) name =
      virStorageFileChainLookupLoop lp name (virStorageIsFile name)
        (mkChain (pre ++ l :: rest)) (some (ascii ".")) none := by
  cases pre with
  | nil => exact chainLookup_cons lp l rest name
  | cons f pre => exact chainLookup_cons lp f (pre ++ l :: rest) name

/-- C23 (amended): with `name` = NULL on a chain of at least two links, the lookup
returns the last link of the chain, the one whose `backingMeta` is null (the base),
together with that link's canonical path; the last link that still has a backing link
is the one before it, and its canonical path is what `*parent` receives. -/
theorem chain_lookup_null_name_returns_tail (lp : LinkPointsTo) (pre : List MetaFields)
    (p l : MetaFields) :
    virStorageFileChainLookup lp (mkChain (pre ++ [p, l])) none =
      Run.ret ⟨l.canonPath, .node l .NULL, p.canonPath⟩ := by
  have h := lookupLoop_null_name lp (virStorageIsFile none) (pre ++ [p]) l
    (some (ascii ".")) none
  rw [List.append_assoc] at h
  rw [chainLookup_append lp pre p [l] none]
  refine h.trans ?_
  rw [parentAfter_eq, List.getLast?_append, List.getLast?_singleton]
  rfl

/-- C23 (witness): the chain `/a` -> `/b` -> `c`. -/
theorem chain_lookup_null_name_returns_tail_witness :
    virStorageFileChainLookup needsDirectory chainWithoutRelDir none =
      Run.ret ⟨some (ascii "c"), .node (fileLink (ascii "c") none) .NULL,
        some (ascii "/b")⟩ :=
  chain_lookup_null_name_returns_tail needsDirectory
    [{ fileLink (ascii "/a") (some (ascii "/b")) with relDir := none }]
    (fileLink (ascii "/b") (some (ascii "c"))) (fileLink (ascii "c") none)

/-- C23 (counterexample): on the two-link chain `/a` -> `/b` the lookup with `name` =
NULL returns `/b` and the link of `/b`, whose `backingMeta` is null; the link of `/a`,
the last one that has a backing link, is not returned, its canonical path only shows
up in `*parent`. -/
theorem chain_lookup_null_name_two_links :
    virStorageFileChainLookup needsDirectory
        (mkChain [fileLink (ascii "/a") (some (ascii "/b")), fileLink (ascii "/b") none])
        none =
      Run.ret ⟨some (ascii "/b"), .node (fileLink (ascii "/b") none) .NULL,
        some (ascii "/a")⟩ := by
  decide

/-- With `name` = NULL the lookup walks to the last link of a non-empty chain: it
returns what that link holds as canonical path, sets `*meta` to the link and `*parent`
to the canonical path of the link right before it, or to NULL for a single link. -/
theorem chainLookup_base (lp : LinkPointsTo) (pre : List MetaFields) (l : MetaFields) :
    virStorageFileChainLookup lp (mkChain (pre ++ [l])) none =
      Run.ret ⟨l.canonPath, .node l .NULL,
        pre.getLast?.bind (fun f => f.canonPath)⟩ := by
  rw [chainLookup_append lp pre l [] none, lookupLoop_null_name, parentAfter_eq]
  rfl

/-- C24 (amended): with `name` = NULL, on every non-empty chain whose last link (the
one without `backingMeta`) has a canonical path, the lookup does not fail: it returns
that canonical path, sets `*meta` to that link and `*parent` to the canonical path of
the link right before it, or to NULL when the chain has a single link. -/
theorem chain_lookup_finds_base (lp : LinkPointsTo) (pre : List MetaFields)
    (l : MetaFields) (c : CStr) (hc : l.canonPath = some c) :
    ∃ res, virStorageFileChainLookup lp (mkChain (pre ++ [l])) none = Run.ret res ∧
      res.ret = some c ∧ res.ret ≠ none ∧ res.meta = .node l .NULL ∧
      res.parent = pre.getLast?.bind (fun f => f.canonPath) := by
  refine ⟨_, chainLookup_base lp pre l, ?_, ?_, rfl, rfl⟩
  · exact hc
  · show l.canonPath ≠ none
    rw [hc]
    exact Option.some_ne_none c

/-- C24 (witness): the single link `/a`. -/
theorem chain_lookup_finds_base_witness :
    ∃ res, virStorageFileChainLookup needsDirectory
        (mkChain ([] ++ [fileLink (ascii "/a") none])) none = Run.ret res ∧
      res.ret = some (ascii "/a") ∧ res.ret ≠ none ∧
      res.meta = .node (fileLink (ascii "/a") none) .NULL ∧
      res.parent = ([] : List MetaFields).getLast?.bind (fun f => f.canonPath) :=
  chain_lookup_finds_base needsDirectory [] (fileLink (ascii "/a") none) (ascii "/a") rfl

/-- C24 (counterexample): the chain the resolver returns for the directory `/d` is a
single link without canonical path; the lookup with `name` = NULL on it returns NULL,
the value that stands for failure, although it sets `*meta` to the link. -/
theorem chain_lookup_base_of_directory_is_null :
    virStorageFileGetMetadata dirEnv 1 (ascii "/d") VIR_STORAGE_FILE_AUTO 0 0 true =
        Run.ret (mkChain [{ MetaFields.zero with path := some (ascii "/d"),
                                                 type := VIR_STORAGE_TYPE_DIR,
                                                 format := VIR_STORAGE_FILE_DIR }]) ∧
      virStorageFileChainLookup needsDirectory
          (mkChain [{ MetaFields.zero with path := some (ascii "/d"),
                                           type := VIR_STORAGE_TYPE_DIR,
                                           format := VIR_STORAGE_FILE_DIR }]) none =
        Run.ret ⟨none, mkChain [{ MetaFields.zero with path := some (ascii "/d"),
                                                       type := VIR_STORAGE_TYPE_DIR,
                                                       format := VIR_STORAGE_FILE_DIR }],
          none⟩ := by
  decide

/-- C25 (amended): with a non-null `name`, for every chain in which the walk passes
over the links before link i (each has a path other than `name`, and the same-file
detection, where it is applied, answers "not the same file" without error) and link i
matches (its path equals `name`, or the detection applied to it answers "same file"):
the lookup returns link i's canonical path, sets `*meta` to link i and `*parent` to
the canonical path of link i-1, or to NULL when i is the head.  With no link before
it this says that a name equal to the head's path returns the head with a null
parent. -/
theorem chain_lookup_first_match (lp : LinkPointsTo) (name : CStr)
    (pre : List MetaFields) (l : MetaFields) (rest : List MetaFields)
    (hpre : passedOver lp name (some (ascii ".")) pre = true)
    (hl : l.path = some name ∨
      (l.path.isSome = true ∧ 0 < lookupTest lp name (dirAfter (some (ascii ".")) pre) l)) :
    virStorageFileChainLookup lp (mkChain (pre ++ l :: rest)) (some name) =
      Run.ret ⟨l.canonPath, mkChain (l :: rest),
        pre.getLast?.bind (fun f => f.canonPath)⟩ := by
  rw [chainLookup_append lp pre l rest (some name),
    lookupLoop_first_match lp name l rest pre _ _ hpre hl, parentAfter_eq]

/-- C25 (witness): `/b` in the chain `/a` -> `/b`. -/
theorem chain_lookup_first_match_witness :
    virStorageFileChainLookup needsDirectory
        (mkChain ([fileLink (ascii "/a") (some (ascii "/b"))] ++
          fileLink (ascii "/b") none :: [])) (some (ascii "/b")) =
      Run.ret ⟨some (ascii "/b"), mkChain [fileLink (ascii "/b") none], some (ascii "/a")⟩ :=
  chain_lookup_first_match needsDirectory (ascii "/b")
    [fileLink (ascii "/a") (some (ascii "/b"))] (fileLink (ascii "/b") none) []
    (by decide) (Or.inl rfl)

/-- C25 (counterexample): in the chain `/a` -> `/b` -> `c` the link of `/a` has no
`relDir`, so the same-file detection of the relative name `c` at the link of `/b` has
no starting directory and fails.  No link before the third matches and the third has
the path `c`, yet the lookup of `c` fails: it returns NULL. -/
theorem chain_lookup_detection_error_before_match :
    unmatched needsDirectory (ascii "c") (some (ascii "."))
        [{ fileLink (ascii "/a") (some (ascii "/b")) with relDir := none },
          fileLink (ascii "/b") (some (ascii "c"))] = true ∧
      (fileLink (ascii "c") none).path = some (ascii "c") ∧
      virStorageFileChainLookup needsDirectory chainWithoutRelDir (some (ascii "c")) =
        Run.ret ⟨none, .NULL, none⟩ := by
  decide

/-- C26: with a non-null `name` that matches no link of a non-empty chain (every
link has a path other than `name`, and the same-file detection, where applied, does
not answer "same file"), the lookup returns NULL and sets `*meta` and `*parent` to
NULL, whatever `*parent` held during the walk. -/
theorem chain_lookup_not_found (lp : LinkPointsTo) (name : CStr) (f : MetaFields)
    (rest : List MetaFields)
    (h : unmatched lp name (some (ascii ".")) (f :: rest) = true) :
    virStorageFileChainLookup lp (mkChain (f :: rest)) (some name) =
      Run.ret ⟨none, .NULL, none⟩ := by
  rw [chainLookup_cons, lookupLoop_unmatched lp name (f :: rest) _ _ h]

/-- C26 (witness): `/x` in the chain `/a` -> `/b`. -/
theorem chain_lookup_not_found_witness :
    virStorageFileChainLookup needsDirectory
        (mkChain (fileLink (ascii "/a") (some (ascii "/b")) :: [fileLink (ascii "/b") none]))
        (some (ascii "/x")) =
      Run.ret ⟨none, .NULL, none⟩ :=
  chain_lookup_not_found needsDirectory (ascii "/x") (fileLink (ascii "/a") (some (ascii "/b")))
    [fileLink (ascii "/b") none] (by decide)

/-! ## The resolver does not run out of steps -/

theorem Run.ret_ne_fuel {α : Type} (a : α) : (Run.ret a : Run α) ≠ Run.fuel := by
  intro h; cases h

theorem Run.pure_ne_fuel {α : Type} (a : α) : (pure a : Run α) ≠ Run.fuel := by
  intro h; cases h

theorem Run.oobRead_ne_fuel {α : Type} (i : Nat) : (Run.oobRead i : Run α) ≠ Run.fuel := by
  intro h; cases h

theorem Run.oobWrite_ne_fuel {α : Type} (i : Nat) : (Run.oobWrite i : Run α) ≠ Run.fuel := by
  intro h; cases h

theorem Run.bind_ne_fuel {α β : Type} {x : Run α} {f : α → Run β} (hx : x ≠ Run.fuel)
    (hf : ∀ a, f a ≠ Run.fuel) : (x >>= f) ≠ Run.fuel := by
  cases x with
  | ret a => exact hf a
  | oobRead i => intro h; cases h
  | oobWrite i => intro h; cases h
  | fuel => exact absurd rfl hx

theorem Run.ne_fuel_of_ret {α : Type} {x : Run α} (h : ∃ a, x = Run.ret a) :
    x ≠ Run.fuel := by
  obtain ⟨a, ha⟩ := h
  rw [ha]
  exact Run.ret_ne_fuel a

theorem readByte_ne_fuel (buf : Buf) (i : Nat) : readByte buf i ≠ Run.fuel := by
  rcases readByte_cases buf i with ⟨v, h⟩ | h <;> rw [h] <;> intro h' <;> cases h'

theorem virReadBufInt32BE_ne_fuel (buf : Buf) (off : Nat) :
    virReadBufInt32BE buf off ≠ Run.fuel := by
  unfold virReadBufInt32BE
  repeat' first
    | (with_reducible exact Run.pure_ne_fuel _)
    | (with_reducible exact readByte_ne_fuel _ _)
    | (with_reducible refine Run.bind_ne_fuel ?_ (fun _ => ?_))

theorem virReadBufInt32LE_ne_fuel (buf : Buf) (off : Nat) :
    virReadBufInt32LE buf off ≠ Run.fuel := by
  unfold virReadBufInt32LE
  repeat' first
    | (with_reducible exact Run.pure_ne_fuel _)
    | (with_reducible exact readByte_ne_fuel _ _)
    | (with_reducible refine Run.bind_ne_fuel ?_ (fun _ => ?_))

theorem virReadBufInt64BE_ne_fuel (buf : Buf) (off : Nat) :
    virReadBufInt64BE buf off ≠ Run.fuel := by
  unfold virReadBufInt64BE
  repeat' first
    | (with_reducible exact Run.pure_ne_fuel _)
    | (with_reducible exact virReadBufInt32BE_ne_fuel _ _)
    | (with_reducible refine Run.bind_ne_fuel ?_ (fun _ => ?_))

theorem virReadBufInt64LE_ne_fuel (buf : Buf) (off : Nat) :
    virReadBufInt64LE buf off ≠ Run.fuel := by
  unfold virReadBufInt64LE
  repeat' first
    | (with_reducible exact Run.pure_ne_fuel _)
    | (with_reducible exact virReadBufInt32LE_ne_fuel _ _)
    | (with_reducible refine Run.bind_ne_fuel ?_ (fun _ => ?_))

theorem readBytes_ne_fuel (buf : Buf) (off n : Nat) : readBytes buf off n ≠ Run.fuel := by
  unfold readBytes
  split <;> intro h <;> cases h

theorem qcowXGetBackingStore_ne_fuel (format : Option Int) (buf : Buf) (isQCow2 : Bool)
    (hM : buf.length < 2 ^ 64) : qcowXGetBackingStore format buf isQCow2 ≠ Run.fuel := by
  unfold qcowXGetBackingStore
  dsimp only
  repeat' first
    | (with_reducible exact Run.pure_ne_fuel _)
    | (with_reducible exact virReadBufInt32BE_ne_fuel _ _)
    | (with_reducible exact virReadBufInt64BE_ne_fuel _ _)
    | (with_reducible exact readBytes_ne_fuel _ _ _)
    | (with_reducible exact qcow2GetBackingStoreFormat_ne_fuel _ _ _ _ hM)
    | (with_reducible refine Run.bind_ne_fuel ?_ (fun _ => ?_))
    | split

theorem callGetBackingStore_ne_fuel (fn : GetBackingStoreFn) (format : Int) (buf : Buf)
    (hM : buf.length < 2 ^ 64) : callGetBackingStore fn format buf ≠ Run.fuel := by
  cases fn with
  | cowGetBackingStore => exact Run.ne_fuel_of_ret (cowGetBackingStore_in_bounds format buf)
  | qcow1GetBackingStore =>
    exact Run.ne_fuel_of_ret (qcow1GetBackingStore_in_bounds format buf)
  | qcow2GetBackingStore =>
    show qcow2GetBackingStore format buf ≠ Run.fuel
    unfold qcow2GetBackingStore
    exact Run.bind_ne_fuel (qcowXGetBackingStore_ne_fuel _ buf true hM)
      (fun _ => Run.pure_ne_fuel _)
  | qedGetBackingStore => exact Run.ne_fuel_of_ret (qedGetBackingStore_in_bounds format buf)
  | vmdk4GetBackingStore =>
    rcases vmdk4GetBackingStore_in_bounds format buf with ⟨r, h⟩ | ⟨i, h⟩
    · exact Run.ne_fuel_of_ret ⟨r, h⟩
    · show vmdk4GetBackingStore format buf ≠ Run.fuel
      rw [h]; exact Run.oobWrite_ne_fuel i

theorem callGetFeatures_ne_fuel (fn : GetFeaturesFn) (features : Option Bitmap)
    (format : Int) (buf : Buf) : callGetFeatures fn features format buf ≠ Run.fuel := by
  cases fn
  show qcow2GetFeatures features format buf ≠ Run.fuel
  unfold qcow2GetFeatures
  dsimp only
  repeat' first
    | (with_reducible exact Run.pure_ne_fuel _)
    | (with_reducible exact virReadBufInt32BE_ne_fuel _ _)
    | (with_reducible exact virReadBufInt64BE_ne_fuel _ _)
    | (with_reducible refine Run.bind_ne_fuel ?_ (fun _ => ?_))
    | split

theorem internalFeatures_ne_fuel (buf : Buf) (F : Int) (fields : MetaFields)
    (out : Option CStr) (bf : Int) (bd : Option CStr) :
    internalFeatures buf F fields out bf bd ≠ Run.fuel := by
  unfold internalFeatures
  dsimp only
  repeat' first
    | (with_reducible exact Run.pure_ne_fuel _)
    | (with_reducible exact callGetFeatures_ne_fuel _ _ _ _)
    | (with_reducible refine Run.bind_ne_fuel ?_ (fun _ => ?_))
    | split

theorem internalBacking_ne_fuel (env : Env) (directory : Option CStr) (buf : Buf) (F : Int)
    (fields : MetaFields) (bf : Int) (bd : Option CStr) (hM : buf.length < 2 ^ 64) :
    internalBacking env directory buf F fields bf bd ≠ Run.fuel := by
  unfold internalBacking
  dsimp only
  repeat' first
    | (with_reducible exact Run.pure_ne_fuel _)
    | (with_reducible exact internalFeatures_ne_fuel _ _ _ _ _ _)
    | (with_reducible exact callGetBackingStore_ne_fuel _ _ _ hM)
    | (with_reducible refine Run.bind_ne_fuel ?_ (fun _ => ?_))
    | split

theorem internalCrypt_ne_fuel (env : Env) (directory : Option CStr) (buf : Buf) (F : Int)
    (fields : MetaFields) (bf : Int) (bd : Option CStr) (hM : buf.length < 2 ^ 64) :
    internalCrypt env directory buf F fields bf bd ≠ Run.fuel := by
  unfold internalCrypt
  repeat' first
    | (with_reducible exact internalBacking_ne_fuel _ _ _ _ _ _ _ hM)
    | (with_reducible exact virReadBufInt32BE_ne_fuel _ _)
    | (with_reducible refine Run.bind_ne_fuel ?_ (fun _ => ?_))
    | split

theorem internal_ne_fuel (env : Env) (path canonPath : CStr) (directory : Option CStr)
    (buf : Buf) (F : Int) (fields : MetaFields) (bf : Int) (bd : Option CStr)
    (hM : buf.length < 2 ^ 64) :
    virStorageFileGetMetadataInternal env path canonPath directory buf F fields bf bd ≠
      Run.fuel := by
  rw [internal_resolved]
  have hF := resolvedFormat_ne_auto path buf F
  generalize resolvedFormat path buf F = G at hF
  unfold virStorageFileGetMetadataInternal
  dsimp only
  rw [if_neg hF, Run.pure_bind]
  repeat' first
    | (with_reducible exact Run.pure_ne_fuel _)
    | (with_reducible exact internalCrypt_ne_fuel _ _ _ _ _ _ _ hM)
    | (with_reducible exact virReadBufInt64BE_ne_fuel _ _)
    | (with_reducible exact virReadBufInt64LE_ne_fuel _ _)
    | (with_reducible refine Run.bind_ne_fuel ?_ (fun _ => ?_))
    | split

theorem fromFD_ne_fuel (env : Env) (path canonPath : CStr) (directory : Option CStr)
    (fd : OpenFile) (F : Int) (fields : MetaFields) (bd : Option CStr)
    (hM : ∀ buf, fd.header = some buf → buf.length < 2 ^ 64) :
    virStorageFileGetMetadataFromFDInternal env path canonPath directory fd F fields bd ≠
      Run.fuel := by
  unfold virStorageFileGetMetadataFromFDInternal
  dsimp only
  split
  · exact Run.pure_ne_fuel _
  split
  · exact Run.pure_ne_fuel _
  split
  · exact Run.pure_ne_fuel _
  split
  · exact Run.pure_ne_fuel _
  · rename_i buf hbuf
    exact Run.bind_ne_fuel (internal_ne_fuel _ _ _ _ _ _ _ _ _ (hM buf hbuf))
      (fun _ => Run.pure_ne_fuel _)

/-! ## Chains returned by the resolver (C27, C28, C29, C30) -/

/-- The return value of the metadata extractor is 0 or -1. -/
theorem internal_code (env : Env) (path canonPath : CStr) (directory : Option CStr)
    (buf : Buf) (F : Int) (bf : Int) (bd : Option CStr) :
    Run.Sat (fun r => r.ret = 0 ∨ r.ret = -1)
      (virStorageFileGetMetadataInternal env path canonPath directory buf F MetaFields.zero
        bf bd) := by
  intro r hr
  rw [internal_resolved] at hr
  have hF := resolvedFormat_ne_auto path buf F
  generalize resolvedFormat path buf F = G at hF hr
  by_cases hrange : G ≤ VIR_STORAGE_FILE_NONE ∨ G ≥ VIR_STORAGE_FILE_LAST
  · rw [internal_out_of_range env path canonPath directory buf G bf bd hF hrange] at hr
    cases hr
    exact Or.inr rfl
  · rcases (internal_in_range env path canonPath directory buf G bf bd hF hrange r hr).2
      with h | ⟨h, -⟩
    · exact Or.inl h
    · exact Or.inr h

/-- The return value of the header extraction of an open file is 0 or -1. -/
theorem fromFD_code (env : Env) (path canonPath : CStr) (directory : Option CStr)
    (fd : OpenFile) (format : Int) (bd : Option CStr) :
    Run.Sat (fun r => r.ret = 0 ∨ r.ret = -1)
      (virStorageFileGetMetadataFromFDInternal env path canonPath directory fd format
        MetaFields.zero bd) := by
  unfold virStorageFileGetMetadataFromFDInternal
  dsimp only
  split
  · exact Run.sat_pure (Or.inr rfl)
  split
  · exact Run.sat_pure (Or.inl rfl)
  split
  · exact Run.sat_pure (Or.inr rfl)
  split
  · exact Run.sat_pure (Or.inr rfl)
  · refine Run.sat_bind_of (internal_code env path canonPath directory _ format _ bd) ?_
    intro r hr
    exact Run.sat_pure hr

/-- What one level of the resolver returns on a fresh record: a failure; or a link
without backing link; or a link that was opened as a file and whose backing link is
the successful resolution of its `backingStore`, one level deeper, with the own
canonical path added to the visited set. -/
theorem recurse_cases (env : Env) (fuel : Nat) (path : Option CStr) (canonPath : CStr)
    (directory : Option CStr) (format uid gid : Int) (allow_probe : Bool) (cycle : List CStr)
    (res : RecurseResult)
    (h : virStorageFileGetMetadataRecurse env (fuel + 1) path canonPath directory format uid
      gid allow_probe cycle MetaFields.zero = Run.ret res) :
    res.ret = -1 ∨
    (res.ret = 0 ∧ canonPath ∉ cycle ∧ res.backingMeta = .NULL ∧
      res.fields.backingStore = none) ∨
    (res.ret = 0 ∧ canonPath ∉ cycle ∧
      (∃ fd, env.virFileOpenAs canonPath uid gid = some fd) ∧
      ∃ (bs : CStr) (dir : Option CStr) (fmt : Int) (b : RecurseResult),
        res.fields.backingStore = some bs ∧ res.fields.backingStoreRaw ≠ none ∧
        virStorageFileGetMetadataRecurse env fuel res.fields.backingStoreRaw bs dir fmt uid
          gid allow_probe (canonPath :: cycle) MetaFields.zero = Run.ret b ∧
        ¬ b.ret < 0 ∧ res.backingMeta = .node b.fields b.backingMeta) := by
  by_cases hc : canonPath ∈ cycle
  · rw [recurse_cycle env fuel path canonPath directory format uid gid allow_probe cycle _ hc]
      at h
    cases h
    exact Or.inl rfl
  have hnet : ∀ p : Option CStr, virStorageIsFile p = false ∨ p = none →
      virStorageFileGetMetadataRecurse env (fuel + 1) p canonPath directory format uid
        gid allow_probe cycle MetaFields.zero = Run.ret res →
      res.ret = 0 ∧ canonPath ∉ cycle ∧ res.backingMeta = .NULL ∧
        res.fields.backingStore = none := by
    intro p hp hres
    rw [virStorageFileGetMetadataRecurse.eq_def] at hres
    simp only [if_neg hc] at hres
    rcases hp with hp | hp
    · cases p with
      | none => cases hres; exact ⟨rfl, hc, rfl, rfl⟩
      | some q =>
        simp only [hp] at hres
        cases hres
        exact ⟨rfl, hc, rfl, rfl⟩
    · subst hp
      cases hres
      exact ⟨rfl, hc, rfl, rfl⟩
  cases path with
  | none => exact Or.inr (Or.inl (hnet none (Or.inr rfl) h))
  | some p =>
    cases hfile : virStorageIsFile (some p) with
    | false => exact Or.inr (Or.inl (hnet (some p) (Or.inl hfile) h))
    | true =>
      cases hopen : env.virFileOpenAs canonPath uid gid with
      | none =>
        rw [virStorageFileGetMetadataRecurse.eq_def] at h
        simp only [if_neg hc, hfile, hopen] at h
        cases h
        exact Or.inl rfl
      | some fd =>
        cases hfd : virStorageFileGetMetadataFromFDInternal env p canonPath directory fd
            format MetaFields.zero none with
        | ret r =>
          rw [recurse_local env fuel p canonPath directory format uid gid allow_probe cycle
            _ fd r hc hfile hopen hfd] at h
          have hshape := fromFD_shape env p canonPath directory fd format none r hfd
          rcases fromFD_code env p canonPath directory fd format none r hfd with h0 | h1
          · cases hbs : r.fields.backingStore with
            | none =>
              rw [h0, hbs] at h
              cases h
              exact Or.inr (Or.inl ⟨rfl, hc, rfl, hbs⟩)
            | some bs =>
              rw [h0, hbs] at h
              simp only [beq_self_eq_true] at h
              obtain ⟨b, hb, hres⟩ := Run.bind_eq_ret _ _ _ h
              have hraw : r.fields.backingStoreRaw ≠ none := by
                rcases hshape with ⟨-, h2⟩ | ⟨x, -, h1, -⟩ | ⟨x, -, h1, -⟩
                · rw [hbs] at h2; cases h2
                · rw [h1]; exact Option.some_ne_none _
                · rw [h1]; exact Option.some_ne_none _
              split at hres
              · cases hres
                exact Or.inr (Or.inl ⟨rfl, hc, rfl, rfl⟩)
              · rename_i hnneg
                cases hres
                exact Or.inr (Or.inr ⟨rfl, hc, ⟨fd, rfl⟩, bs, _, _, b, hbs, hraw, hb, hnneg,
                  rfl⟩)
          · rw [h1] at h
            have : ((-1 : Int) == 0) = false := by decide
            simp only [this] at h
            cases h
            exact Or.inl rfl
        | oobRead i =>
          rw [virStorageFileGetMetadataRecurse.eq_def] at h
          simp only [if_neg hc, hfile, hopen, hfd] at h
          cases h
        | oobWrite i =>
          rw [virStorageFileGetMetadataRecurse.eq_def] at h
          simp only [if_neg hc, hfile, hopen, hfd] at h
          cases h
        | fuel =>
          rw [virStorageFileGetMetadataRecurse.eq_def] at h
          simp only [if_neg hc, hfile, hopen, hfd] at h
          cases h


/-- The return value of the resolver is 0 or -1. -/
theorem recurse_code (env : Env) (fuel : Nat) (path : Option CStr) (canonPath : CStr)
    (directory : Option CStr) (format uid gid : Int) (allow_probe : Bool) (cycle : List CStr)
    (res : RecurseResult)
    (h : virStorageFileGetMetadataRecurse env fuel path canonPath directory format uid
      gid allow_probe cycle MetaFields.zero = Run.ret res) :
    res.ret = 0 ∨ res.ret = -1 := by
  cases fuel with
  | zero =>
    rw [virStorageFileGetMetadataRecurse.eq_def] at h
    cases h
  | succ fuel =>
    rcases recurse_cases env fuel path canonPath directory format uid gid allow_probe cycle
      res h with h1 | ⟨h0, -⟩ | ⟨h0, -⟩
    · exact Or.inr h1
    · exact Or.inl h0
    · exact Or.inl h0

/-- C27: for every chain that satisfies the invariant of the data model (a null
chain included), `virStorageFileChainGetBroken` returns 0 and sets `*brokenFile` to the
`backingStoreRaw` of the first link from the head whose `backingStoreRaw` is non-null
while its `backingStore` is null, and to NULL when there is no such link. -/
theorem chain_get_broken (chain : virStorageFileMetadataPtr) (h : chainInvariant chain) :
    virStorageFileChainGetBroken chain = (0, firstBroken (chainLinks chain)) := by
  induction chain with
  | NULL => rfl
  | node f bm ih =>
    obtain ⟨⟨hbm, hraw⟩, hrest⟩ := h
    rw [virStorageFileChainGetBroken]
    cases hr : f.backingStoreRaw with
    | none =>
      have hs : f.backingStore = none := by
        by_contra hne
        exact hraw hne hr
      have hnull : bm = .NULL := by
        by_contra hne
        exact hbm.mp hne hs
      subst hnull
      simp [firstBroken, chainLinks, hr]
    | some raw =>
      cases hs : f.backingStore with
      | none => simp [firstBroken, chainLinks, hr, hs]
      | some s =>
        dsimp only
        rw [ih hrest]
        simp [firstBroken, chainLinks, hr, hs]

/-- C27 (witness): the chain `/a` -> `/b` in which `/b` names `c`, which did not
resolve. -/
theorem chain_get_broken_witness :
    virStorageFileChainGetBroken (mkChain [fileLink (ascii "/a") (some (ascii "/b")),
        { fileLink (ascii "/b") (some (ascii "c")) with backingStore := none }]) =
      (0, firstBroken (chainLinks (mkChain [fileLink (ascii "/a") (some (ascii "/b")),
        { fileLink (ascii "/b") (some (ascii "c")) with backingStore := none }]))) :=
  chain_get_broken _ (by decide)

/-- Every successful level of the resolver returns a link that satisfies the invariant,
together with everything below it. -/
theorem recurse_invariant (env : Env) (uid gid : Int) (allow_probe : Bool) (fuel : Nat) :
    ∀ (path : Option CStr) (canonPath : CStr) (directory : Option CStr) (format : Int)
      (cycle : List CStr) (res : RecurseResult),
      virStorageFileGetMetadataRecurse env fuel path canonPath directory format uid gid
        allow_probe cycle MetaFields.zero = Run.ret res →
      res.ret = 0 → chainInvariant (.node res.fields res.backingMeta) := by
  induction fuel with
  | zero =>
    intro path canonPath directory format cycle res h
    rw [virStorageFileGetMetadataRecurse.eq_def] at h
    cases h
  | succ fuel ih =>
    intro path canonPath directory format cycle res h hok
    rcases recurse_cases env fuel path canonPath directory format uid gid allow_probe cycle
      res h with h1 | ⟨-, -, hnull, hs⟩ | ⟨-, -, -, bs, dir, fmt, b, hbs, hraw, hb, hnneg, hbm⟩
    · rw [hok] at h1; cases h1
    · rw [hnull]
      refine ⟨⟨⟨fun hne => absurd rfl hne, fun hne => absurd hs hne⟩,
        fun hne => absurd hs hne⟩, trivial⟩
    · have hb0 : b.ret = 0 := by
        rcases recurse_code env fuel _ bs dir fmt uid gid allow_probe _ b hb with h0 | h1
        · exact h0
        · rw [h1] at hnneg; exact absurd (by decide) hnneg
      rw [hbm]
      refine ⟨⟨⟨fun _ => ?_, fun _ hne => ?_⟩, fun _ => hraw⟩, ih _ bs dir fmt _ b hb hb0⟩
      · rw [hbs]; exact Option.some_ne_none _
      · cases hne

/-- C28: every chain the resolver returns satisfies the invariant in each of its
links: `backingMeta` is non-null exactly when `backingStore` is non-null, and a
non-null `backingStore` comes with a non-null `backingStoreRaw`.  So a link with a raw
backing name and a null `backingStore` has a null `backingMeta`: it is the last
link. -/
theorem resolved_chain_invariant (env : Env) (fuel : Nat) (path : CStr)
    (format uid gid : Int) (allow_probe : Bool) (chain : virStorageFileMetadataPtr)
    (h : virStorageFileGetMetadata env fuel path format uid gid allow_probe = Run.ret chain) :
    chainInvariant chain := by
  unfold virStorageFileGetMetadata at h
  dsimp only at h
  split at h
  · cases h; trivial
  · obtain ⟨r, hr, hres⟩ := Run.bind_eq_ret _ _ _ h
    split at hres
    · cases hres; trivial
    · rename_i hnneg
      cases hres
      have h0 : r.ret = 0 := by
        rcases recurse_code env fuel _ _ _ _ uid gid allow_probe _ r hr with h0 | h1
        · exact h0
        · rw [h1] at hnneg; exact absurd (by decide) hnneg
      exact recurse_invariant env uid gid allow_probe fuel _ _ _ _ _ r hr h0

/-- C28 (witness): the chain `/a` -> `/b` resolved in `cycleEnv`, broken at `/b`. -/
theorem resolved_chain_invariant_witness :
    chainInvariant (.node cycleResultA.fields
      (.node { cycleResultB.fields with backingStore := none } .NULL)) :=
  resolved_chain_invariant cycleEnv 3 (ascii "/a") VIR_STORAGE_FILE_QCOW2 0 0 true _
    (by decide)

theorem chainKeys_node (f g : MetaFields) (bm : virStorageFileMetadataPtr) :
    chainKeys (.node f (.node g bm)) = f.backingStore.toList ++ chainKeys (.node g bm) := by
  rw [chainKeys]

theorem chainKeys_tail (f : MetaFields) : chainKeys (.node f .NULL) = [] := by
  rw [chainKeys]

/-- The keys of the links that one level of the resolver hangs below its own link are
pairwise distinct and differ from its own key and from every key in the visited
set. -/
theorem recurse_keys (env : Env) (uid gid : Int) (allow_probe : Bool) (fuel : Nat) :
    ∀ (path : Option CStr) (canonPath : CStr) (directory : Option CStr) (format : Int)
      (cycle : List CStr) (res : RecurseResult),
      virStorageFileGetMetadataRecurse env fuel path canonPath directory format uid gid
        allow_probe cycle MetaFields.zero = Run.ret res →
      res.ret = 0 →
      canonPath ∉ cycle ∧ (chainKeys (.node res.fields res.backingMeta)).Nodup ∧
        (∀ k ∈ chainKeys (.node res.fields res.backingMeta), k ∉ canonPath :: cycle) ∧
        (chainKeys (.node res.fields res.backingMeta)).length + 1 =
          chainLength (.node res.fields res.backingMeta) := by
  induction fuel with
  | zero =>
    intro path canonPath directory format cycle res h
    rw [virStorageFileGetMetadataRecurse.eq_def] at h
    cases h
  | succ fuel ih =>
    intro path canonPath directory format cycle res h hok
    rcases recurse_cases env fuel path canonPath directory format uid gid allow_probe cycle
      res h with h1 | ⟨-, hc, hnull, hs⟩ | ⟨-, hc, -, bs, dir, fmt, b, hbs, hraw, hb, hnneg, hbm⟩
    · rw [hok] at h1; cases h1
    · rw [hnull, chainKeys_tail]
      exact ⟨hc, List.nodup_nil, fun k hk => absurd hk (List.not_mem_nil k), rfl⟩
    · have hb0 : b.ret = 0 := by
        rcases recurse_code env fuel _ bs dir fmt uid gid allow_probe _ b hb with h0 | h1
        · exact h0
        · rw [h1] at hnneg; exact absurd (by decide) hnneg
      obtain ⟨hbs_fresh, hnodup, hdisj, hlen⟩ := ih _ bs dir fmt _ b hb hb0
      rw [hbm, chainKeys_node, hbs]
      show canonPath ∉ cycle ∧ (bs :: chainKeys (.node b.fields b.backingMeta)).Nodup ∧
        (∀ k ∈ bs :: chainKeys (.node b.fields b.backingMeta), k ∉ canonPath :: cycle) ∧
        (bs :: chainKeys (.node b.fields b.backingMeta)).length + 1 =
          chainLength (.node b.fields b.backingMeta) + 1
      refine ⟨hc, List.nodup_cons.mpr ⟨?_, hnodup⟩, ?_, ?_⟩
      · intro hmem
        exact hdisj bs hmem (List.mem_cons_self _ _)
      · intro k hk
        rcases List.mem_cons.mp hk with rfl | hk'
        · exact hbs_fresh
        · intro hmem
          exact hdisj k hk' (List.mem_cons_of_mem _ hmem)
      · rw [List.length_cons, hlen]

/-- The keys of a chain the resolver returns are pairwise distinct, one per link. -/
theorem getMetadata_keys (env : Env) (fuel : Nat) (path : CStr) (format uid gid : Int)
    (allow_probe : Bool) (f : MetaFields) (bm : virStorageFileMetadataPtr) (key : CStr)
    (h : virStorageFileGetMetadata env fuel path format uid gid allow_probe =
      Run.ret (.node f bm))
    (hkey : startKey env path = some key) :
    (key :: chainKeys (.node f bm)).Nodup ∧
      (key :: chainKeys (.node f bm)).length = chainLength (.node f bm) := by
  unfold virStorageFileGetMetadata at h
  unfold startKey at hkey
  dsimp only at h
  have hrec : ∃ (directory : Option CStr) (fmt : Int) (r : RecurseResult),
      virStorageFileGetMetadataRecurse env fuel (some path) key directory fmt uid gid
        allow_probe [] MetaFields.zero = Run.ret r ∧ ¬ r.ret < 0 ∧
      f = r.fields ∧ bm = r.backingMeta := by
    by_cases hfile : virStorageIsFile (some path) = true
    · rw [if_pos hfile] at hkey
      rw [if_pos hfile, hkey] at h
      obtain ⟨r, hr, hres⟩ := Run.bind_eq_ret _ _ _ h
      split at hres
      · cases hres
      · rename_i hnneg
        cases hres
        exact ⟨_, _, r, hr, hnneg, rfl, rfl⟩
    · rw [if_neg hfile] at hkey
      cases hkey
      rw [if_neg hfile] at h
      obtain ⟨r, hr, hres⟩ := Run.bind_eq_ret _ _ _ h
      split at hres
      · cases hres
      · rename_i hnneg
        cases hres
        exact ⟨_, _, r, hr, hnneg, rfl, rfl⟩
  obtain ⟨directory, fmt, r, hr, hnneg, rfl, rfl⟩ := hrec
  have h0 : r.ret = 0 := by
    rcases recurse_code env fuel _ _ _ _ uid gid allow_probe _ r hr with h0 | h1
    · exact h0
    · rw [h1] at hnneg; exact absurd (by decide) hnneg
  obtain ⟨-, hnodup, hdisj, hlen⟩ := recurse_keys env uid gid allow_probe fuel _ _ _ _ _ r hr h0
  refine ⟨List.nodup_cons.mpr ⟨?_, hnodup⟩, ?_⟩
  · intro hmem
    exact hdisj key hmem (List.mem_cons_self _ _)
  · rw [List.length_cons, hlen]

/-- C29: in every chain the resolver returns, the keys under which its links were
resolved and entered into the visited set (the start key of the head, and for every
further link the `backingStore` of the link before it) are pairwise distinct, and
there is one key per link. -/
theorem chain_keys_distinct (env : Env) (fuel : Nat) (path : CStr) (format uid gid : Int)
    (allow_probe : Bool) (f : MetaFields) (bm : virStorageFileMetadataPtr) (key : CStr)
    (h : virStorageFileGetMetadata env fuel path format uid gid allow_probe =
      Run.ret (.node f bm))
    (hkey : startKey env path = some key) :
    (key :: chainKeys (.node f bm)).Nodup ∧
      (key :: chainKeys (.node f bm)).length = chainLength (.node f bm) :=
  getMetadata_keys env fuel path format uid gid allow_probe f bm key h hkey

/-- C29 (witness): the chain `/a` -> `/b` resolved in `cycleEnv`, with the keys `/a`
and `/b`. -/
theorem chain_keys_distinct_witness :
    (ascii "/a" :: chainKeys (.node cycleResultA.fields
        (.node { cycleResultB.fields with backingStore := none } .NULL))).Nodup ∧
      (ascii "/a" :: chainKeys (.node cycleResultA.fields
        (.node { cycleResultB.fields with backingStore := none } .NULL))).length =
        chainLength (.node cycleResultA.fields
          (.node { cycleResultB.fields with backingStore := none } .NULL)) :=
  chain_keys_distinct cycleEnv 3 (ascii "/a") VIR_STORAGE_FILE_QCOW2 0 0 true _ _ (ascii "/a")
    (by decide) (by decide)

/-- Adding a file that was not yet visited to the visited set leaves one file less
unvisited. -/
theorem unvisited_cons (files cycle : List CStr) (x : CStr) (hx : x ∈ files)
    (hc : x ∉ cycle) :
    (unvisited files (x :: cycle)).length + 1 ≤ (unvisited files cycle).length := by
  have hnodup : (x :: unvisited files (x :: cycle)).Nodup := by
    refine List.nodup_cons.mpr ⟨?_, (List.nodup_dedup files).filter _⟩
    intro hmem
    unfold unvisited at hmem
    rw [List.mem_filter] at hmem
    have := hmem.2
    simp at this
  have hsub : x :: unvisited files (x :: cycle) ⊆ unvisited files cycle := by
    intro y hy
    unfold unvisited
    rw [List.mem_filter]
    rcases List.mem_cons.mp hy with rfl | hy'
    · exact ⟨List.mem_dedup.mpr hx, by simpa using hc⟩
    · unfold unvisited at hy'
      rw [List.mem_filter] at hy'
      refine ⟨hy'.1, ?_⟩
      have := hy'.2
      simp only [List.mem_cons, not_or, decide_eq_true_eq] at this ⊢
      exact this.2
  have := (hnodup.subperm hsub).length_le
  rw [List.length_cons] at this
  exact this

/-- One level of the resolver does not run out of steps when it is given one step more
than there are unvisited files. -/
theorem recurse_ne_fuel (env : Env) (files : List CStr) (uid gid : Int)
    (allow_probe : Bool)
    (hfiles : ∀ p fd, env.virFileOpenAs p uid gid = some fd → p ∈ files)
    (hhdr : ∀ p fd buf, env.virFileOpenAs p uid gid = some fd → fd.header = some buf →
      buf.length < 2 ^ 64)
    (fuel : Nat) :
    ∀ (path : Option CStr) (canonPath : CStr) (directory : Option CStr) (format : Int)
      (cycle : List CStr), (unvisited files cycle).length + 1 ≤ fuel →
      virStorageFileGetMetadataRecurse env fuel path canonPath directory format uid gid
        allow_probe cycle MetaFields.zero ≠ Run.fuel := by
  induction fuel with
  | zero => intro path canonPath directory format cycle h; omega
  | succ fuel ih =>
    intro path canonPath directory format cycle hfuel
    by_cases hc : canonPath ∈ cycle
    · rw [recurse_cycle env fuel path canonPath directory format uid gid allow_probe cycle _ hc]
      exact Run.ret_ne_fuel _
    have hnet : ∀ p : Option CStr, virStorageIsFile p = false ∨ p = none →
        virStorageFileGetMetadataRecurse env (fuel + 1) p canonPath directory format uid
          gid allow_probe cycle MetaFields.zero ≠ Run.fuel := by
      intro p hp
      rw [virStorageFileGetMetadataRecurse.eq_def]
      simp only [if_neg hc]
      rcases hp with hp | hp
      · cases p with
        | none => exact Run.ret_ne_fuel _
        | some q =>
          simp only [hp]
          exact Run.ret_ne_fuel _
      · subst hp
        exact Run.ret_ne_fuel _
    cases path with
    | none => exact hnet none (Or.inr rfl)
    | some p =>
      cases hfile : virStorageIsFile (some p) with
      | false => exact hnet (some p) (Or.inl hfile)
      | true =>
        cases hopen : env.virFileOpenAs canonPath uid gid with
        | none =>
          rw [virStorageFileGetMetadataRecurse.eq_def]
          simp only [if_neg hc, hfile, hopen]
          exact Run.ret_ne_fuel _
        | some fd =>
          have hmem := hfiles canonPath fd hopen
          have hmeasure := unvisited_cons files cycle canonPath hmem hc
          have hfd := fromFD_ne_fuel env p canonPath directory fd format MetaFields.zero none
            (fun buf hbuf => hhdr canonPath fd buf hopen hbuf)
          cases hr : virStorageFileGetMetadataFromFDInternal env p canonPath directory fd
              format MetaFields.zero none with
          | ret r =>
            rw [recurse_local env fuel p canonPath directory format uid gid allow_probe cycle
              _ fd r hc hfile hopen hr]
            split
            · refine Run.bind_ne_fuel (ih _ _ _ _ _ (by omega)) (fun b => ?_)
              split <;> exact Run.ret_ne_fuel _
            · exact Run.ret_ne_fuel _
          | oobRead i =>
            rw [virStorageFileGetMetadataRecurse.eq_def]
            simp only [if_neg hc, hfile, hopen, hr]
            intro h; cases h
          | oobWrite i =>
            rw [virStorageFileGetMetadataRecurse.eq_def]
            simp only [if_neg hc, hfile, hopen, hr]
            intro h; cases h
          | fuel => exact absurd hr hfd

/-- The chain one level of the resolver returns has at most one link more than there
are unvisited files. -/
theorem recurse_length (env : Env) (files : List CStr) (uid gid : Int)
    (allow_probe : Bool)
    (hfiles : ∀ p fd, env.virFileOpenAs p uid gid = some fd → p ∈ files)
    (fuel : Nat) :
    ∀ (path : Option CStr) (canonPath : CStr) (directory : Option CStr) (format : Int)
      (cycle : List CStr) (res : RecurseResult),
      virStorageFileGetMetadataRecurse env fuel path canonPath directory format uid gid
        allow_probe cycle MetaFields.zero = Run.ret res →
      res.ret = 0 →
      chainLength (.node res.fields res.backingMeta) ≤ (unvisited files cycle).length + 1 := by
  induction fuel with
  | zero =>
    intro path canonPath directory format cycle res h
    rw [virStorageFileGetMetadataRecurse.eq_def] at h
    cases h
  | succ fuel ih =>
    intro path canonPath directory format cycle res h hok
    rcases recurse_cases env fuel path canonPath directory format uid gid allow_probe cycle
      res h with h1 | ⟨-, hc, hnull, hs⟩ |
        ⟨-, hc, ⟨fd, hopen⟩, bs, dir, fmt, b, hbs, hraw, hb, hnneg, hbm⟩
    · rw [hok] at h1; cases h1
    · rw [hnull]
      show 0 + 1 ≤ _
      omega
    · have hb0 : b.ret = 0 := by
        rcases recurse_code env fuel _ bs dir fmt uid gid allow_probe _ b hb with h0 | h1
        · exact h0
        · rw [h1] at hnneg; exact absurd (by decide) hnneg
      have hchild := ih _ bs dir fmt _ b hb hb0
      have hmeasure := unvisited_cons files cycle canonPath (hfiles canonPath fd hopen) hc
      rw [hbm]
      show chainLength (.node b.fields b.backingMeta) + 1 ≤ _
      omega

/-- C30 (amended): in every file system in which only the finitely many paths of `files` can
be opened (their headers being shorter than 2^64 bytes), for every starting path,
format and setting of `allow_probe`: the resolver terminates, one step of recursion
more than there are distinct files is never used up; the returned chain has at most
one link more than there are distinct files (every link but the last was opened as a
file under a key of its own); and its length is at most the number of distinct paths
in any list that holds the keys under which its links were resolved. -/
theorem resolver_terminates (env : Env) (files : List CStr) (path : CStr)
    (format uid gid : Int) (allow_probe : Bool) (fuel : Nat)
    (hfiles : ∀ p fd, env.virFileOpenAs p uid gid = some fd → p ∈ files)
    (hhdr : ∀ p fd buf, env.virFileOpenAs p uid gid = some fd → fd.header = some buf →
      buf.length < 2 ^ 64)
    (hfuel : files.dedup.length + 1 ≤ fuel) :
    virStorageFileGetMetadata env fuel path format uid gid allow_probe ≠ Run.fuel ∧
    ∀ chain, virStorageFileGetMetadata env fuel path format uid gid allow_probe =
        Run.ret chain →
      chainLength chain ≤ files.dedup.length + 1 ∧
      ∀ (key : CStr) (paths : List CStr), startKey env path = some key →
        (∀ k ∈ key :: chainKeys chain, k ∈ paths) → chainLength chain ≤ paths.dedup.length := by
  have hall : unvisited files [] = files.dedup := by
    unfold unvisited
    simp
  constructor
  · unfold virStorageFileGetMetadata
    dsimp only
    split
    · exact Run.pure_ne_fuel _
    · refine Run.bind_ne_fuel
        (recurse_ne_fuel env files uid gid allow_probe hfiles hhdr fuel _ _ _ _ []
          (by rw [hall]; exact hfuel)) (fun r => ?_)
      split <;> exact Run.pure_ne_fuel _
  · intro chain h
    constructor
    · unfold virStorageFileGetMetadata at h
      dsimp only at h
      split at h
      · cases h
        show 0 ≤ _
        omega
      · obtain ⟨r, hr, hres⟩ := Run.bind_eq_ret _ _ _ h
        split at hres
        · cases hres
          show 0 ≤ _
          omega
        · rename_i hnneg
          cases hres
          have h0 : r.ret = 0 := by
            rcases recurse_code env fuel _ _ _ _ uid gid allow_probe _ r hr with h0 | h1
            · exact h0
            · rw [h1] at hnneg; exact absurd (by decide) hnneg
          have := recurse_length env files uid gid allow_probe hfiles fuel _ _ _ _ _ r hr h0
          rw [hall] at this
          exact this
    · intro key paths hkey hsub
      cases chain with
      | NULL =>
        show 0 ≤ _
        omega
      | node f bm =>
        obtain ⟨hnodup, hlen⟩ := getMetadata_keys env fuel path format uid gid
          allow_probe f bm key h hkey
        rw [← hlen]
        have hsub' : key :: chainKeys (.node f bm) ⊆ paths.dedup :=
          fun k hk => List.mem_dedup.mpr (hsub k hk)
        exact (hnodup.subperm hsub').length_le

/-- C30 (witness): the two files of `cycleEnv`, which name each other. -/
theorem resolver_terminates_witness :
    virStorageFileGetMetadata cycleEnv 3 (ascii "/a") VIR_STORAGE_FILE_QCOW2 0 0 true ≠
        Run.fuel ∧
    ∀ chain, virStorageFileGetMetadata cycleEnv 3 (ascii "/a") VIR_STORAGE_FILE_QCOW2 0 0
        true = Run.ret chain →
      chainLength chain ≤ [ascii "/a", ascii "/b"].dedup.length + 1 ∧
      ∀ (key : CStr) (paths : List CStr), startKey cycleEnv (ascii "/a") = some key →
        (∀ k ∈ key :: chainKeys chain, k ∈ paths) → chainLength chain ≤ paths.dedup.length :=
  resolver_terminates cycleEnv [ascii "/a", ascii "/b"] (ascii "/a") VIR_STORAGE_FILE_QCOW2
    0 0 true 3
    (by
      intro p fd h
      by_cases ha : p = ascii "/a"
      · simp [ha]
      · by_cases hb : p = ascii "/b"
        · simp [hb]
        · simp [cycleEnv, ha, hb] at h)
    (by
      intro p fd buf h hbuf
      by_cases ha : p = ascii "/a"
      · simp only [cycleEnv, ha, if_true, Option.some.injEq] at h
        subst h
        cases hbuf
        show (74 : Nat) < 2 ^ 64
        norm_num
      · by_cases hb : p = ascii "/b"
        · simp only [cycleEnv, hb, if_true, Option.some.injEq] at h
          rw [if_neg (by decide)] at h
          cases h
          cases hbuf
          show (74 : Nat) < 2 ^ 64
          norm_num
        · simp [cycleEnv, ha, hb] at h)
    (by decide)

/-- C30 (counterexample): in `cycleEnv` only the two files `/a` and `/b` can be opened,
and the resolver started at `/a` makes three recursive steps, one more than there are
distinct paths: the third step, on `/a` again, is the one the visited set refuses.  Two
levels of recursion are not enough, three give the two-link chain. -/
theorem cycle_takes_three_steps :
    (∀ p fd, cycleEnv.virFileOpenAs p 0 0 = some fd → p ∈ [ascii "/a", ascii "/b"]) ∧
      [ascii "/a", ascii "/b"].dedup.length = 2 ∧
      virStorageFileGetMetadata cycleEnv 2 (ascii "/a") VIR_STORAGE_FILE_QCOW2 0 0 true =
        Run.fuel ∧
      virStorageFileGetMetadata cycleEnv 3 (ascii "/a") VIR_STORAGE_FILE_QCOW2 0 0 true =
        Run.ret (.node cycleResultA.fields
          (.node { cycleResultB.fields with backingStore := none } .NULL)) := by
  refine ⟨?_, by decide, by decide, by decide⟩
  intro p fd h
  by_cases ha : p = ascii "/a"
  · simp [ha]
  · by_cases hb : p = ascii "/b"
    · simp [hb]
    · simp [cycleEnv, ha, hb] at h


/-! ## The local-file test (C37) -/

/-- C `strchr` on a string with a first byte. -/
theorem strchr_cons (a : Byte) (t : CStr) (c : Byte) :
    strchr (a :: t) c = if a = c then some 0 else (strchr t c).map (fun k => k + 1) := by
  unfold strchr
  by_cases h : a = c
  · subst h; simp
  · have h' : ¬ c = a := fun e => h e.symm
    by_cases hm : c ∈ t
    · simp [h, h', hm, List.takeWhile]
    · simp [h, h', hm]

/-- The test `virStorageIsFile` decides on the first ':' or '/' of the string. -/
theorem isFile_cons (a : Byte) (t : CStr) :
    virStorageIsFile (some (a :: t)) =
      if a = 0x3a then false else if a = 0x2f then true else virStorageIsFile (some t) := by
  unfold virStorageIsFile
  simp only [strchr_cons]
  by_cases h1 : a = 0x3a
  · subst h1
    have h2 : ¬ ((0x3a : Byte) = 0x2f) := by decide
    simp only [if_true, if_neg h2]
    cases strchr t 0x2f <;> simp
  · by_cases h2 : a = 0x2f
    · subst h2
      simp only [if_neg h1, if_true]
      cases strchr t 0x3a <;> simp
    · simp only [if_neg h1, if_neg h2]
      cases strchr t 0x3a <;> cases strchr t 0x2f <;> simp

/-- The empty string counts as a local file name. -/
theorem isFile_nil : virStorageIsFile (some []) = true := by decide

/-- A string is refused by `virStorageIsFile` exactly when it has a ':' with no '/'
before it. -/
theorem isFile_false_iff (s : CStr) :
    virStorageIsFile (some s) = false ↔
      ∃ i, s.get? i = some 0x3a ∧ ∀ j, j < i → s.get? j ≠ some 0x2f := by
  induction s with
  | nil => simp [isFile_nil]
  | cons a t ih =>
    rw [isFile_cons]
    by_cases h1 : a = 0x3a
    · subst h1
      simp only [if_true, true_iff]
      exact ⟨0, rfl, fun j hj => absurd hj (Nat.not_lt_zero j)⟩
    · by_cases h2 : a = 0x2f
      · subst h2
        simp only [if_neg h1, if_true]
        constructor
        · intro h; cases h
        · rintro ⟨i, hi, hj⟩
          cases i with
          | zero => simp at hi
          | succ i => exact absurd rfl (hj 0 (Nat.succ_pos i))
      · simp only [if_neg h1, if_neg h2, ih]
        constructor
        · rintro ⟨i, hi, hj⟩
          refine ⟨i + 1, hi, fun j hlt => ?_⟩
          cases j with
          | zero => simp; exact fun e => h2 e
          | succ j => exact hj j (Nat.lt_of_succ_lt_succ hlt)
        · rintro ⟨i, hi, hj⟩
          cases i with
          | zero => simp at hi; exact absurd hi h1
          | succ i => exact ⟨i, hi, fun j hlt => hj (j + 1) (Nat.succ_lt_succ hlt)⟩

/-- C37: `virStorageIsFile` is false for the NULL pointer, and for a string exactly
when the string holds a ':' with no '/' before it (a ':' before the first '/', or a
':' and no '/' at all).  So every string that begins with "nbd:" or "rbd:" is refused,
and every string that begins with '/' or "./", and the empty string, is accepted. -/
theorem virStorageIsFile_characterisation :
    virStorageIsFile none = false ∧
    (∀ s : CStr, virStorageIsFile (some s) = false ↔
      ∃ i, s.get? i = some 0x3a ∧ ∀ j, j < i → s.get? j ≠ some 0x2f) ∧
    (∀ t : CStr, virStorageIsFile (some (ascii "nbd:" ++ t)) = false) ∧
    (∀ t : CStr, virStorageIsFile (some (ascii "rbd:" ++ t)) = false) ∧
    (∀ t : CStr, virStorageIsFile (some (0x2f :: t)) = true) ∧
    (∀ t : CStr, virStorageIsFile (some (ascii "./" ++ t)) = true) ∧
    virStorageIsFile (some []) = true := by
  refine ⟨rfl, isFile_false_iff, fun t => ?_, fun t => ?_, fun t => ?_, fun t => ?_, isFile_nil⟩
  · show virStorageIsFile (some (0x6e :: 0x62 :: 0x64 :: 0x3a :: t)) = false
    rw [isFile_cons, isFile_cons, isFile_cons, isFile_cons]; rfl
  · show virStorageIsFile (some (0x72 :: 0x62 :: 0x64 :: 0x3a :: t)) = false
    rw [isFile_cons, isFile_cons, isFile_cons, isFile_cons]; rfl
  · rw [isFile_cons]; rfl
  · show virStorageIsFile (some (0x2e :: 0x2f :: t)) = true
    rw [isFile_cons, isFile_cons]; rfl

/-! ## The range of the prober (C38) -/

/-- The prober never answers with a format that has neither magic nor extension. -/
theorem probeFormatSpec_not_plain (path : CStr) (buf : Buf) :
    probeFormatSpec path buf ∉ [VIR_STORAGE_FILE_NONE, VIR_STORAGE_FILE_DIR,
      VIR_STORAGE_FILE_BOCHS, VIR_STORAGE_FILE_CLOOP, VIR_STORAGE_FILE_FAT,
      VIR_STORAGE_FILE_VHD] := by
  intro hmem
  simp only [List.mem_cons, List.mem_singleton, List.not_mem_nil, or_false] at hmem
  unfold probeFormatSpec at hmem
  cases h : allFormats.find? (fun f => specMagicMatches f buf && specVersionMatches f buf) with
  | some f =>
    rw [h] at hmem
    have hp := List.find?_some h
    have hm : specMagicMatches f buf = true := by
      cases hb : specMagicMatches f buf
      · rw [hb] at hp; cases hp
      · rfl
    rcases hmem with e | e | e | e | e | e <;>
      (dsimp only at e; subst e; exact Bool.noConfusion (show false = true from hm))
  | none =>
    rw [h] at hmem
    dsimp only at hmem
    unfold specExtensionResult at hmem
    cases h2 : allFormats.find? (fun f => specExtensionMatches f path) with
    | some f =>
      rw [h2] at hmem
      have hp := List.find?_some h2
      rcases hmem with e | e | e | e | e | e <;>
        (dsimp only at e; subst e; exact Bool.noConfusion (show false = true from hp))
    | none =>
      rw [h2] at hmem
      revert hmem
      decide

/-- C38: for every path and every header, of any length, the prober returns a format
strictly between NONE and LAST that is none of NONE, DIR, BOCHS, CLOOP, FAT, VHD (the
formats with neither magic nor extension).  Hence a metadata extraction with the
declared format AUTO never fails on the format check: every call that returns has
stored the probed format, and its return value is 0, or -1 only for QCOW2 (whose
feature extraction can fail). -/
theorem probe_result_is_known_format (env : Env) (path canonPath : CStr)
    (directory : Option CStr) (buf : Buf) (bf : Int) (bd : Option CStr) :
    ∃ f, virStorageFileProbeFormatFromBuf path buf = Run.ret f ∧
      VIR_STORAGE_FILE_NONE < f ∧ f < VIR_STORAGE_FILE_LAST ∧
      f ∉ [VIR_STORAGE_FILE_NONE, VIR_STORAGE_FILE_DIR, VIR_STORAGE_FILE_BOCHS,
        VIR_STORAGE_FILE_CLOOP, VIR_STORAGE_FILE_FAT, VIR_STORAGE_FILE_VHD] ∧
      ∀ r, virStorageFileGetMetadataInternal env path canonPath directory buf
          VIR_STORAGE_FILE_AUTO MetaFields.zero bf bd = Run.ret r →
        r.fields.format = f ∧ (r.ret = 0 ∨ (r.ret = -1 ∧ f = VIR_STORAGE_FILE_QCOW2)) := by
  have hr := probeFormatSpec_in_range path buf
  refine ⟨probeFormatSpec path buf, probe_eq_spec path buf, hr.1, hr.2,
    probeFormatSpec_not_plain path buf, ?_⟩
  intro r h
  rw [internal_auto] at h
  have hne : probeFormatSpec path buf ≠ VIR_STORAGE_FILE_AUTO := by
    intro e
    rw [e] at hr
    exact absurd hr.1 (by decide)
  have hin : ¬ (probeFormatSpec path buf ≤ VIR_STORAGE_FILE_NONE ∨
      probeFormatSpec path buf ≥ VIR_STORAGE_FILE_LAST) := by
    rintro (h1 | h1)
    · exact absurd hr.1 (not_lt.mpr h1)
    · exact absurd hr.2 (not_lt.mpr h1)
  exact internal_in_range env path canonPath directory buf _ bf bd hne hin r h

/-! ## The tails of the metadata extractor -/

/-- The two ways `virStorageFileGetMetadataInternal` ends on a fresh record with a
declared format inside the range: at one of the early exits, with nothing but the format
and perhaps the capacity recorded, or in the tail that starts with the encryption read,
reached with a header that holds the capacity field. -/
theorem internal_paths (env : Env) (path canonPath : CStr) (directory : Option CStr)
    (buf : Buf) (F : Int) (bf : Int) (bd : Option CStr) (r : InternalResult)
    (hF : F ≠ VIR_STORAGE_FILE_AUTO)
    (hrange : ¬ (F ≤ VIR_STORAGE_FILE_NONE ∨ F ≥ VIR_STORAGE_FILE_LAST))
    (h : virStorageFileGetMetadataInternal env path canonPath directory buf F MetaFields.zero
      bf bd = Run.ret r) :
    (r.ret = 0 ∧ r.fields.format = F ∧ Untouched r.fields ∧ r.backingStore = none ∧
      r.backingFormat = bf) ∨
    ((fileTypeInfo F).magic.isNone = false ∧
      ((fileTypeInfo F).sizeOffset ≠ -1 → (fileTypeInfo F).sizeOffset + 8 ≤ buf.length) ∧
      ∃ fields : MetaFields, fields.format = F ∧ Untouched fields ∧
        internalCrypt env directory buf F fields bf bd = Run.ret r) := by
  unfold virStorageFileGetMetadataInternal at h
  dsimp only at h
  rw [if_neg hF, Run.pure_bind, if_neg hrange] at h
  split at h
  · cases h; exact Or.inl ⟨rfl, rfl, ⟨rfl, rfl, rfl, rfl, rfl⟩, rfl, rfl⟩
  rename_i hmagic
  have hm : (fileTypeInfo F).magic.isNone = false := by
    cases hb : (fileTypeInfo F).magic.isNone
    · rfl
    · exact absurd hb hmagic
  split at h
  · rename_i hso
    split at h
    · cases h; exact Or.inl ⟨rfl, rfl, ⟨rfl, rfl, rfl, rfl, rfl⟩, rfl, rfl⟩
    · rename_i hlen
      have hlen2 : (fileTypeInfo F).sizeOffset + 8 ≤ buf.length := not_lt.mp hlen
      split at h <;>
      · obtain ⟨cap, -, hc⟩ := Run.bind_eq_ret _ _ _ h
        split at hc
        · cases hc; exact Or.inl ⟨rfl, rfl, ⟨rfl, rfl, rfl, rfl, rfl⟩, rfl, rfl⟩
        · exact Or.inr ⟨hm, fun _ => hlen2, _, rfl, ⟨rfl, rfl, rfl, rfl, rfl⟩, hc⟩
  · rename_i hso
    exact Or.inr ⟨hm, fun hne => absurd hne hso, _, rfl, ⟨rfl, rfl, rfl, rfl, rfl⟩, h⟩

/-- The encryption read of the metadata extractor: the tail that starts with the
`getBackingStore` call runs on the same record, with the encryption descriptor set when
the format has an encryption offset and the field read there is not zero. -/
theorem internalCrypt_paths (env : Env) (directory : Option CStr) (buf : Buf) (F : Int)
    (fields : MetaFields) (bf : Int) (bd : Option CStr) (r : InternalResult)
    (h : internalCrypt env directory buf F fields bf bd = Run.ret r) :
    ∃ e : Bool, internalBacking env directory buf F { fields with encryption := e } bf bd =
        Run.ret r ∧
      ((fileTypeInfo F).qcowCryptOffset = -1 → e = fields.encryption) ∧
      ((fileTypeInfo F).qcowCryptOffset ≠ -1 →
        ∃ c, virReadBufInt32BE buf (fileTypeInfo F).qcowCryptOffset.toNat = Run.ret c ∧
          e = (decide (toInt32 c ≠ 0) || fields.encryption)) := by
  unfold internalCrypt at h
  split at h
  · rename_i hne
    obtain ⟨c, hread, hc⟩ := Run.bind_eq_ret _ _ _ h
    dsimp only at hc
    split at hc
    · rename_i hnz
      refine ⟨true, hc, fun h1 => absurd h1 hne, fun _ => ⟨c, hread, ?_⟩⟩
      simp [hnz]
    · rename_i hz
      refine ⟨fields.encryption, hc, fun _ => rfl, fun _ => ⟨c, hread, ?_⟩⟩
      simp [hz]
  · rename_i he
    have he2 : (fileTypeInfo F).qcowCryptOffset = -1 := not_not.mp he
    exact ⟨fields.encryption, h, fun _ => rfl, fun hne => absurd he2 hne⟩

/-- The `getBackingStore` call of the metadata extractor: without an extractor the
feature tail runs on the same record; with one, INVALID ends the extraction with
success and ERROR with failure, both on the same record, and every other code leads
into the feature tail on a record with the same encryption, features and compat. -/
theorem internalBacking_paths (env : Env) (directory : Option CStr) (buf : Buf) (F : Int)
    (fields : MetaFields) (bf : Int) (bd : Option CStr) (r : InternalResult)
    (h : internalBacking env directory buf F fields bf bd = Run.ret r) :
    ((fileTypeInfo F).getBackingStore = none ∧
      internalFeatures buf F fields none bf bd = Run.ret r) ∨
    ∃ fn store, (fileTypeInfo F).getBackingStore = some fn ∧
      callGetBackingStore fn bf buf = Run.ret store ∧
      ((store.ret = BACKING_STORE_INVALID ∧ r = ⟨0, fields, none, store.format, bd⟩) ∨
       (store.ret = BACKING_STORE_ERROR ∧ r = ⟨-1, fields, none, store.format, bd⟩) ∨
       (store.ret ≠ BACKING_STORE_INVALID ∧ store.ret ≠ BACKING_STORE_ERROR ∧
         ∃ (fields2 : MetaFields) (out : Option CStr) (bf2 : Int) (bd2 : Option CStr),
           fields2.encryption = fields.encryption ∧ fields2.features = fields.features ∧
           fields2.compat = fields.compat ∧ fields2.format = fields.format ∧
           internalFeatures buf F fields2 out bf2 bd2 = Run.ret r)) := by
  unfold internalBacking at h
  cases hg : (fileTypeInfo F).getBackingStore with
  | none =>
    rw [hg] at h
    exact Or.inl ⟨rfl, h⟩
  | some fn =>
    rw [hg] at h
    obtain ⟨store, hstore, hs⟩ := Run.bind_eq_ret _ _ _ h
    dsimp only at hs
    refine Or.inr ⟨fn, store, rfl, hstore, ?_⟩
    split at hs
    · rename_i hi
      cases hs; exact Or.inl ⟨hi, rfl⟩
    rename_i hi
    split at hs
    · rename_i he
      cases hs; exact Or.inr (Or.inl ⟨he, rfl⟩)
    rename_i he
    refine Or.inr (Or.inr ⟨hi, he, ?_⟩)
    split at hs
    · split at hs
      · split at hs
        · refine ⟨_, _, _, _, ?_, ?_, ?_, ?_, hs⟩ <;> rfl
        · refine ⟨_, _, _, _, ?_, ?_, ?_, ?_, hs⟩ <;> rfl
      · refine ⟨_, _, _, _, ?_, ?_, ?_, ?_, hs⟩ <;> rfl
    · refine ⟨_, _, _, _, ?_, ?_, ?_, ?_, hs⟩ <;> rfl

/-- The loop of `qcow2GetFeatures` over the one compatible feature: the lazy-refcounts
bit of the bitmap is bit 0 of the compatible-features word. -/
theorem setFeatureBits_lazy_refcounts (bits : Nat) :
    qcow2SetFeatureBits bits qcow2CompatibleFeatureArray 0
        (List.replicate VIR_STORAGE_FILE_FEATURE_LAST false) =
      [decide (bits % 2 = 1)] := by
  by_cases hb : bits % 2 = 1
  · simp [qcow2SetFeatureBits, qcow2CompatibleFeatureArray, hb]
  · simp [qcow2SetFeatureBits, qcow2CompatibleFeatureArray, hb]

/-- The feature tail of the metadata extractor for QCOW2 on a record without feature
bitmap: version 2 records nothing; any other version fails on a header shorter than
100 bytes and otherwise records the bitmap of the compatible-features word together
with the compat string "1.1". -/
theorem internalFeatures_qcow2 (buf : Buf) (fields : MetaFields) (out : Option CStr)
    (bf : Int) (bd : Option CStr) (r : InternalResult) (hlen : 8 ≤ buf.length)
    (hfeat : fields.features = none)
    (h : internalFeatures buf VIR_STORAGE_FILE_QCOW2 fields out bf bd = Run.ret r) :
    (toInt32 (beVal (field buf 4 4)) = 2 ∧ r = ⟨0, fields, out, bf, bd⟩) ∨
    (toInt32 (beVal (field buf 4 4)) ≠ 2 ∧ buf.length < 100 ∧
      r = ⟨-1, fields, out, bf, bd⟩) ∨
    (toInt32 (beVal (field buf 4 4)) ≠ 2 ∧ 100 ≤ buf.length ∧
      r = ⟨0, { fields with
                features := some [decide (beVal (field buf 80 8) % 2 = 1)],
                compat := some (ascii "1.1") }, out, bf, bd⟩) := by
  unfold internalFeatures at h
  have hg : (fileTypeInfo VIR_STORAGE_FILE_QCOW2).getFeatures = some .qcow2GetFeatures := rfl
  rw [hg] at h
  dsimp only at h
  have hcall : callGetFeatures .qcow2GetFeatures fields.features VIR_STORAGE_FILE_QCOW2 buf =
      qcow2GetFeatures fields.features VIR_STORAGE_FILE_QCOW2 buf := rfl
  rw [hcall] at h
  unfold qcow2GetFeatures at h
  have hv : (fileTypeInfo VIR_STORAGE_FILE_QCOW2).versionOffset.toNat = 4 := rfl
  rw [hv, virReadBufInt32BE_eq buf 4 (by omega)] at h
  dsimp only at h
  rw [Run.ret_bind] at h
  by_cases h2 : toInt32 (beVal (field buf 4 4)) = 2
  · rw [if_pos h2, Run.pure_bind] at h
    have hnot : ¬ ((0 : Int) < 0) := by decide
    dsimp only at h
    rw [if_neg hnot] at h
    rw [hfeat] at h
    simp only [Option.isSome_none, Bool.false_eq_true, and_false, if_false] at h
    left
    refine ⟨h2, ?_⟩
    cases h
    cases fields
    simp only at hfeat
    subst hfeat
    rfl
  · rw [if_neg h2] at h
    by_cases hl : buf.length < QCOW2v3_HDR_SIZE
    · rw [if_pos hl, Run.pure_bind] at h
      dsimp only at h
      have hneg : ((-1 : Int) < 0) := by decide
      rw [if_pos hneg] at h
      right; left
      refine ⟨h2, hl, ?_⟩
      cases h
      cases fields
      simp only at hfeat
      subst hfeat
      rfl
    · rw [if_neg hl] at h
      have hl2 : 100 ≤ buf.length := not_lt.mp hl
      rw [virReadBufInt64BE_eq buf QCOW2v3_HDR_FEATURES_COMPATIBLE
        (by show 80 + 8 ≤ buf.length; omega)] at h
      rw [Run.ret_bind, Run.pure_bind] at h
      dsimp only at h
      have hnot : ¬ ((0 : Int) < 0) := by decide
      rw [if_neg hnot] at h
      simp only [Option.isSome_some, and_self, if_true] at h
      right; right
      refine ⟨h2, hl2, ?_⟩
      cases h
      rw [setFeatureBits_lazy_refcounts]

/-! ## Encryption, INVALID and features (C31, C32, C33) -/

/-- The encryption mode is tested as an `int`: it is zero exactly when the field is. -/
theorem toInt32_ne_zero (v : Nat) (h : v < 2 ^ 32) : toInt32 v ≠ 0 ↔ v ≠ 0 := by
  rcases toInt32_of_lt v h with ⟨h1, -⟩ | ⟨h1, h2⟩
  · rw [h1]; exact_mod_cast Iff.rfl
  · constructor
    · intro _ h0; rw [h0] at h2; exact absurd h2 (by norm_num)
    · intro _ h0; rw [h0] at h1; exact absurd h1 (by decide)

/-- For QCOW and QCOW2 a header that holds the capacity field takes the metadata
extractor to the encryption read, with the format and the capacity recorded. -/
theorem internal_qcow_crypt (env : Env) (path canonPath : CStr) (directory : Option CStr)
    (buf : Buf) (F : Int) (bf : Int) (bd : Option CStr)
    (hF : F = VIR_STORAGE_FILE_QCOW ∨ F = VIR_STORAGE_FILE_QCOW2)
    (hlen : 32 ≤ buf.length) :
    virStorageFileGetMetadataInternal env path canonPath directory buf F MetaFields.zero bf bd =
      internalCrypt env directory buf F
        { MetaFields.zero with path := some path, canonPath := some canonPath,
                               relDir := directory, format := F,
                               capacity := beVal (field buf 24 8) } bf bd := by
  have hlt := beVal_field_lt buf 24 8
  have hno : ¬ beVal (field buf 24 8) > ULLONG_MAX / 1 := by
    have : ULLONG_MAX / 1 = 2 ^ 64 - 1 := by norm_num [ULLONG_MAX]
    rw [this]
    have h256 : (256 : Nat) ^ 8 = 2 ^ 64 := by norm_num
    omega
  rcases hF with rfl | rfl
  · rw [internal_declared_capacity env path canonPath directory buf VIR_STORAGE_FILE_QCOW bf bd
      (by decide) (by decide) rfl (by decide) (by decide) hlen]
    have hc : specCapacityField VIR_STORAGE_FILE_QCOW buf = beVal (field buf 24 8) := rfl
    have hmul : (fileTypeInfo VIR_STORAGE_FILE_QCOW).sizeMultiplier.toNat = 1 := rfl
    rw [hc, hmul, if_neg hno, Nat.mul_one]
  · rw [internal_declared_capacity env path canonPath directory buf VIR_STORAGE_FILE_QCOW2 bf bd
      (by decide) (by decide) rfl (by decide) (by decide) hlen]
    have hc : specCapacityField VIR_STORAGE_FILE_QCOW2 buf = beVal (field buf 24 8) := rfl
    have hmul : (fileTypeInfo VIR_STORAGE_FILE_QCOW2).sizeMultiplier.toNat = 1 := rfl
    rw [hc, hmul, if_neg hno, Nat.mul_one]

/-- The encryption descriptor after the tail that starts with the encryption read, for
a format with an encryption offset and a header that holds the field. -/
theorem internalCrypt_reads_mode (env : Env) (directory : Option CStr) (buf : Buf) (F : Int)
    (fields : MetaFields) (bf : Int) (bd : Option CStr) (r : InternalResult) (off : Nat)
    (hoff : (fileTypeInfo F).qcowCryptOffset = (off : Int)) (hlen : off + 4 ≤ buf.length)
    (henc : fields.encryption = false)
    (h : internalCrypt env directory buf F fields bf bd = Run.ret r) :
    r.fields.encryption = true ↔ beVal (field buf off 4) ≠ 0 := by
  obtain ⟨e, hb, -, he⟩ := internalCrypt_paths env directory buf F fields bf bd r h
  have hne : (fileTypeInfo F).qcowCryptOffset ≠ -1 := by rw [hoff]; omega
  obtain ⟨c, hread, hec⟩ := he hne
  rw [hoff, Int.toNat_ofNat, virReadBufInt32BE_eq buf off hlen] at hread
  cases hread
  have hfr := (internalBacking_frame _ _ _ _ _ _ _ _ hb).2.2.2.2.2
  rw [hfr]
  show e = true ↔ _
  rw [hec, henc, Bool.or_false, decide_eq_true_iff]
  exact toInt32_ne_zero _ (beVal_field_lt buf off 4)

/-- Only the rows of QCOW and QCOW2 have magic bytes and an encryption offset. -/
theorem crypt_rows (F : Int)
    (hrange : ¬ (F ≤ VIR_STORAGE_FILE_NONE ∨ F ≥ VIR_STORAGE_FILE_LAST))
    (hm : (fileTypeInfo F).magic.isNone = false)
    (hc : (fileTypeInfo F).qcowCryptOffset ≠ -1) :
    F = VIR_STORAGE_FILE_QCOW ∨ F = VIR_STORAGE_FILE_QCOW2 := by
  have h0 : 0 < F := by simp only [VIR_STORAGE_FILE_NONE] at hrange; omega
  have h16 : F < 16 := by simp only [VIR_STORAGE_FILE_LAST] at hrange; omega
  clear hrange
  interval_cases F <;>
    first
    | (exact absurd hm (by decide))
    | (exact absurd rfl hc)
    | (exact Or.inl rfl)
    | (exact Or.inr rfl)

/-- No format other than QCOW and QCOW2 ever records an encryption descriptor. -/
theorem internal_no_encryption (env : Env) (path canonPath : CStr) (directory : Option CStr)
    (buf : Buf) (G : Int) (bf : Int) (bd : Option CStr) (r : InternalResult)
    (hG : G ≠ VIR_STORAGE_FILE_AUTO)
    (hq1 : G ≠ VIR_STORAGE_FILE_QCOW) (hq2 : G ≠ VIR_STORAGE_FILE_QCOW2)
    (h : virStorageFileGetMetadataInternal env path canonPath directory buf G MetaFields.zero
      bf bd = Run.ret r) :
    r.fields.encryption = false := by
  by_cases hrange : G ≤ VIR_STORAGE_FILE_NONE ∨ G ≥ VIR_STORAGE_FILE_LAST
  · rw [internal_out_of_range env path canonPath directory buf G bf bd hG hrange] at h
    cases h; rfl
  · rcases internal_paths env path canonPath directory buf G bf bd r hG hrange h with
      ⟨-, -, hu, -, -⟩ | ⟨hm, -, fields, -, hu, hcr⟩
    · exact hu.1
    · obtain ⟨e, hb, he1, -⟩ := internalCrypt_paths env directory buf G fields bf bd r hcr
      have hc : (fileTypeInfo G).qcowCryptOffset = -1 := by
        by_contra hne
        rcases crypt_rows G hrange hm hne with e1 | e1
        · exact hq1 e1
        · exact hq2 e1
      have hfr := (internalBacking_frame _ _ _ _ _ _ _ _ hb).2.2.2.2.2
      rw [hfr]
      show e = false
      rw [he1 hc]
      exact hu.1

/-- C33: for every header and every declared format, a metadata extraction that returns
has recorded an encryption descriptor exactly when the 4-byte big-endian
encryption-mode field is not zero, for the format QCOW (field at offset 34, header of
at least 38 bytes) and for the format QCOW2 (field at offset 32, header of at least 36
bytes); for a format whose row has no encryption offset (-1) no encryption descriptor
is recorded.  The format is the declared one, or the probed one for AUTO. -/
theorem encryption_flag (env : Env) (path canonPath : CStr) (directory : Option CStr)
    (buf : Buf) (F : Int) (bf : Int) (bd : Option CStr) (r : InternalResult)
    (h : virStorageFileGetMetadataInternal env path canonPath directory buf F MetaFields.zero
      bf bd = Run.ret r) :
    (resolvedFormat path buf F = VIR_STORAGE_FILE_QCOW → 38 ≤ buf.length →
      (r.fields.encryption = true ↔ beVal (field buf 34 4) ≠ 0)) ∧
    (resolvedFormat path buf F = VIR_STORAGE_FILE_QCOW2 → 36 ≤ buf.length →
      (r.fields.encryption = true ↔ beVal (field buf 32 4) ≠ 0)) ∧
    ((fileTypeInfo (resolvedFormat path buf F)).qcowCryptOffset = -1 →
      r.fields.encryption = false) := by
  rw [internal_resolved] at h
  have hG := resolvedFormat_ne_auto path buf F
  generalize resolvedFormat path buf F = G at h hG
  refine ⟨?_, ?_, ?_⟩
  · intro hq hlen
    subst hq
    rw [internal_qcow_crypt env path canonPath directory buf _ bf bd (Or.inl rfl)
      (by omega)] at h
    exact internalCrypt_reads_mode env directory buf VIR_STORAGE_FILE_QCOW _ bf bd r 34 rfl
      (by omega) rfl h
  · intro hq hlen
    subst hq
    rw [internal_qcow_crypt env path canonPath directory buf _ bf bd (Or.inr rfl)
      (by omega)] at h
    exact internalCrypt_reads_mode env directory buf VIR_STORAGE_FILE_QCOW2 _ bf bd r 32 rfl
      (by omega) rfl h
  · intro hc
    refine internal_no_encryption env path canonPath directory buf G bf bd r hG ?_ ?_ h
    · rintro rfl; exact absurd hc (by decide)
    · rintro rfl; exact absurd hc (by decide)

/-- C33 (witness): a QCOW2 header whose encryption-mode field holds 1. -/
theorem encryption_flag_witness :
    qcow2EncryptedResult.fields.encryption = true ↔
      beVal (field qcow2EncryptedHeader 32 4) ≠ 0 :=
  (encryption_flag brokenEnv (ascii "/a") (ascii "/a") none qcow2EncryptedHeader
    VIR_STORAGE_FILE_QCOW2 VIR_STORAGE_FILE_NONE none qcow2EncryptedResult (by decide)).2.1
    (by decide) (by decide)

/-- INVALID from the backing-store extractor is absorbed: for every declared format
inside the range whose extractor returns INVALID on the header, every metadata
extraction that returns has succeeded, with the format recorded and no backing file
recorded or handed back. -/
theorem internal_invalid_absorbed (env : Env) (path canonPath : CStr)
    (directory : Option CStr) (buf : Buf) (F : Int) (bf : Int) (bd : Option CStr)
    (fn : GetBackingStoreFn) (store : BackingStore) (r : InternalResult)
    (hF : F ≠ VIR_STORAGE_FILE_AUTO)
    (hrange : ¬ (F ≤ VIR_STORAGE_FILE_NONE ∨ F ≥ VIR_STORAGE_FILE_LAST))
    (hfn : (fileTypeInfo F).getBackingStore = some fn)
    (hstore : callGetBackingStore fn bf buf = Run.ret store)
    (hinv : store.ret = BACKING_STORE_INVALID)
    (h : virStorageFileGetMetadataInternal env path canonPath directory buf F MetaFields.zero
      bf bd = Run.ret r) :
    r.ret = 0 ∧ r.fields.format = F ∧ r.fields.backingStoreRaw = none ∧
      r.fields.backingStore = none ∧ r.backingStore = none := by
  rcases internal_paths env path canonPath directory buf F bf bd r hF hrange h with
    ⟨h0, hf, hu, hb, -⟩ | ⟨-, -, fields, hf, hu, hcr⟩
  · exact ⟨h0, hf, hu.2.2.2.1, hu.2.2.2.2, hb⟩
  · obtain ⟨e, hb, -, -⟩ := internalCrypt_paths env directory buf F fields bf bd r hcr
    rcases internalBacking_paths env directory buf F _ bf bd r hb with
      ⟨hnone, -⟩ | ⟨fn2, store2, hfn2, hstore2, hcase⟩
    · rw [hfn] at hnone; cases hnone
    · rw [hfn] at hfn2
      cases hfn2
      rw [hstore] at hstore2
      cases hstore2
      rcases hcase with ⟨-, hr⟩ | ⟨he, -⟩ | ⟨hne, -, -⟩
      · subst hr
        exact ⟨rfl, hf, hu.2.2.2.1, hu.2.2.2.2, rfl⟩
      · rw [hinv] at he; cases he
      · exact absurd hinv hne

/-- Outside the headers that end between the capacity field and the end of the
encryption-mode field, the metadata extraction does return when the extractor answers
INVALID. -/
theorem internal_invalid_returns (env : Env) (path canonPath : CStr)
    (directory : Option CStr) (buf : Buf) (F : Int) (bf : Int) (bd : Option CStr)
    (fn : GetBackingStoreFn) (store : BackingStore)
    (hF : F ≠ VIR_STORAGE_FILE_AUTO)
    (hrange : ¬ (F ≤ VIR_STORAGE_FILE_NONE ∨ F ≥ VIR_STORAGE_FILE_LAST))
    (hfn : (fileTypeInfo F).getBackingStore = some fn)
    (hstore : callGetBackingStore fn bf buf = Run.ret store)
    (hinv : store.ret = BACKING_STORE_INVALID)
    (hcrypt : (fileTypeInfo F).qcowCryptOffset = -1 ∨
      buf.length < (fileTypeInfo F).sizeOffset.toNat + 8 ∨
      (fileTypeInfo F).qcowCryptOffset.toNat + 4 ≤ buf.length) :
    ∃ r, virStorageFileGetMetadataInternal env path canonPath directory buf F MetaFields.zero
      bf bd = Run.ret r := by
  obtain ⟨hm, hso, h0⟩ := backing_rows F hrange fn hfn
  by_cases hlen : (fileTypeInfo F).sizeOffset.toNat + 8 ≤ buf.length
  · rw [internal_declared_capacity env path canonPath directory buf F bf bd hF hrange hm hso
      h0 hlen]
    split
    · exact ⟨_, rfl⟩
    · have hb : ∀ fields, ∃ r, internalBacking env directory buf F fields bf bd = Run.ret r := by
        intro fields
        unfold internalBacking
        rw [hfn]
        dsimp only
        rw [hstore, Run.ret_bind, if_pos hinv]
        exact ⟨_, rfl⟩
      unfold internalCrypt
      split
      · rename_i hne
        rcases hcrypt with hc | hc | hc
        · exact absurd hc hne
        · omega
        · rw [virReadBufInt32BE_eq buf _ hc, Run.ret_bind]
          exact hb _
      · exact hb _
  · unfold virStorageFileGetMetadataInternal
    dsimp only
    rw [if_neg hF, Run.pure_bind, if_neg hrange]
    have hm2 : ¬ ((fileTypeInfo F).magic.isNone = true) := by rw [hm]; decide
    have hshort : (fileTypeInfo F).sizeOffset + 8 > (buf.length : Int) := by omega
    rw [if_neg hm2, if_pos hso, if_pos hshort]
    exact ⟨_, rfl⟩

/-- C32 (counterexample): a QCOW2 header of version 3 and length 104 with bit 0 of the
compatible-features word set, on which the extraction succeeds without a feature
bitmap: the backing-path offset lies outside the header, the extractor returns INVALID
and the feature extraction is skipped. -/
theorem qcow2_v3_invalid_backing_skips_features :
    qcow2V3InvalidOffsetHeader.length = 104 ∧
      beVal (field qcow2V3InvalidOffsetHeader 4 4) = 3 ∧
      beVal (field qcow2V3InvalidOffsetHeader 80 8) % 2 = 1 ∧
      virStorageFileGetMetadataInternal brokenEnv (ascii "/a") (ascii "/a") none
        qcow2V3InvalidOffsetHeader VIR_STORAGE_FILE_QCOW2 MetaFields.zero
        VIR_STORAGE_FILE_NONE none =
        Run.ret ⟨0, { MetaFields.zero with path := some (ascii "/a"),
                                           canonPath := some (ascii "/a"),
                                           format := VIR_STORAGE_FILE_QCOW2,
                                           features := none, compat := none },
          none, VIR_STORAGE_FILE_AUTO, none⟩ :=
  ⟨by decide, by decide, by decide, by decide⟩

/-- C32: for every header and every declared format that resolves to QCOW2 (declared,
or probed for AUTO), a metadata extraction that returns has recorded (1) no feature
bitmap and no compat string when the big-endian version field at offset 4 is 2, and
(2) when the version field is 3, the header has at least 100 bytes and the
backing-store extractor returned OK, the one-bit feature bitmap whose
lazy-refcounts bit is bit 0 of the 64-bit big-endian compatible-features word at
offset 80, together with the compat string "1.1" (whether or not the bit is set). -/
theorem qcow2_feature_extraction (env : Env) (path canonPath : CStr)
    (directory : Option CStr) (buf : Buf) (F : Int) (bf : Int) (bd : Option CStr)
    (r : InternalResult)
    (hq : resolvedFormat path buf F = VIR_STORAGE_FILE_QCOW2)
    (h : virStorageFileGetMetadataInternal env path canonPath directory buf F MetaFields.zero
      bf bd = Run.ret r) :
    (beVal (field buf 4 4) = 2 → r.fields.features = none ∧ r.fields.compat = none) ∧
    (beVal (field buf 4 4) = 3 → 100 ≤ buf.length →
      (∃ store, qcow2GetBackingStore bf buf = Run.ret store ∧
        store.ret = BACKING_STORE_OK) →
      r.ret = 0 ∧
        r.fields.features = some [decide (beVal (field buf 80 8) % 2 = 1)] ∧
        r.fields.compat = some (ascii "1.1")) := by
  rw [internal_resolved, hq] at h
  have hF : VIR_STORAGE_FILE_QCOW2 ≠ VIR_STORAGE_FILE_AUTO := by decide
  have hrange : ¬ (VIR_STORAGE_FILE_QCOW2 ≤ VIR_STORAGE_FILE_NONE ∨
      VIR_STORAGE_FILE_QCOW2 ≥ VIR_STORAGE_FILE_LAST) := by decide
  have hext : (fileTypeInfo VIR_STORAGE_FILE_QCOW2).getBackingStore =
      some .qcow2GetBackingStore := rfl
  have h22 : toInt32 2 = 2 := by decide
  have h32 : toInt32 3 ≠ 2 := by decide
  constructor
  · intro hv
    rcases internal_paths env path canonPath directory buf _ bf bd r hF hrange h with
      ⟨-, -, hu, -, -⟩ | ⟨-, hsz, fields, -, hu, hcr⟩
    · exact ⟨hu.2.1, hu.2.2.1⟩
    · have hlen : (32 : Int) ≤ buf.length := hsz (by decide)
      obtain ⟨e, hb, -, -⟩ := internalCrypt_paths env directory buf _ fields bf bd r hcr
      rcases internalBacking_paths env directory buf _ _ bf bd r hb with
        ⟨hnone, -⟩ | ⟨fn2, store2, -, -, hcase⟩
      · rw [hext] at hnone; cases hnone
      · rcases hcase with ⟨-, hr⟩ | ⟨-, hr⟩ | ⟨-, -, fields2, out, bf2, bd2, -, hfe, hco, -, hft⟩
        · subst hr; exact ⟨hu.2.1, hu.2.2.1⟩
        · subst hr; exact ⟨hu.2.1, hu.2.2.1⟩
        · have hfe2 : fields2.features = none := hfe.trans hu.2.1
          have hco2 : fields2.compat = none := hco.trans hu.2.2.1
          rcases internalFeatures_qcow2 buf fields2 out bf2 bd2 r (by omega) hfe2 hft with
            ⟨-, hr⟩ | ⟨hne, -, -⟩ | ⟨hne, -, -⟩
          · subst hr; exact ⟨hfe2, hco2⟩
          · rw [hv] at hne; exact absurd h22 hne
          · rw [hv] at hne; exact absurd h22 hne
  · intro hv hlen hok
    rw [internal_qcow_crypt env path canonPath directory buf _ bf bd (Or.inr rfl)
      (by omega)] at h
    obtain ⟨e, hb, -, -⟩ := internalCrypt_paths env directory buf _ _ bf bd r h
    rcases internalBacking_paths env directory buf _ _ bf bd r hb with
      ⟨hnone, -⟩ | ⟨fn2, store2, hfn2, hstore2, hcase⟩
    · rw [hext] at hnone; cases hnone
    · rw [hext] at hfn2
      cases hfn2
      obtain ⟨store, hst, hokk⟩ := hok
      have hst2 : qcow2GetBackingStore bf buf = Run.ret store2 := hstore2
      have hs2 : store2 = store := by
        rw [hst] at hst2
        injection hst2 with e1
        exact e1.symm
      subst hs2
      have hnotinv : store2.ret ≠ BACKING_STORE_INVALID := by rw [hokk]; decide
      rcases hcase with ⟨hi, -⟩ | ⟨he, -⟩ | ⟨-, -, fields2, out, bf2, bd2, -, hfe, -, -, hft⟩
      · exact absurd hi hnotinv
      · rw [hokk] at he; exact absurd he (by decide)
      · have hfe2 : fields2.features = none := hfe
        rcases internalFeatures_qcow2 buf fields2 out bf2 bd2 r (by omega) hfe2 hft with
          ⟨h2, -⟩ | ⟨-, hshort, -⟩ | ⟨-, -, hr⟩
        · rw [hv] at h2; exact absurd h2 h32
        · omega
        · subst hr; exact ⟨rfl, rfl, rfl⟩

/-- C32 (witness): a version-3 header without backing file and with the
lazy-refcounts bit set. -/
theorem qcow2_feature_extraction_witness :
    qcow2V3LazyResult.ret = 0 ∧
      qcow2V3LazyResult.fields.features =
        some [decide (beVal (field qcow2V3LazyHeader 80 8) % 2 = 1)] ∧
      qcow2V3LazyResult.fields.compat = some (ascii "1.1") :=
  (qcow2_feature_extraction brokenEnv (ascii "/a") (ascii "/a") none qcow2V3LazyHeader
    VIR_STORAGE_FILE_QCOW2 VIR_STORAGE_FILE_NONE none qcow2V3LazyResult (by decide)
    (by decide)).2 (by decide) (by decide)
    ⟨⟨BACKING_STORE_OK, none, VIR_STORAGE_FILE_NONE⟩, by decide, rfl⟩

/-! ## The top-level call (C39) -/

/-- The header extraction of a descriptor that is not a directory, with the format
RAW: the header bytes are not looked at. -/
theorem fromFD_raw_file (env : Env) (p c : CStr) (d : Option CStr) (fd : OpenFile)
    (k : FileKind) (buf : Buf) (bd : Option CStr)
    (hstat : fd.fstat = some k) (hk : k ≠ FileKind.dir) (hseek : fd.lseek = true)
    (hhdr : fd.header = some buf) :
    virStorageFileGetMetadataFromFDInternal env p c d fd VIR_STORAGE_FILE_RAW
        MetaFields.zero bd =
      Run.ret ⟨0, { MetaFields.zero with
                    path := some p, canonPath := some c, relDir := d,
                    type := if k = FileKind.reg then VIR_STORAGE_TYPE_FILE
                            else if k = FileKind.blk then VIR_STORAGE_TYPE_BLOCK
                            else VIR_STORAGE_TYPE_NONE,
                    format := VIR_STORAGE_FILE_RAW },
        VIR_STORAGE_FILE_NONE, bd⟩ := by
  unfold virStorageFileGetMetadataFromFDInternal
  rw [hstat]
  dsimp only
  rw [if_neg hk, hseek, hhdr]
  dsimp only
  rw [internal_raw, Run.ret_bind]
  cases k <;> first | (exact absurd rfl hk) | rfl

/-- C39 (counterexample): for the directory `/d`, with no concrete declared format and
`allow_probe` false, the resolver returns a single link of format DIR, not RAW. -/
theorem no_probe_directory_is_not_raw :
    virStorageFileGetMetadata dirEnv 1 (ascii "/d") VIR_STORAGE_FILE_NONE 0 0 false =
      Run.ret (.node { MetaFields.zero with path := some (ascii "/d"),
                                            type := VIR_STORAGE_TYPE_DIR,
                                            format := VIR_STORAGE_FILE_DIR } .NULL) := by
  decide

/-- C39: for every call of the resolver whose declared format is <= NONE (NONE, AUTO or
AUTO_SAFE): (1) the top-level file is resolved with format AUTO when `allow_probe` is
true and with format RAW when it is false; (2) with `allow_probe` false the call
returns either NULL (the file cannot be resolved, opened or read) or a single link
without `backingStoreRaw`, `backingStore` and `backingMeta` whose format is RAW, or
DIR for a directory; (3) with `allow_probe` false, for a local path that canonicalizes
and opens as something other than a directory and whose header can be read, the result
is the single RAW link with capacity 0 and no backing, the same for every header. -/
theorem top_level_format_normalisation (env : Env) (fuel : Nat) (path : CStr)
    (format uid gid : Int) (hF : format ≤ VIR_STORAGE_FILE_NONE) :
    (∀ (allow_probe : Bool) (cA : CStr), virStorageIsFile (some path) = true →
      env.canonicalize_file_name path = some cA →
      virStorageFileGetMetadata env fuel path format uid gid allow_probe =
        (virStorageFileGetMetadataRecurse env fuel (some path) cA (some (env.mdir_name path))
          (if allow_probe then VIR_STORAGE_FILE_AUTO else VIR_STORAGE_FILE_RAW) uid gid
          allow_probe [] MetaFields.zero) >>= fun r =>
            if r.ret < 0 then Run.ret .NULL else Run.ret (.node r.fields r.backingMeta)) ∧
    (∃ chain, virStorageFileGetMetadata env (fuel + 1) path format uid gid false =
        Run.ret chain ∧
      (chain = .NULL ∨ ∃ fields, chain = .node fields .NULL ∧
        fields.backingStoreRaw = none ∧ fields.backingStore = none ∧
        (fields.format = VIR_STORAGE_FILE_RAW ∨ fields.format = VIR_STORAGE_FILE_DIR))) ∧
    (∀ (cA : CStr) (fd : OpenFile) (k : FileKind) (buf : Buf),
      virStorageIsFile (some path) = true → env.canonicalize_file_name path = some cA →
      env.virFileOpenAs cA uid gid = some fd → fd.fstat = some k → k ≠ FileKind.dir →
      fd.lseek = true → fd.header = some buf →
      virStorageFileGetMetadata env (fuel + 1) path format uid gid false =
        Run.ret (.node { MetaFields.zero with
                         path := some path, canonPath := some cA,
                         relDir := some (env.mdir_name path),
                         type := if k = FileKind.reg then VIR_STORAGE_TYPE_FILE
                                 else if k = FileKind.blk then VIR_STORAGE_TYPE_BLOCK
                                 else VIR_STORAGE_TYPE_NONE,
                         format := VIR_STORAGE_FILE_RAW } .NULL)) := by
  have htop : ∀ ap : Bool, topLevelFormat ap format =
      (if ap then VIR_STORAGE_FILE_AUTO else VIR_STORAGE_FILE_RAW) := by
    intro ap
    unfold topLevelFormat
    rw [if_pos hF]
  refine ⟨?_, ?_, ?_⟩
  · intro ap cA hfile hcanon
    rw [getMetadata_local env fuel path cA format uid gid ap hfile hcanon, htop]
  · have hraw : (if format ≤ VIR_STORAGE_FILE_NONE then
        (if false = true then VIR_STORAGE_FILE_AUTO else VIR_STORAGE_FILE_RAW)
        else format) = VIR_STORAGE_FILE_RAW := by
      rw [if_pos hF]; rfl
    have hwrap : ∀ (p : Option CStr) (c : CStr) (d : Option CStr),
        ∃ chain, ((virStorageFileGetMetadataRecurse env (fuel + 1) p c d VIR_STORAGE_FILE_RAW
            uid gid false [] MetaFields.zero) >>= fun r =>
              if r.ret < 0 then (pure .NULL : Run virStorageFileMetadataPtr)
              else pure (.node r.fields r.backingMeta)) = Run.ret chain ∧
          (chain = .NULL ∨ ∃ fields, chain = .node fields .NULL ∧
            fields.backingStoreRaw = none ∧ fields.backingStore = none ∧
            (fields.format = VIR_STORAGE_FILE_RAW ∨ fields.format = VIR_STORAGE_FILE_DIR)) := by
      intro p c d
      obtain ⟨b, hb, hnull, hr1, hr2, hcode⟩ := recurse_raw env fuel p c d uid gid false []
      rw [hb, Run.ret_bind]
      rcases hcode with hneg | ⟨h0, hfmt⟩
      · have : b.ret < 0 := by rw [hneg]; decide
        rw [if_pos this]
        exact ⟨_, rfl, Or.inl rfl⟩
      · have : ¬ b.ret < 0 := by rw [h0]; decide
        rw [if_neg this, hnull]
        exact ⟨_, rfl, Or.inr ⟨_, rfl, hr1, hr2, hfmt⟩⟩
    unfold virStorageFileGetMetadata
    dsimp only
    rw [hraw]
    split
    · exact ⟨_, rfl, Or.inl rfl⟩
    · exact hwrap _ _ _
  · intro cA fd k buf hfile hcanon hopen hstat hk hseek hhdr
    rw [getMetadata_local env _ path cA format uid gid false hfile hcanon, htop]
    have hfd := fromFD_raw_file env path cA (some (env.mdir_name path)) fd k buf none hstat hk
      hseek hhdr
    have hff : (if false = true then VIR_STORAGE_FILE_AUTO else VIR_STORAGE_FILE_RAW) =
        VIR_STORAGE_FILE_RAW := rfl
    rw [hff, recurse_local env fuel path cA _ _ uid gid false [] _ fd _ (List.not_mem_nil _)
      hfile hopen hfd]
    rfl

/-- C39 (witness): `/a` holds a QCOW2 header that names `/b`; with the declared format
AUTO and `allow_probe` false it is resolved as a single RAW link. -/
theorem top_level_format_normalisation_witness :
    virStorageFileGetMetadata qcow2OnlyEnv 1 (ascii "/a") VIR_STORAGE_FILE_AUTO 0 0 false =
      Run.ret (.node { MetaFields.zero with
                       path := some (ascii "/a"), canonPath := some (ascii "/a"),
                       relDir := some (ascii "/"),
                       type := VIR_STORAGE_TYPE_FILE,
                       format := VIR_STORAGE_FILE_RAW } .NULL) :=
  (top_level_format_normalisation qcow2OnlyEnv 0 (ascii "/a") VIR_STORAGE_FILE_AUTO 0 0
    (by decide)).2.2 (ascii "/a") ⟨some .reg, true, some (qcow2HeaderNaming (ascii "/b"))⟩
    .reg (qcow2HeaderNaming (ascii "/b")) (by decide) (by decide) (by decide) rfl (by decide)
    rfl rfl

/-! ## Failures of the recursion (C40) -/

/-- One level of the resolver that ends with a failure: the path is already in the
visited set, or it is a local path that cannot be opened or whose own header extraction
fails. -/
theorem recurse_failure (env : Env) (fuel : Nat) (path : Option CStr) (canonPath : CStr)
    (directory : Option CStr) (format uid gid : Int) (allow_probe : Bool) (cycle : List CStr)
    (fields : MetaFields) (res : RecurseResult)
    (h : virStorageFileGetMetadataRecurse env (fuel + 1) path canonPath directory format uid
      gid allow_probe cycle fields = Run.ret res)
    (hneg : res.ret < 0) :
    canonPath ∈ cycle ∨
    ∃ p, path = some p ∧ virStorageIsFile (some p) = true ∧
      (env.virFileOpenAs canonPath uid gid = none ∨
        ∃ fd r, env.virFileOpenAs canonPath uid gid = some fd ∧
          virStorageFileGetMetadataFromFDInternal env p canonPath directory fd format fields
            none = Run.ret r ∧ r.ret < 0) := by
  by_cases hc : canonPath ∈ cycle
  · exact Or.inl hc
  right
  rw [virStorageFileGetMetadataRecurse.eq_def] at h
  simp only [if_neg hc] at h
  obtain ⟨step, hstep, hrest⟩ := Run.bind_eq_ret _ _ _ h
  have hfin : ∀ r : FromFDResult, step = some r →
      (¬ r.ret < 0) → False := by
    intro r hs hnn
    subst hs
    dsimp only at hrest
    split at hrest
    · rename_i heq _
      obtain ⟨b, -, hb⟩ := Run.bind_eq_ret _ _ _ hrest
      have h0 : r.ret = 0 := by simpa using heq
      split at hb
      · cases hb; exact hnn hneg
      · cases hb; exact hnn hneg
    · cases hrest; exact hnn hneg
  cases path with
  | none =>
    exfalso
    simp only [virStorageIsFile] at hstep
    cases hstep
    exact hfin _ rfl (show ¬ ((0 : Int) < 0) by decide)
  | some p =>
    cases hfile : virStorageIsFile (some p) with
    | false =>
      exfalso
      rw [hfile] at hstep
      cases hstep
      exact hfin _ rfl (show ¬ ((0 : Int) < 0) by decide)
    | true =>
      rw [hfile] at hstep
      refine ⟨p, rfl, hfile, ?_⟩
      dsimp only at hstep
      cases hopen : env.virFileOpenAs canonPath uid gid with
      | none => exact Or.inl rfl
      | some fd =>
        right
        rw [hopen] at hstep
        dsimp only at hstep
        obtain ⟨r, hr, hpure⟩ := Run.bind_eq_ret _ _ _ hstep
        cases hpure
        refine ⟨fd, r, rfl, hr, ?_⟩
        by_contra hnn
        exact hfin r rfl hnn

/-- Returned failures of the recursion are absorbed, and the resolver returns NULL only
if the processing of the top-level file itself fails.
(1) Whenever the resolver returns NULL, the top-level path is a local one that cannot
be canonicalized or opened, or whose own header extraction fails.  (2) Whenever the
header extraction of the top-level file succeeds, the call succeeds: with the single
link if no backing file is recorded, and otherwise, once the recursive resolution of
the backing file has returned, with that link hung below, or, if the recursion failed,
with the top-level link as the tail of the chain.  (3) The same at every link: any
failure of the recursive resolution of the backing file, whatever its cause, is
absorbed by the link above it, which ends with success, a null `backingStore`, a null
`backingMeta` and its `backingStoreRaw` as extracted. -/
theorem recursion_failure_absorbed (env : Env) (fuel : Nat) (uid gid : Int)
    (allow_probe : Bool) :
    (∀ (path : CStr) (format : Int),
      virStorageFileGetMetadata env (fuel + 1) path format uid gid allow_probe =
        Run.ret .NULL →
      virStorageIsFile (some path) = true ∧
        (env.canonicalize_file_name path = none ∨
          ∃ cA, env.canonicalize_file_name path = some cA ∧
            (env.virFileOpenAs cA uid gid = none ∨
              ∃ fd r, env.virFileOpenAs cA uid gid = some fd ∧
                virStorageFileGetMetadataFromFDInternal env path cA
                  (some (env.mdir_name path)) fd (topLevelFormat allow_probe format)
                  MetaFields.zero none = Run.ret r ∧ r.ret < 0))) ∧
    (∀ (path cA : CStr) (format : Int) (fd : OpenFile) (r : FromFDResult),
      virStorageIsFile (some path) = true → env.canonicalize_file_name path = some cA →
      env.virFileOpenAs cA uid gid = some fd →
      virStorageFileGetMetadataFromFDInternal env path cA (some (env.mdir_name path)) fd
        (topLevelFormat allow_probe format) MetaFields.zero none = Run.ret r →
      r.ret = 0 →
      (r.fields.backingStore = none →
        virStorageFileGetMetadata env (fuel + 1) path format uid gid allow_probe =
          Run.ret (.node r.fields .NULL)) ∧
      (∀ (bs : CStr) (b : RecurseResult), r.fields.backingStore = some bs →
        virStorageFileGetMetadataRecurse env fuel r.fields.backingStoreRaw bs
          r.backingDirectory (assumedBackingFormat allow_probe r.backingFormat) uid gid
          allow_probe [cA] MetaFields.zero = Run.ret b →
        virStorageFileGetMetadata env (fuel + 1) path format uid gid allow_probe =
          Run.ret (if b.ret < 0 then .node { r.fields with backingStore := none } .NULL
            else .node r.fields (.node b.fields b.backingMeta)))) ∧
    (∀ (p c : CStr) (d : Option CStr) (format : Int) (cycle : List CStr) (fd : OpenFile)
        (r : FromFDResult) (bs : CStr) (b : RecurseResult),
      c ∉ cycle → virStorageIsFile (some p) = true →
      env.virFileOpenAs c uid gid = some fd →
      virStorageFileGetMetadataFromFDInternal env p c d fd format MetaFields.zero none =
        Run.ret r →
      r.ret = 0 → r.fields.backingStore = some bs →
      virStorageFileGetMetadataRecurse env fuel r.fields.backingStoreRaw bs
        r.backingDirectory (assumedBackingFormat allow_probe r.backingFormat) uid gid
        allow_probe (c :: cycle) MetaFields.zero = Run.ret b →
      b.ret < 0 →
      virStorageFileGetMetadataRecurse env (fuel + 1) (some p) c d format uid gid allow_probe
        cycle MetaFields.zero =
        Run.ret ⟨0, { r.fields with backingStore := none }, .NULL⟩) := by
  refine ⟨?_, ?_, ?_⟩
  · intro path format hnull
    cases hfile : virStorageIsFile (some path) with
    | false =>
      exfalso
      unfold virStorageFileGetMetadata at hnull
      simp only [hfile, Bool.false_eq_true, if_false] at hnull
      rw [recurse_network env fuel path path none _ uid gid allow_probe [] hfile
        (List.not_mem_nil _)] at hnull
      cases hnull
    | true =>
      refine ⟨rfl, ?_⟩
      cases hcanon : env.canonicalize_file_name path with
      | none => exact Or.inl rfl
      | some cA =>
        right
        refine ⟨cA, rfl, ?_⟩
        rw [getMetadata_local env _ path cA format uid gid allow_probe hfile hcanon] at hnull
        obtain ⟨res, hres, hwrap⟩ := Run.bind_eq_ret _ _ _ hnull
        have hneg : res.ret < 0 := by
          by_contra hnn
          rw [if_neg hnn] at hwrap
          cases hwrap
        rcases recurse_failure env fuel (some path) cA _ _ uid gid allow_probe [] _ res hres
          hneg with hmem | ⟨p, hp, -, hcase⟩
        · exact absurd hmem (List.not_mem_nil _)
        · cases hp
          exact hcase
  · intro path cA format fd r hfile hcanon hopen hr hok
    have hstep := recurse_local env fuel path cA _ _ uid gid allow_probe [] _ fd r
      (List.not_mem_nil _) hfile hopen hr
    constructor
    · intro hnone
      rw [getMetadata_local env _ path cA format uid gid allow_probe hfile hcanon, hstep, hok,
        hnone]
      rfl
    · intro bs b hsome hb
      rw [getMetadata_local env _ path cA format uid gid allow_probe hfile hcanon, hstep, hok,
        hsome]
      simp only [beq_self_eq_true]
      rw [hb, Run.ret_bind]
      by_cases hneg : b.ret < 0
      · rw [if_pos hneg, if_pos hneg, Run.ret_bind]
        rfl
      · rw [if_neg hneg, if_neg hneg, Run.ret_bind]
        rfl
  · intro p c d format cycle fd r bs b hc hfile hopen hr hok hsome hb hneg
    rw [recurse_local env fuel p c d format uid gid allow_probe cycle _ fd r hc hfile hopen
      hr, hok, hsome]
    simp only [beq_self_eq_true]
    rw [hb, Run.ret_bind, if_pos hneg]

/-- An instance: `/a` names `/b`, which cannot be opened; the failure to resolve `/b`
is absorbed at the link `/a`, which ends with success and its `backingStore` cleared. -/
theorem recursion_failure_absorbed_example :
    virStorageFileGetMetadataRecurse unopenableEnv 2 (some (ascii "/a")) (ascii "/a")
        (some (ascii "/")) VIR_STORAGE_FILE_QCOW2 0 0 true [] MetaFields.zero =
      Run.ret ⟨0, { cycleResultA.fields with backingStore := none }, .NULL⟩ :=
  (recursion_failure_absorbed unopenableEnv 1 0 0 true).2.2 (ascii "/a") (ascii "/a")
    (some (ascii "/")) VIR_STORAGE_FILE_QCOW2 []
    ⟨some .reg, true, some (qcow2HeaderNaming (ascii "/b"))⟩ cycleResultA (ascii "/b")
    ⟨-1, MetaFields.zero, .NULL⟩ (by decide) (by decide) (by decide) (by decide) (by decide)
    (by decide) (by decide) (by decide)

/-! ## The region of the extension scan (C34) -/

/-- With a backing-path offset of at least 8, the scan interprets no record whose
8-byte header does not end before that offset: it stops there with the hint it has. -/
theorem scanLoop_outside_region (buf : Buf) (e fuel offset : Nat) (format : Int)
    (he8 : 8 ≤ e) (heM : e < 2 ^ 64) (hout : e ≤ offset + 8) :
    qcow2GetBackingStoreFormatLoop buf e (fuel + 1) offset format = Run.ret (0, format) := by
  apply scanLoop_exit
  rw [sizeSub8 e he8 heM]
  omega

/-- With a backing-path offset of at least 8, an extension region without room for a
record header is not scanned: the hint stays as it was. -/
theorem scan_empty_region (format : Int) (buf : Buf) (start e : Nat) (he8 : 8 ≤ e)
    (heM : e < 2 ^ 64) (hempty : e ≤ start + 8) :
    qcow2GetBackingStoreFormat format buf start e = Run.ret (0, format) :=
  scanLoop_outside_region buf e buf.length start format he8 heM hempty

/-- The extractor on a version-2 header whose backing path starts at an offset between
8 and 80: no extension is looked at and the hint is AUTO. -/
theorem qcow2_empty_region_hint (format : Int) (buf : Buf)
    (hlen : 20 ≤ buf.length) (hsz : buf.length < 2 ^ 64)
    (hn0 : 0 < beVal (field buf 16 4)) (hn1 : beVal (field buf 16 4) + 1 < 2 ^ 32)
    (hfit : beVal (field buf 8 8) + beVal (field buf 16 4) ≤ buf.length)
    (hver : beVal (field buf 4 4) = 2)
    (ho8 : 8 ≤ beVal (field buf 8 8)) (ho : beVal (field buf 8 8) ≤ 80) :
    qcow2GetBackingStore format buf = Run.ret ⟨BACKING_STORE_OK,
      some (field buf (beVal (field buf 8 8)) (beVal (field buf 16 4)) ++ [0]),
      VIR_STORAGE_FILE_AUTO⟩ := by
  apply qcow2_v2_of_scan format buf hlen hsz hn0 hn1 hfit hver
  exact scan_empty_region _ buf _ _ ho8 (by omega) (by show _ ≤ 72 + 8; omega)

/-- C34 (failing input): a QCOW2 version-2 header whose backing-path offset is 4, so
that the region between the end of the fixed header (72) and the path is empty, and
whose bytes 72..83 hold a backing-format record: the scan interprets that record and
the hint becomes RAW instead of staying AUTO.  In the loop bound the unsigned
difference `extension_end - 8` wraps around for an offset below 8. -/
theorem extension_scan_offset_below_eight :
    beVal (field qcow2PathInsideHeader 4 4) = 2 ∧
      beVal (field qcow2PathInsideHeader 8 8) = 4 ∧
      qcow2GetBackingStoreFormat VIR_STORAGE_FILE_AUTO qcow2PathInsideHeader
        QCOW2_HDR_TOTAL_SIZE 4 = Run.ret (0, VIR_STORAGE_FILE_RAW) ∧
      qcow2GetBackingStore VIR_STORAGE_FILE_NONE qcow2PathInsideHeader =
        Run.ret ⟨BACKING_STORE_OK, some [0, 0], VIR_STORAGE_FILE_RAW⟩ := by
  have hver : beVal (field qcow2PathInsideHeader 4 4) = 2 := by decide
  have hoff : beVal (field qcow2PathInsideHeader 8 8) = 4 := by decide
  have hscan : qcow2GetBackingStoreFormat VIR_STORAGE_FILE_AUTO qcow2PathInsideHeader
      QCOW2_HDR_TOTAL_SIZE (beVal (field qcow2PathInsideHeader 8 8)) =
      Run.ret (0, VIR_STORAGE_FILE_RAW) := by
    decide
  have hext := qcow2_v2_of_scan VIR_STORAGE_FILE_NONE qcow2PathInsideHeader (by decide)
    (by show (84 : Nat) < 2 ^ 64; norm_num) (by decide) (by decide) (by decide) hver
    VIR_STORAGE_FILE_RAW hscan
  rw [hoff] at hscan
  exact ⟨hver, hoff, hscan, hext⟩

/-! ## The zero-tag record (C35) -/

theorem recordBoundary_le (buf : Buf) (n : Nat) :
    ∀ offset k, recordBoundary buf n offset k = true → offset ≤ k := by
  induction n with
  | zero =>
    intro offset k h
    simp only [recordBoundary, beq_iff_eq] at h
    omega
  | succ n ih =>
    intro offset k h
    simp only [recordBoundary, Bool.or_eq_true, beq_iff_eq, Bool.and_eq_true,
      decide_eq_true_eq] at h
    rcases h with h | ⟨h, -⟩ <;> omega

theorem recordBoundary_next (buf : Buf) (n offset k : Nat)
    (h : recordBoundary buf n offset k = true) (hne : offset ≠ k) :
    ∃ n2, recordBoundary buf n2 (offset + 8 + beVal (field buf (offset + 4) 4)) k = true := by
  cases n with
  | zero =>
    simp only [recordBoundary, beq_iff_eq] at h
    exact absurd h hne
  | succ n =>
    simp only [recordBoundary, Bool.or_eq_true, beq_iff_eq, Bool.and_eq_true,
      decide_eq_true_eq] at h
    rcases h with h | ⟨-, h⟩
    · exact absurd h hne
    · exact ⟨n, h⟩

theorem Run.bind_congr {α β : Type} (x : Run α) (f g : α → Run β) (h : ∀ a, f a = g a) :
    (x >>= f) = (x >>= g) := by
  have : f = g := funext h
  rw [this]

theorem get?_of_take_eq (a b : Buf) (m i : Nat) (h : b.take m = a.take m) (hi : i < m) :
    b.get? i = a.get? i := by
  have h1 : (b.take m).get? i = (a.take m).get? i := by rw [h]
  simpa [List.getElem?_take, hi] using h1

theorem readByte_agree (a b : Buf) (m i : Nat) (h : b.take m = a.take m) (hi : i < m) :
    readByte b i = readByte a i := by
  unfold readByte
  rw [get?_of_take_eq a b m i h hi]

theorem field_of_take (a : Buf) (m off n : Nat) (h : off + n ≤ m) :
    field a off n = field (a.take m) off n := by
  unfold field
  rw [List.drop_take, List.take_take, Nat.min_eq_left (by omega)]

theorem field_agree (a b : Buf) (m off n : Nat) (h : b.take m = a.take m)
    (hoff : off + n ≤ m) : field b off n = field a off n := by
  rw [field_of_take b m off n hoff, field_of_take a m off n hoff, h]

theorem virReadBufInt32BE_agree (a b : Buf) (m off : Nat) (h : b.take m = a.take m)
    (hoff : off + 4 ≤ m) : virReadBufInt32BE b off = virReadBufInt32BE a off := by
  unfold virReadBufInt32BE
  rw [readByte_agree a b m off h (by omega), readByte_agree a b m (off + 1) h (by omega),
    readByte_agree a b m (off + 2) h (by omega), readByte_agree a b m (off + 3) h (by omega)]

theorem takeWhile_append_of_mem (l1 l2 : List Byte) (h : (0 : Byte) ∈ l1) :
    (l1 ++ l2).takeWhile (fun b => b ≠ 0) = l1.takeWhile (fun b => b ≠ 0) := by
  induction l1 with
  | nil => cases h
  | cons x t ih =>
    by_cases hx : x = 0
    · subst hx
      simp [List.takeWhile]
    · have ht : (0 : Byte) ∈ t := by
        rcases List.mem_cons.mp h with h1 | h1
        · exact absurd h1.symm hx
        · exact h1
      have e := ih ht
      show List.takeWhile _ (x :: (t ++ l2)) = List.takeWhile _ (x :: t)
      rw [List.takeWhile_cons, List.takeWhile_cons, e]

/-- The C string read at `off` is found in the first `m` bytes when a NUL sits at an
index `j` with `off <= j < m`. -/
theorem readCStr_of_take (a : Buf) (m off j : Nat) (hoff : off ≤ j) (hj : j < m)
    (hnul : a.get? j = some 0) :
    readCStr a off = Run.ret (((a.take m).drop off).takeWhile (fun b => b ≠ 0)) := by
  have hjl : j < a.length := by
    by_contra hc
    rw [List.get?_eq_none.mpr (by omega)] at hnul
    cases hnul
  have hsplit : a.drop off = (a.take m).drop off ++ a.drop m := by
    conv_lhs => rw [← List.take_append_drop m a]
    rw [List.drop_append_of_le_length]
    rw [List.length_take]
    omega
  have hmem : (0 : Byte) ∈ (a.take m).drop off := by
    rw [List.mem_iff_get?]
    refine ⟨j - off, ?_⟩
    have h1 : (a.take m).get? j = a.get? j := by
      simp [List.getElem?_take, hj]
    rw [List.get?_eq_getElem?, List.getElem?_drop, show off + (j - off) = j by omega,
      ← List.get?_eq_getElem?, h1, hnul]
  unfold readCStr
  have hmem2 : (0 : Byte) ∈ a.drop off := by
    rw [hsplit]
    exact List.mem_append_left _ hmem
  rw [if_pos hmem2, hsplit, takeWhile_append_of_mem _ _ hmem]

theorem readCStr_agree (a b : Buf) (m off j : Nat) (h : b.take m = a.take m)
    (hoff : off ≤ j) (hj : j < m) (hnul : a.get? j = some 0) :
    readCStr b off = readCStr a off := by
  have hnulb : b.get? j = some 0 := by rw [get?_of_take_eq a b m j h hj, hnul]
  rw [readCStr_of_take a m off j hoff hj hnul, readCStr_of_take b m off j hoff hj hnulb, h]

theorem get?_of_readByte_zero (a : Buf) (i : Nat) (h : readByte a i = Run.ret 0) :
    a.get? i = some 0 := by
  unfold readByte at h
  cases hg : a.get? i with
  | none => rw [hg] at h; cases h
  | some b =>
    rw [hg] at h
    injection h with h1
    have : b = 0 := Fin.ext h1
    rw [this]

/-- The extension scan does not look behind a zero-tag record that lies on a record
boundary: two buffers of the same length that agree up to the end of the header of
that record give the same scan, from every record boundary before it. -/
theorem scanLoop_agree (a b : Buf) (e k : Nat) (hM : a.length < 2 ^ 64) (h8 : 8 ≤ a.length)
    (hlen : b.length = a.length) (hagree : b.take (k + 8) = a.take (k + 8))
    (hzero : beVal (field a k 4) = QCOW2_HDR_EXTENSION_END) (m : Nat) :
    ∀ (offset : Nat) (format : Int) (n : Nat), recordBoundary a n offset k = true →
      qcow2GetBackingStoreFormatLoop b e m offset format =
        qcow2GetBackingStoreFormatLoop a e m offset format := by
  induction m with
  | zero => intro offset format n _; rfl
  | succ m ih =>
    intro offset format n hb
    have hle := recordBoundary_le a n offset k hb
    by_cases hc : offset < (a.length + SIZE_MOD - 8) % SIZE_MOD ∧
        offset < (e + SIZE_MOD - 8) % SIZE_MOD
    · have hr : offset + 8 ≤ a.length := by
        have hs := sizeSub8 a.length h8 hM
        rw [hs] at hc
        omega
      have hcb : offset < (b.length + SIZE_MOD - 8) % SIZE_MOD ∧
          offset < (e + SIZE_MOD - 8) % SIZE_MOD := by rw [hlen]; exact hc
      rw [scanLoop_step b e m offset format hcb (by rw [hlen]; exact hr)
        (by rw [hlen]; exact hM), scanLoop_step a e m offset format hc hr hM]
      rw [field_agree a b (k + 8) offset 4 hagree (by omega),
        field_agree a b (k + 8) (offset + 4) 4 hagree (by omega), hlen]
      have hL := beVal_field_lt a (offset + 4) 4
      by_cases h1 : (offset + 8 + beVal (field a (offset + 4) 4)) % SIZE_MOD < offset + 8
      · rw [if_pos h1, if_pos h1]
      rw [if_neg h1, if_neg h1]
      by_cases h2 : (offset + 8 + beVal (field a (offset + 4) 4)) % SIZE_MOD > a.length
      · rw [if_pos h2, if_pos h2]
      rw [if_neg h2, if_neg h2]
      by_cases h3 : beVal (field a offset 4) = QCOW2_HDR_EXTENSION_END
      · rw [if_pos h3, if_pos h3]
      rw [if_neg h3, if_neg h3]
      have hne : offset ≠ k := by
        rintro rfl
        exact h3 hzero
      obtain ⟨n2, hb2⟩ := recordBoundary_next a n offset k hb hne
      have hle2 := recordBoundary_le a n2 _ k hb2
      have hnext : (offset + 8 + beVal (field a (offset + 4) 4)) % SIZE_MOD =
          offset + 8 + beVal (field a (offset + 4) 4) := by
        have h256 : (256 : Nat) ^ 4 = 4294967296 := by norm_num
        have hS : SIZE_MOD = 18446744073709551616 := by norm_num [SIZE_MOD]
        rw [hS] at h1 ⊢
        omega
      rw [hnext]
      by_cases h4 : beVal (field a offset 4) = QCOW2_HDR_EXTENSION_BACKING_FORMAT
      · rw [if_pos h4, if_pos h4]
        rw [readByte_agree a b (k + 8) _ hagree (by omega)]
        rcases readByte_cases a (offset + 8 + beVal (field a (offset + 4) 4)) with ⟨v, hv⟩ | hv
        · rw [hv, Run.ret_bind, Run.ret_bind]
          by_cases hv0 : v ≠ 0
          · rw [if_pos hv0, if_pos hv0]
            exact ih _ _ n2 hb2
          · rw [if_neg hv0, if_neg hv0]
            have hv00 : v = 0 := not_not.mp hv0
            rw [hv00] at hv
            have hnul := get?_of_readByte_zero a _ hv
            rw [readCStr_agree a b (k + 8) (offset + 8) _ hagree (by omega) (by omega) hnul]
            apply Run.bind_congr
            intro name
            by_cases h5 : virStorageFileFormatTypeFromString name ≤ VIR_STORAGE_FILE_NONE
            · rw [if_pos h5, if_pos h5]
            · rw [if_neg h5, if_neg h5]
              exact ih _ _ n2 hb2
        · rw [hv, Run.oobRead_bind, Run.oobRead_bind]
      · rw [if_neg h4, if_neg h4]
        exact ih _ _ n2 hb2
    · rw [scanLoop_exit a e m offset format hc,
        scanLoop_exit b e m offset format (by rw [hlen]; exact hc)]

/-- The QCOW extractors answer INVALID when the backing length is 2^32 - 1. -/
theorem qcowX_size_wrap (format : Option Int) (buf : Buf) (isQCow2 : Bool)
    (hlen : 20 ≤ buf.length) (hsz : buf.length < 2 ^ 64)
    (hn1 : beVal (field buf 16 4) + 1 = 2 ^ 32)
    (hfit : beVal (field buf 8 8) + beVal (field buf 16 4) ≤ buf.length) :
    qcowXGetBackingStore format buf isQCow2 =
      Run.ret (BACKING_STORE_INVALID, none, format.map (fun _ => VIR_STORAGE_FILE_AUTO)) := by
  unfold qcowXGetBackingStore
  have e1 : beVal (field buf (4 + 4) 8) = beVal (field buf 8 8) := rfl
  have e2 : beVal (field buf (4 + 4 + 8) 4) = beVal (field buf 16 4) := rfl
  simp only [QCOWX_HDR_BACKING_FILE_OFFSET, QCOWX_HDR_VERSION, QCOWX_HDR_BACKING_FILE_SIZE]
  rw [if_neg (by omega), virReadBufInt64BE_eq buf (4 + 4) (by omega)]
  simp only [Run.ret_bind]
  rw [e1, if_neg (by omega), virReadBufInt32BE_eq buf (4 + 4 + 8) (by omega)]
  simp only [Run.ret_bind]
  rw [e2, if_neg (by omega)]
  have hmod : (beVal (field buf 8 8) + beVal (field buf 16 4)) % SIZE_MOD =
      beVal (field buf 8 8) + beVal (field buf 16 4) := by
    apply Nat.mod_eq_of_lt
    simp only [SIZE_MOD]
    omega
  rw [hmod, if_neg (by omega)]
  have hu : (beVal (field buf 16 4) + 1) % UINT_MOD = 0 := by
    rw [hn1]
    rfl
  rw [if_pos hu]
  rfl

theorem toInt32_eq_two (v : Nat) (h : v < 2 ^ 32) : toInt32 v = 2 ↔ v = 2 := by
  rcases toInt32_of_lt v h with ⟨h1, -⟩ | ⟨h1, -⟩
  · rw [h1]; exact_mod_cast Iff.rfl
  · constructor
    · intro h2; rw [h2] at h1; exact absurd h1 (by decide)
    · intro h2; rw [h2] at h1; exact absurd h1 (by decide)

/-- The return code and the hint of `qcow2GetBackingStore` on a header with a
non-empty in-range backing path: the outcome of the extension scan, started at 72 for
version 2 and at the value of the 32-bit field at offset 100 otherwise. -/
theorem qcow2_codeAndHint_of_path (format : Int) (buf : Buf)
    (hlen : 20 ≤ buf.length) (hsz : buf.length < 2 ^ 64)
    (hn0 : 0 < beVal (field buf 16 4)) (hn1 : beVal (field buf 16 4) + 1 < 2 ^ 32)
    (hfit : beVal (field buf 8 8) + beVal (field buf 16 4) ≤ buf.length) :
    codeAndHint (qcow2GetBackingStore format buf) =
      ((if beVal (field buf 4 4) = 2 then Run.ret QCOW2_HDR_TOTAL_SIZE
        else virReadBufInt32BE buf QCOW2v3_HDR_SIZE) >>= fun start =>
        qcow2GetBackingStoreFormat VIR_STORAGE_FILE_AUTO buf start (beVal (field buf 8 8)) >>=
          fun r => Run.ret (if r.1 < 0 then BACKING_STORE_INVALID else BACKING_STORE_OK, r.2)) := by
  unfold codeAndHint qcow2GetBackingStore
  rw [qcowX_path (some format) buf true hlen hsz hn0 hn1 hfit]
  simp only [Option.map_some']
  rw [virReadBufInt32BE_eq buf QCOWX_HDR_VERSION (by simp only [QCOWX_HDR_VERSION]; omega)]
  rw [Run.ret_bind]
  have hv : beVal (field buf QCOWX_HDR_VERSION 4) = beVal (field buf 4 4) := rfl
  rw [hv]
  have hiff := toInt32_eq_two _ (beVal_field_lt buf 4 4)
  have hfin : ∀ X : Run (Int × Int),
      ((X >>= fun r =>
          if r.1 < 0 then
            (pure (BACKING_STORE_INVALID,
              some (field buf (beVal (field buf 8 8)) (beVal (field buf 16 4)) ++ [0]),
              some r.2) : Run (Int × Option Buf × Option Int))
          else
            pure (BACKING_STORE_OK,
              some (field buf (beVal (field buf 8 8)) (beVal (field buf 16 4)) ++ [0]),
              some r.2)) >>= fun r =>
          (pure ⟨r.1, r.2.1, r.2.2.getD format⟩ : Run BackingStore)) >>=
        (fun s => (pure (s.ret, s.format) : Run (Int × Int))) =
      (X >>= fun r =>
        Run.ret (if r.1 < 0 then BACKING_STORE_INVALID else BACKING_STORE_OK, r.2)) := by
    intro X
    cases X with
    | ret r =>
      rw [Run.ret_bind, Run.ret_bind]
      by_cases hr : r.1 < 0
      · rw [if_pos hr, if_pos hr]; rfl
      · rw [if_neg hr, if_neg hr]; rfl
    | oobRead i => rfl
    | oobWrite i => rfl
    | fuel => rfl
  by_cases h2 : beVal (field buf 4 4) = 2
  · rw [if_pos (hiff.mpr h2), if_pos h2, Run.pure_bind, Run.ret_bind]
    exact hfin _
  · rw [if_neg (fun h => h2 (hiff.mp h)), if_neg h2]
    generalize virReadBufInt32BE buf QCOW2v3_HDR_SIZE = Y
    cases Y with
    | ret start =>
      rw [Run.ret_bind, Run.ret_bind]
      exact hfin _
    | oobRead i => rfl
    | oobWrite i => rfl
    | fuel => rfl

/-- C35 (counterexample): two version-3 headers of the same length that agree up to
the end of the zero-tag record at offset 72, the first record of the extension region
of the first header (whose header-length field at offset 100 holds 72).  The second
header differs behind that record only: its header-length field holds 104 and a
backing-format record stands at offset 104.  The hint is AUTO for the first header and
RAW for the second. -/
theorem bytes_after_zero_tag_change_hint :
    (zeroRecordHeader 3 restHeaderLength104).length =
        (zeroRecordHeader 3 restHeaderLength72).length ∧
      (zeroRecordHeader 3 restHeaderLength104).take 80 =
        (zeroRecordHeader 3 restHeaderLength72).take 80 ∧
      beVal (field (zeroRecordHeader 3 restHeaderLength72) 100 4) = 72 ∧
      beVal (field (zeroRecordHeader 3 restHeaderLength72) 72 4) = 0 ∧
      qcow2GetBackingStore VIR_STORAGE_FILE_NONE (zeroRecordHeader 3 restHeaderLength72) =
        Run.ret ⟨BACKING_STORE_OK, some (ascii "b" ++ [0]), VIR_STORAGE_FILE_AUTO⟩ ∧
      qcow2GetBackingStore VIR_STORAGE_FILE_NONE (zeroRecordHeader 3 restHeaderLength104) =
        Run.ret ⟨BACKING_STORE_OK, some (ascii "b" ++ [0]), VIR_STORAGE_FILE_RAW⟩ := by
  decide

/-- C35: a zero-tag record ends the extension scan.  Let `a` and `b` be headers of the
same length that agree up to the end of the 8-byte header of a zero-tag record of `a`
at offset `k`, where `k` is a record boundary of the extension area of `a` (which
starts at 72 for version 2 and at the value of the header-length field at offset 100
otherwise).  (1) For every region the scan function is given, the scans of `a` and `b`
from the start of that area have the same outcome.  (2) If the version is 2, or the
record stands at or behind offset 96 (so that the header-length field is not among
the replaced bytes), `qcow2GetBackingStore` gives the same return code and the same
hint for `a` and `b`. -/
theorem zero_tag_ends_extension_scan (format : Int) (a b : Buf) (k n : Nat)
    (hM : a.length < 2 ^ 64) (hlen : b.length = a.length)
    (hagree : b.take (k + 8) = a.take (k + 8))
    (hchain : recordBoundary a n
      (if beVal (field a 4 4) = 2 then QCOW2_HDR_TOTAL_SIZE else beVal (field a 100 4)) k =
        true)
    (hzero : beVal (field a k 4) = QCOW2_HDR_EXTENSION_END) :
    (8 ≤ a.length → ∀ (e : Nat) (hint : Int),
      qcow2GetBackingStoreFormat hint b
          (if beVal (field a 4 4) = 2 then QCOW2_HDR_TOTAL_SIZE else beVal (field a 100 4)) e =
        qcow2GetBackingStoreFormat hint a
          (if beVal (field a 4 4) = 2 then QCOW2_HDR_TOTAL_SIZE else beVal (field a 100 4)) e) ∧
    ((beVal (field a 4 4) = 2 ∨ 96 ≤ k) →
      codeAndHint (qcow2GetBackingStore format b) =
        codeAndHint (qcow2GetBackingStore format a)) := by
  have hscan : 8 ≤ a.length → ∀ (e : Nat) (hint : Int),
      qcow2GetBackingStoreFormat hint b
          (if beVal (field a 4 4) = 2 then QCOW2_HDR_TOTAL_SIZE else beVal (field a 100 4)) e =
        qcow2GetBackingStoreFormat hint a
          (if beVal (field a 4 4) = 2 then QCOW2_HDR_TOTAL_SIZE else beVal (field a 100 4)) e := by
    intro h8 e hint
    unfold qcow2GetBackingStoreFormat
    rw [hlen]
    exact scanLoop_agree a b e k hM h8 hlen hagree hzero _ _ hint n hchain
  refine ⟨hscan, ?_⟩
  intro hv
  have hstart := recordBoundary_le a n _ k hchain
  have hk : 72 ≤ k := by
    rcases hv with h2 | h96
    · rw [if_pos h2] at hstart
      exact hstart
    · omega
  have hf4 : field b 4 4 = field a 4 4 := field_agree a b (k + 8) 4 4 hagree (by omega)
  have hf8 : field b 8 8 = field a 8 8 := field_agree a b (k + 8) 8 8 hagree (by omega)
  have hf16 : field b 16 4 = field a 16 4 := field_agree a b (k + 8) 16 4 hagree (by omega)
  by_cases hA : a.length < 20 ∨ beVal (field a 8 8) + beVal (field a 16 4) > a.length
  · have hB : b.length < 20 ∨ beVal (field b 8 8) + beVal (field b 16 4) > b.length := by
      rw [hlen, hf8, hf16]; exact hA
    unfold codeAndHint qcow2GetBackingStore
    rw [qcowX_invalid _ a _ hA, qcowX_invalid _ b _ hB]
  have h20 : 20 ≤ a.length := by
    by_contra hc
    exact hA (Or.inl (by omega))
  have hfit : beVal (field a 8 8) + beVal (field a 16 4) ≤ a.length := by
    by_contra hc
    exact hA (Or.inr (by omega))
  by_cases hB : beVal (field a 16 4) = 0
  · unfold codeAndHint qcow2GetBackingStore
    rw [qcowX_no_backing _ a _ h20 (by omega) hB,
      qcowX_no_backing _ b _ (by rw [hlen]; exact h20) (by rw [hlen, hf8]; omega)
        (by rw [hf16]; exact hB)]
  have hn := beVal_field_lt a 16 4
  have h256 : (256 : Nat) ^ 4 = 2 ^ 32 := by norm_num
  by_cases hC : beVal (field a 16 4) + 1 = 2 ^ 32
  · unfold codeAndHint qcow2GetBackingStore
    rw [qcowX_size_wrap _ a _ h20 hM hC hfit,
      qcowX_size_wrap _ b _ (by rw [hlen]; exact h20) (by rw [hlen]; exact hM)
        (by rw [hf16]; exact hC) (by rw [hlen, hf8, hf16]; exact hfit)]
  have hn1 : beVal (field a 16 4) + 1 < 2 ^ 32 := by omega
  rw [qcow2_codeAndHint_of_path format a h20 hM (by omega) hn1 hfit,
    qcow2_codeAndHint_of_path format b (by rw [hlen]; exact h20) (by rw [hlen]; exact hM)
      (by rw [hf16]; omega) (by rw [hf16]; exact hn1) (by rw [hlen, hf8, hf16]; exact hfit)]
  rw [hf4, hf8]
  by_cases h2 : beVal (field a 4 4) = 2
  · rw [if_pos h2] at hscan
    rw [if_pos h2, if_pos h2, Run.ret_bind, Run.ret_bind, hscan (by omega)]
  · have h96 : 96 ≤ k := by
      rcases hv with h | h
      · exact absurd h h2
      · exact h
    rw [if_neg h2] at hscan
    rw [if_neg h2, if_neg h2, virReadBufInt32BE_agree a b (k + 8) QCOW2v3_HDR_SIZE hagree
      (by show 100 + 4 ≤ k + 8; omega)]
    by_cases h104 : 100 + 4 ≤ a.length
    · rw [virReadBufInt32BE_eq a QCOW2v3_HDR_SIZE h104, Run.ret_bind, Run.ret_bind]
      have e100 : beVal (field a QCOW2v3_HDR_SIZE 4) = beVal (field a 100 4) := rfl
      rw [e100, hscan (by omega)]
    · obtain ⟨i, hi⟩ := virReadBufInt32BE_short a QCOW2v3_HDR_SIZE h104
      rw [hi, Run.oobRead_bind, Run.oobRead_bind]

/-- C35 (witness): two version-2 headers that agree up to the end of the zero-tag
record at offset 72; the second one has a backing-format record behind it. -/
theorem zero_tag_ends_extension_scan_witness :
    codeAndHint (qcow2GetBackingStore VIR_STORAGE_FILE_NONE
        (zeroRecordHeader 2 restRawRecord)) =
      codeAndHint (qcow2GetBackingStore VIR_STORAGE_FILE_NONE
        (zeroRecordHeader 2 (List.replicate 40 0))) :=
  (zero_tag_ends_extension_scan VIR_STORAGE_FILE_NONE (zeroRecordHeader 2 (List.replicate 40 0))
    (zeroRecordHeader 2 restRawRecord) 72 0 (by show (121 : Nat) < 2 ^ 64; norm_num)
    (by decide) (by decide) (by decide) (by decide)).2 (Or.inl (by decide))

/-! ## Unknown extension records (C36) -/

/-- The scan passes over a record with an unknown tag that fits in the buffer. -/
theorem scanLoop_skip_unknown (buf : Buf) (e fuel k : Nat) (hint : Int)
    (hM : buf.length < 2 ^ 64) (he : e ≤ buf.length) (hreg : k + 8 < e)
    (hfit : recordEnd buf k ≤ buf.length)
    (ht0 : recordTag buf k ≠ QCOW2_HDR_EXTENSION_END)
    (htU : recordTag buf k ≠ QCOW2_HDR_EXTENSION_BACKING_FORMAT) :
    qcow2GetBackingStoreFormatLoop buf e (fuel + 1) k hint =
      qcow2GetBackingStoreFormatLoop buf e fuel (recordEnd buf k) hint := by
  unfold recordEnd at hfit ⊢
  unfold recordTag at ht0 htU
  have hsub1 := sizeSub8 buf.length (by omega) hM
  have hsub2 := sizeSub8 e (by omega) (by omega)
  have hmod : (k + 8 + beVal (field buf (k + 4) 4)) % SIZE_MOD =
      k + 8 + beVal (field buf (k + 4) 4) :=
    Nat.mod_eq_of_lt (by simp only [SIZE_MOD]; omega)
  rw [scanLoop_step buf e fuel k hint (by rw [hsub1, hsub2]; omega) (by omega) hM]
  rw [hmod, if_neg (by omega), if_neg (by omega), if_neg ht0, if_neg htU]

/-- The scan takes the hint from a backing-format record that fits in the buffer, is
followed by a NUL and announces a known format, and goes on behind it. -/
theorem scanLoop_backing_format (buf : Buf) (e fuel k : Nat) (hint : Int)
    (hM : buf.length < 2 ^ 64) (he : e ≤ buf.length) (hreg : k + 8 < e)
    (hfit : recordEnd buf k < buf.length)
    (htB : recordTag buf k = QCOW2_HDR_EXTENSION_BACKING_FORMAT)
    (hnul : field buf (recordEnd buf k) 1 = [0])
    (hname : VIR_STORAGE_FILE_NONE < virStorageFileFormatTypeFromString (recordName buf k)) :
    qcow2GetBackingStoreFormatLoop buf e (fuel + 1) k hint =
      qcow2GetBackingStoreFormatLoop buf e fuel (recordEnd buf k)
        (virStorageFileFormatTypeFromString (recordName buf k)) := by
  unfold recordEnd at hfit hnul ⊢
  unfold recordTag at htB
  unfold recordName at hname ⊢
  have hsub1 := sizeSub8 buf.length (by omega) hM
  have hsub2 := sizeSub8 e (by omega) (by omega)
  have hmod : (k + 8 + beVal (field buf (k + 4) 4)) % SIZE_MOD =
      k + 8 + beVal (field buf (k + 4) 4) :=
    Nat.mod_eq_of_lt (by simp only [SIZE_MOD]; omega)
  rw [scanLoop_step buf e fuel k hint (by rw [hsub1, hsub2]; omega) (by omega) hM]
  rw [hmod, htB, if_neg (by omega), if_neg (by omega), if_neg (by decide), if_pos rfl,
    readByte_of_field buf _ 0 hnul, Run.ret_bind, if_neg (by decide)]
  have hmem : (0 : Byte) ∈ buf.drop (k + 8) := by
    rw [drop_eq_field_append buf (k + 8) (beVal (field buf (k + 4) 4)),
      drop_eq_field_append buf (k + 8 + beVal (field buf (k + 4) 4)) 1, hnul]
    simp
  unfold readCStr
  rw [if_pos hmem, Run.ret_bind, if_neg (not_le.mpr hname)]

/-- The scan stops with the hint it has at an offset that leaves no room for a record
header before the backing path, and at a zero-tag record. -/
theorem scanLoop_stops (buf : Buf) (e fuel k : Nat) (hint : Int)
    (hM : buf.length < 2 ^ 64) (he8 : 8 ≤ e) (he : e ≤ buf.length)
    (hlast : e ≤ k + 8 ∨ recordTag buf k = QCOW2_HDR_EXTENSION_END) :
    qcow2GetBackingStoreFormatLoop buf e (fuel + 1) k hint = Run.ret (0, hint) := by
  rcases hlast with h | h
  · exact scanLoop_outside_region buf e fuel k hint he8 (by omega) h
  · by_cases hc : k < (buf.length + SIZE_MOD - 8) % SIZE_MOD ∧
        k < (e + SIZE_MOD - 8) % SIZE_MOD
    · have hsub1 := sizeSub8 buf.length (by omega) hM
      have hr : k + 8 ≤ buf.length := by rw [hsub1] at hc; omega
      rw [scanLoop_step buf e fuel k hint hc hr hM]
      unfold recordTag at h
      by_cases h1 : (k + 8 + beVal (field buf (k + 4) 4)) % SIZE_MOD < k + 8
      · rw [if_pos h1]
      rw [if_neg h1]
      by_cases h2 : (k + 8 + beVal (field buf (k + 4) 4)) % SIZE_MOD > buf.length
      · rw [if_pos h2]
      rw [if_neg h2, if_pos h]
    · exact scanLoop_exit buf e fuel k hint hc

set_option maxRecDepth 20000 in
/-- C36 (counterexample): a version-2 header in which a record with the unknown tag 1
and payload length 4 at offset 72 precedes the well-formed backing-format record "raw"
at offset 84 = 72 + 8 + 4, inside the extension region that ends at 117.  The hint is
not RAW: a second backing-format record further on in the region announces "qcow2",
and the last record the scan meets decides. -/
theorem later_backing_format_record_overrides :
    recordTag unknownRawThenQcow2Header 72 = 1 ∧
      recordEnd unknownRawThenQcow2Header 72 = 84 ∧
      recordTag unknownRawThenQcow2Header 84 = QCOW2_HDR_EXTENSION_BACKING_FORMAT ∧
      recordName unknownRawThenQcow2Header 84 = ascii "raw" ∧
      beVal (field unknownRawThenQcow2Header 8 8) = 117 ∧
      qcow2GetBackingStore VIR_STORAGE_FILE_NONE unknownRawThenQcow2Header =
        Run.ret ⟨BACKING_STORE_OK, some (ascii "/b" ++ [0]), VIR_STORAGE_FILE_QCOW2⟩ := by
  decide

/-- C36: unknown extension records are skipped.  In every header whose backing path
starts at offset `o` inside the buffer, let a record with a tag other than 0 and
0xE2792ACA stand at offset `k`, followed directly (at `k + 8 + L`, `L` its payload
length) by a backing-format record whose 8-byte header ends before `o`, whose payload
is followed by a NUL inside the buffer and which names a format F above NONE.  Then
(1) the scan at `k` goes on as the scan at the later record does, as if the unknown
record were absent; (2) it takes the hint F from the later record and goes on behind
it; (3) if the later record is the last one (no room for a further record header
before `o`, or a zero tag behind it), the scan ends with the hint F, and a version-2
header with a non-empty in-range backing path in which the unknown record is the first
one (`k = 72`) gets OK, the path and the hint F from `qcow2GetBackingStore`. -/
theorem unknown_extension_is_skipped (format : Int) (buf : Buf) (k fuel : Nat) (hint : Int)
    (hM : buf.length < 2 ^ 64) (he : beVal (field buf 8 8) ≤ buf.length)
    (ht0 : recordTag buf k ≠ QCOW2_HDR_EXTENSION_END)
    (htU : recordTag buf k ≠ QCOW2_HDR_EXTENSION_BACKING_FORMAT)
    (htB : recordTag buf (recordEnd buf k) = QCOW2_HDR_EXTENSION_BACKING_FORMAT)
    (hreg : recordEnd buf k + 8 < beVal (field buf 8 8))
    (hfit : recordEnd buf (recordEnd buf k) < buf.length)
    (hnul : field buf (recordEnd buf (recordEnd buf k)) 1 = [0])
    (hname : VIR_STORAGE_FILE_NONE <
      virStorageFileFormatTypeFromString (recordName buf (recordEnd buf k))) :
    qcow2GetBackingStoreFormatLoop buf (beVal (field buf 8 8)) (fuel + 2) k hint =
      qcow2GetBackingStoreFormatLoop buf (beVal (field buf 8 8)) (fuel + 1) (recordEnd buf k)
        hint ∧
    qcow2GetBackingStoreFormatLoop buf (beVal (field buf 8 8)) (fuel + 2) k hint =
      qcow2GetBackingStoreFormatLoop buf (beVal (field buf 8 8)) fuel
        (recordEnd buf (recordEnd buf k))
        (virStorageFileFormatTypeFromString (recordName buf (recordEnd buf k))) ∧
    ((beVal (field buf 8 8) ≤ recordEnd buf (recordEnd buf k) + 8 ∨
        recordTag buf (recordEnd buf (recordEnd buf k)) = QCOW2_HDR_EXTENSION_END) →
      qcow2GetBackingStoreFormatLoop buf (beVal (field buf 8 8)) (fuel + 3) k hint =
        Run.ret (0, virStorageFileFormatTypeFromString (recordName buf (recordEnd buf k))) ∧
      (k = 72 → beVal (field buf 4 4) = 2 → 0 < beVal (field buf 16 4) →
        beVal (field buf 16 4) + 1 < 2 ^ 32 →
        beVal (field buf 8 8) + beVal (field buf 16 4) ≤ buf.length →
        qcow2GetBackingStore format buf = Run.ret ⟨BACKING_STORE_OK,
          some (field buf (beVal (field buf 8 8)) (beVal (field buf 16 4)) ++ [0]),
          virStorageFileFormatTypeFromString (recordName buf (recordEnd buf k))⟩)) := by
  have hk : k + 8 ≤ recordEnd buf k := by unfold recordEnd; omega
  have hskip : ∀ (m : Nat) (h : Int),
      qcow2GetBackingStoreFormatLoop buf (beVal (field buf 8 8)) (m + 1) k h =
        qcow2GetBackingStoreFormatLoop buf (beVal (field buf 8 8)) m (recordEnd buf k) h :=
    fun m h => scanLoop_skip_unknown buf _ m k h hM he (by omega) (by omega) ht0 htU
  have hform : ∀ (m : Nat) (h : Int),
      qcow2GetBackingStoreFormatLoop buf (beVal (field buf 8 8)) (m + 1) (recordEnd buf k) h =
        qcow2GetBackingStoreFormatLoop buf (beVal (field buf 8 8)) m
          (recordEnd buf (recordEnd buf k))
          (virStorageFileFormatTypeFromString (recordName buf (recordEnd buf k))) :=
    fun m h => scanLoop_backing_format buf _ m _ h hM he hreg hfit htB hnul hname
  have hend : ∀ (m : Nat) (h : Int),
      (beVal (field buf 8 8) ≤ recordEnd buf (recordEnd buf k) + 8 ∨
        recordTag buf (recordEnd buf (recordEnd buf k)) = QCOW2_HDR_EXTENSION_END) →
      qcow2GetBackingStoreFormatLoop buf (beVal (field buf 8 8)) (m + 3) k h =
        Run.ret (0, virStorageFileFormatTypeFromString (recordName buf (recordEnd buf k))) := by
    intro m h hlast
    rw [hskip (m + 2) h, hform (m + 1) h]
    exact scanLoop_stops buf _ m _ _ hM (by omega) he hlast
  refine ⟨hskip (fuel + 1) hint, ?_, ?_⟩
  · rw [hskip (fuel + 1) hint, hform fuel hint]
  · intro hlast
    refine ⟨hend fuel hint hlast, ?_⟩
    intro hk72 hver hn0 hn1 hpath
    apply qcow2_v2_of_scan format buf (by omega) hM hn0 hn1 hpath hver
    unfold qcow2GetBackingStoreFormat
    have hfuel : buf.length + 1 = (buf.length - 2) + 3 := by omega
    have e72 : QCOW2_HDR_TOTAL_SIZE = k := by rw [hk72]
    rw [hfuel, e72]
    exact hend _ _ hlast

/-- C36 (witness): the unknown record at offset 72, the "raw" record at offset 84 and
the backing path at offset 96. -/
theorem unknown_extension_is_skipped_witness :
    qcow2GetBackingStore VIR_STORAGE_FILE_NONE unknownThenRawHeader =
      Run.ret ⟨BACKING_STORE_OK,
        some (field unknownThenRawHeader (beVal (field unknownThenRawHeader 8 8))
          (beVal (field unknownThenRawHeader 16 4)) ++ [0]),
        virStorageFileFormatTypeFromString
          (recordName unknownThenRawHeader (recordEnd unknownThenRawHeader 72))⟩ :=
  ((unknown_extension_is_skipped VIR_STORAGE_FILE_NONE unknownThenRawHeader 72 0
    VIR_STORAGE_FILE_AUTO (by show (98 : Nat) < 2 ^ 64; norm_num) (by decide) (by decide)
    (by decide) (by decide) (by decide) (by decide) (by decide) (by decide)).2.2
    (Or.inl (by decide))).2 rfl (by decide) (by decide) (by decide) (by decide)

/-! ## The backing-format hint (C10) -/

/-- A scan that meets the backing-format tag at no record boundary of the region
leaves the hint untouched and returns 0. -/
theorem scan_no_tag_on_boundaries (buf : Buf) (e : Nat) (hM : buf.length < 2 ^ 64)
    (he : e ≤ buf.length) (he8 : 8 ≤ e) (fuel : Nat) :
    ∀ (offset : Nat) (format : Int), offset ≤ buf.length → buf.length < offset + 8 * fuel →
      (∀ n k, recordBoundary buf n offset k = true → k + 8 < e →
        recordTag buf k ≠ QCOW2_HDR_EXTENSION_BACKING_FORMAT) →
      qcow2GetBackingStoreFormatLoop buf e fuel offset format = Run.ret (0, format) := by
  induction fuel with
  | zero => intro offset format h1 h2; omega
  | succ fuel ih =>
    intro offset format h1 h2 hno
    by_cases hc : offset < (buf.length + SIZE_MOD - 8) % SIZE_MOD ∧
        offset < (e + SIZE_MOD - 8) % SIZE_MOD
    · have hsub2 := sizeSub8 e he8 (by omega)
      have hoff : offset + 8 < e := by
        have := hc.2
        rw [hsub2] at this
        omega
      have hself : recordBoundary buf 0 offset offset = true := by
        simp [recordBoundary]
      have htag := hno 0 offset hself hoff
      unfold recordTag at htag
      have hL := beVal_field_lt buf (offset + 4) 4
      rw [scanLoop_step buf e fuel offset format hc (by omega) hM]
      by_cases c1 : (offset + 8 + beVal (field buf (offset + 4) 4)) % SIZE_MOD < offset + 8
      · rw [if_pos c1]
      rw [if_neg c1]
      by_cases c2 : (offset + 8 + beVal (field buf (offset + 4) 4)) % SIZE_MOD > buf.length
      · rw [if_pos c2]
      rw [if_neg c2]
      by_cases c3 : beVal (field buf offset 4) = QCOW2_HDR_EXTENSION_END
      · rw [if_pos c3]
      rw [if_neg c3, if_neg htag]
      have hnext : (offset + 8 + beVal (field buf (offset + 4) 4)) % SIZE_MOD =
          offset + 8 + beVal (field buf (offset + 4) 4) := by
        have h256 : (256 : Nat) ^ 4 = 4294967296 := by norm_num
        have hS : SIZE_MOD = 18446744073709551616 := by norm_num [SIZE_MOD]
        rw [hS] at c1 ⊢
        omega
      rw [hnext] at c2 ⊢
      refine ih _ format (by omega) (by omega) (fun n k hb hk => ?_)
      have hle := recordBoundary_le buf n _ k hb
      refine hno (n + 1) k ?_ hk
      simp only [recordBoundary, Bool.or_eq_true, beq_iff_eq, Bool.and_eq_true,
        decide_eq_true_eq]
      exact Or.inr ⟨by omega, hb⟩
    · exact scanLoop_exit buf e fuel offset format hc

/-- The scan of a version-2 header with the "raw" backing-format record at offset 72
takes the hint RAW from it and goes on at offset 83. -/
theorem scan_raw_record_step (buf : Buf) (o : Nat) (hM : buf.length < 2 ^ 64)
    (hext : field buf 72 12 = rawFormatExtension) (ho : 84 ≤ o) (hfit : o ≤ buf.length) :
    qcow2GetBackingStoreFormat VIR_STORAGE_FILE_AUTO buf QCOW2_HDR_TOTAL_SIZE o =
      qcow2GetBackingStoreFormatLoop buf o buf.length 83 VIR_STORAGE_FILE_RAW := by
  have f72 : field buf 72 4 = [0xE2, 0x79, 0x2A, 0xCA] :=
    field_take buf 72 12 4 _ hext (by omega)
  have f76 : field buf (72 + 4) 4 = [0, 0, 0, 3] :=
    field_sub buf 72 12 4 4 _ hext (by omega)
  have f80 : field buf (72 + 8) 4 = [0x72, 0x61, 0x77, 0] :=
    field_sub buf 72 12 8 4 _ hext (by omega)
  have f83 : field buf (72 + 11) 1 = [0] :=
    field_sub buf 72 12 11 1 _ hext (by omega)
  have hend : recordEnd buf 72 = 83 := by
    unfold recordEnd
    rw [f76]
    rfl
  have htag : recordTag buf 72 = QCOW2_HDR_EXTENSION_BACKING_FORMAT := by
    unfold recordTag
    rw [f72]
    rfl
  have hname : recordName buf 72 = ascii "raw" := by
    unfold recordName
    rw [drop_eq_field_append buf (72 + 8) 4, f80]
    rfl
  have htype : virStorageFileFormatTypeFromString (ascii "raw") = VIR_STORAGE_FILE_RAW := by
    decide
  have hstep := scanLoop_backing_format buf o buf.length 72 VIR_STORAGE_FILE_AUTO hM hfit
    (by omega) (by rw [hend]; omega) htag (by rw [hend]; exact f83)
    (by rw [hname, htype]; decide)
  rw [hend, hname, htype] at hstep
  exact hstep

/-- C10 (amended): for every QCOW2 version-2 header with a non-empty in-range backing
path (offset o, length below 2^32 - 1).  (1) If the backing-format extension
announcing "raw" (tag 0xE2792ACA, length 3, payload "raw", NUL) stands at offset 72 and
the path starts at or after offset 84, the scan takes the hint RAW from that record and
goes on at offset 83: the return code and the hint of the extractor are those of the
scan continued there with the hint RAW.  So the extractor returns OK with the path and
the hint RAW whenever the four bytes at offset 83 are zero (a zero tag) or no record
boundary behind the record, from offset 83 on, with room for a record header before
the path carries the tag 0xE2792ACA.  (2) If the path starts at or after offset 72 and
no record boundary of the region, from offset 72 on, carries the tag 0xE2792ACA, the
extractor returns OK with the path and the hint AUTO. -/
theorem qcow2_backing_format_hint (format : Int) (buf : Buf) (hsz : buf.length < 2 ^ 64)
    (hver : beVal (field buf 4 4) = 2)
    (hn0 : 0 < beVal (field buf 16 4)) (hn1 : beVal (field buf 16 4) + 1 < 2 ^ 32)
    (hfit : beVal (field buf 8 8) + beVal (field buf 16 4) ≤ buf.length) :
    (field buf 72 12 = rawFormatExtension → 84 ≤ beVal (field buf 8 8) →
      codeAndHint (qcow2GetBackingStore format buf) =
        (qcow2GetBackingStoreFormatLoop buf (beVal (field buf 8 8)) buf.length 83
          VIR_STORAGE_FILE_RAW >>= fun r =>
            Run.ret (if r.1 < 0 then BACKING_STORE_INVALID else BACKING_STORE_OK, r.2)) ∧
      ((field buf 83 4 = [0, 0, 0, 0] ∨
          ∀ n k, recordBoundary buf n 83 k = true → k + 8 < beVal (field buf 8 8) →
            recordTag buf k ≠ QCOW2_HDR_EXTENSION_BACKING_FORMAT) →
        qcow2GetBackingStore format buf = Run.ret ⟨BACKING_STORE_OK,
          some (field buf (beVal (field buf 8 8)) (beVal (field buf 16 4)) ++ [0]),
          VIR_STORAGE_FILE_RAW⟩)) ∧
    (72 ≤ beVal (field buf 8 8) →
      (∀ n k, recordBoundary buf n 72 k = true → k + 8 < beVal (field buf 8 8) →
        recordTag buf k ≠ QCOW2_HDR_EXTENSION_BACKING_FORMAT) →
      qcow2GetBackingStore format buf = Run.ret ⟨BACKING_STORE_OK,
        some (field buf (beVal (field buf 8 8)) (beVal (field buf 16 4)) ++ [0]),
        VIR_STORAGE_FILE_AUTO⟩) := by
  constructor
  · intro hext ho
    have hstep := scan_raw_record_step buf _ hsz hext ho (by omega)
    constructor
    · rw [qcow2_codeAndHint_of_path format buf (by omega) hsz hn0 hn1 hfit, if_pos hver,
        Run.ret_bind, hstep]
    · intro hstop
      refine qcow2_v2_of_scan format buf (by omega) hsz hn0 hn1 hfit hver _ ?_
      rw [hstep]
      rcases hstop with hz | hno
      · obtain ⟨m, hm⟩ : ∃ m, buf.length = m + 1 := ⟨buf.length - 1, by omega⟩
        rw [hm]
        refine scanLoop_stops buf _ m 83 _ hsz (by omega) (by omega) (Or.inr ?_)
        unfold recordTag
        rw [hz]
        rfl
      · exact scan_no_tag_on_boundaries buf _ hsz (by omega) (by omega) _ _ _ (by omega)
          (by omega) hno
  · intro ho hno
    refine qcow2_v2_of_scan format buf (by omega) hsz hn0 hn1 hfit hver _ ?_
    have e72 : QCOW2_HDR_TOTAL_SIZE = 72 := rfl
    unfold qcow2GetBackingStoreFormat
    rw [e72]
    exact scan_no_tag_on_boundaries buf _ hsz (by omega) (by omega) _ _ _ (by omega)
      (by omega) hno

/-- C10 (witness): a header with the "raw" extension at offset 72, an empty record with
the unknown tag 1 read at offset 83 and the path `/b` at offset 99: no record boundary
from 83 on with room for a header before the path carries the backing-format tag. -/
theorem qcow2_backing_format_hint_witness :
    qcow2GetBackingStore VIR_STORAGE_FILE_NONE rawThenUnknownHeader =
      Run.ret ⟨BACKING_STORE_OK,
        some (field rawThenUnknownHeader (beVal (field rawThenUnknownHeader 8 8))
          (beVal (field rawThenUnknownHeader 16 4)) ++ [0]),
        VIR_STORAGE_FILE_RAW⟩ :=
  ((qcow2_backing_format_hint VIR_STORAGE_FILE_NONE rawThenUnknownHeader
    (by show (101 : Nat) < 2 ^ 64; norm_num) (by decide) (by decide) (by decide)
    (by decide)).1 (by decide) (by decide)).2
    (Or.inr (fun n k hb hk => by
      have ho : beVal (field rawThenUnknownHeader 8 8) = 99 := by decide
      rw [ho] at hk
      by_cases h83 : k = 83
      · rw [h83]
        decide
      · obtain ⟨n2, hb2⟩ := recordBoundary_next rawThenUnknownHeader n 83 k hb
          (fun e => h83 e.symm)
        have hle := recordBoundary_le rawThenUnknownHeader n2 _ k hb2
        have hnext : 83 + 8 + beVal (field rawThenUnknownHeader (83 + 4) 4) = 91 := by decide
        rw [hnext] at hle
        omega))

/-! ## The broken backing file (C2) -/

end VirStorageFile
